import Mathlib

/-!
# Triumvirate measurement core: shallow embedding and checked properties

The definitions below embed the mesh routines of `src/include/measurements/field.hpp`
(classes `DensityField` and `TwoPointStatistics`) and the estimator drivers of
`src/include/measurements/power.hpp`.

Conventions of the embedding:

* a C++ `double` is an element of a linearly ordered field `R` with a floor function
  (exact arithmetic; `ℚ` makes every definition executable, `ℝ` carries the libm functions);
* an `fftw_complex` / `std::complex<double>` is a pair `R × R` (real part, imaginary part);
* a C++ `int` / `long long` is an `Int` (the products of mesh sizes are assumed to fit);
* a mesh buffer `fftw_complex*` is a map from the flat index to the cell value, of which only
  the indices in `[0, nmesh_tot)` are storage;
* libm (`M_PI`, `sin`, `sqrt`) and FFTW are parameters;
* where the rounding of `double` arithmetic decides a property (the irregular bin edges of
  `calc_corr_func_for_3pt_corr_func`), the lines are embedded a second time over `ℚ` with every
  operation rounded by `round_double` (IEEE 754 binary64, round to nearest, ties to even).
-/

namespace Triumvirate

/-! ## Scalars -/

/-- The C++ conversion `int(x)` of a double: truncation toward zero. -/
def toInt {R : Type} [LinearOrderedField R] [FloorRing R] (x : R) : Int :=
  if 0 ≤ x then Int.floor x else Int.ceil x

/-- A complex double: `fftw_complex` is `double[2]`, index 0 the real and 1 the imaginary part. -/
abbrev Cx (R : Type) := R × R

/-- Product of two `std::complex<double>` values. -/
def Cx.mul {R : Type} [Field R] (a b : Cx R) : Cx R :=
  (a.1 * b.1 - a.2 * b.2, a.1 * b.2 + a.2 * b.1)

/-- Complex conjugate, `conj(z)`. -/
def Cx.conj {R : Type} [Field R] (a : Cx R) : Cx R := (a.1, -a.2)

/-- Division of a complex value by a real one, `z /= x`. -/
def Cx.divReal {R : Type} [Field R] (a : Cx R) (x : R) : Cx R := (a.1 / x, a.2 / x)

/-- Product of a complex value with a real one, `z * x`. -/
def Cx.mulReal {R : Type} [Field R] (a : Cx R) (x : R) : Cx R := (a.1 * x, a.2 * x)

/-- The part of libm the mesh routines call. -/
structure LibM (R : Type) where
  /-- The constant `M_PI`. -/
  pi : R
  /-- The function `sin`. -/
  sin : R → R
  /-- The function `sqrt`. -/
  sqrt : R → R

/-! ## Parameters, particles, mesh -/

/-- Modelled from the spec: the `ParameterSet` declaration is not among the sources; these are the
fields of `GridParameters` that the mesh routines read (`params.nmesh[a]`, `params.boxsize[a]`,
`params.nmesh_tot`, `params.volume`, `params.assignment`, `params.ell1`, ...). -/
structure ParameterSet (R : Type) where
  nmesh : Fin 3 → Int
  boxsize : Fin 3 → R
  nmesh_tot : Int
  volume : R
  assignment : String
  ell1 : Int
  ell2 : Int
  ELL : Int
  num_kbin : Nat
  num_rbin : Nat

/-- Modelled from the spec: the derived fields of `GridParameters`, `nmesh_tot = Π nmesh[i]` and
`volume = Π boxsize[i]` (the code that fills a `ParameterSet` is not among the sources). -/
def ParameterSet.Derived {R : Type} [Field R] (params : ParameterSet R) : Prop :=
  params.nmesh_tot = params.nmesh 0 * params.nmesh 1 * params.nmesh 2 ∧
  params.volume = params.boxsize 0 * params.boxsize 1 * params.boxsize 2

/-- One entry of a particle container: `pos[3]`, `nz`, `ws`, `wc`, `w`. -/
structure ParticleData (R : Type) where
  pos : Fin 3 → R
  nz : R
  ws : R
  wc : R
  w : R

/-- A particle container: `particles.nparticles` and `particles[id]`. -/
structure ParticleCatalogue (R : Type) where
  nparticles : Nat
  pdata : Nat → ParticleData R

/-- A mesh buffer, indexed by the flat index. -/
abbrev Grid (R : Type) := Int → Cx R

/-- The flat index `(i * nmesh[1] + j) * nmesh[2] + k` of the mesh routines. -/
def coord_flat {R : Type} (params : ParameterSet R) (i j k : Int) : Int :=
  (i * params.nmesh 1 + j) * params.nmesh 2 + k

/-- Sum of the cells of a mesh, `Σ_{0 ≤ c < nmesh_tot} field[c]`. -/
def gridSum {R : Type} [Field R] (params : ParameterSet R) (field : Grid R) : Cx R :=
  ∑ c ∈ Finset.Ico (0 : Int) params.nmesh_tot, field c

/-- The loop `for i < nmesh_tot: field[i] = 0`. -/
def zero_field {R : Type} [Field R] (params : ParameterSet R) (field : Grid R) : Grid R :=
  fun c => if 0 ≤ c ∧ c < params.nmesh_tot then (0, 0) else field c

/-- The loop `for i < nmesh_tot: field[i] *= a` (both components). -/
def scale_cells {R : Type} [Field R] (params : ParameterSet R) (a : R) (field : Grid R) : Grid R :=
  fun c => if 0 ≤ c ∧ c < params.nmesh_tot then ((field c).1 * a, (field c).2 * a) else field c

/-- The loop `for i < nmesh_tot: field[i] /= a` (both components). -/
def divide_cells {R : Type} [Field R] (params : ParameterSet R) (a : R) (field : Grid R) : Grid R :=
  fun c => if 0 ≤ c ∧ c < params.nmesh_tot then ((field c).1 / a, (field c).2 / a) else field c

/-! ## Mass assignment (`DensityField::assign_weighted_field_to_grid*`) -/

namespace DensityField

variable {R : Type} [LinearOrderedField R] [FloorRing R]

/-- The local `loc_grid = nmesh[axis] * pos[axis] / boxsize[axis]`. -/
def loc_grid (params : ParameterSet R) (p : ParticleData R) (axis : Fin 3) : R :=
  (params.nmesh axis : R) * p.pos axis / params.boxsize axis

/-- The deposition loop shared by the three kernels: the `order³` covered cells in the loop order
`i_order`, `j_order`, `k_order`; a cell receives `cell_vol_factor * weight * win·win·win` when its
flat index passes the guard `coord_flat >= 0 && coord_flat < nmesh_tot`. -/
def deposit (params : ParameterSet R) (order : Nat) (ijk : Nat → Fin 3 → Int)
    (win : Nat → Fin 3 → R) (cell_vol_factor : R) (w : Cx R) (field : Grid R) : Grid R :=
  (List.range order).foldl (fun f i_order =>
    (List.range order).foldl (fun f j_order =>
      (List.range order).foldl (fun f k_order =>
        let c := coord_flat params (ijk i_order 0) (ijk j_order 1) (ijk k_order 2)
        if 0 ≤ c ∧ c < params.nmesh_tot then
          Function.update f c
            (f c + (cell_vol_factor * w.1 * win i_order 0 * win j_order 1 * win k_order 2,
                    cell_vol_factor * w.2 * win i_order 0 * win j_order 1 * win k_order 2))
        else f) f) f) field

/-- The amount a covered cell receives in the deposition loop:
`cell_vol_factor * weight[id] * win[i_order][0] * win[j_order][1] * win[k_order][2]`. -/
def deposit_value (win : Nat → Fin 3 → R) (cell_vol_factor : R) (w : Cx R) (a b c : Nat) : Cx R :=
  (cell_vol_factor * w.1 * win a 0 * win b 1 * win c 2,
   cell_vol_factor * w.2 * win a 0 * win b 1 * win c 2)

/-- NGP: `ijk[0][axis] = int(loc_grid + 0.5)`. -/
def ijk_ngp (params : ParameterSet R) (p : ParticleData R) : Nat → Fin 3 → Int :=
  fun _ axis => toInt (loc_grid params p axis + 1 / 2)

/-- NGP: `win[0][axis] = 1`. -/
def win_ngp : Nat → Fin 3 → R := fun _ _ => 1

/-- CIC: `ijk[0][axis] = int(loc_grid)`, `ijk[1][axis] = int(loc_grid) + 1`. -/
def ijk_cic (params : ParameterSet R) (p : ParticleData R) : Nat → Fin 3 → Int :=
  fun o axis => if o = 0 then toInt (loc_grid params p axis) else toInt (loc_grid params p axis) + 1

/-- CIC: `s = loc_grid - int(loc_grid)`, `win[0][axis] = 1 - s`, `win[1][axis] = s`. -/
def win_cic (params : ParameterSet R) (p : ParticleData R) : Nat → Fin 3 → R :=
  fun o axis =>
    let s := loc_grid params p axis - ((toInt (loc_grid params p axis) : Int) : R)
    if o = 0 then 1 - s else s

/-- TSC: `ijk[1] = int(loc_grid + 0.5)`, `ijk[0] = ijk[1] - 1`, `ijk[2] = ijk[1] + 1`. -/
def ijk_tsc (params : ParameterSet R) (p : ParticleData R) : Nat → Fin 3 → Int :=
  fun o axis =>
    if o = 0 then toInt (loc_grid params p axis + 1 / 2) - 1
    else if o = 1 then toInt (loc_grid params p axis + 1 / 2)
    else toInt (loc_grid params p axis + 1 / 2) + 1

/-- TSC: `s = loc_grid - int(loc_grid + 0.5)`, `win = 0.5 (0.5 - s)²`, `0.75 - s²`,
`0.5 (0.5 + s)²`. -/
def win_tsc (params : ParameterSet R) (p : ParticleData R) : Nat → Fin 3 → R :=
  fun o axis =>
    let s := loc_grid params p axis - ((toInt (loc_grid params p axis + 1 / 2) : Int) : R)
    if o = 0 then 1 / 2 * (1 / 2 - s) * (1 / 2 - s)
    else if o = 1 then 3 / 4 - s * s
    else 1 / 2 * (1 / 2 + s) * (1 / 2 + s)

/-- The routine `assign_weighted_field_to_grid_ngp`. -/
def assign_weighted_field_to_grid_ngp (params : ParameterSet R) (field : Grid R)
    (particles : ParticleCatalogue R) (weight : Nat → Cx R) : Grid R :=
  let dV := params.volume / (params.nmesh_tot : R)
  let cell_vol_factor := 1 / dV
  (List.range particles.nparticles).foldl (fun f id =>
      deposit params 1 (ijk_ngp params (particles.pdata id)) win_ngp cell_vol_factor (weight id) f)
    (zero_field params field)

/-- The routine `assign_weighted_field_to_grid_cic`. -/
def assign_weighted_field_to_grid_cic (params : ParameterSet R) (field : Grid R)
    (particles : ParticleCatalogue R) (weight : Nat → Cx R) : Grid R :=
  let dV := params.volume / (params.nmesh_tot : R)
  let cell_vol_factor := 1 / dV
  (List.range particles.nparticles).foldl (fun f id =>
      deposit params 2 (ijk_cic params (particles.pdata id)) (win_cic params (particles.pdata id))
        cell_vol_factor (weight id) f)
    (zero_field params field)

/-- The routine `assign_weighted_field_to_grid_tsc`. -/
def assign_weighted_field_to_grid_tsc (params : ParameterSet R) (field : Grid R)
    (particles : ParticleCatalogue R) (weight : Nat → Cx R) : Grid R :=
  let dV := params.volume / (params.nmesh_tot : R)
  let cell_vol_factor := 1 / dV
  (List.range particles.nparticles).foldl (fun f id =>
      deposit params 3 (ijk_tsc params (particles.pdata id)) (win_tsc params (particles.pdata id))
        cell_vol_factor (weight id) f)
    (zero_field params field)

/-- The dispatcher `assign_weighted_field_to_grid`: exit status and the field afterwards. -/
def assign_weighted_field_to_grid (params : ParameterSet R) (field : Grid R)
    (particles : ParticleCatalogue R) (weight : Nat → Cx R) : Int × Grid R :=
  if params.assignment = "NGP" then
    (0, assign_weighted_field_to_grid_ngp params field particles weight)
  else if params.assignment = "CIC" then
    (0, assign_weighted_field_to_grid_cic params field particles weight)
  else if params.assignment = "TSC" then
    (0, assign_weighted_field_to_grid_tsc params field particles weight)
  else (-1, field)

/-- Interpolation order of the configured kernel (the local `order`). -/
def kernel_order (params : ParameterSet R) : Nat :=
  if params.assignment = "NGP" then 1
  else if params.assignment = "CIC" then 2
  else if params.assignment = "TSC" then 3
  else 0

/-- Covered mesh coordinates `ijk` of a particle under the configured kernel. -/
def kernel_ijk (params : ParameterSet R) (p : ParticleData R) : Nat → Fin 3 → Int :=
  if params.assignment = "NGP" then ijk_ngp params p
  else if params.assignment = "CIC" then ijk_cic params p
  else ijk_tsc params p

/-- Interpolation weights `win` of a particle under the configured kernel. -/
def kernel_win (params : ParameterSet R) (p : ParticleData R) : Nat → Fin 3 → R :=
  if params.assignment = "NGP" then win_ngp
  else if params.assignment = "CIC" then win_cic params p
  else win_tsc params p

/-- The routine `calc_ylm_weighted_fluctuation`: exit status and the field afterwards. The weights
are `ylm * w` with `ylm = calc_reduced_spherical_harmonic(ell, m, los)`; the random-source field
`density_rand` is a freshly constructed (zero) field; the status of the two assignments is not
inspected and the routine returns 0. -/
def calc_ylm_weighted_fluctuation (ylm_func : Int → Int → (Fin 3 → R) → Cx R)
    (params : ParameterSet R) (field : Grid R)
    (particles_data particles_rand : ParticleCatalogue R)
    (los_data los_rand : Nat → Fin 3 → R) (alpha : R) (ell m : Int) : Int × Grid R :=
  let weight_data : Nat → Cx R := fun id =>
    ((ylm_func ell m (los_data id)).1 * (particles_data.pdata id).w,
     (ylm_func ell m (los_data id)).2 * (particles_data.pdata id).w)
  let field_data := (assign_weighted_field_to_grid params field particles_data weight_data).2
  let weight_rand : Nat → Cx R := fun id =>
    ((ylm_func ell m (los_rand id)).1 * (particles_rand.pdata id).w,
     (ylm_func ell m (los_rand id)).2 * (particles_rand.pdata id).w)
  let density_rand :=
    (assign_weighted_field_to_grid params (fun _ => (0, 0)) particles_rand weight_rand).2
  (0, fun c =>
    if 0 ≤ c ∧ c < params.nmesh_tot then
      ((field_data c).1 - alpha * (density_rand c).1, (field_data c).2 - alpha * (density_rand c).2)
    else field_data c)

/-! ## Fourier-space helpers -/

/-- The library FFTW: the plans `fftw_plan_dft_3d(n0, n1, n2, field, field, sign, …)` executed in
place, `FFTW_FORWARD` and `FFTW_BACKWARD`. -/
structure FFTW (R : Type) where
  /-- Executing a forward plan. -/
  forward : Int → Int → Int → Grid R → Grid R
  /-- Executing a backward plan. -/
  backward : Int → Int → Int → Grid R → Grid R

/-- Modelled from the spec: FFTW itself is not among the sources; its plans are taken as the
unnormalised forward and backward 3-D DFT pair on the `nmesh_tot` cells of the mesh: the
transforms read the cells of the mesh only, commute with the multiplication of every cell by a
real number, and backward after forward multiplies every cell by `nmesh_tot`. -/
structure FFTW.IsDFTPair (fftw : FFTW R) (params : ParameterSet R) : Prop where
  forward_scale : ∀ (a : R) (g : Grid R) (c : Int), 0 ≤ c ∧ c < params.nmesh_tot →
    fftw.forward (params.nmesh 0) (params.nmesh 1) (params.nmesh 2) (scale_cells params a g) c
      = Cx.mulReal (fftw.forward (params.nmesh 0) (params.nmesh 1) (params.nmesh 2) g c) a
  backward_scale : ∀ (a : R) (g : Grid R) (c : Int), 0 ≤ c ∧ c < params.nmesh_tot →
    fftw.backward (params.nmesh 0) (params.nmesh 1) (params.nmesh 2) (scale_cells params a g) c
      = Cx.mulReal (fftw.backward (params.nmesh 0) (params.nmesh 1) (params.nmesh 2) g c) a
  backward_cells : ∀ (g h : Grid R), (∀ c : Int, 0 ≤ c ∧ c < params.nmesh_tot → g c = h c) →
    ∀ c : Int, 0 ≤ c ∧ c < params.nmesh_tot →
      fftw.backward (params.nmesh 0) (params.nmesh 1) (params.nmesh 2) g c
        = fftw.backward (params.nmesh 0) (params.nmesh 1) (params.nmesh 2) h c
  backward_forward : ∀ (g : Grid R) (c : Int), 0 ≤ c ∧ c < params.nmesh_tot →
    fftw.backward (params.nmesh 0) (params.nmesh 1) (params.nmesh 2)
        (fftw.forward (params.nmesh 0) (params.nmesh 1) (params.nmesh 2) g) c
      = Cx.mulReal (g c) (params.nmesh_tot : R)

/-- The mode spacing `dk[a] = 2 * M_PI / boxsize[a]`. -/
def mode_dk (lib : LibM R) (params : ParameterSet R) (a : Fin 3) : R :=
  2 * lib.pi / params.boxsize a

/-- The folded integer index of a grid walk, `i` when `i < nmesh[a]/2` and `i - nmesh[a]`
otherwise (the factor of `dk[a]` in `kvec[a]`). -/
def folded_index (params : ParameterSet R) (a : Fin 3) (idx : Int) : Int :=
  if idx < Int.tdiv (params.nmesh a) 2 then idx else idx - params.nmesh a

/-- The folded wave-vector of a grid walk:
`kvec[a] = (i < nmesh[a]/2) ? i * dk[a] : (i - nmesh[a]) * dk[a]`. -/
def grid_kvec (lib : LibM R) (params : ParameterSet R) (i j k : Int) : Fin 3 → R :=
  fun a =>
    let idx : Int := if a = 0 then i else if a = 1 then j else k
    if idx < Int.tdiv (params.nmesh a) 2 then (idx : R) * mode_dk lib params a
    else ((idx - params.nmesh a : Int) : R) * mode_dk lib params a

/-- The magnitude `sqrt(kvec[0]² + kvec[1]² + kvec[2]²)`. -/
def vec_mag (lib : LibM R) (v : Fin 3 → R) : R :=
  lib.sqrt (v 0 * v 0 + v 1 * v 1 + v 2 * v 2)

/-- The triple loop `for i < nmesh[0], j < nmesh[1], k < nmesh[2]` of every grid walk. -/
def grid_walk {σ : Type} (params : ParameterSet R) (step : σ → Nat → Nat → Nat → σ) (init : σ) : σ :=
  (List.range (params.nmesh 0).toNat).foldl (fun s i =>
    (List.range (params.nmesh 1).toNat).foldl (fun s j =>
      (List.range (params.nmesh 2).toNat).foldl (fun s k => step s i j k) s) s) init

/-- The index recovered from a wave-vector component, `int(kvec[a] / dk[a] + 1.e-5)`. -/
def window_index (lib : LibM R) (params : ParameterSet R) (kvec : Fin 3 → R) (a : Fin 3) : Int :=
  toInt (kvec a / mode_dk lib params a + 1 / 100000)

/-- The routine `calc_interpolation_window_in_fourier_ngp`. -/
def calc_interpolation_window_in_fourier_ngp (lib : LibM R) (params : ParameterSet R)
    (kvec : Fin 3 → R) : R :=
  let i := window_index lib params kvec 0
  let j := window_index lib params kvec 1
  let k := window_index lib params kvec 2
  let xk := lib.pi * (i : R) / (params.nmesh 0 : R)
  let yk := lib.pi * (j : R) / (params.nmesh 1 : R)
  let zk := lib.pi * (k : R) / (params.nmesh 2 : R)
  let wx := if i ≠ 0 then lib.sin xk / xk else 1
  let wy := if j ≠ 0 then lib.sin yk / yk else 1
  let wz := if k ≠ 0 then lib.sin zk / zk else 1
  let wk := wx * wy * wz
  wk ^ 1

/-- The routine `calc_interpolation_window_in_fourier_cic`. -/
def calc_interpolation_window_in_fourier_cic (lib : LibM R) (params : ParameterSet R)
    (kvec : Fin 3 → R) : R :=
  let i := window_index lib params kvec 0
  let j := window_index lib params kvec 1
  let k := window_index lib params kvec 2
  let xk := lib.pi * (i : R) / (params.nmesh 0 : R)
  let yk := lib.pi * (j : R) / (params.nmesh 1 : R)
  let zk := lib.pi * (k : R) / (params.nmesh 2 : R)
  let wx := if i ≠ 0 then lib.sin xk / xk else 1
  let wy := if j ≠ 0 then lib.sin yk / yk else 1
  let wz := if k ≠ 0 then lib.sin zk / zk else 1
  let wk := wx * wy * wz
  wk ^ 2

/-- The routine `calc_interpolation_window_in_fourier_tsc`. -/
def calc_interpolation_window_in_fourier_tsc (lib : LibM R) (params : ParameterSet R)
    (kvec : Fin 3 → R) : R :=
  let i := window_index lib params kvec 0
  let j := window_index lib params kvec 1
  let k := window_index lib params kvec 2
  let xk := lib.pi * (i : R) / (params.nmesh 0 : R)
  let yk := lib.pi * (j : R) / (params.nmesh 1 : R)
  let zk := lib.pi * (k : R) / (params.nmesh 2 : R)
  let wx := if i ≠ 0 then lib.sin xk / xk else 1
  let wy := if j ≠ 0 then lib.sin yk / yk else 1
  let wz := if k ≠ 0 then lib.sin zk / zk else 1
  let wk := wx * wy * wz
  wk ^ 3

/-- The dispatcher `calc_interpolation_window_in_fourier` (the same text in `DensityField` and in
`TwoPointStatistics`). -/
def calc_interpolation_window_in_fourier (lib : LibM R) (params : ParameterSet R)
    (kvec : Fin 3 → R) : R :=
  if params.assignment = "NGP" then calc_interpolation_window_in_fourier_ngp lib params kvec
  else if params.assignment = "CIC" then calc_interpolation_window_in_fourier_cic lib params kvec
  else if params.assignment = "TSC" then calc_interpolation_window_in_fourier_tsc lib params kvec
  else 1

/-- One step of the walk of `apply_assignment_compensation`: `field[coord_flat] /= win`. -/
def compensation_step (lib : LibM R) (params : ParameterSet R) (field : Grid R)
    (i j k : Nat) : Grid R :=
  let c := coord_flat params i j k
  let win := calc_interpolation_window_in_fourier lib params (grid_kvec lib params i j k)
  Function.update field c (Cx.divReal (field c) win)

/-- The routine `apply_assignment_compensation`. -/
def apply_assignment_compensation (lib : LibM R) (params : ParameterSet R)
    (field : Grid R) : Grid R :=
  grid_walk params (compensation_step lib params) field

/-- The routine `calc_fourier_transform`: every cell times `dV = volume / nmesh_tot`, then the
forward plan. -/
def calc_fourier_transform (fftw : FFTW R) (params : ParameterSet R) (field : Grid R) : Grid R :=
  let dV := params.volume / (params.nmesh_tot : R)
  fftw.forward (params.nmesh 0) (params.nmesh 1) (params.nmesh 2) (scale_cells params dV field)

/-- The routine `calc_inverse_fourier_transform`: every cell divided by `V = volume`, then the
backward plan. -/
def calc_inverse_fourier_transform (fftw : FFTW R) (params : ParameterSet R)
    (field : Grid R) : Grid R :=
  let V := params.volume
  fftw.backward (params.nmesh 0) (params.nmesh 1) (params.nmesh 2) (divide_cells params V field)

/-! ## Shell extraction (`calc_inverse_fourier_transform_for_bispec`, `…_for_3pt_corr_func`) -/

/-- One step of the grid walk of `calc_inverse_fourier_transform_for_bispec`, on the state
`(field, nmode)`. -/
def bispec_shell_step (lib : LibM R) (params : ParameterSet R) (density : Grid R)
    (kmag_in dk_in : R) (ylm : Int → Cx R) (s : Grid R × Int) (i j k : Nat) : Grid R × Int :=
  let c := coord_flat params i j k
  let kvec := grid_kvec lib params i j k
  let kmag := vec_mag lib kvec
  let k_lower := if kmag_in > dk_in / 2 then kmag_in - dk_in / 2 else 0
  let k_upper := kmag_in + dk_in / 2
  if kmag > k_lower ∧ kmag ≤ k_upper then
    let win := calc_interpolation_window_in_fourier lib params kvec
    let den := Cx.divReal (density c) win
    (Function.update s.1 c (Cx.mul (ylm c) den), s.2 + 1)
  else
    (Function.update s.1 c (0, 0), s.2)

/-- The state `(field, nmode)` of `calc_inverse_fourier_transform_for_bispec` just before the
backward plan is executed. -/
def bispec_shell_field (lib : LibM R) (params : ParameterSet R) (field density : Grid R)
    (kmag_in dk_in : R) (ylm : Int → Cx R) : Grid R × Int :=
  grid_walk params (bispec_shell_step lib params density kmag_in dk_in ylm)
    (zero_field params field, 0)

/-- The routine `calc_inverse_fourier_transform_for_bispec`. -/
def calc_inverse_fourier_transform_for_bispec (lib : LibM R) (fftw : FFTW R)
    (params : ParameterSet R) (field density : Grid R) (kmag_in dk_in : R)
    (ylm : Int → Cx R) : Grid R :=
  let s := bispec_shell_field lib params field density kmag_in dk_in ylm
  let g := fftw.backward (params.nmesh 0) (params.nmesh 1) (params.nmesh 2) s.1
  divide_cells params (s.2 : R) g

/-- One step of the grid walk of `calc_inverse_fourier_transform_for_3pt_corr_func`; the harmonic
weight is read as `ylm[i]`. -/
def threept_shell_step (lib : LibM R) (params : ParameterSet R) (density : Grid R)
    (rmag_in : R) (ylm : Int → Cx R) (bessel_j : R → R) (field : Grid R) (i j k : Nat) : Grid R :=
  let c := coord_flat params i j k
  let kvec := grid_kvec lib params i j k
  let kmag := vec_mag lib kvec
  let win := calc_interpolation_window_in_fourier lib params kvec
  let den := Cx.divReal (density c) win
  Function.update field c
    (bessel_j (kmag * rmag_in) * (Cx.mul (ylm i) den).1 / params.volume,
     bessel_j (kmag * rmag_in) * (Cx.mul (ylm i) den).2 / params.volume)

/-- The field of `calc_inverse_fourier_transform_for_3pt_corr_func` just before the backward plan
is executed. -/
def threept_shell_field (lib : LibM R) (params : ParameterSet R) (field density : Grid R)
    (rmag_in : R) (ylm : Int → Cx R) (bessel_j : R → R) : Grid R :=
  grid_walk params (threept_shell_step lib params density rmag_in ylm bessel_j)
    (zero_field params field)

/-- The routine `calc_inverse_fourier_transform_for_3pt_corr_func`. -/
def calc_inverse_fourier_transform_for_3pt_corr_func (lib : LibM R) (fftw : FFTW R)
    (params : ParameterSet R) (field density : Grid R) (rmag_in : R) (ylm : Int → Cx R)
    (bessel_j : R → R) : Grid R :=
  fftw.backward (params.nmesh 0) (params.nmesh 1) (params.nmesh 2)
    (threept_shell_field lib params field density rmag_in ylm bessel_j)

end DensityField

/-! ## Two-point statistics (`TwoPointStatistics`) -/

/-- The measurement state of a `TwoPointStatistics` object: `pk`, `nmode_pk`, `xi`, `npair_xi`. -/
structure TwoPointStatistics (R : Type) where
  pk : Nat → Cx R
  nmode_pk : Nat → Int
  xi : Nat → Cx R
  npair_xi : Nat → Int

namespace TwoPointStatistics

variable {R : Type} [LinearOrderedField R] [FloorRing R]

/-- The routine `calc_shotnoise_func_ngp`. -/
def calc_shotnoise_func_ngp (_lib : LibM R) (_params : ParameterSet R) (_kvec : Fin 3 → R) : R := 1

/-- The routine `calc_shotnoise_func_cic`. -/
def calc_shotnoise_func_cic (lib : LibM R) (params : ParameterSet R) (kvec : Fin 3 → R) : R :=
  let i := DensityField.window_index lib params kvec 0
  let j := DensityField.window_index lib params kvec 1
  let k := DensityField.window_index lib params kvec 2
  let xk := lib.pi * (i : R) / (params.nmesh 0 : R)
  let yk := lib.pi * (j : R) / (params.nmesh 1 : R)
  let zk := lib.pi * (k : R) / (params.nmesh 2 : R)
  let cx := if i ≠ 0 then lib.sin xk else 0
  let cy := if j ≠ 0 then lib.sin yk else 0
  let cz := if k ≠ 0 then lib.sin zk else 0
  (1 - 2 / 3 * cx * cx) * (1 - 2 / 3 * cy * cy) * (1 - 2 / 3 * cz * cz)

/-- The routine `calc_shotnoise_func_tsc`. -/
def calc_shotnoise_func_tsc (lib : LibM R) (params : ParameterSet R) (kvec : Fin 3 → R) : R :=
  let i := DensityField.window_index lib params kvec 0
  let j := DensityField.window_index lib params kvec 1
  let k := DensityField.window_index lib params kvec 2
  let xk := lib.pi * (i : R) / (params.nmesh 0 : R)
  let yk := lib.pi * (j : R) / (params.nmesh 1 : R)
  let zk := lib.pi * (k : R) / (params.nmesh 2 : R)
  let cx := if i ≠ 0 then lib.sin xk else 0
  let cy := if j ≠ 0 then lib.sin yk else 0
  let cz := if k ≠ 0 then lib.sin zk else 0
  (1 - cx * cx + 2 / 15 * cx ^ 4) * (1 - cy * cy + 2 / 15 * cy ^ 4)
    * (1 - cz * cz + 2 / 15 * cz ^ 4)

/-- The dispatcher `calc_shotnoise_func`. -/
def calc_shotnoise_func (lib : LibM R) (params : ParameterSet R) (kvec : Fin 3 → R) : R :=
  if params.assignment = "NGP" then calc_shotnoise_func_ngp lib params kvec
  else if params.assignment = "CIC" then calc_shotnoise_func_cic lib params kvec
  else if params.assignment = "TSC" then calc_shotnoise_func_tsc lib params kvec
  else 0

/-- The fine-sampling step `dk_sample = 0.0001` of `calc_power_spec`. -/
def dk_sample : R := 1 / 10000

/-- The fine-sampling size `n_sample = 100000` of `calc_power_spec`. -/
def n_sample : Nat := 100000

/-- The fine index `idx_k = int(kmag / dk_sample + 0.5)` of the grid cell `(i, j, k)`. -/
def idx_k (lib : LibM R) (params : ParameterSet R) (i j k : Nat) : Int :=
  toInt (DensityField.vec_mag lib (DensityField.grid_kvec lib params i j k) / dk_sample + 1 / 2)

/-- The value `mode_power` that `calc_power_spec` forms for the grid cell `(i, j, k)`:
`delta_a * conj(delta_b)`, minus `shotnoise * calc_shotnoise_func(kvec)`, divided by
`pow(win, 2)`, times `ylm`. -/
def mode_power (lib : LibM R) (params : ParameterSet R)
    (ylm_func : Int → Int → (Fin 3 → R) → Cx R) (density_a density_b : Grid R)
    (shotnoise : Cx R) (ell m : Int) (i j k : Nat) : Cx R :=
  let c := coord_flat params i j k
  let kvec := DensityField.grid_kvec lib params i j k
  let delta_a := density_a c
  let delta_b := density_b c
  let mp0 := Cx.mul delta_a (Cx.conj delta_b)
  let mp1 := mp0 - Cx.mulReal shotnoise (calc_shotnoise_func lib params kvec)
  let win := DensityField.calc_interpolation_window_in_fourier lib params kvec
  let mp2 := Cx.divReal mp1 (win ^ 2)
  let ylm := ylm_func ell m kvec
  Cx.mul mp2 ylm

/-- One step of the fine-sampling walk of `calc_power_spec`, on `(pk_sample, nmode_sample)`. -/
def power_sample_step (lib : LibM R) (params : ParameterSet R)
    (ylm_func : Int → Int → (Fin 3 → R) → Cx R) (density_a density_b : Grid R)
    (shotnoise : Cx R) (ell m : Int) (s : (Int → Cx R) × (Int → Int)) (i j k : Nat) :
    (Int → Cx R) × (Int → Int) :=
  let idx := idx_k lib params i j k
  if idx < (n_sample : Int) then
    (Function.update s.1 idx
        (s.1 idx + mode_power lib params ylm_func density_a density_b shotnoise ell m i j k),
     Function.update s.2 idx (s.2 idx + 1))
  else s

/-- The tables `(pk_sample, nmode_sample)` of `calc_power_spec` after the fine-sampling walk. -/
def power_sample (lib : LibM R) (params : ParameterSet R)
    (ylm_func : Int → Int → (Fin 3 → R) → Cx R) (density_a density_b : Grid R)
    (shotnoise : Cx R) (ell m : Int) : (Int → Cx R) × (Int → Int) :=
  DensityField.grid_walk params
    (power_sample_step lib params ylm_func density_a density_b shotnoise ell m)
    (fun _ => (0, 0), fun _ => 0)

/-- The binning loop of `calc_power_spec` for the bin `j`, accumulator `pk[j]`: its value after
the loop over the fine slots `i < n_sample`, starting from 0. -/
def power_bin_pk (kbin : Nat → R) (pk_sample : Int → Cx R) (j : Nat) : Cx R :=
  let dkbin := kbin 1 - kbin 0
  let k_lower := if kbin j > dkbin / 2 then kbin j - dkbin / 2 else 0
  let k_upper := kbin j + dkbin / 2
  (List.range n_sample).foldl (fun (acc : Cx R) (i : Nat) =>
      let k_sample := (i : R) * dk_sample
      if k_sample > k_lower ∧ k_sample ≤ k_upper then acc + pk_sample (i : Int) else acc) (0, 0)

/-- The binning loop of `calc_power_spec` for the bin `j`, accumulator `nmode_pk[j]` (updated in
the same iterations as `pk[j]`): its value after the loop over the fine slots, starting from 0. -/
def power_bin_nmode (kbin : Nat → R) (nmode_sample : Int → Int) (j : Nat) : Int :=
  let dkbin := kbin 1 - kbin 0
  let k_lower := if kbin j > dkbin / 2 then kbin j - dkbin / 2 else 0
  let k_upper := kbin j + dkbin / 2
  (List.range n_sample).foldl (fun (acc : Int) (i : Nat) =>
      let k_sample := (i : R) * dk_sample
      if k_sample > k_lower ∧ k_sample ≤ k_upper then acc + nmode_sample (i : Int) else acc) 0

/-- The routine `TwoPointStatistics::calc_power_spec`: the state afterwards (it returns 0). -/
def calc_power_spec (lib : LibM R) (params : ParameterSet R)
    (ylm_func : Int → Int → (Fin 3 → R) → Cx R) (stats : TwoPointStatistics R)
    (density_a density_b : Grid R) (kbin : Nat → R) (shotnoise : Cx R) (ell m : Int) :
    TwoPointStatistics R :=
  { pk := fun j =>
      if j < params.num_kbin then
        if power_bin_nmode kbin
            (power_sample lib params ylm_func density_a density_b shotnoise ell m).2 j ≠ 0 then
          Cx.divReal
            (power_bin_pk kbin
              (power_sample lib params ylm_func density_a density_b shotnoise ell m).1 j)
            ((power_bin_nmode kbin
              (power_sample lib params ylm_func density_a density_b shotnoise ell m).2 j : Int) : R)
        else (0, 0)
      else stats.pk j
    nmode_pk := fun j =>
      if j < params.num_kbin then
        power_bin_nmode kbin
          (power_sample lib params ylm_func density_a density_b shotnoise ell m).2 j
      else stats.nmode_pk j
    xi := stats.xi
    npair_xi := stats.npair_xi }

/-- The call `calc_power_spec(...)`: exit status (the routine ends in `return 0`) and state. -/
def calc_power_spec_call (lib : LibM R) (params : ParameterSet R)
    (ylm_func : Int → Int → (Fin 3 → R) → Cx R) (stats : TwoPointStatistics R)
    (density_a density_b : Grid R) (kbin : Nat → R) (shotnoise : Cx R) (ell m : Int) :
    Int × TwoPointStatistics R :=
  (0, calc_power_spec lib params ylm_func stats density_a density_b kbin shotnoise ell m)

/-- The fine-sampling step `dr_sample = 0.5` of `calc_corr_func`. -/
def dr_sample : R := 1 / 2

/-- The fine-sampling size `n_sample = 10000` of `calc_corr_func`. -/
def nr_sample : Nat := 10000

/-- The value `calc_corr_func` stores in `twopt3d_sample` for the grid cell `(i, j, k)`:
`vol_factor` times `(delta_a * conj(delta_b) - shotnoise * calc_shotnoise_func(kvec))
/ pow(win, 2)`, with `vol_factor = 1 / volume`. -/
def corr_power_value (lib : LibM R) (params : ParameterSet R) (density_a density_b : Grid R)
    (shotnoise : Cx R) (i j k : Nat) : Cx R :=
  let vol_factor := 1 / params.volume
  let c := coord_flat params i j k
  let kvec := DensityField.grid_kvec lib params i j k
  let mp0 := Cx.mul (density_a c) (Cx.conj (density_b c))
  let mp1 := mp0 - Cx.mulReal shotnoise (calc_shotnoise_func lib params kvec)
  let win := DensityField.calc_interpolation_window_in_fourier lib params kvec
  let mp2 := Cx.divReal mp1 (win ^ 2)
  (vol_factor * mp2.1, vol_factor * mp2.2)

/-- The array `twopt3d_sample` of `calc_corr_func` (freshly allocated and zeroed) after the first
grid walk, before the backward plan is executed. -/
def corr_power_field (lib : LibM R) (params : ParameterSet R) (density_a density_b : Grid R)
    (shotnoise : Cx R) : Grid R :=
  DensityField.grid_walk params
    (fun (f : Grid R) i j k => Function.update f (coord_flat params i j k)
      (corr_power_value lib params density_a density_b shotnoise i j k))
    (fun _ => (0, 0))

/-- The separation vector of a grid walk:
`rvec[a] = (i < nmesh[a]/2) ? i * dr[a] : (i - nmesh[a]) * dr[a]`, `dr[a] = boxsize[a]/nmesh[a]`. -/
def grid_rvec (params : ParameterSet R) (i j k : Int) : Fin 3 → R :=
  fun a =>
    let idx : Int := if a = 0 then i else if a = 1 then j else k
    let dr := params.boxsize a / (params.nmesh a : R)
    if idx < Int.tdiv (params.nmesh a) 2 then (idx : R) * dr
    else ((idx - params.nmesh a : Int) : R) * dr

/-- The fine index `idx_r = int(rmag / dr_sample + 0.5)` of the grid cell `(i, j, k)`. -/
def idx_r (lib : LibM R) (params : ParameterSet R) (i j k : Nat) : Int :=
  toInt (DensityField.vec_mag lib (grid_rvec params i j k) / dr_sample + 1 / 2)

/-- One step of the fine-sampling walk of `calc_corr_func`, on `(xi_sample, npair_sample)`:
`pair_corr = twopt3d_sample[coord_flat] * ylm(ell, m, rvec)`. -/
def corr_sample_step (lib : LibM R) (params : ParameterSet R)
    (ylm_func : Int → Int → (Fin 3 → R) → Cx R) (twopt3d : Grid R) (ell m : Int)
    (s : (Int → Cx R) × (Int → Int)) (i j k : Nat) : (Int → Cx R) × (Int → Int) :=
  let idx := idx_r lib params i j k
  if idx < (nr_sample : Int) then
    (Function.update s.1 idx
        (s.1 idx + Cx.mul (twopt3d (coord_flat params i j k))
          (ylm_func ell m (grid_rvec params i j k))),
     Function.update s.2 idx (s.2 idx + 1))
  else s

/-- The tables `(xi_sample, npair_sample)` of `calc_corr_func` after the fine-sampling walk. -/
def corr_sample (lib : LibM R) (fftw : DensityField.FFTW R) (params : ParameterSet R)
    (ylm_func : Int → Int → (Fin 3 → R) → Cx R) (density_a density_b : Grid R)
    (shotnoise : Cx R) (ell m : Int) : (Int → Cx R) × (Int → Int) :=
  DensityField.grid_walk params
    (corr_sample_step lib params ylm_func
      (fftw.backward (params.nmesh 0) (params.nmesh 1) (params.nmesh 2)
        (corr_power_field lib params density_a density_b shotnoise)) ell m)
    (fun _ => (0, 0), fun _ => 0)

/-- The binning loop of `calc_corr_func` for the bin `j`, accumulator `xi[j]`. -/
def corr_bin_xi (rbin : Nat → R) (xi_sample : Int → Cx R) (j : Nat) : Cx R :=
  let drbin := rbin 1 - rbin 0
  let r_lower := if rbin j > drbin / 2 then rbin j - drbin / 2 else 0
  let r_upper := rbin j + drbin / 2
  (List.range nr_sample).foldl (fun (acc : Cx R) (i : Nat) =>
      let rmag_sample := (i : R) * dr_sample
      if rmag_sample > r_lower ∧ rmag_sample ≤ r_upper then acc + xi_sample (i : Int)
      else acc) (0, 0)

/-- The binning loop of `calc_corr_func` for the bin `j`, accumulator `npair_xi[j]`. -/
def corr_bin_npair (rbin : Nat → R) (npair_sample : Int → Int) (j : Nat) : Int :=
  let drbin := rbin 1 - rbin 0
  let r_lower := if rbin j > drbin / 2 then rbin j - drbin / 2 else 0
  let r_upper := rbin j + drbin / 2
  (List.range nr_sample).foldl (fun (acc : Int) (i : Nat) =>
      let rmag_sample := (i : R) * dr_sample
      if rmag_sample > r_lower ∧ rmag_sample ≤ r_upper then acc + npair_sample (i : Int)
      else acc) 0

/-- The routine `TwoPointStatistics::calc_corr_func`: the state afterwards. -/
def calc_corr_func (lib : LibM R) (fftw : DensityField.FFTW R) (params : ParameterSet R)
    (ylm_func : Int → Int → (Fin 3 → R) → Cx R) (stats : TwoPointStatistics R)
    (density_a density_b : Grid R) (rbin : Nat → R) (shotnoise : Cx R) (ell m : Int) :
    TwoPointStatistics R :=
  { pk := stats.pk
    nmode_pk := stats.nmode_pk
    xi := fun j =>
      if j < params.num_rbin then
        if corr_bin_npair rbin
            (corr_sample lib fftw params ylm_func density_a density_b shotnoise ell m).2 j ≠ 0
        then
          Cx.divReal
            (corr_bin_xi rbin
              (corr_sample lib fftw params ylm_func density_a density_b shotnoise ell m).1 j)
            ((corr_bin_npair rbin
              (corr_sample lib fftw params ylm_func density_a density_b shotnoise ell m).2 j
                : Int) : R)
        else (0, 0)
      else stats.xi j
    npair_xi := fun j =>
      if j < params.num_rbin then
        corr_bin_npair rbin
          (corr_sample lib fftw params ylm_func density_a density_b shotnoise ell m).2 j
      else stats.npair_xi j }

/-- The call `calc_corr_func(...)`: exit status (the routine ends in `return 0`) and state. -/
def calc_corr_func_call (lib : LibM R) (fftw : DensityField.FFTW R) (params : ParameterSet R)
    (ylm_func : Int → Int → (Fin 3 → R) → Cx R) (stats : TwoPointStatistics R)
    (density_a density_b : Grid R) (rbin : Nat → R) (shotnoise : Cx R) (ell m : Int) :
    Int × TwoPointStatistics R :=
  (0, calc_corr_func lib fftw params ylm_func stats density_a density_b rbin shotnoise ell m)

end TwoPointStatistics

/-! ## Estimator drivers (`power.hpp`) -/

namespace power

variable {R : Type} {α : Type}

/-- The multipole check at the head of `calc_power_spec`: on the root task (`thisTask == 0`) the
run ends with `exit(1)` when `!(ell1 == ELL && ell2 == 0)`; otherwise the measurement `body`
(field construction and all that follows) runs. -/
def calc_power_spec (thisTask : Int) (params : ParameterSet R) (body : Unit → α) :
    Except Int α :=
  if thisTask = 0 ∧ ¬(params.ell1 = params.ELL ∧ params.ell2 = 0) then Except.error 1
  else Except.ok (body ())

/-- The multipole check at the head of `calc_corr_func`. -/
def calc_corr_func (thisTask : Int) (params : ParameterSet R) (body : Unit → α) :
    Except Int α :=
  if thisTask = 0 ∧ ¬(params.ell1 = params.ELL ∧ params.ell2 = 0) then Except.error 1
  else Except.ok (body ())

/-- The multipole check at the head of `calc_power_spec_window`. -/
def calc_power_spec_window (thisTask : Int) (params : ParameterSet R) (body : Unit → α) :
    Except Int α :=
  if thisTask = 0 ∧ ¬(params.ell1 = params.ELL ∧ params.ell2 = 0) then Except.error 1
  else Except.ok (body ())

/-- The multipole check at the head of `calc_corr_func_window`. -/
def calc_corr_func_window (thisTask : Int) (params : ParameterSet R) (body : Unit → α) :
    Except Int α :=
  if thisTask = 0 ∧ ¬(params.ell1 = params.ELL ∧ params.ell2 = 0) then Except.error 1
  else Except.ok (body ())

/-- The multipole check at the head of `calc_power_spec_in_box`. -/
def calc_power_spec_in_box (thisTask : Int) (params : ParameterSet R) (body : Unit → α) :
    Except Int α :=
  if thisTask = 0 ∧ ¬(params.ell1 = params.ELL ∧ params.ell2 = 0) then Except.error 1
  else Except.ok (body ())

/-- The multipole check at the head of `calc_corr_func_in_box`, as written there:
`!(ell1 == ELL) && (ell2 == 0)`. -/
def calc_corr_func_in_box (thisTask : Int) (params : ParameterSet R) (body : Unit → α) :
    Except Int α :=
  if thisTask = 0 ∧ (¬(params.ell1 = params.ELL) ∧ params.ell2 = 0) then Except.error 1
  else Except.ok (body ())

/-- The multipole check at the head of `calc_power_spec_in_box_for_recon`. -/
def calc_power_spec_in_box_for_recon (thisTask : Int) (params : ParameterSet R)
    (body : Unit → α) : Except Int α :=
  if thisTask = 0 ∧ ¬(params.ell1 = params.ELL ∧ params.ell2 = 0) then Except.error 1
  else Except.ok (body ())

end power

/-! ## Two-point statistics for the three-point estimators -/

namespace TwoPointStatistics

variable {R : Type} [LinearOrderedField R] [FloorRing R]

/-- The array `twopt3d_sample` of `calc_corr_func_for_3pt_corr_func` (freshly allocated and
zeroed) after the first grid walk, before the backward plan is executed. -/
def corr_3pt_power_field (lib : LibM R) (params : ParameterSet R) (density_a density_b : Grid R)
    (shotnoise : Cx R) : Grid R :=
  DensityField.grid_walk params
    (fun (f : Grid R) i j k =>
      let vol_factor := 1 / params.volume
      let c := coord_flat params i j k
      let kvec := DensityField.grid_kvec lib params i j k
      let delta_a := density_a c
      let delta_b := density_b c
      let mp0 := Cx.mul delta_a (Cx.conj delta_b)
      let mp1 := mp0 - Cx.mulReal shotnoise (calc_shotnoise_func lib params kvec)
      let win := DensityField.calc_interpolation_window_in_fourier lib params kvec
      let mp2 := Cx.divReal mp1 (win ^ 2)
      Function.update f c (vol_factor * mp2.1, vol_factor * mp2.2))
    (fun _ => (0, 0))

/-- One step of the fine-sampling walk of `calc_corr_func_for_3pt_corr_func`, on
`(xi_sample, npair_sample)`: `pair_corr = twopt3d_sample[coord_flat] *
(ylm_a[coord_flat] * ylm_b[coord_flat])`. -/
def corr_3pt_sample_step (lib : LibM R) (params : ParameterSet R) (twopt3d : Grid R)
    (ylm_a ylm_b : Int → Cx R) (s : (Int → Cx R) × (Int → Int)) (i j k : Nat) :
    (Int → Cx R) × (Int → Int) :=
  let idx := idx_r lib params i j k
  if idx < (nr_sample : Int) then
    (Function.update s.1 idx
        (s.1 idx + Cx.mul (twopt3d (coord_flat params i j k))
          (Cx.mul (ylm_a (coord_flat params i j k)) (ylm_b (coord_flat params i j k)))),
     Function.update s.2 idx (s.2 idx + 1))
  else s

/-- The tables `(xi_sample, npair_sample)` of `calc_corr_func_for_3pt_corr_func` after the
fine-sampling walk. -/
def corr_3pt_sample (lib : LibM R) (fftw : DensityField.FFTW R) (params : ParameterSet R)
    (density_a density_b : Grid R) (shotnoise : Cx R) (ylm_a ylm_b : Int → Cx R) :
    (Int → Cx R) × (Int → Int) :=
  DensityField.grid_walk params
    (corr_3pt_sample_step lib params
      (fftw.backward (params.nmesh 0) (params.nmesh 1) (params.nmesh 2)
        (corr_3pt_power_field lib params density_a density_b shotnoise)) ylm_a ylm_b)
    (fun _ => (0, 0), fun _ => 0)

/-- The array `drbin` of `calc_corr_func_for_3pt_corr_func`: `drbin[j] = rbin[j + 1] - rbin[j]`
(the array has the entries `0 ≤ j < num_rbin - 1`). -/
def drbin (rbin : Nat → R) (j : Nat) : R := rbin (j + 1) - rbin j

/-- The lower edge `r_lower` of the bin `j` in `calc_corr_func_for_3pt_corr_func` (exact
arithmetic; `corr_3pt_r_lower_double` rounds every operation). -/
def corr_3pt_r_lower (rbin : Nat → R) (j : Nat) : R :=
  if j = 0 then (if rbin j > drbin rbin j / 2 then rbin j - drbin rbin j / 2 else 0)
  else rbin j - drbin rbin (j - 1) / 2

/-- The upper edge `r_upper` of the bin `j` in `calc_corr_func_for_3pt_corr_func` (exact
arithmetic; `corr_3pt_r_upper_double` rounds every operation). -/
def corr_3pt_r_upper (params : ParameterSet R) (rbin : Nat → R) (j : Nat) : R :=
  if (j : Int) = (params.num_rbin : Int) - 1 then rbin j + drbin rbin (j - 1) / 2
  else rbin j + drbin rbin j / 2

/-- The binning loop of `calc_corr_func_for_3pt_corr_func` for the bin `j`, accumulator
`xi[j]`: its value after the loop over the fine slots `i < n_sample`, starting from 0. -/
def corr_3pt_bin_xi (params : ParameterSet R) (rbin : Nat → R) (xi_sample : Int → Cx R)
    (j : Nat) : Cx R :=
  (List.range nr_sample).foldl (fun (acc : Cx R) (i : Nat) =>
      let rmag_sample := (i : R) * dr_sample
      if rmag_sample > corr_3pt_r_lower rbin j ∧ rmag_sample ≤ corr_3pt_r_upper params rbin j
      then acc + xi_sample (i : Int) else acc) (0, 0)

/-- The binning loop of `calc_corr_func_for_3pt_corr_func` for the bin `j`, accumulator
`npair_xi[j]` (updated in the same iterations as `xi[j]`). -/
def corr_3pt_bin_npair (params : ParameterSet R) (rbin : Nat → R) (npair_sample : Int → Int)
    (j : Nat) : Int :=
  (List.range nr_sample).foldl (fun (acc : Int) (i : Nat) =>
      let rmag_sample := (i : R) * dr_sample
      if rmag_sample > corr_3pt_r_lower rbin j ∧ rmag_sample ≤ corr_3pt_r_upper params rbin j
      then acc + npair_sample (i : Int) else acc) 0

/-- The routine `TwoPointStatistics::calc_corr_func_for_3pt_corr_func`: the state afterwards (it
returns 0). The arguments `ell` and `m` of the routine are not read by its body. The final loop
is `xi[i] *= pow(-1., ell1 + ell2) / dV / double(npair_xi[i]) / double(npair_xi[i])` when
`npair_xi[i] != 0`, and `xi[i] = 0` otherwise. -/
def calc_corr_func_for_3pt_corr_func (lib : LibM R) (fftw : DensityField.FFTW R)
    (params : ParameterSet R) (stats : TwoPointStatistics R) (density_a density_b : Grid R)
    (rbin : Nat → R) (shotnoise : Cx R) (_ell _m : Int) (ylm_a ylm_b : Int → Cx R) :
    TwoPointStatistics R :=
  { pk := stats.pk
    nmode_pk := stats.nmode_pk
    xi := fun j =>
      if j < params.num_rbin then
        if corr_3pt_bin_npair params rbin
            (corr_3pt_sample lib fftw params density_a density_b shotnoise ylm_a ylm_b).2 j ≠ 0
        then
          Cx.mulReal
            (corr_3pt_bin_xi params rbin
              (corr_3pt_sample lib fftw params density_a density_b shotnoise ylm_a ylm_b).1 j)
            ((-1 : R) ^ (params.ell1 + params.ell2) / (params.volume / (params.nmesh_tot : R))
              / ((corr_3pt_bin_npair params rbin
                  (corr_3pt_sample lib fftw params density_a density_b shotnoise ylm_a ylm_b).2 j
                    : Int) : R)
              / ((corr_3pt_bin_npair params rbin
                  (corr_3pt_sample lib fftw params density_a density_b shotnoise ylm_a ylm_b).2 j
                    : Int) : R))
        else (0, 0)
      else stats.xi j
    npair_xi := fun j =>
      if j < params.num_rbin then
        corr_3pt_bin_npair params rbin
          (corr_3pt_sample lib fftw params density_a density_b shotnoise ylm_a ylm_b).2 j
      else stats.npair_xi j }

/-- The buffer `xi` of `calc_shotnoise_for_bispec_ijk` (supplied by the caller) after the grid
walk, before the backward plan is executed. -/
def shotnoise_bispec_power_field (lib : LibM R) (params : ParameterSet R)
    (density_a density_b : Grid R) (shotnoise : Cx R) (xi : Grid R) : Grid R :=
  DensityField.grid_walk params
    (fun (f : Grid R) i j k =>
      let vol_factor := 1 / params.volume
      let c := coord_flat params i j k
      let kvec := DensityField.grid_kvec lib params i j k
      let delta_a := density_a c
      let delta_b := density_b c
      let mp0 := Cx.mul delta_a (Cx.conj delta_b)
      let mp1 := mp0 - Cx.mulReal shotnoise (calc_shotnoise_func lib params kvec)
      let win := DensityField.calc_interpolation_window_in_fourier lib params kvec
      let mp2 := Cx.divReal mp1 (win ^ 2)
      Function.update f c (vol_factor * mp2.1, vol_factor * mp2.2))
    xi

/-- The routine `calc_shotnoise_for_bispec_ijk`: exit status and the buffer `xi` afterwards.
The arguments `ell` and `m` are not read by its body. -/
def calc_shotnoise_for_bispec_ijk (lib : LibM R) (fftw : DensityField.FFTW R)
    (params : ParameterSet R) (density_a density_b : Grid R) (shotnoise : Cx R)
    (_ell _m : Int) (xi : Grid R) : Int × Grid R :=
  (0, fftw.backward (params.nmesh 0) (params.nmesh 1) (params.nmesh 2)
        (shotnoise_bispec_power_field lib params density_a density_b shotnoise xi))

/-- The routine `calc_shotnoise_for_power_spec`, with
`ylm = calc_reduced_spherical_harmonic(ell, m, los)`: `sum += pow(w, 2) * ylm` over each
catalogue, result `sum_data + pow(alpha, 2) * sum_rand`. -/
def calc_shotnoise_for_power_spec (ylm_func : Int → Int → (Fin 3 → R) → Cx R)
    (particles_data particles_rand : ParticleCatalogue R)
    (los_data los_rand : Nat → Fin 3 → R) (alpha : R) (ell m : Int) : Cx R :=
  let sum_data := (List.range particles_data.nparticles).foldl (fun (acc : Cx R) (id : Nat) =>
      acc + Cx.mulReal (ylm_func ell m (los_data id)) ((particles_data.pdata id).w ^ 2)) (0, 0)
  let sum_rand := (List.range particles_rand.nparticles).foldl (fun (acc : Cx R) (id : Nat) =>
      acc + Cx.mulReal (ylm_func ell m (los_rand id)) ((particles_rand.pdata id).w ^ 2)) (0, 0)
  sum_data + Cx.mulReal sum_rand (alpha ^ 2)

/-- The routine `calc_shotnoise_for_power_spec_in_box_for_recon`:
`double(nparticles_data) + pow(alpha, 2) * double(nparticles_rand)`. -/
def calc_shotnoise_for_power_spec_in_box_for_recon
    (particles_data particles_rand : ParticleCatalogue R) (alpha : R) : Cx R :=
  let sum_data : Cx R := ((particles_data.nparticles : R), 0)
  let sum_rand : Cx R := ((particles_rand.nparticles : R), 0)
  sum_data + Cx.mulReal sum_rand (alpha ^ 2)

/-- The routine `calc_shotnoise_for_corr_func_window`: `pow(alpha, 2) * sum_rand`. -/
def calc_shotnoise_for_corr_func_window (ylm_func : Int → Int → (Fin 3 → R) → Cx R)
    (particles_rand : ParticleCatalogue R) (los_rand : Nat → Fin 3 → R) (alpha : R)
    (ell m : Int) : Cx R :=
  let sum_rand := (List.range particles_rand.nparticles).foldl (fun (acc : Cx R) (id : Nat) =>
      acc + Cx.mulReal (ylm_func ell m (los_rand id)) ((particles_rand.pdata id).w ^ 2)) (0, 0)
  Cx.mulReal sum_rand (alpha ^ 2)

end TwoPointStatistics

/-! ## Further field builders (`DensityField`) -/

namespace DensityField

variable {R : Type} [LinearOrderedField R] [FloorRing R]

/-- The routine `calc_ylm_weighted_fields_for_bispec_shotnoise`: exit status and the field
afterwards. The weights are `conj(ylm) * pow(w, 2)` with
`ylm = calc_reduced_spherical_harmonic(ell, m, los)`; the random-source field `density_rand` is
a freshly constructed (zero) field; the last loop is
`field[i] += alpha * alpha * density_rand.field[i]`. -/
def calc_ylm_weighted_fields_for_bispec_shotnoise (ylm_func : Int → Int → (Fin 3 → R) → Cx R)
    (params : ParameterSet R) (field : Grid R)
    (particles_data particles_rand : ParticleCatalogue R)
    (los_data los_rand : Nat → Fin 3 → R) (alpha : R) (ell m : Int) : Int × Grid R :=
  let weight_data : Nat → Cx R := fun id =>
    ((Cx.conj (ylm_func ell m (los_data id))).1 * (particles_data.pdata id).w ^ 2,
     (Cx.conj (ylm_func ell m (los_data id))).2 * (particles_data.pdata id).w ^ 2)
  let field_data := (assign_weighted_field_to_grid params field particles_data weight_data).2
  let weight_rand : Nat → Cx R := fun id =>
    ((Cx.conj (ylm_func ell m (los_rand id))).1 * (particles_rand.pdata id).w ^ 2,
     (Cx.conj (ylm_func ell m (los_rand id))).2 * (particles_rand.pdata id).w ^ 2)
  let density_rand :=
    (assign_weighted_field_to_grid params (fun _ => (0, 0)) particles_rand weight_rand).2
  (0, fun c =>
    if 0 ≤ c ∧ c < params.nmesh_tot then
      ((field_data c).1 + alpha * alpha * (density_rand c).1,
       (field_data c).2 + alpha * alpha * (density_rand c).2)
    else field_data c)

/-- The routine `calc_fluctuation_in_box(particles_data, params)`: exit status and the field
afterwards. The field was constructed with `this_params` (the member `this->params`, read by the
assignment and by the bound of the last loop); the mean density subtracted from the real part
is `double(nparticles) / params.volume`, read from the argument `params`. -/
def calc_fluctuation_in_box (this_params : ParameterSet R) (field : Grid R)
    (particles_data : ParticleCatalogue R) (params : ParameterSet R) : Int × Grid R :=
  let weight : Nat → Cx R := fun _ => (1, 0)
  let field_data := (assign_weighted_field_to_grid this_params field particles_data weight).2
  (0, fun c =>
    if 0 ≤ c ∧ c < this_params.nmesh_tot then
      ((field_data c).1 - (particles_data.nparticles : R) / params.volume, (field_data c).2 - 0)
    else field_data c)

end DensityField

/-! ## Coupling coefficients of the estimator loops (`power.hpp`) -/

section Coupling

variable {R : Type} [LinearOrderedField R] [FloorRing R]

/-- The factorial of an integer argument of the 3j formula (arguments are non-negative where
the formula reads them). -/
def wigner_fact (z : Int) : R := ((z.toNat.factorial : Nat) : R)

/-- Modelled from the spec: the helper `wigner_3j(j1, j2, j3, m1, m2, m3)` is not among the
sources (the spec lists it as the Wigner 3j symbol of the math utilities, called here with
integer degrees and orders). It is the Wigner 3j symbol by its explicit (Racah) expression:
zero unless `m1 + m2 + m3 = 0`, `|m_i| ≤ j_i` and `|j1 - j2| ≤ j3 ≤ j1 + j2`, and otherwise
`(-1)^(j1-j2-m3) · sqrt(Δ(j1,j2,j3)) · sqrt(Π (j_i ± m_i)!) · Σ_t (-1)^t / x(t)` with
`Δ = (j1+j2-j3)! (j1-j2+j3)! (-j1+j2+j3)! / (j1+j2+j3+1)!` and
`x(t) = t! (j3-j2+t+m1)! (j3-j1+t-m2)! (j1+j2-j3-t)! (j1-t-m1)! (j2-t+m2)!`, the sum running over
the `t` for which no factorial has a negative argument. -/
def wigner_3j (lib : LibM R) (j1 j2 j3 m1 m2 m3 : Int) : R :=
  if m1 + m2 + m3 = 0 ∧ |m1| ≤ j1 ∧ |m2| ≤ j2 ∧ |m3| ≤ j3 ∧ |j1 - j2| ≤ j3 ∧ j3 ≤ j1 + j2 then
    (-1 : R) ^ (j1 - j2 - m3)
      * lib.sqrt (wigner_fact (j1 + j2 - j3) * wigner_fact (j1 - j2 + j3)
          * wigner_fact (-j1 + j2 + j3) / wigner_fact (j1 + j2 + j3 + 1))
      * lib.sqrt (wigner_fact (j1 + m1) * wigner_fact (j1 - m1) * wigner_fact (j2 + m2)
          * wigner_fact (j2 - m2) * wigner_fact (j3 + m3) * wigner_fact (j3 - m3))
      * ∑ t ∈ Finset.range ((j1 + j2 - j3).toNat + 1),
          (if 0 ≤ j3 - j2 + (t : Int) + m1 ∧ 0 ≤ j3 - j1 + (t : Int) - m2
              ∧ 0 ≤ j1 - (t : Int) - m1 ∧ 0 ≤ j2 - (t : Int) + m2 then
            (-1 : R) ^ t / (wigner_fact (t : Int) * wigner_fact (j3 - j2 + (t : Int) + m1)
              * wigner_fact (j3 - j1 + (t : Int) - m2) * wigner_fact (j1 + j2 - j3 - (t : Int))
              * wigner_fact (j1 - (t : Int) - m1) * wigner_fact (j2 - (t : Int) + m2))
          else 0)
  else 0

end Coupling

namespace power

variable {R : Type} [LinearOrderedField R] [FloorRing R]

/-- The local `coupling` of the estimator loops of `calc_power_spec` and `calc_corr_func`:
`(2*ELL + 1) * (2*ell1 + 1) * wigner_3j(ell1, 0, ELL, 0, 0, 0)
 * wigner_3j(ell1, 0, ELL, m1_, 0, M_)`. -/
def coupling (lib : LibM R) (params : ParameterSet R) (M_ m1_ : Int) : R :=
  (((2 * params.ELL + 1) * (2 * params.ell1 + 1) : Int) : R)
    * wigner_3j lib params.ell1 0 params.ELL 0 0 0
    * wigner_3j lib params.ell1 0 params.ELL m1_ 0 M_

/-- The double loop `for M_ = -ELL … ELL`, `for m1_ = -ell1 … ell1` of the estimators
`calc_power_spec` and `calc_corr_func`, on an accumulator: an iteration with
`fabs(coupling) < 1.e-10` is skipped (`continue`); the others run `visit` with the orders and the
coupling coefficient (in the source: the two-point measurement and
`pk_save[i] += coupling * stats.pk[i]`). -/
def coupling_loop {σ : Type} (lib : LibM R) (params : ParameterSet R)
    (visit : σ → Int → Int → R → σ) (init : σ) : σ :=
  (List.range (2 * params.ELL + 1).toNat).foldl (fun (acc : σ) (a : Nat) =>
    (List.range (2 * params.ell1 + 1).toNat).foldl (fun (acc : σ) (b : Nat) =>
      if |coupling lib params (-params.ELL + (a : Int)) (-params.ell1 + (b : Int))|
          < 1 / 10000000000 then acc
      else visit acc (-params.ELL + (a : Int)) (-params.ell1 + (b : Int))
        (coupling lib params (-params.ELL + (a : Int)) (-params.ell1 + (b : Int)))) acc) init

end power

/-! ## Flat index in `int` arithmetic -/

section IntArith

variable {R : Type}

/-- The largest value of a C++ `int` (32 bits), `2^31 - 1`. -/
def int_max : Int := 2147483647

/-- The smallest value of a C++ `int` (32 bits), `-2^31`. -/
def int_min : Int := -2147483648

/-- A value that an `int` can hold. -/
def int_fits (x : Int) : Bool := decide (int_min ≤ x ∧ x ≤ int_max)

/-- The expression `(i * nmesh[1] + j) * nmesh[2] + k` evaluated in `int` arithmetic, as the
grid walks do before widening to `long long`: the result, or `none` when one of the four
intermediate results leaves the range of `int` (signed overflow). -/
def coord_flat_int (params : ParameterSet R) (i j k : Int) : Option Int :=
  if int_fits (i * params.nmesh 1) then
    if int_fits (i * params.nmesh 1 + j) then
      if int_fits ((i * params.nmesh 1 + j) * params.nmesh 2) then
        if int_fits ((i * params.nmesh 1 + j) * params.nmesh 2 + k) then
          some ((i * params.nmesh 1 + j) * params.nmesh 2 + k)
        else none
      else none
    else none
  else none

/-- The flat indices that a grid walk visits, in the order of the walk. -/
def visited_cells [LinearOrderedField R] [FloorRing R] (params : ParameterSet R) : List Int :=
  DensityField.grid_walk params
    (fun (l : List Int) i j k => l ++ [coord_flat params i j k]) []

end IntArith

/-! ## Driver (`triumvirate.cpp`) -/

section Driver

variable {R : Type} [LinearOrderedField R] [FloorRing R]

/-- Modelled from the spec: the helper `trv::maths::get_vec3d_magnitude` is not among the
sources; it is the Euclidean magnitude `sqrt(v[0]² + v[1]² + v[2]²)` of a 3-vector (the `|r_i|`
of the line-of-sight contract). -/
def get_vec3d_magnitude (lib : LibM R) (v : Fin 3 → R) : R :=
  lib.sqrt (v 0 * v 0 + v 1 * v 1 + v 2 * v 2)

/-- The body of the line-of-sight loops of `main` (step B.2) for the particle `pid`:
`los_mag = get_vec3d_magnitude(catalogue[pid].pos)` and
`los[pid].pos[a] = catalogue[pid].pos[a] / los_mag`. -/
def line_of_sight (lib : LibM R) (catalogue : ParticleCatalogue R) (pid : Nat) : Fin 3 → R :=
  let los_mag := get_vec3d_magnitude lib (catalogue.pdata pid).pos
  fun a => (catalogue.pdata pid).pos a / los_mag

/-- The steps B.2 and B.3 of `main` on one catalogue: the lines of sight are computed from the
catalogue as loaded, and the box alignment `align` (`pad_grids`, `pad_in_box`, `centre_in_box` or
`offset_coords_for_periodicity`, a parameter here) runs afterwards; the result is what the
measurement calls receive, the lines of sight and the aligned catalogue. -/
def main_los_then_align (lib : LibM R) (align : ParticleCatalogue R → ParticleCatalogue R)
    (catalogue : ParticleCatalogue R) : (Nat → Fin 3 → R) × ParticleCatalogue R :=
  (fun pid => line_of_sight lib catalogue pid, align catalogue)

end Driver

/-! ## Bin edges in binary64 arithmetic -/

/-- The rounding of C++ `double` arithmetic (IEEE 754 binary64, round to nearest, ties to even):
an operation `+`, `-`, `*`, `/` on doubles returns `round_double` of the exact result. A double
has 53 significant bits, so the values in `[2^e, 2^(e+1))` are the multiples of `2^(e-52)`. The
exponent range is not modelled (no overflow, no subnormal numbers). -/
def round_double (x : ℚ) : ℚ :=
  if x = 0 then 0
  else
    let ulp : ℚ := 2 ^ (Int.log 2 |x| - 52)
    let n : Int := Int.floor (x / ulp)
    let m : Int :=
      if x / ulp - n < 1 / 2 then n
      else if 1 / 2 < x / ulp - n then n + 1
      else if n % 2 = 0 then n else n + 1
    m * ulp

namespace TwoPointStatistics

/-- The array `drbin` of `calc_corr_func_for_3pt_corr_func` in binary64 arithmetic:
`drbin[j] = rbin[j + 1] - rbin[j]`, rounded. -/
def drbin_double (rbin : Nat → ℚ) (j : Nat) : ℚ := round_double (rbin (j + 1) - rbin j)

/-- The lower edge `r_lower` of the bin `j` in `calc_corr_func_for_3pt_corr_func`, in binary64
arithmetic: the quotient `drbin[·]/2` and the difference are each rounded. -/
def corr_3pt_r_lower_double (rbin : Nat → ℚ) (j : Nat) : ℚ :=
  if j = 0 then
    (if rbin j > round_double (drbin_double rbin j / 2)
     then round_double (rbin j - round_double (drbin_double rbin j / 2)) else 0)
  else round_double (rbin j - round_double (drbin_double rbin (j - 1) / 2))

/-- The upper edge `r_upper` of the bin `j` in `calc_corr_func_for_3pt_corr_func`, in binary64
arithmetic: the quotient `drbin[·]/2` and the sum are each rounded. -/
def corr_3pt_r_upper_double (params : ParameterSet ℚ) (rbin : Nat → ℚ) (j : Nat) : ℚ :=
  if (j : Int) = (params.num_rbin : Int) - 1
  then round_double (rbin j + round_double (drbin_double rbin (j - 1) / 2))
  else round_double (rbin j + round_double (drbin_double rbin j / 2))

/-- The binning loop of `calc_corr_func_for_3pt_corr_func` for the bin `j`, accumulator
`npair_xi[j]`, in binary64 arithmetic: `rmag_sample = i * dr_sample` is rounded and compared
with the rounded edges. -/
def corr_3pt_bin_npair_double (params : ParameterSet ℚ) (rbin : Nat → ℚ)
    (npair_sample : Int → Int) (j : Nat) : Int :=
  (List.range nr_sample).foldl (fun (acc : Int) (i : Nat) =>
      let rmag_sample := round_double ((i : ℚ) * dr_sample)
      if rmag_sample > corr_3pt_r_lower_double rbin j ∧
          rmag_sample ≤ corr_3pt_r_upper_double params rbin j
      then acc + npair_sample (i : Int) else acc) 0

end TwoPointStatistics

/-! ## Reference formulas of the specification -/

namespace Reference

variable {R : Type} [LinearOrderedField R] [FloorRing R]

/-- Reference (specification side): `sinc(x) = sin(x)/x` with `sinc(0) = 1`. -/
def sinc (lib : LibM R) (x : R) : R := if x = 0 then 1 else lib.sin x / x

/-- Reference (specification side): the angle `x_a = π f_a / nmesh[a]` of the grid cell with raw
index `idx` on axis `a`, where `f_a` is the folded integer index. -/
def cell_angle (lib : LibM R) (params : ParameterSet R) (a : Fin 3) (idx : Int) : R :=
  lib.pi * ((DensityField.folded_index params a idx : Int) : R) / (params.nmesh a : R)

/-- Reference (specification side): the assignment window of order `p` at the grid cell
`(i, j, k)`, `W = (sinc(x_0) sinc(x_1) sinc(x_2))^p`. -/
def window (lib : LibM R) (params : ParameterSet R) (p : Nat) (i j k : Int) : R :=
  (sinc lib (cell_angle lib params 0 i) * sinc lib (cell_angle lib params 1 j)
    * sinc lib (cell_angle lib params 2 k)) ^ p

/-- Reference (specification side): the CIC shot-noise attenuation at the grid cell `(i, j, k)`,
`S = Π_a (1 - 2/3 sin² x_a)`. -/
def shotnoise_cic (lib : LibM R) (params : ParameterSet R) (i j k : Int) : R :=
  (1 - 2 / 3 * lib.sin (cell_angle lib params 0 i) ^ 2)
    * (1 - 2 / 3 * lib.sin (cell_angle lib params 1 j) ^ 2)
    * (1 - 2 / 3 * lib.sin (cell_angle lib params 2 k) ^ 2)

/-- Reference (specification side): the TSC shot-noise attenuation at the grid cell `(i, j, k)`,
`S = Π_a (1 - sin² x_a + 2/15 sin⁴ x_a)`. -/
def shotnoise_tsc (lib : LibM R) (params : ParameterSet R) (i j k : Int) : R :=
  (1 - lib.sin (cell_angle lib params 0 i) ^ 2 + 2 / 15 * lib.sin (cell_angle lib params 0 i) ^ 4)
    * (1 - lib.sin (cell_angle lib params 1 j) ^ 2
        + 2 / 15 * lib.sin (cell_angle lib params 1 j) ^ 4)
    * (1 - lib.sin (cell_angle lib params 2 k) ^ 2
        + 2 / 15 * lib.sin (cell_angle lib params 2 k) ^ 4)

/-- Reference (specification side): the grid cell `(i, j, k)` lies in the shell of centre `kbar`
and width `D`, i.e. its wavenumber magnitude is in `(max(0, kbar - D/2), kbar + D/2]`. -/
def in_shell (lib : LibM R) (params : ParameterSet R) (kbar D : R) (i j k : Nat) : Prop :=
  max 0 (kbar - D / 2) < DensityField.vec_mag lib (DensityField.grid_kvec lib params i j k) ∧
  DensityField.vec_mag lib (DensityField.grid_kvec lib params i j k) ≤ kbar + D / 2

instance (lib : LibM R) (params : ParameterSet R) (kbar D : R) (i j k : Nat) :
    Decidable (in_shell lib params kbar D i j k) := by
  unfold in_shell
  infer_instance

/-- Reference (specification side): the cells of the mesh as index triples. -/
def cells (params : ParameterSet R) : Finset (Nat × Nat × Nat) :=
  Finset.range (params.nmesh 0).toNat ×ˢ Finset.range (params.nmesh 1).toNat
    ×ˢ Finset.range (params.nmesh 2).toNat

/-- Reference (specification side): the value the 3PCF shell variant places in the cell
`(i, j, k)` of flat index `c`, `j_ℓ(kmag_c · rbar) · ylm[c] · density[c] / W(k_c) / volume`. -/
def threept_shell_value (lib : LibM R) (params : ParameterSet R) (density : Grid R) (rbar : R)
    (ylm : Int → Cx R) (bessel_j : R → R) (i j k : Nat) : Cx R :=
  let c := coord_flat params i j k
  let kvec := DensityField.grid_kvec lib params i j k
  let w := Cx.mul (ylm c)
    (Cx.divReal (density c) (DensityField.calc_interpolation_window_in_fourier lib params kvec))
  (bessel_j (DensityField.vec_mag lib kvec * rbar) * w.1 / params.volume,
   bessel_j (DensityField.vec_mag lib kvec * rbar) * w.2 / params.volume)

/-- Reference (specification side): the cells that make up the wavenumber bin `j` of the power
spectrum: the fine index `idx = ⌊kmag/1e-4 + 1/2⌋` is below `100000` and the fine-slot centre
`idx · 1e-4` lies in `(k_lower_j, kbin[j] + D/2]`, with `D = kbin[1] - kbin[0]` and
`k_lower_j = kbin[j] - D/2` if `kbin[j] > D/2`, else `0`. -/
def power_bin_cells (lib : LibM R) (params : ParameterSet R) (kbin : Nat → R) (j : Nat) :
    Finset (Nat × Nat × Nat) :=
  (cells params).filter (fun c =>
    TwoPointStatistics.idx_k lib params c.1 c.2.1 c.2.2 < 100000 ∧
    (if kbin j > (kbin 1 - kbin 0) / 2 then kbin j - (kbin 1 - kbin 0) / 2 else 0)
      < ((TwoPointStatistics.idx_k lib params c.1 c.2.1 c.2.2 : Int) : R) * (1 / 10000) ∧
    ((TwoPointStatistics.idx_k lib params c.1 c.2.1 c.2.2 : Int) : R) * (1 / 10000)
      ≤ kbin j + (kbin 1 - kbin 0) / 2)

/-- Reference (specification side): the cells whose wavenumber magnitude `kmag` itself lies in
the interval `(k_lower_j, kbin[j] + D/2]` of the bin `j`, with `D = kbin[1] - kbin[0]` and
`k_lower_j = kbin[j] - D/2` if `kbin[j] > D/2`, else `0`. -/
def exact_bin_cells (lib : LibM R) (params : ParameterSet R) (kbin : Nat → R) (j : Nat) :
    Finset (Nat × Nat × Nat) :=
  (cells params).filter (fun c =>
    (if kbin j > (kbin 1 - kbin 0) / 2 then kbin j - (kbin 1 - kbin 0) / 2 else 0)
      < DensityField.vec_mag lib (DensityField.grid_kvec lib params c.1 c.2.1 c.2.2) ∧
    DensityField.vec_mag lib (DensityField.grid_kvec lib params c.1 c.2.1 c.2.2)
      ≤ kbin j + (kbin 1 - kbin 0) / 2)

/-- Reference (specification side): the naive cell-by-cell power of scenario E3 for the bin `j`,
the average over the cells of the bin of `|delta(k)|² / volume`. -/
def naive_power (lib : LibM R) (params : ParameterSet R) (delta : Grid R) (kbin : Nat → R)
    (j : Nat) : Cx R :=
  Cx.divReal
    (∑ c ∈ power_bin_cells lib params kbin j,
      (((delta (coord_flat params c.1 c.2.1 c.2.2)).1 ^ 2
          + (delta (coord_flat params c.1 c.2.1 c.2.2)).2 ^ 2) / params.volume, (0 : R)))
    ((power_bin_cells lib params kbin j).card : R)

/-- Reference (specification side): the six cells of a cubic mesh of side `n` that carry the
modes `(±1,0,0)`, `(0,±1,0)`, `(0,0,±1)`: along an axis the index `1` is the mode `+1` and the
index `n - 1` the mode `-1`. -/
def axis_modes (n : Nat) : Finset (Nat × Nat × Nat) :=
  {(1, 0, 0), (n - 1, 0, 0), (0, 1, 0), (0, n - 1, 0), (0, 0, 1), (0, 0, n - 1)}

/-- Reference (specification side): the share of a particle's weight that the configured
kernel deposits in the cell of flat index `x`: the sum, over the covered triples whose flat index
is `x` and passes the guard, of `win[a][0] · win[b][1] · win[c][2]`. -/
def assign_share (params : ParameterSet R) (p : ParticleData R) (x : Int) : R :=
  ∑ a ∈ Finset.range (DensityField.kernel_order params),
    ∑ b ∈ Finset.range (DensityField.kernel_order params),
      ∑ c ∈ Finset.range (DensityField.kernel_order params),
        (if (0 ≤ coord_flat params (DensityField.kernel_ijk params p a 0)
                (DensityField.kernel_ijk params p b 1) (DensityField.kernel_ijk params p c 2) ∧
              coord_flat params (DensityField.kernel_ijk params p a 0)
                (DensityField.kernel_ijk params p b 1) (DensityField.kernel_ijk params p c 2)
                < params.nmesh_tot) ∧
            coord_flat params (DensityField.kernel_ijk params p a 0)
              (DensityField.kernel_ijk params p b 1) (DensityField.kernel_ijk params p c 2) = x
         then DensityField.kernel_win params p a 0 * DensityField.kernel_win params p b 1
            * DensityField.kernel_win params p c 2
         else 0)

end Reference

end Triumvirate

/-! # Checked properties -/

namespace Triumvirate

/-! ## Auxiliary lemmas -/

section Aux

variable {R : Type} [LinearOrderedField R] [FloorRing R]

theorem foldl_measure_add {σ β M : Type} [AddCommMonoid M] (μ : σ → M) (step : σ → β → σ)
    (g : β → M) (l : List β) (h : ∀ s, ∀ x ∈ l, μ (step s x) = μ s + g x) (s : σ) :
    μ (l.foldl step s) = μ s + (l.map g).sum := by
  induction l generalizing s with
  | nil => simp
  | cons x xs ih =>
    have hx := h s x (List.mem_cons_self x xs)
    have ih2 := ih (fun s y hy => h s y (List.mem_cons_of_mem x hy)) (step s x)
    simp only [List.foldl_cons, List.map_cons, List.sum_cons]
    rw [ih2, hx, add_assoc]

theorem gridSum_update_add (params : ParameterSet R) (f : Grid R) (c : Int) (v : Cx R)
    (hc : 0 ≤ c ∧ c < params.nmesh_tot) :
    gridSum params (Function.update f c (f c + v)) = gridSum params f + v := by
  unfold gridSum
  have hmem : c ∈ Finset.Ico (0 : Int) params.nmesh_tot := Finset.mem_Ico.mpr hc
  rw [Finset.sum_update_of_mem hmem, ← Finset.add_sum_erase _ f hmem, Finset.sdiff_singleton_eq_erase]
  abel

theorem gridSum_zero_field (params : ParameterSet R) (f : Grid R) :
    gridSum params (zero_field params f) = 0 := by
  unfold gridSum zero_field
  apply Finset.sum_eq_zero
  intro c hc
  rw [if_pos (Finset.mem_Ico.mp hc)]
  rfl

end Aux

end Triumvirate

namespace Triumvirate

namespace DensityField

variable {R : Type} [LinearOrderedField R] [FloorRing R]

theorem gridSum_deposit (params : ParameterSet R) (order : Nat) (ijk : Nat → Fin 3 → Int)
    (win : Nat → Fin 3 → R) (cvf : R) (w : Cx R) (field : Grid R)
    (h : ∀ a < order, ∀ b < order, ∀ c < order,
      0 ≤ coord_flat params (ijk a 0) (ijk b 1) (ijk c 2) ∧
      coord_flat params (ijk a 0) (ijk b 1) (ijk c 2) < params.nmesh_tot) :
    gridSum params (deposit params order ijk win cvf w field) =
      gridSum params field +
        ((List.range order).map (fun a => ((List.range order).map (fun b =>
          ((List.range order).map (fun c => deposit_value win cvf w a b c)).sum)).sum)).sum := by
  unfold deposit
  apply foldl_measure_add (gridSum params)
  intro s a ha
  apply foldl_measure_add (gridSum params)
  intro s b hb
  apply foldl_measure_add (gridSum params)
  intro s c hc
  have hin := h a (List.mem_range.mp ha) b (List.mem_range.mp hb) c (List.mem_range.mp hc)
  simp only [if_pos hin]
  exact gridSum_update_add params s _ _ hin

theorem win_sum_ngp (w : Cx R) (cvf : R) :
    ((List.range 1).map (fun a => ((List.range 1).map (fun b =>
      ((List.range 1).map (fun c => deposit_value (win_ngp : Nat → Fin 3 → R) cvf w a b c)).sum)).sum)).sum
      = (cvf * w.1, cvf * w.2) := by
  simp [List.range_succ, deposit_value, win_ngp]

theorem win_sum_cic (params : ParameterSet R) (p : ParticleData R) (w : Cx R) (cvf : R) :
    ((List.range 2).map (fun a => ((List.range 2).map (fun b =>
      ((List.range 2).map (fun c => deposit_value (win_cic params p) cvf w a b c)).sum)).sum)).sum
      = (cvf * w.1, cvf * w.2) := by
  simp only [List.range_succ, List.range_zero, deposit_value, win_cic, List.nil_append,
    List.cons_append, List.map_cons, List.map_nil, List.sum_cons, List.sum_nil]
  simp only [Prod.mk_add_mk, Prod.mk_zero_zero, add_zero, if_true, one_ne_zero, if_false]
  refine Prod.ext ?_ ?_ <;> simp only <;> ring

theorem win_sum_tsc (params : ParameterSet R) (p : ParticleData R) (w : Cx R) (cvf : R) :
    ((List.range 3).map (fun a => ((List.range 3).map (fun b =>
      ((List.range 3).map (fun c => deposit_value (win_tsc params p) cvf w a b c)).sum)).sum)).sum
      = (cvf * w.1, cvf * w.2) := by
  simp only [List.range_succ, List.range_zero, deposit_value, win_tsc, List.nil_append,
    List.cons_append, List.map_cons, List.map_nil, List.sum_cons, List.sum_nil]
  simp only [Prod.mk_add_mk, Prod.mk_zero_zero, add_zero, if_true, one_ne_zero, if_false,
    show ((0 : Nat) + 1 = 0) = False from by simp, show ((0 : Nat) + 1 + 1 = 0) = False from by simp,
    show ((0 : Nat) + 1 + 1 = 1) = False from by simp, show ((0 : Nat) + 1 = 1) = True from by simp,
    zero_add]
  refine Prod.ext ?_ ?_ <;> simp only <;> ring

end DensityField

end Triumvirate

namespace Triumvirate

namespace DensityField

variable {R : Type} [LinearOrderedField R] [FloorRing R]

theorem list_range_map_sum {M : Type} [AddCommMonoid M] (g : Nat → M) (n : Nat) :
    ((List.range n).map g).sum = ∑ id ∈ Finset.range n, g id := by
  induction n with
  | zero => simp
  | succ n ih => rw [List.range_succ, List.map_append, List.sum_append, ih, Finset.sum_range_succ]; simp

/-- Mass bookkeeping of a particle loop whose every step deposits without loss. -/
theorem gridSum_particle_loop (params : ParameterSet R) (field : Grid R) (n order : Nat)
    (ijk : Nat → Nat → Fin 3 → Int) (win : Nat → Nat → Fin 3 → R) (cvf : R) (weight : Nat → Cx R)
    (hsum : ∀ id, ((List.range order).map (fun a => ((List.range order).map (fun b =>
      ((List.range order).map (fun c => deposit_value (win id) cvf (weight id) a b c)).sum)).sum)).sum
        = (cvf * (weight id).1, cvf * (weight id).2))
    (h : ∀ id < n, ∀ a < order, ∀ b < order, ∀ c < order,
      0 ≤ coord_flat params (ijk id a 0) (ijk id b 1) (ijk id c 2) ∧
      coord_flat params (ijk id a 0) (ijk id b 1) (ijk id c 2) < params.nmesh_tot) :
    gridSum params ((List.range n).foldl (fun f id =>
        deposit params order (ijk id) (win id) cvf (weight id) f) (zero_field params field))
      = ∑ id ∈ Finset.range n, (cvf * (weight id).1, cvf * (weight id).2) := by
  rw [foldl_measure_add (gridSum params) _ (fun id => (cvf * (weight id).1, cvf * (weight id).2)),
    gridSum_zero_field, zero_add, list_range_map_sum]
  intro s id hid
  rw [gridSum_deposit params order (ijk id) (win id) cvf (weight id) s
    (h id (List.mem_range.mp hid)), hsum id]

theorem gridSum_assign (params : ParameterSet R) (field : Grid R)
    (particles : ParticleCatalogue R) (weight : Nat → Cx R)
    (hkernel : params.assignment = "NGP" ∨ params.assignment = "CIC" ∨ params.assignment = "TSC")
    (hnodrop : ∀ id < particles.nparticles, ∀ a < kernel_order params,
      ∀ b < kernel_order params, ∀ c < kernel_order params,
      0 ≤ coord_flat params (kernel_ijk params (particles.pdata id) a 0)
        (kernel_ijk params (particles.pdata id) b 1) (kernel_ijk params (particles.pdata id) c 2) ∧
      coord_flat params (kernel_ijk params (particles.pdata id) a 0)
        (kernel_ijk params (particles.pdata id) b 1) (kernel_ijk params (particles.pdata id) c 2)
        < params.nmesh_tot) :
    gridSum params (assign_weighted_field_to_grid params field particles weight).2
      = ∑ id ∈ Finset.range particles.nparticles,
          (1 / (params.volume / (params.nmesh_tot : R)) * (weight id).1,
           1 / (params.volume / (params.nmesh_tot : R)) * (weight id).2) := by
  rcases hkernel with hk | hk | hk
  · simp only [kernel_order, kernel_ijk, hk, if_true] at hnodrop
    simp only [assign_weighted_field_to_grid, hk, if_true, assign_weighted_field_to_grid_ngp]
    exact gridSum_particle_loop params field particles.nparticles 1
      (fun id => ijk_ngp params (particles.pdata id)) (fun _ => win_ngp) _ weight
      (fun id => win_sum_ngp _ _) hnodrop
  · have h1 : ¬ ("CIC" = "NGP") := by decide
    simp only [kernel_order, kernel_ijk, hk, h1, if_true, if_false] at hnodrop
    simp only [assign_weighted_field_to_grid, hk, h1, if_true, if_false,
      assign_weighted_field_to_grid_cic]
    exact gridSum_particle_loop params field particles.nparticles 2
      (fun id => ijk_cic params (particles.pdata id)) (fun id => win_cic params (particles.pdata id))
      _ weight (fun id => win_sum_cic params _ _ _) hnodrop
  · have h1 : ¬ ("TSC" = "NGP") := by decide
    have h2 : ¬ ("TSC" = "CIC") := by decide
    simp only [kernel_order, kernel_ijk, hk, h1, h2, if_true, if_false] at hnodrop
    simp only [assign_weighted_field_to_grid, hk, h1, h2, if_true, if_false,
      assign_weighted_field_to_grid_tsc]
    exact gridSum_particle_loop params field particles.nparticles 3
      (fun id => ijk_tsc params (particles.pdata id)) (fun id => win_tsc params (particles.pdata id))
      _ weight (fun id => win_sum_tsc params _ _ _) hnodrop

end DensityField

end Triumvirate

namespace Triumvirate

section Eval

variable {R : Type} [LinearOrderedField R] [FloorRing R]

theorem toInt_intCast (z : Int) : toInt ((z : Int) : R) = z := by
  unfold toInt
  split <;> simp

theorem toInt_zero : toInt (0 : R) = 0 := by
  have := toInt_intCast (R := R) 0
  simpa using this

end Eval

namespace DensityField

variable {R : Type} [LinearOrderedField R] [FloorRing R]

/-- C1. Mass conservation: for each of the kernels NGP, CIC and TSC and every catalogue with
complex weights whose positions lie in `[0, boxsize[a])` on every axis, if no covered cell of any
particle is dropped (every flat index lies in `[0, nmesh_tot)`), then after
`assign_weighted_field_to_grid` the sum over all cells of `field(x) * dV` equals the sum of the
weights, where `dV = volume / nmesh_tot`. -/
theorem assign_mass_conservation (params : ParameterSet R) (field : Grid R)
    (particles : ParticleCatalogue R) (weight : Nat → Cx R)
    (hkernel : params.assignment = "NGP" ∨ params.assignment = "CIC" ∨ params.assignment = "TSC")
    (hder : params.Derived)
    (hpos : ∀ id < particles.nparticles, ∀ a : Fin 3,
      0 ≤ (particles.pdata id).pos a ∧ (particles.pdata id).pos a < params.boxsize a)
    (hnodrop : ∀ id < particles.nparticles, ∀ a < kernel_order params,
      ∀ b < kernel_order params, ∀ c < kernel_order params,
      0 ≤ coord_flat params (kernel_ijk params (particles.pdata id) a 0)
        (kernel_ijk params (particles.pdata id) b 1) (kernel_ijk params (particles.pdata id) c 2) ∧
      coord_flat params (kernel_ijk params (particles.pdata id) a 0)
        (kernel_ijk params (particles.pdata id) b 1) (kernel_ijk params (particles.pdata id) c 2)
        < params.nmesh_tot) :
    Cx.mulReal (gridSum params (assign_weighted_field_to_grid params field particles weight).2)
        (params.volume / (params.nmesh_tot : R))
      = ∑ id ∈ Finset.range particles.nparticles, weight id := by
  rw [gridSum_assign params field particles weight hkernel hnodrop]
  rcases Nat.eq_zero_or_pos particles.nparticles with hn | hn
  · rw [hn]; simp [Cx.mulReal]
  · have hord : 0 < kernel_order params := by
      rcases hkernel with hk | hk | hk
      · simp [kernel_order, hk]
      · have h1 : ¬ ("CIC" = "NGP") := by decide
        simp [kernel_order, hk, h1]
      · have h1 : ¬ ("TSC" = "NGP") := by decide
        have h2 : ¬ ("TSC" = "CIC") := by decide
        simp [kernel_order, hk, h1, h2]
    have htot : (0 : R) < (params.nmesh_tot : R) := by
      have := hnodrop 0 hn 0 hord 0 hord 0 hord
      exact_mod_cast lt_of_le_of_lt this.1 this.2
    have hbox : ∀ a : Fin 3, 0 < params.boxsize a := fun a =>
      lt_of_le_of_lt (hpos 0 hn a).1 (hpos 0 hn a).2
    have hvol : 0 < params.volume := by
      rw [hder.2]
      exact mul_pos (mul_pos (hbox 0) (hbox 1)) (hbox 2)
    have hdV : params.volume / (params.nmesh_tot : R) ≠ 0 := (div_pos hvol htot).ne'
    unfold Cx.mulReal
    refine Prod.ext ?_ ?_
    · simp only [Prod.fst_sum, Finset.sum_mul]
      refine Finset.sum_congr rfl (fun id _ => ?_)
      field_simp
    · simp only [Prod.snd_sum, Finset.sum_mul]
      refine Finset.sum_congr rfl (fun id _ => ?_)
      field_simp

/-- Witness for C1: one CIC particle of weight 1 at the origin of a 2×2×2 mesh of unit box. -/
theorem assign_mass_conservation_witness :
    Cx.mulReal (gridSum (R := ℚ)
        ⟨fun _ => 2, fun _ => 1, 8, 1, "CIC", 0, 0, 0, 2, 2⟩
        (assign_weighted_field_to_grid ⟨fun _ => 2, fun _ => 1, 8, 1, "CIC", 0, 0, 0, 2, 2⟩
          (fun _ => (0, 0)) ⟨1, fun _ => ⟨fun _ => 0, 1, 1, 1, 1⟩⟩ (fun _ => (1, 0))).2)
        ((1 : ℚ) / ((8 : Int) : ℚ))
      = ∑ _id ∈ Finset.range 1, ((1 : ℚ), (0 : ℚ)) :=
  assign_mass_conservation (R := ℚ) ⟨fun _ => 2, fun _ => 1, 8, 1, "CIC", 0, 0, 0, 2, 2⟩
    (fun _ => (0, 0)) ⟨1, fun _ => ⟨fun _ => 0, 1, 1, 1, 1⟩⟩ (fun _ => (1, 0))
    (Or.inr (Or.inl rfl))
    (by constructor <;> norm_num)
    (by intro id _ a; norm_num)
    (by
      have h1 : ¬ ("CIC" = "NGP") := by decide
      intro id _ a ha b hb c hc
      simp only [kernel_order, h1, if_false, if_true] at ha hb hc
      simp only [kernel_ijk, h1, if_false, if_true, ijk_cic, loc_grid, coord_flat, mul_zero,
        zero_div, toInt_zero]
      interval_cases a <;> interval_cases b <;> interval_cases c <;> simp)

end DensityField

end Triumvirate

namespace Triumvirate

namespace power

/-- C5. Multipole validation of the survey, window and periodic-box power estimators: on the root
task (`thisTask = 0`) each of `calc_power_spec`, `calc_corr_func`, `calc_power_spec_window`,
`calc_corr_func_window`, `calc_power_spec_in_box` and `calc_power_spec_in_box_for_recon` ends with
`exit(1)`, without running the measurement body, if and only if not
(`ell1 == ELL` and `ell2 == 0`). -/
theorem two_point_multipole_validation {R α : Type} (params : ParameterSet R) (body : Unit → α) :
    (calc_power_spec 0 params body = Except.error 1 ↔
        ¬(params.ell1 = params.ELL ∧ params.ell2 = 0)) ∧
    (calc_corr_func 0 params body = Except.error 1 ↔
        ¬(params.ell1 = params.ELL ∧ params.ell2 = 0)) ∧
    (calc_power_spec_window 0 params body = Except.error 1 ↔
        ¬(params.ell1 = params.ELL ∧ params.ell2 = 0)) ∧
    (calc_corr_func_window 0 params body = Except.error 1 ↔
        ¬(params.ell1 = params.ELL ∧ params.ell2 = 0)) ∧
    (calc_power_spec_in_box 0 params body = Except.error 1 ↔
        ¬(params.ell1 = params.ELL ∧ params.ell2 = 0)) ∧
    (calc_power_spec_in_box_for_recon 0 params body = Except.error 1 ↔
        ¬(params.ell1 = params.ELL ∧ params.ell2 = 0)) := by
  unfold calc_power_spec calc_corr_func calc_power_spec_window calc_corr_func_window
    calc_power_spec_in_box calc_power_spec_in_box_for_recon
  by_cases h : params.ell1 = params.ELL ∧ params.ell2 = 0
  · simp [h]
  · simp [h]

/-- C6 (code at the failing input). With `ell1 = ELL = 0` and `ell2 = 2` the check of
`calc_corr_func_in_box`, written `!(ell1 == ELL) && (ell2 == 0)`, lets the run proceed on the root
task although the combination is not (`ell1 == ELL` and `ell2 == 0`), while the sibling
`calc_corr_func` exits on the same parameters. -/
theorem calc_corr_func_in_box_accepts_invalid_multipoles :
    calc_corr_func_in_box (R := ℚ) 0
        ⟨fun _ => 2, fun _ => 1, 8, 1, "CIC", 0, 2, 0, 2, 2⟩ (fun _ => (0 : Int))
      = Except.ok 0 ∧
    calc_corr_func (R := ℚ) 0
        ⟨fun _ => 2, fun _ => 1, 8, 1, "CIC", 0, 2, 0, 2, 2⟩ (fun _ => (0 : Int))
      = Except.error 1 ∧
    ¬((0 : Int) = 0 ∧ (2 : Int) = 0) := by
  refine ⟨?_, ?_, ?_⟩
  · simp [calc_corr_func_in_box]
  · simp [calc_corr_func]
  · decide

end power

end Triumvirate

namespace Triumvirate

section Eval

variable {R : Type} [LinearOrderedField R] [FloorRing R]

/-- The conversion `int(z + 1.e-5)` of an integer-valued double: `z` itself when `z ≥ 0`, but
`z + 1` when `z < 0`, since the conversion truncates toward zero. -/
theorem toInt_intCast_add_eps (z : Int) :
    toInt ((z : R) + 1 / 100000) = if 0 ≤ z then z else z + 1 := by
  have heps0 : (0 : R) < 1 / 100000 := by norm_num
  have heps1 : (1 : R) / 100000 < 1 := by norm_num
  unfold toInt
  by_cases hz : 0 ≤ z
  · have h0 : (0 : R) ≤ (z : R) + 1 / 100000 := by
      have : (0 : R) ≤ (z : R) := by exact_mod_cast hz
      linarith
    rw [if_pos h0, if_pos hz, Int.floor_int_add]
    have : Int.floor ((1 : R) / 100000) = 0 := by
      rw [Int.floor_eq_iff]; constructor <;> norm_num
    rw [this, add_zero]
  · have hz1 : z ≤ -1 := by omega
    have h0 : ¬ (0 : R) ≤ (z : R) + 1 / 100000 := by
      have : (z : R) ≤ -1 := by exact_mod_cast hz1
      intro h; linarith
    rw [if_neg h0, if_neg hz, add_comm, Int.ceil_add_int]
    have : Int.ceil ((1 : R) / 100000) = 1 := by
      rw [Int.ceil_eq_iff]; constructor <;> norm_num
    rw [this]; ring

end Eval

namespace DensityField

variable {R : Type} [LinearOrderedField R] [FloorRing R]

theorem grid_kvec_eq (lib : LibM R) (params : ParameterSet R) (i j k : Int) (a : Fin 3) :
    grid_kvec lib params i j k a
      = ((folded_index params a (if a = 0 then i else if a = 1 then j else k) : Int) : R)
          * mode_dk lib params a := by
  unfold grid_kvec folded_index
  simp only
  generalize (if a = 0 then i else if a = 1 then j else k) = idx
  by_cases h : idx < Int.tdiv (params.nmesh a) 2
  · rw [if_pos h, if_pos h]
  · rw [if_neg h, if_neg h]

/-- The index the window and shot-noise routines recover from the folded wave-vector of a grid
cell: the folded index `f` when `f ≥ 0`, and `f + 1` when `f < 0`. -/
theorem window_index_grid_kvec (lib : LibM R) (params : ParameterSet R) (i j k : Int) (a : Fin 3)
    (hdk : mode_dk lib params a ≠ 0) :
    window_index lib params (grid_kvec lib params i j k) a
      = if 0 ≤ folded_index params a (if a = 0 then i else if a = 1 then j else k)
        then folded_index params a (if a = 0 then i else if a = 1 then j else k)
        else folded_index params a (if a = 0 then i else if a = 1 then j else k) + 1 := by
  unfold window_index
  rw [grid_kvec_eq, mul_div_assoc, div_self hdk, mul_one, toInt_intCast_add_eps]

end DensityField

end Triumvirate

namespace Triumvirate

namespace DensityField

/-- C3 (code at the failing input). On a 4×4×4 mesh of unit box with the CIC kernel and the real
`sin` and `π`, the grid cell `(3, 0, 0)` has folded index `-1` on the first axis; the index the
window routine recovers as `int(kvec/dk + 1.e-5)` is `0`, so the routine returns `1`, whereas the
window formula `(sinc(π f_0/nmesh[0]) sinc(π f_1/nmesh[1]) sinc(π f_2/nmesh[2]))²` is below `1`
there. -/
theorem window_at_negative_folded_index :
    folded_index (R := ℝ) ⟨fun _ => 4, fun _ => 1, 64, 1, "CIC", 0, 0, 0, 2, 2⟩ 0 3 = -1 ∧
    window_index ⟨Real.pi, Real.sin, Real.sqrt⟩
        ⟨fun _ => 4, fun _ => 1, 64, 1, "CIC", 0, 0, 0, 2, 2⟩
        (grid_kvec ⟨Real.pi, Real.sin, Real.sqrt⟩
          ⟨fun _ => 4, fun _ => 1, 64, 1, "CIC", 0, 0, 0, 2, 2⟩ 3 0 0) 0 = 0 ∧
    calc_interpolation_window_in_fourier ⟨Real.pi, Real.sin, Real.sqrt⟩
        ⟨fun _ => 4, fun _ => 1, 64, 1, "CIC", 0, 0, 0, 2, 2⟩
        (grid_kvec ⟨Real.pi, Real.sin, Real.sqrt⟩
          ⟨fun _ => 4, fun _ => 1, 64, 1, "CIC", 0, 0, 0, 2, 2⟩ 3 0 0) = 1 ∧
    Reference.window ⟨Real.pi, Real.sin, Real.sqrt⟩
        ⟨fun _ => 4, fun _ => 1, 64, 1, "CIC", 0, 0, 0, 2, 2⟩ 2 3 0 0 < 1 := by
  have hdk : ∀ a : Fin 3, mode_dk (R := ℝ) ⟨Real.pi, Real.sin, Real.sqrt⟩
      ⟨fun _ => 4, fun _ => 1, 64, 1, "CIC", 0, 0, 0, 2, 2⟩ a ≠ 0 := by
    intro a; simp [mode_dk, Real.pi_ne_zero]
  have hf3 : folded_index (R := ℝ) ⟨fun _ => 4, fun _ => 1, 64, 1, "CIC", 0, 0, 0, 2, 2⟩ 0 3
      = -1 := by
    simp [folded_index, show Int.tdiv 4 2 = 2 from rfl]
  have hf0 : ∀ a : Fin 3,
      folded_index (R := ℝ) ⟨fun _ => 4, fun _ => 1, 64, 1, "CIC", 0, 0, 0, 2, 2⟩ a 0 = 0 := by
    intro a; simp [folded_index, show Int.tdiv 4 2 = 2 from rfl]
  have h0 := window_index_grid_kvec (R := ℝ) ⟨Real.pi, Real.sin, Real.sqrt⟩
    ⟨fun _ => 4, fun _ => 1, 64, 1, "CIC", 0, 0, 0, 2, 2⟩ 3 0 0 0 (hdk 0)
  have h1 := window_index_grid_kvec (R := ℝ) ⟨Real.pi, Real.sin, Real.sqrt⟩
    ⟨fun _ => 4, fun _ => 1, 64, 1, "CIC", 0, 0, 0, 2, 2⟩ 3 0 0 1 (hdk 1)
  have h2 := window_index_grid_kvec (R := ℝ) ⟨Real.pi, Real.sin, Real.sqrt⟩
    ⟨fun _ => 4, fun _ => 1, 64, 1, "CIC", 0, 0, 0, 2, 2⟩ 3 0 0 2 (hdk 2)
  simp only [if_true, hf3] at h0
  norm_num at h0
  simp only [show ((1 : Fin 3) = 0) = False from by decide, if_false, if_true, hf0] at h1
  simp only [show ((2 : Fin 3) = 0) = False from by decide,
    show ((2 : Fin 3) = 1) = False from by decide, if_false, hf0] at h2
  norm_num at h1 h2
  refine ⟨hf3, h0, ?_, ?_⟩
  · have hc : ¬ ("CIC" = "NGP") := by decide
    simp only [calc_interpolation_window_in_fourier, hc, if_false, if_true,
      calc_interpolation_window_in_fourier_cic, h0, h1, h2]
    norm_num
  · simp only [Reference.window, Reference.cell_angle, hf3, hf0, Reference.sinc]
    have hx : (0 : ℝ) < Real.pi / 4 := by positivity
    have hs : Real.sin (Real.pi / 4) < Real.pi / 4 := Real.sin_lt hx
    have hs0 : 0 < Real.sin (Real.pi / 4) := by
      rw [Real.sin_pi_div_four]; positivity
    have hne : Real.pi * ((-1 : Int) : ℝ) / ((4 : Int) : ℝ) ≠ 0 := by
      have := Real.pi_pos
      norm_num
      exact this.ne'
    have hval : Real.sin (Real.pi * ((-1 : Int) : ℝ) / ((4 : Int) : ℝ))
        / (Real.pi * ((-1 : Int) : ℝ) / ((4 : Int) : ℝ))
        = Real.sin (Real.pi / 4) / (Real.pi / 4) := by
      have : Real.pi * ((-1 : Int) : ℝ) / ((4 : Int) : ℝ) = -(Real.pi / 4) := by
        push_cast; ring
      rw [this, Real.sin_neg, neg_div_neg_eq]
    rw [if_neg hne, hval]
    simp only [Int.cast_zero, mul_zero, zero_div, if_true, mul_one]
    have hr1 : Real.sin (Real.pi / 4) / (Real.pi / 4) < 1 := (div_lt_one hx).mpr hs
    have hr0 : 0 < Real.sin (Real.pi / 4) / (Real.pi / 4) := div_pos hs0 hx
    nlinarith

end DensityField

end Triumvirate

namespace Triumvirate

namespace TwoPointStatistics

/-- C4 (code at the failing input). On a 4×4×4 mesh of unit box with the CIC kernel and the real
`sin` and `π`, at the grid cell `(3, 0, 0)` (folded index `-1` on the first axis)
`calc_shotnoise_func` returns `1`, whereas the attenuation formula
`Π_a (1 - 2/3 sin²(π f_a/nmesh[a]))` gives `2/3`. -/
theorem shotnoise_at_negative_folded_index :
    calc_shotnoise_func ⟨Real.pi, Real.sin, Real.sqrt⟩
        ⟨fun _ => 4, fun _ => 1, 64, 1, "CIC", 0, 0, 0, 2, 2⟩
        (DensityField.grid_kvec ⟨Real.pi, Real.sin, Real.sqrt⟩
          ⟨fun _ => 4, fun _ => 1, 64, 1, "CIC", 0, 0, 0, 2, 2⟩ 3 0 0) = 1 ∧
    Reference.shotnoise_cic ⟨Real.pi, Real.sin, Real.sqrt⟩
        ⟨fun _ => 4, fun _ => 1, 64, 1, "CIC", 0, 0, 0, 2, 2⟩ 3 0 0 = 2 / 3 := by
  have hdk : ∀ a : Fin 3, DensityField.mode_dk (R := ℝ) ⟨Real.pi, Real.sin, Real.sqrt⟩
      ⟨fun _ => 4, fun _ => 1, 64, 1, "CIC", 0, 0, 0, 2, 2⟩ a ≠ 0 := by
    intro a; simp [DensityField.mode_dk, Real.pi_ne_zero]
  have hf3 : DensityField.folded_index (R := ℝ)
      ⟨fun _ => 4, fun _ => 1, 64, 1, "CIC", 0, 0, 0, 2, 2⟩ 0 3 = -1 := by
    simp [DensityField.folded_index, show Int.tdiv 4 2 = 2 from rfl]
  have hf0 : ∀ a : Fin 3, DensityField.folded_index (R := ℝ)
      ⟨fun _ => 4, fun _ => 1, 64, 1, "CIC", 0, 0, 0, 2, 2⟩ a 0 = 0 := by
    intro a; simp [DensityField.folded_index, show Int.tdiv 4 2 = 2 from rfl]
  have h0 := DensityField.window_index_grid_kvec (R := ℝ) ⟨Real.pi, Real.sin, Real.sqrt⟩
    ⟨fun _ => 4, fun _ => 1, 64, 1, "CIC", 0, 0, 0, 2, 2⟩ 3 0 0 0 (hdk 0)
  have h1 := DensityField.window_index_grid_kvec (R := ℝ) ⟨Real.pi, Real.sin, Real.sqrt⟩
    ⟨fun _ => 4, fun _ => 1, 64, 1, "CIC", 0, 0, 0, 2, 2⟩ 3 0 0 1 (hdk 1)
  have h2 := DensityField.window_index_grid_kvec (R := ℝ) ⟨Real.pi, Real.sin, Real.sqrt⟩
    ⟨fun _ => 4, fun _ => 1, 64, 1, "CIC", 0, 0, 0, 2, 2⟩ 3 0 0 2 (hdk 2)
  simp only [if_true, hf3] at h0
  norm_num at h0
  simp only [show ((1 : Fin 3) = 0) = False from by decide, if_false, if_true, hf0] at h1
  simp only [show ((2 : Fin 3) = 0) = False from by decide,
    show ((2 : Fin 3) = 1) = False from by decide, if_false, hf0] at h2
  norm_num at h1 h2
  constructor
  · have hc : ¬ ("CIC" = "NGP") := by decide
    simp only [calc_shotnoise_func, hc, if_false, if_true, calc_shotnoise_func_cic, h0, h1, h2]
    norm_num
  · simp only [Reference.shotnoise_cic, Reference.cell_angle, hf3, hf0]
    have hang : Real.pi * ((-1 : Int) : ℝ) / ((4 : Int) : ℝ) = -(Real.pi / 4) := by
      push_cast; ring
    have hsq : Real.sin (Real.pi / 4) ^ 2 = 1 / 2 := by
      rw [Real.sin_pi_div_four, div_pow, Real.sq_sqrt (by norm_num : (0 : ℝ) ≤ 2)]
      norm_num
    rw [hang, Real.sin_neg, neg_sq, hsq]
    simp only [Int.cast_zero, mul_zero, zero_div, Real.sin_zero]
    norm_num

end TwoPointStatistics

end Triumvirate

namespace Triumvirate

namespace DensityField

variable {R : Type} [LinearOrderedField R] [FloorRing R]

/-- C9. FFT round trip: taking the library transforms as the unnormalised forward and backward
3-D DFT pair (backward after forward multiplies by `nmesh_tot`), `calc_inverse_fourier_transform`
applied after `calc_fourier_transform` returns every cell of every field to itself for any
`volume > 0` and `nmesh_tot ≥ 1`: the prefactors `dV = volume / nmesh_tot` and `1 / volume`
multiply to `1 / nmesh_tot`. -/
theorem fourier_round_trip (fftw : FFTW R) (params : ParameterSet R) (field : Grid R)
    (hdft : fftw.IsDFTPair params) (hvol : 0 < params.volume) (htot : 1 ≤ params.nmesh_tot)
    (c : Int) (hc : 0 ≤ c ∧ c < params.nmesh_tot) :
    calc_inverse_fourier_transform fftw params (calc_fourier_transform fftw params field) c
      = field c := by
  have hN : (0 : R) < (params.nmesh_tot : R) := by
    have : (1 : R) ≤ (params.nmesh_tot : R) := by exact_mod_cast htot
    linarith
  unfold calc_inverse_fourier_transform calc_fourier_transform
  simp only
  have hagree : ∀ x : Int, 0 ≤ x ∧ x < params.nmesh_tot →
      divide_cells params params.volume
          (fftw.forward (params.nmesh 0) (params.nmesh 1) (params.nmesh 2)
            (scale_cells params (params.volume / (params.nmesh_tot : R)) field)) x
        = scale_cells params (params.volume / (params.nmesh_tot : R) / params.volume)
            (fftw.forward (params.nmesh 0) (params.nmesh 1) (params.nmesh 2) field) x := by
    intro x hx
    simp only [divide_cells, scale_cells, if_pos hx]
    rw [hdft.forward_scale _ _ x hx]
    simp only [Cx.mulReal, scale_cells]
    refine Prod.ext ?_ ?_ <;> simp only <;> ring
  rw [hdft.backward_cells _ _ hagree c hc, hdft.backward_scale _ _ c hc,
    hdft.backward_forward _ c hc]
  simp only [Cx.mulReal]
  have hV : params.volume ≠ 0 := hvol.ne'
  have hN0 : (params.nmesh_tot : R) ≠ 0 := hN.ne'
  refine Prod.ext ?_ ?_ <;> simp only <;> field_simp <;> ring

/-- Witness for C9: the one-cell mesh, whose DFT pair is the identity, with `volume = 2`. -/
theorem fourier_round_trip_witness :
    calc_inverse_fourier_transform (R := ℚ) ⟨fun _ _ _ g => g, fun _ _ _ g => g⟩
        ⟨fun _ => 1, fun _ => 2, 1, 2, "NGP", 0, 0, 0, 2, 2⟩
        (calc_fourier_transform ⟨fun _ _ _ g => g, fun _ _ _ g => g⟩
          ⟨fun _ => 1, fun _ => 2, 1, 2, "NGP", 0, 0, 0, 2, 2⟩ (fun _ => (3, 4))) 0
      = (3, 4) :=
  fourier_round_trip (R := ℚ) ⟨fun _ _ _ g => g, fun _ _ _ g => g⟩
    ⟨fun _ => 1, fun _ => 2, 1, 2, "NGP", 0, 0, 0, 2, 2⟩ (fun _ => (3, 4))
    ⟨fun a g c hc => by simp [scale_cells, Cx.mulReal, hc],
     fun a g c hc => by simp [scale_cells, Cx.mulReal, hc],
     fun g h hgh c hc => hgh c hc,
     fun g c hc => by simp [Cx.mulReal]⟩
    (by norm_num) (by norm_num) 0 (by norm_num)

end DensityField

end Triumvirate

namespace Triumvirate

section Eval

variable {R : Type} [LinearOrderedField R] [FloorRing R]

theorem toInt_of_bounds (x : R) (z : Int) (h0 : 0 ≤ z) (h1 : (z : R) ≤ x) (h2 : x < (z : R) + 1) :
    toInt x = z := by
  unfold toInt
  have hx : (0 : R) ≤ x := le_trans (by exact_mod_cast h0) h1
  rw [if_pos hx, Int.floor_eq_iff]
  exact ⟨h1, h2⟩

end Eval

namespace DensityField

variable {R : Type} [LinearOrderedField R] [FloorRing R]

/-- The content of one cell after the deposition loop of one particle: the covered cells whose
flat index passes the guard and equals `x` add their values to `field[x]`. -/
theorem deposit_apply (params : ParameterSet R) (order : Nat) (ijk : Nat → Fin 3 → Int)
    (win : Nat → Fin 3 → R) (cvf : R) (w : Cx R) (field : Grid R) (x : Int) :
    deposit params order ijk win cvf w field x =
      field x +
        ((List.range order).map (fun a => ((List.range order).map (fun b =>
          ((List.range order).map (fun c =>
            if (0 ≤ coord_flat params (ijk a 0) (ijk b 1) (ijk c 2) ∧
                coord_flat params (ijk a 0) (ijk b 1) (ijk c 2) < params.nmesh_tot) ∧
                coord_flat params (ijk a 0) (ijk b 1) (ijk c 2) = x
            then deposit_value win cvf w a b c else 0)).sum)).sum)).sum := by
  unfold deposit
  apply foldl_measure_add (fun f : Grid R => f x)
  intro s a _
  apply foldl_measure_add (fun f : Grid R => f x)
  intro s b _
  apply foldl_measure_add (fun f : Grid R => f x)
  intro s c _
  show (if 0 ≤ coord_flat params (ijk a 0) (ijk b 1) (ijk c 2) ∧
        coord_flat params (ijk a 0) (ijk b 1) (ijk c 2) < params.nmesh_tot then
      Function.update s (coord_flat params (ijk a 0) (ijk b 1) (ijk c 2))
        (s (coord_flat params (ijk a 0) (ijk b 1) (ijk c 2)) + deposit_value win cvf w a b c)
      else s) x = s x + _
  by_cases hin : 0 ≤ coord_flat params (ijk a 0) (ijk b 1) (ijk c 2) ∧
      coord_flat params (ijk a 0) (ijk b 1) (ijk c 2) < params.nmesh_tot
  · rw [if_pos hin]
    by_cases hx : coord_flat params (ijk a 0) (ijk b 1) (ijk c 2) = x
    · rw [if_pos ⟨hin, hx⟩, ← hx, Function.update_same]
    · rw [if_neg (fun h => hx h.2), Function.update_noteq (Ne.symm hx), add_zero]
  · rw [if_neg hin, if_neg (fun h => hin h.1), add_zero]

/-- C10 (code at the failing input). CIC on a 2×2×2 mesh of unit box, one particle of weight 1 at
`(0, 0, 3/4)`: the covered index on the third axis is `{1, 2}`, and `2 = nmesh[2]` lies outside
the mesh; the covered triple `(0, 0, 2)` has flat index `2`, passes the guard on the flat index
and lands in the cell `(0, 1, 0)`, which then holds `4 = cell_vol_factor / 2` although no covered
triple of the particle equals `(0, 1, 0)`. -/
theorem assign_cic_wraps_into_next_row :
    ijk_cic (R := ℚ) ⟨fun _ => 2, fun _ => 1, 8, 1, "CIC", 0, 0, 0, 2, 2⟩
        ⟨fun a => if a = 2 then 3 / 4 else 0, 1, 1, 1, 1⟩ 1 2 = 2 ∧
    coord_flat (R := ℚ) ⟨fun _ => 2, fun _ => 1, 8, 1, "CIC", 0, 0, 0, 2, 2⟩ 0 0 2
      = coord_flat (R := ℚ) ⟨fun _ => 2, fun _ => 1, 8, 1, "CIC", 0, 0, 0, 2, 2⟩ 0 1 0 ∧
    (assign_weighted_field_to_grid (R := ℚ) ⟨fun _ => 2, fun _ => 1, 8, 1, "CIC", 0, 0, 0, 2, 2⟩
        (fun _ => (0, 0)) ⟨1, fun _ => ⟨fun a => if a = 2 then 3 / 4 else 0, 1, 1, 1, 1⟩⟩
        (fun _ => (1, 0))).2
      (coord_flat (R := ℚ) ⟨fun _ => 2, fun _ => 1, 8, 1, "CIC", 0, 0, 0, 2, 2⟩ 0 1 0)
      = (4, 0) ∧
    (∀ a b c : Nat,
      ¬(ijk_cic (R := ℚ) ⟨fun _ => 2, fun _ => 1, 8, 1, "CIC", 0, 0, 0, 2, 2⟩
            ⟨fun a => if a = 2 then 3 / 4 else 0, 1, 1, 1, 1⟩ a 0 = 0 ∧
        ijk_cic (R := ℚ) ⟨fun _ => 2, fun _ => 1, 8, 1, "CIC", 0, 0, 0, 2, 2⟩
            ⟨fun a => if a = 2 then 3 / 4 else 0, 1, 1, 1, 1⟩ b 1 = 1 ∧
        ijk_cic (R := ℚ) ⟨fun _ => 2, fun _ => 1, 8, 1, "CIC", 0, 0, 0, 2, 2⟩
            ⟨fun a => if a = 2 then 3 / 4 else 0, 1, 1, 1, 1⟩ c 2 = 0)) := by
  have ht0 : toInt (0 : ℚ) = 0 := toInt_zero
  have ht1 : toInt ((3 : ℚ) / 2) = 1 := toInt_of_bounds _ 1 (by norm_num) (by norm_num) (by norm_num)
  have hl0 : loc_grid (R := ℚ) ⟨fun _ => 2, fun _ => 1, 8, 1, "CIC", 0, 0, 0, 2, 2⟩
      ⟨fun a => if a = 2 then 3 / 4 else 0, 1, 1, 1, 1⟩ 0 = 0 := by
    simp [loc_grid]
  have hl1 : loc_grid (R := ℚ) ⟨fun _ => 2, fun _ => 1, 8, 1, "CIC", 0, 0, 0, 2, 2⟩
      ⟨fun a => if a = 2 then 3 / 4 else 0, 1, 1, 1, 1⟩ 1 = 0 := by
    simp [loc_grid]
  have hl2 : loc_grid (R := ℚ) ⟨fun _ => 2, fun _ => 1, 8, 1, "CIC", 0, 0, 0, 2, 2⟩
      ⟨fun a => if a = 2 then 3 / 4 else 0, 1, 1, 1, 1⟩ 2 = 3 / 2 := by
    simp [loc_grid]; norm_num
  have hc : ¬ ("CIC" = "NGP") := by decide
  refine ⟨?_, ?_, ?_, ?_⟩
  · simp [ijk_cic, hl2, ht1]
  · simp [coord_flat]
  · simp only [assign_weighted_field_to_grid, hc, if_false, if_true,
      assign_weighted_field_to_grid_cic, List.range_succ, List.range_zero, List.nil_append,
      List.foldl_cons, List.foldl_nil]
    rw [deposit_apply]
    simp only [List.range_succ, List.range_zero, List.nil_append, List.cons_append,
      List.map_cons, List.map_nil, List.sum_cons, List.sum_nil, deposit_value, ijk_cic, win_cic,
      hl0, hl1, hl2, ht0, ht1, coord_flat, zero_field]
    norm_num
  · intro a b c h
    have h2 := h.2.2
    simp only [ijk_cic, hl2, ht1] at h2
    split at h2 <;> omega

end DensityField

end Triumvirate

namespace Triumvirate

section Folds

theorem foldl_invariant {σ β : Type} (Q : σ → Prop) (step : σ → β → σ) (l : List β)
    (h : ∀ s, ∀ e ∈ l, Q s → Q (step s e)) (s : σ) (hs : Q s) : Q (l.foldl step s) := by
  induction l generalizing s with
  | nil => exact hs
  | cons x xs ih =>
    exact ih (fun s e he => h s e (List.mem_cons_of_mem x he)) (step s x)
      (h s x (List.mem_cons_self x xs) hs)

/-- A fold over a duplicate-free list establishes `Q` when the step at `e0` establishes it and
every other step keeps it. -/
theorem foldl_establish {σ β : Type} (Q : σ → Prop) (step : σ → β → σ) (l : List β) (e0 : β)
    (hnd : l.Nodup) (hmem : e0 ∈ l) (hit : ∀ s, Q (step s e0))
    (keep : ∀ s, ∀ e ∈ l, e ≠ e0 → Q s → Q (step s e)) (s : σ) : Q (l.foldl step s) := by
  induction l generalizing s with
  | nil => exact absurd hmem (List.not_mem_nil e0)
  | cons x xs ih =>
    rw [List.nodup_cons] at hnd
    rw [List.foldl_cons]
    rcases List.mem_cons.mp hmem with hx | hx
    · subst hx
      refine foldl_invariant Q step xs (fun s e he hq => ?_) _ (hit s)
      exact keep s e (List.mem_cons_of_mem _ he) (fun h => hnd.1 (h ▸ he)) hq
    · exact ih hnd.2 hx (fun s e he => keep s e (List.mem_cons_of_mem x he)) (step s x)

end Folds

section Layout

variable {R : Type}

/-- The flat index separates the cells of the mesh: two triples whose second and third indices
are in range and whose flat indices agree are equal. -/
theorem coord_flat_inj (params : ParameterSet R) (i j k i' j' k' : Int)
    (hj : 0 ≤ j ∧ j < params.nmesh 1) (hj' : 0 ≤ j' ∧ j' < params.nmesh 1)
    (hk : 0 ≤ k ∧ k < params.nmesh 2) (hk' : 0 ≤ k' ∧ k' < params.nmesh 2)
    (h : coord_flat params i j k = coord_flat params i' j' k') : i = i' ∧ j = j' ∧ k = k' := by
  unfold coord_flat at h
  have step : ∀ (A A' n r r' : Int), 0 ≤ r → r < n → 0 ≤ r' → r' < n →
      A * n + r = A' * n + r' → A = A' ∧ r = r' := by
    intro A A' n r r' h0 h1 h0' h1' he
    have hA : A = A' := by
      rcases lt_trichotomy A A' with hlt | heq | hgt
      · have : (A' - A) * n ≥ 1 * n := by
          apply mul_le_mul_of_nonneg_right (by omega) (by omega)
        nlinarith
      · exact heq
      · have : (A - A') * n ≥ 1 * n := by
          apply mul_le_mul_of_nonneg_right (by omega) (by omega)
        nlinarith
    subst hA
    exact ⟨rfl, by linarith⟩
  obtain ⟨hA, hkk⟩ := step _ _ _ _ _ hk.1 hk.2 hk'.1 hk'.2 h
  obtain ⟨hii, hjj⟩ := step _ _ _ _ _ hj.1 hj.2 hj'.1 hj'.2 hA
  exact ⟨hii, hjj, hkk⟩

end Layout

namespace DensityField

variable {R : Type} [LinearOrderedField R] [FloorRing R]

/-- Bookkeeping of an additive quantity along a grid walk. -/
theorem grid_walk_measure_add {σ M : Type} [AddCommMonoid M] (params : ParameterSet R)
    (μ : σ → M) (step : σ → Nat → Nat → Nat → σ) (g : Nat → Nat → Nat → M)
    (h : ∀ s i j k, μ (step s i j k) = μ s + g i j k) (init : σ) :
    μ (grid_walk params step init) = μ init +
      ∑ i ∈ Finset.range (params.nmesh 0).toNat, ∑ j ∈ Finset.range (params.nmesh 1).toNat,
        ∑ k ∈ Finset.range (params.nmesh 2).toNat, g i j k := by
  unfold grid_walk
  rw [foldl_measure_add μ _ (fun i => ∑ j ∈ Finset.range (params.nmesh 1).toNat,
        ∑ k ∈ Finset.range (params.nmesh 2).toNat, g i j k), list_range_map_sum]
  intro s i _
  rw [foldl_measure_add μ _ (fun j => ∑ k ∈ Finset.range (params.nmesh 2).toNat, g i j k),
    list_range_map_sum]
  intro s j _
  rw [foldl_measure_add μ _ (fun k => g i j k), list_range_map_sum]
  intro s k _
  exact h s i j k

/-- A grid walk that stores `val i j k` in the cell `(i, j, k)` leaves that value there. -/
theorem grid_walk_update_apply {σ : Type} (params : ParameterSet R) (μ : σ → Grid R)
    (step : σ → Nat → Nat → Nat → σ) (val : Nat → Nat → Nat → Cx R)
    (h : ∀ s i j k, μ (step s i j k) = Function.update (μ s) (coord_flat params i j k) (val i j k))
    (init : σ) (i0 j0 k0 : Nat) (hi : (i0 : Int) < params.nmesh 0)
    (hj : (j0 : Int) < params.nmesh 1) (hk : (k0 : Int) < params.nmesh 2) :
    μ (grid_walk params step init) (coord_flat params i0 j0 k0) = val i0 j0 k0 := by
  have hi' : i0 ∈ List.range (params.nmesh 0).toNat := List.mem_range.mpr (by omega)
  have hj' : j0 ∈ List.range (params.nmesh 1).toNat := List.mem_range.mpr (by omega)
  have hk' : k0 ∈ List.range (params.nmesh 2).toNat := List.mem_range.mpr (by omega)
  have keepcell : ∀ s (i j k : Nat), j ∈ List.range (params.nmesh 1).toNat →
      k ∈ List.range (params.nmesh 2).toNat → (i ≠ i0 ∨ j ≠ j0 ∨ k ≠ k0) →
      μ s (coord_flat params i0 j0 k0) = val i0 j0 k0 →
      μ (step s i j k) (coord_flat params i0 j0 k0) = val i0 j0 k0 := by
    intro s i j k hjm hkm hne hq
    have hjr := List.mem_range.mp hjm
    have hkr := List.mem_range.mp hkm
    rw [h, Function.update_noteq _ _ _, hq]
    intro heq
    have := coord_flat_inj params i0 j0 k0 i j k ⟨by omega, hj⟩ ⟨by omega, by omega⟩
      ⟨by omega, hk⟩ ⟨by omega, by omega⟩ heq
    omega
  unfold grid_walk
  refine foldl_establish (fun s => μ s (coord_flat params i0 j0 k0) = val i0 j0 k0) _ _ i0
    (List.nodup_range _) hi' (fun s => ?_) (fun s i _ hne hq => ?_) init
  · refine foldl_establish (fun s => μ s (coord_flat params i0 j0 k0) = val i0 j0 k0) _ _ j0
      (List.nodup_range _) hj' (fun s => ?_) (fun s j hjm hne hq => ?_) s
    · refine foldl_establish (fun s => μ s (coord_flat params i0 j0 k0) = val i0 j0 k0) _ _ k0
        (List.nodup_range _) hk' (fun s => ?_) (fun s k hkm hne hq => ?_) s
      · show μ (step s i0 j0 k0) (coord_flat params i0 j0 k0) = val i0 j0 k0
        rw [h, Function.update_same]
      · exact keepcell s i0 j0 k hj' hkm (Or.inr (Or.inr hne)) hq
    · exact foldl_invariant _ _ _
        (fun s k hkm hq => keepcell s i0 j k hjm hkm (Or.inr (Or.inl hne)) hq) s hq
  · exact foldl_invariant _ _ _ (fun s j hjm hq => foldl_invariant _ _ _
        (fun s k hkm hq => keepcell s i j k hjm hkm (Or.inl hne) hq) s hq) s hq

end DensityField

end Triumvirate

namespace Triumvirate

namespace DensityField

variable {R : Type} [LinearOrderedField R] [FloorRing R]

theorem sum_indicator_cells (params : ParameterSet R) (P : Nat → Nat → Nat → Prop)
    [∀ i j k, Decidable (P i j k)] :
    (∑ i ∈ Finset.range (params.nmesh 0).toNat, ∑ j ∈ Finset.range (params.nmesh 1).toNat,
        ∑ k ∈ Finset.range (params.nmesh 2).toNat, if P i j k then (1 : Int) else 0)
      = (((Reference.cells params).filter (fun c => P c.1 c.2.1 c.2.2)).card : Int) := by
  rw [Finset.card_filter]
  push_cast
  unfold Reference.cells
  rw [Finset.sum_product]
  refine Finset.sum_congr rfl (fun i _ => ?_)
  rw [Finset.sum_product]

theorem shell_lower_eq_max (kbar D : R) :
    (if kbar > D / 2 then kbar - D / 2 else 0) = max 0 (kbar - D / 2) := by
  by_cases h : kbar > D / 2
  · rw [if_pos h, max_eq_right]; linarith
  · rw [if_neg h, max_eq_left]; linarith [not_lt.mp h]

/-- C7. Shell extractor: in `calc_inverse_fourier_transform_for_bispec(density, kbar, D, ylm)`,
just before the inverse transform every grid cell `c` whose wavenumber magnitude lies in
`(max(0, kbar - D/2), kbar + D/2]` holds `ylm[c] * density[c] / W(k_c)`, every other grid cell
holds 0, and `nmode` is exactly the number of cells in the shell; the result is the backward
transform of that field with every cell divided by `nmode`. -/
theorem bispec_shell_extractor (lib : LibM R) (fftw : FFTW R) (params : ParameterSet R)
    (field density : Grid R) (kbar D : R) (ylm : Int → Cx R) :
    (∀ i j k : Nat, (i : Int) < params.nmesh 0 → (j : Int) < params.nmesh 1 →
        (k : Int) < params.nmesh 2 →
        (bispec_shell_field lib params field density kbar D ylm).1 (coord_flat params i j k)
          = if Reference.in_shell lib params kbar D i j k then
              Cx.mul (ylm (coord_flat params i j k))
                (Cx.divReal (density (coord_flat params i j k))
                  (calc_interpolation_window_in_fourier lib params (grid_kvec lib params i j k)))
            else (0, 0)) ∧
    (bispec_shell_field lib params field density kbar D ylm).2
      = (((Reference.cells params).filter
          (fun c => Reference.in_shell lib params kbar D c.1 c.2.1 c.2.2)).card : Int) ∧
    (∀ c : Int, 0 ≤ c ∧ c < params.nmesh_tot →
        calc_inverse_fourier_transform_for_bispec lib fftw params field density kbar D ylm c
          = Cx.divReal
              (fftw.backward (params.nmesh 0) (params.nmesh 1) (params.nmesh 2)
                (bispec_shell_field lib params field density kbar D ylm).1 c)
              (((bispec_shell_field lib params field density kbar D ylm).2 : Int) : R)) := by
  refine ⟨?_, ?_, ?_⟩
  · intro i j k hi hj hk
    unfold bispec_shell_field
    refine grid_walk_update_apply params (fun s : Grid R × Int => s.1) _
      (fun i j k => if Reference.in_shell lib params kbar D i j k then
          Cx.mul (ylm (coord_flat params i j k))
            (Cx.divReal (density (coord_flat params i j k))
              (calc_interpolation_window_in_fourier lib params (grid_kvec lib params i j k)))
        else (0, 0)) ?_ _ i j k hi hj hk
    intro s i j k
    simp only [bispec_shell_step, Reference.in_shell, shell_lower_eq_max]
    split <;> rfl
  · unfold bispec_shell_field
    rw [grid_walk_measure_add params (fun s : Grid R × Int => s.2) _
      (fun i j k => if Reference.in_shell lib params kbar D i j k then (1 : Int) else 0),
      sum_indicator_cells]
    · simp
    · intro s i j k
      simp only [bispec_shell_step, Reference.in_shell, shell_lower_eq_max]
      split <;> simp
  · intro c hc
    simp only [calc_inverse_fourier_transform_for_bispec, divide_cells, if_pos hc, Cx.divReal]

end DensityField

end Triumvirate

namespace Triumvirate

namespace DensityField

variable {R : Type} [LinearOrderedField R] [FloorRing R]

/-- Witness for C7: the origin cell of a 2×2×2 mesh. -/
theorem bispec_shell_extractor_witness :
    (bispec_shell_field (R := ℚ) ⟨22 / 7, fun x => x, fun x => x⟩
        ⟨fun _ => 2, fun _ => 1, 8, 1, "NGP", 0, 0, 0, 2, 2⟩ (fun _ => (0, 0)) (fun _ => (1, 0))
        1 1 (fun _ => (1, 0))).1
      (coord_flat (R := ℚ) ⟨fun _ => 2, fun _ => 1, 8, 1, "NGP", 0, 0, 0, 2, 2⟩
        ((0 : Nat) : Int) ((0 : Nat) : Int) ((0 : Nat) : Int))
      = if Reference.in_shell (R := ℚ) ⟨22 / 7, fun x => x, fun x => x⟩
            ⟨fun _ => 2, fun _ => 1, 8, 1, "NGP", 0, 0, 0, 2, 2⟩ 1 1 0 0 0 then
          Cx.mul ((fun _ => ((1 : ℚ), (0 : ℚ))) (coord_flat (R := ℚ)
              ⟨fun _ => 2, fun _ => 1, 8, 1, "NGP", 0, 0, 0, 2, 2⟩
              ((0 : Nat) : Int) ((0 : Nat) : Int) ((0 : Nat) : Int)))
            (Cx.divReal ((fun _ => ((1 : ℚ), (0 : ℚ))) (coord_flat (R := ℚ)
                ⟨fun _ => 2, fun _ => 1, 8, 1, "NGP", 0, 0, 0, 2, 2⟩
                ((0 : Nat) : Int) ((0 : Nat) : Int) ((0 : Nat) : Int)))
              (calc_interpolation_window_in_fourier ⟨22 / 7, fun x => x, fun x => x⟩
                ⟨fun _ => 2, fun _ => 1, 8, 1, "NGP", 0, 0, 0, 2, 2⟩
                (grid_kvec ⟨22 / 7, fun x => x, fun x => x⟩
                  ⟨fun _ => 2, fun _ => 1, 8, 1, "NGP", 0, 0, 0, 2, 2⟩
                  ((0 : Nat) : Int) ((0 : Nat) : Int) ((0 : Nat) : Int))))
        else (0, 0) :=
  (bispec_shell_extractor (R := ℚ) ⟨22 / 7, fun x => x, fun x => x⟩
    ⟨fun _ _ _ g => g, fun _ _ _ g => g⟩
    ⟨fun _ => 2, fun _ => 1, 8, 1, "NGP", 0, 0, 0, 2, 2⟩ (fun _ => (0, 0)) (fun _ => (1, 0))
    1 1 (fun _ => (1, 0))).1 0 0 0 (by norm_num) (by norm_num) (by norm_num)

/-- The 3PCF shell variant stores, in every grid cell `(i, j, k)`, the Bessel weight times
`ylm[i] * density[c] / W` over the volume: the harmonic weight is read at the first-axis index. -/
theorem threept_shell_field_apply (lib : LibM R) (params : ParameterSet R)
    (field density : Grid R) (rbar : R) (ylm : Int → Cx R) (bessel_j : R → R) (i j k : Nat)
    (hi : (i : Int) < params.nmesh 0) (hj : (j : Int) < params.nmesh 1)
    (hk : (k : Int) < params.nmesh 2) :
    threept_shell_field lib params field density rbar ylm bessel_j (coord_flat params i j k)
      = (bessel_j (vec_mag lib (grid_kvec lib params i j k) * rbar)
            * (Cx.mul (ylm i) (Cx.divReal (density (coord_flat params i j k))
                (calc_interpolation_window_in_fourier lib params
                  (grid_kvec lib params i j k)))).1 / params.volume,
         bessel_j (vec_mag lib (grid_kvec lib params i j k) * rbar)
            * (Cx.mul (ylm i) (Cx.divReal (density (coord_flat params i j k))
                (calc_interpolation_window_in_fourier lib params
                  (grid_kvec lib params i j k)))).2 / params.volume) := by
  unfold threept_shell_field
  exact grid_walk_update_apply params (fun s : Grid R => s)
    (threept_shell_step lib params density rbar ylm bessel_j)
    (fun i j k => (bessel_j (vec_mag lib (grid_kvec lib params i j k) * rbar)
            * (Cx.mul (ylm i) (Cx.divReal (density (coord_flat params i j k))
                (calc_interpolation_window_in_fourier lib params
                  (grid_kvec lib params i j k)))).1 / params.volume,
         bessel_j (vec_mag lib (grid_kvec lib params i j k) * rbar)
            * (Cx.mul (ylm i) (Cx.divReal (density (coord_flat params i j k))
                (calc_interpolation_window_in_fourier lib params
                  (grid_kvec lib params i j k)))).2 / params.volume))
    (fun s i j k => rfl) _ i j k hi hj hk

/-- C8 (code at the failing input). On a 1×1×2 mesh of unit box (NGP), with `ylm[0] = 1`,
`ylm[1] = 0`, `density = 1`, `rbar = 0` and a Bessel table with `j(0) = 1`, the cell `(0, 0, 1)`
of flat index 1 receives `1`: the code weights it with `ylm[i] = ylm[0]`, whereas the value
`j(kmag · rbar) · ylm[c] · density[c] / W / volume` with the harmonic of the same cell is `0`. -/
theorem threept_shell_reads_harmonic_at_first_axis_index :
    coord_flat (R := ℝ) ⟨fun a => if a = 2 then 2 else 1, fun _ => 1, 2, 1, "NGP", 0, 0, 0, 2, 2⟩
        ((0 : Nat) : Int) ((0 : Nat) : Int) ((1 : Nat) : Int) = 1 ∧
    threept_shell_field (R := ℝ) ⟨Real.pi, Real.sin, Real.sqrt⟩
        ⟨fun a => if a = 2 then 2 else 1, fun _ => 1, 2, 1, "NGP", 0, 0, 0, 2, 2⟩
        (fun _ => (0, 0)) (fun _ => (1, 0)) 0 (fun c => if c = 0 then (1, 0) else (0, 0))
        (fun x => if x = 0 then 1 else Real.sin x / x) 1 = (1, 0) ∧
    Reference.threept_shell_value (R := ℝ) ⟨Real.pi, Real.sin, Real.sqrt⟩
        ⟨fun a => if a = 2 then 2 else 1, fun _ => 1, 2, 1, "NGP", 0, 0, 0, 2, 2⟩
        (fun _ => (1, 0)) 0 (fun c => if c = 0 then (1, 0) else (0, 0))
        (fun x => if x = 0 then 1 else Real.sin x / x) 0 0 1 = (0, 0) := by
  have hflat : coord_flat (R := ℝ)
      ⟨fun a => if a = 2 then 2 else 1, fun _ => 1, 2, 1, "NGP", 0, 0, 0, 2, 2⟩
      ((0 : Nat) : Int) ((0 : Nat) : Int) ((1 : Nat) : Int) = 1 := by
    simp [coord_flat]
  have hdk : ∀ a : Fin 3, mode_dk (R := ℝ) ⟨Real.pi, Real.sin, Real.sqrt⟩
      ⟨fun a => if a = 2 then 2 else 1, fun _ => 1, 2, 1, "NGP", 0, 0, 0, 2, 2⟩ a ≠ 0 := by
    intro a; simp [mode_dk, Real.pi_ne_zero]
  have hw : ∀ a : Fin 3, window_index (R := ℝ) ⟨Real.pi, Real.sin, Real.sqrt⟩
      ⟨fun a => if a = 2 then 2 else 1, fun _ => 1, 2, 1, "NGP", 0, 0, 0, 2, 2⟩
      (grid_kvec ⟨Real.pi, Real.sin, Real.sqrt⟩
        ⟨fun a => if a = 2 then 2 else 1, fun _ => 1, 2, 1, "NGP", 0, 0, 0, 2, 2⟩
        ((0 : Nat) : Int) ((0 : Nat) : Int) ((1 : Nat) : Int)) a = 0 := by
    intro a
    rw [window_index_grid_kvec _ _ _ _ _ _ (hdk a)]
    fin_cases a
    · simp [folded_index, show Int.tdiv 1 2 = 0 from rfl]
    · simp [folded_index, show Int.tdiv 1 2 = 0 from rfl]
    · simp [folded_index, show Int.tdiv 2 2 = 1 from rfl]
  have hwin : calc_interpolation_window_in_fourier (R := ℝ) ⟨Real.pi, Real.sin, Real.sqrt⟩
      ⟨fun a => if a = 2 then 2 else 1, fun _ => 1, 2, 1, "NGP", 0, 0, 0, 2, 2⟩
      (grid_kvec ⟨Real.pi, Real.sin, Real.sqrt⟩
        ⟨fun a => if a = 2 then 2 else 1, fun _ => 1, 2, 1, "NGP", 0, 0, 0, 2, 2⟩
        ((0 : Nat) : Int) ((0 : Nat) : Int) ((1 : Nat) : Int)) = 1 := by
    simp only [calc_interpolation_window_in_fourier, if_true,
      calc_interpolation_window_in_fourier_ngp, hw]
    norm_num
  refine ⟨hflat, ?_, ?_⟩
  · have h := threept_shell_field_apply (R := ℝ) ⟨Real.pi, Real.sin, Real.sqrt⟩
      ⟨fun a => if a = 2 then 2 else 1, fun _ => 1, 2, 1, "NGP", 0, 0, 0, 2, 2⟩
      (fun _ => (0, 0)) (fun _ => (1, 0)) 0 (fun c => if c = 0 then (1, 0) else (0, 0))
      (fun x => if x = 0 then 1 else Real.sin x / x) 0 0 1
      (by simp) (by simp) (by simp)
    rw [hflat] at h
    rw [h, hwin]
    simp [Cx.mul, Cx.divReal]
  · simp only [Reference.threept_shell_value, hflat, hwin]
    simp [Cx.mul, Cx.divReal]

end DensityField

end Triumvirate

namespace Triumvirate

namespace DensityField

variable {R : Type} [LinearOrderedField R] [FloorRing R]

/-- Bookkeeping of an additive quantity along a grid walk, as a sum over the cells. -/
theorem grid_walk_measure_cells {σ M : Type} [AddCommMonoid M] (params : ParameterSet R)
    (μ : σ → M) (step : σ → Nat → Nat → Nat → σ) (g : Nat × Nat × Nat → M)
    (h : ∀ s i j k, μ (step s i j k) = μ s + g (i, j, k)) (init : σ) :
    μ (grid_walk params step init) = μ init + ∑ c ∈ Reference.cells params, g c := by
  rw [grid_walk_measure_add params μ step (fun i j k => g (i, j, k)) h]
  unfold Reference.cells
  rw [Finset.sum_product]
  congr 1
  refine Finset.sum_congr rfl (fun i _ => ?_)
  rw [Finset.sum_product]

end DensityField

namespace TwoPointStatistics

variable {R : Type} [LinearOrderedField R] [FloorRing R]

/-- The fine tables after the sampling walk: slot `x` holds the sum of `mode_power` over the
cells of fine index `x` (when `x < n_sample`), and their number. -/
theorem power_sample_apply (lib : LibM R) (params : ParameterSet R)
    (ylm_func : Int → Int → (Fin 3 → R) → Cx R) (density_a density_b : Grid R)
    (shotnoise : Cx R) (ell m : Int) (x : Int) :
    (power_sample lib params ylm_func density_a density_b shotnoise ell m).1 x
        = ∑ c ∈ Reference.cells params,
            (if idx_k lib params c.1 c.2.1 c.2.2 < (n_sample : Int) ∧
                idx_k lib params c.1 c.2.1 c.2.2 = x
             then mode_power lib params ylm_func density_a density_b shotnoise ell m
                    c.1 c.2.1 c.2.2
             else 0) ∧
    (power_sample lib params ylm_func density_a density_b shotnoise ell m).2 x
        = ∑ c ∈ Reference.cells params,
            (if idx_k lib params c.1 c.2.1 c.2.2 < (n_sample : Int) ∧
                idx_k lib params c.1 c.2.1 c.2.2 = x
             then (1 : Int) else 0) := by
  constructor
  · unfold power_sample
    rw [DensityField.grid_walk_measure_cells params
      (fun s : (Int → Cx R) × (Int → Int) => s.1 x) _
      (fun c => if idx_k lib params c.1 c.2.1 c.2.2 < (n_sample : Int) ∧
                idx_k lib params c.1 c.2.1 c.2.2 = x
             then mode_power lib params ylm_func density_a density_b shotnoise ell m
                    c.1 c.2.1 c.2.2
             else 0)]
    · simp
    · intro s i j k
      simp only [power_sample_step]
      by_cases h1 : idx_k lib params i j k < (n_sample : Int)
      · rw [if_pos h1]
        by_cases h2 : idx_k lib params i j k = x
        · rw [if_pos ⟨h1, h2⟩, ← h2]
          simp only [Function.update_same]
        · rw [if_neg (fun h => h2 h.2)]
          simp only [Function.update_noteq (Ne.symm h2), add_zero]
      · rw [if_neg h1, if_neg (fun h => h1 h.1), add_zero]
  · unfold power_sample
    rw [DensityField.grid_walk_measure_cells params
      (fun s : (Int → Cx R) × (Int → Int) => s.2 x) _
      (fun c => if idx_k lib params c.1 c.2.1 c.2.2 < (n_sample : Int) ∧
                idx_k lib params c.1 c.2.1 c.2.2 = x
             then (1 : Int) else 0)]
    · simp
    · intro s i j k
      simp only [power_sample_step]
      by_cases h1 : idx_k lib params i j k < (n_sample : Int)
      · rw [if_pos h1]
        by_cases h2 : idx_k lib params i j k = x
        · rw [if_pos ⟨h1, h2⟩, ← h2]
          simp only [Function.update_same]
        · rw [if_neg (fun h => h2 h.2)]
          simp only [Function.update_noteq (Ne.symm h2), add_zero]
      · rw [if_neg h1, if_neg (fun h => h1 h.1), add_zero]

/-- The binning loop adds up the fine slots whose centre lies in the bin. -/
theorem bin_loop_eq {M : Type} [AddCommMonoid M] (kbin : Nat → R) (sample : Int → M)
    (j : Nat) (n : Nat) :
    (List.range n).foldl (fun (acc : M) (i : Nat) =>
        if ((i : Nat) : R) * dk_sample
              > (if kbin j > (kbin 1 - kbin 0) / 2 then kbin j - (kbin 1 - kbin 0) / 2 else 0) ∧
            ((i : Nat) : R) * dk_sample ≤ kbin j + (kbin 1 - kbin 0) / 2
        then acc + sample (i : Int) else acc) 0
      = ∑ i ∈ Finset.range n,
          (if ((i : Nat) : R) * dk_sample
                > (if kbin j > (kbin 1 - kbin 0) / 2 then kbin j - (kbin 1 - kbin 0) / 2 else 0) ∧
              ((i : Nat) : R) * dk_sample ≤ kbin j + (kbin 1 - kbin 0) / 2
           then sample (i : Int) else 0) := by
  rw [foldl_measure_add (fun acc : M => acc) _
    (fun i : Nat => if ((i : Nat) : R) * dk_sample
                > (if kbin j > (kbin 1 - kbin 0) / 2 then kbin j - (kbin 1 - kbin 0) / 2 else 0) ∧
              ((i : Nat) : R) * dk_sample ≤ kbin j + (kbin 1 - kbin 0) / 2
           then sample (i : Int) else 0),
    DensityField.list_range_map_sum, zero_add]
  intro s i _
  by_cases hc : ((i : Nat) : R) * dk_sample
        > (if kbin j > (kbin 1 - kbin 0) / 2 then kbin j - (kbin 1 - kbin 0) / 2 else 0) ∧
      ((i : Nat) : R) * dk_sample ≤ kbin j + (kbin 1 - kbin 0) / 2
  · rw [if_pos hc, if_pos hc]
  · rw [if_neg hc, if_neg hc, add_zero]

end TwoPointStatistics

end Triumvirate

namespace Triumvirate

namespace TwoPointStatistics

variable {R : Type} [LinearOrderedField R] [FloorRing R]

/-- Two-stage binning equals direct binning: summing, over the fine slots `i < n` whose centre
lies in `(L, U]`, the slot totals of a cell quantity `F` gives the sum of `F` over the cells
whose fine index is below `n` and whose slot centre lies in `(L, U]` (for `L ≥ 0`). -/
theorem two_stage_sum {M : Type} [AddCommMonoid M] (cells : Finset (Nat × Nat × Nat))
    (idx : Nat × Nat × Nat → Int) (F : Nat × Nat × Nat → M) (n : Nat) (dk L U : R)
    (hdk : 0 < dk) (hL : 0 ≤ L) :
    (∑ i ∈ Finset.range n,
        (if ((i : Nat) : R) * dk > L ∧ ((i : Nat) : R) * dk ≤ U
         then ∑ c ∈ cells, (if idx c < (n : Int) ∧ idx c = (i : Int) then F c else 0)
         else 0))
      = ∑ c ∈ cells.filter (fun c => idx c < (n : Int) ∧
            L < ((idx c : Int) : R) * dk ∧ ((idx c : Int) : R) * dk ≤ U), F c := by
  have h1 : ∀ i ∈ Finset.range n,
      (if ((i : Nat) : R) * dk > L ∧ ((i : Nat) : R) * dk ≤ U
         then ∑ c ∈ cells, (if idx c < (n : Int) ∧ idx c = (i : Int) then F c else 0)
         else 0)
      = ∑ c ∈ cells, (if (((i : Nat) : R) * dk > L ∧ ((i : Nat) : R) * dk ≤ U) ∧
            (idx c < (n : Int) ∧ idx c = (i : Int)) then F c else 0) := by
    intro i _
    by_cases hc : ((i : Nat) : R) * dk > L ∧ ((i : Nat) : R) * dk ≤ U
    · rw [if_pos hc]
      refine Finset.sum_congr rfl (fun c _ => ?_)
      simp only [hc, true_and, and_self]
    · rw [if_neg hc]
      symm
      apply Finset.sum_eq_zero
      intro c _
      rw [if_neg (fun h => hc h.1)]
  rw [Finset.sum_congr rfl h1, Finset.sum_comm, Finset.sum_filter]
  refine Finset.sum_congr rfl (fun c _ => ?_)
  by_cases hlt : idx c < (n : Int)
  · by_cases hneg : idx c < 0
    · have hz : ((idx c : Int) : R) * dk ≤ 0 := by
        have : ((idx c : Int) : R) ≤ 0 := by exact_mod_cast hneg.le
        exact mul_nonpos_of_nonpos_of_nonneg this hdk.le
      rw [if_neg (fun h => absurd h.2.1 (not_lt.mpr (le_trans hz hL)))]
      apply Finset.sum_eq_zero
      intro i _
      rw [if_neg]
      intro h
      have := h.2.2
      omega
    · have hnn : 0 ≤ idx c := not_lt.mp hneg
      have hmem : (idx c).toNat ∈ Finset.range n := Finset.mem_range.mpr (by omega)
      have hcast : (((idx c).toNat : Nat) : Int) = idx c := Int.toNat_of_nonneg hnn
      have hcastR : (((idx c).toNat : Nat) : R) = ((idx c : Int) : R) := by
        rw [← Int.cast_natCast, hcast]
      rw [Finset.sum_eq_single_of_mem _ hmem]
      · rw [hcastR, hcast]
        by_cases hc : L < ((idx c : Int) : R) * dk ∧ ((idx c : Int) : R) * dk ≤ U
        · rw [if_pos ⟨⟨hc.1, hc.2⟩, hlt, rfl⟩, if_pos ⟨hlt, hc⟩]
        · rw [if_neg (fun h => hc ⟨h.1.1, h.1.2⟩), if_neg (fun h => hc h.2)]
      · intro i _ hne
        rw [if_neg]
        intro h
        apply hne
        have := h.2.2
        omega
  · rw [if_neg (fun h => hlt h.1)]
    apply Finset.sum_eq_zero
    intro i _
    rw [if_neg (fun h => hlt h.2.1)]

end TwoPointStatistics

end Triumvirate

namespace Triumvirate

namespace TwoPointStatistics

variable {R : Type} [LinearOrderedField R] [FloorRing R]

theorem bin_lower_nonneg (kbin : Nat → R) (j : Nat) :
    0 ≤ (if kbin j > (kbin 1 - kbin 0) / 2 then kbin j - (kbin 1 - kbin 0) / 2 else 0) := by
  split
  · linarith
  · exact le_refl 0

theorem n_sample_cast : ((n_sample : Nat) : Int) = 100000 := rfl

/-- The accumulator `pk[j]` before the final averaging: the sum of `mode_power` over the cells
of the bin. -/
theorem power_bin_pk_value (lib : LibM R) (params : ParameterSet R)
    (ylm_func : Int → Int → (Fin 3 → R) → Cx R) (density_a density_b : Grid R)
    (shotnoise : Cx R) (ell m : Int) (kbin : Nat → R) (j : Nat) :
    power_bin_pk kbin (power_sample lib params ylm_func density_a density_b shotnoise ell m).1 j
      = ∑ c ∈ Reference.power_bin_cells lib params kbin j,
          mode_power lib params ylm_func density_a density_b shotnoise ell m c.1 c.2.1 c.2.2 := by
  have hdk : (0 : R) < dk_sample := by unfold dk_sample; norm_num
  have h2 := two_stage_sum (Reference.cells params)
    (fun c => idx_k lib params c.1 c.2.1 c.2.2)
    (fun c => mode_power lib params ylm_func density_a density_b shotnoise ell m c.1 c.2.1 c.2.2)
    n_sample (dk_sample : R) _ (kbin j + (kbin 1 - kbin 0) / 2) hdk (bin_lower_nonneg kbin j)
  have h1 := bin_loop_eq kbin
    (power_sample lib params ylm_func density_a density_b shotnoise ell m).1 j n_sample
  have h3 : Reference.power_bin_cells lib params kbin j
      = (Reference.cells params).filter (fun c =>
          idx_k lib params c.1 c.2.1 c.2.2 < (n_sample : Int) ∧
          (if kbin j > (kbin 1 - kbin 0) / 2 then kbin j - (kbin 1 - kbin 0) / 2 else 0)
            < ((idx_k lib params c.1 c.2.1 c.2.2 : Int) : R) * dk_sample ∧
          ((idx_k lib params c.1 c.2.1 c.2.2 : Int) : R) * dk_sample
            ≤ kbin j + (kbin 1 - kbin 0) / 2) := by
    unfold Reference.power_bin_cells
    rw [n_sample_cast]
    rfl
  rw [h3, ← h2]
  unfold power_bin_pk
  refine Eq.trans h1 (Finset.sum_congr rfl (fun i _ => ?_))
  rw [(power_sample_apply lib params ylm_func density_a density_b shotnoise ell m (i : Int)).1]

/-- The accumulator `nmode_pk[j]`: the number of cells of the bin. -/
theorem power_bin_nmode_value (lib : LibM R) (params : ParameterSet R)
    (ylm_func : Int → Int → (Fin 3 → R) → Cx R) (density_a density_b : Grid R)
    (shotnoise : Cx R) (ell m : Int) (kbin : Nat → R) (j : Nat) :
    power_bin_nmode kbin (power_sample lib params ylm_func density_a density_b shotnoise ell m).2 j
      = ((Reference.power_bin_cells lib params kbin j).card : Int) := by
  have hdk : (0 : R) < dk_sample := by unfold dk_sample; norm_num
  have h2 := two_stage_sum (Reference.cells params)
    (fun c => idx_k lib params c.1 c.2.1 c.2.2) (fun _ => (1 : Int))
    n_sample (dk_sample : R) _ (kbin j + (kbin 1 - kbin 0) / 2) hdk (bin_lower_nonneg kbin j)
  have h1 := bin_loop_eq kbin
    (power_sample lib params ylm_func density_a density_b shotnoise ell m).2 j n_sample
  have h3 : Reference.power_bin_cells lib params kbin j
      = (Reference.cells params).filter (fun c =>
          idx_k lib params c.1 c.2.1 c.2.2 < (n_sample : Int) ∧
          (if kbin j > (kbin 1 - kbin 0) / 2 then kbin j - (kbin 1 - kbin 0) / 2 else 0)
            < ((idx_k lib params c.1 c.2.1 c.2.2 : Int) : R) * dk_sample ∧
          ((idx_k lib params c.1 c.2.1 c.2.2 : Int) : R) * dk_sample
            ≤ kbin j + (kbin 1 - kbin 0) / 2) := by
    unfold Reference.power_bin_cells
    rw [n_sample_cast]
    rfl
  have hcard : ((Reference.power_bin_cells lib params kbin j).card : Int)
      = ∑ _c ∈ Reference.power_bin_cells lib params kbin j, (1 : Int) := by
    simp
  rw [hcard, h3, ← h2]
  unfold power_bin_nmode
  refine Eq.trans h1 (Finset.sum_congr rfl (fun i _ => ?_))
  rw [(power_sample_apply lib params ylm_func density_a density_b shotnoise ell m (i : Int)).2]

end TwoPointStatistics

end Triumvirate

namespace Triumvirate

namespace TwoPointStatistics

variable {R : Type} [LinearOrderedField R] [FloorRing R]

/-- C2. Power-spectrum reference definition: after `TwoPointStatistics::calc_power_spec`, every
bin `j` has `nmode_pk[j]` equal to the number of grid cells whose fine index
`idx = ⌊kmag/1e-4 + 1/2⌋` is below 100000 and whose fine-slot centre `idx · 1e-4` lies in
`(k_lower_j, kbin[j] + D/2]`, and, when that number is not 0, `pk[j]` equals the sum over those
cells of `((delta_a · conj(delta_b) - N · S(k)) / W(k)²) · Y_ℓm(k)` divided by `nmode_pk[j]`:
shot noise is subtracted before the window compensation and the harmonic weight is applied
last. -/
theorem power_spec_reference (lib : LibM R) (params : ParameterSet R)
    (ylm_func : Int → Int → (Fin 3 → R) → Cx R) (stats : TwoPointStatistics R)
    (density_a density_b : Grid R) (kbin : Nat → R) (shotnoise : Cx R) (ell m : Int)
    (j : Nat) (hj : j < params.num_kbin) :
    (calc_power_spec lib params ylm_func stats density_a density_b kbin shotnoise ell m).nmode_pk j
      = ((Reference.power_bin_cells lib params kbin j).card : Int) ∧
    ((Reference.power_bin_cells lib params kbin j).card ≠ 0 →
      (calc_power_spec lib params ylm_func stats density_a density_b kbin shotnoise ell m).pk j
        = Cx.divReal
            (∑ c ∈ Reference.power_bin_cells lib params kbin j,
              Cx.mul
                (Cx.divReal
                  (Cx.mul (density_a (coord_flat params c.1 c.2.1 c.2.2))
                      (Cx.conj (density_b (coord_flat params c.1 c.2.1 c.2.2)))
                    - Cx.mulReal shotnoise
                        (calc_shotnoise_func lib params
                          (DensityField.grid_kvec lib params c.1 c.2.1 c.2.2)))
                  (DensityField.calc_interpolation_window_in_fourier lib params
                      (DensityField.grid_kvec lib params c.1 c.2.1 c.2.2) ^ 2))
                (ylm_func ell m (DensityField.grid_kvec lib params c.1 c.2.1 c.2.2)))
            ((Reference.power_bin_cells lib params kbin j).card : R)) := by
  have hpk := power_bin_pk_value lib params ylm_func density_a density_b shotnoise ell m kbin j
  have hnm := power_bin_nmode_value lib params ylm_func density_a density_b shotnoise ell m kbin j
  constructor
  · unfold calc_power_spec
    show (if j < params.num_kbin then _ else _) = _
    rw [if_pos hj, hnm]
  · intro hne
    have hne' : ((Reference.power_bin_cells lib params kbin j).card : Int) ≠ 0 := by
      exact_mod_cast hne
    unfold calc_power_spec
    show (if j < params.num_kbin then _ else _) = _
    rw [if_pos hj, hnm, hpk, if_pos hne', Int.cast_natCast]
    rfl

/-- Witness for C2: bin 0 of a one-cell mesh. -/
theorem power_spec_reference_witness :
    (calc_power_spec (R := ℚ) ⟨22 / 7, fun x => x, fun x => x⟩
        ⟨fun _ => 1, fun _ => 1, 1, 1, "NGP", 0, 0, 0, 2, 2⟩ (fun _ _ _ => (1, 0))
        ⟨fun _ => (0, 0), fun _ => 0, fun _ => (0, 0), fun _ => 0⟩
        (fun _ => (1, 0)) (fun _ => (1, 0)) (fun j => (j : ℚ) + 1) (0, 0) 0 0).nmode_pk 0
      = ((Reference.power_bin_cells (R := ℚ) ⟨22 / 7, fun x => x, fun x => x⟩
          ⟨fun _ => 1, fun _ => 1, 1, 1, "NGP", 0, 0, 0, 2, 2⟩
          (fun j => (j : ℚ) + 1) 0).card : Int) :=
  (power_spec_reference (R := ℚ) ⟨22 / 7, fun x => x, fun x => x⟩
    ⟨fun _ => 1, fun _ => 1, 1, 1, "NGP", 0, 0, 0, 2, 2⟩ (fun _ _ _ => (1, 0))
    ⟨fun _ => (0, 0), fun _ => 0, fun _ => (0, 0), fun _ => 0⟩
    (fun _ => (1, 0)) (fun _ => (1, 0)) (fun j => (j : ℚ) + 1) (0, 0) 0 0 0 (by decide)).1

end TwoPointStatistics

end Triumvirate

namespace Triumvirate

namespace TwoPointStatistics

variable {R : Type} [LinearOrderedField R] [FloorRing R]

theorem window_index_zero_vector (lib : LibM R) (params : ParameterSet R) (a : Fin 3) :
    DensityField.window_index lib params (fun _ => 0) a = 0 := by
  unfold DensityField.window_index
  have h := toInt_intCast_add_eps (R := R) 0
  simp only [Int.cast_zero, le_refl, if_true] at h
  rw [zero_div]
  exact h

/-- C13. Window and shot-noise attenuation at DC: for each of the kernels NGP, CIC and TSC (and
any box size and mesh size) `calc_interpolation_window_in_fourier((0,0,0)) = 1` and
`calc_shotnoise_func((0,0,0)) = 1`. -/
theorem window_and_shotnoise_at_dc (lib : LibM R) (params : ParameterSet R)
    (hkernel : params.assignment = "NGP" ∨ params.assignment = "CIC" ∨ params.assignment = "TSC") :
    DensityField.calc_interpolation_window_in_fourier lib params (fun _ => 0) = 1 ∧
    calc_shotnoise_func lib params (fun _ => 0) = 1 := by
  have h1 : ¬ ("CIC" = "NGP") := by decide
  have h2 : ¬ ("TSC" = "NGP") := by decide
  have h3 : ¬ ("TSC" = "CIC") := by decide
  rcases hkernel with hk | hk | hk
  · simp [DensityField.calc_interpolation_window_in_fourier, calc_shotnoise_func, hk,
      DensityField.calc_interpolation_window_in_fourier_ngp, calc_shotnoise_func_ngp,
      window_index_zero_vector]
  · simp [DensityField.calc_interpolation_window_in_fourier, calc_shotnoise_func, hk, h1,
      DensityField.calc_interpolation_window_in_fourier_cic, calc_shotnoise_func_cic,
      window_index_zero_vector]
  · simp [DensityField.calc_interpolation_window_in_fourier, calc_shotnoise_func, hk, h2, h3,
      DensityField.calc_interpolation_window_in_fourier_tsc, calc_shotnoise_func_tsc,
      window_index_zero_vector]

/-- Witness for C13: the TSC kernel on an 8×8×8 mesh. -/
theorem window_and_shotnoise_at_dc_witness :
    DensityField.calc_interpolation_window_in_fourier (R := ℚ) ⟨22 / 7, fun x => x, fun x => x⟩
        ⟨fun _ => 8, fun _ => 100, 512, 1000000, "TSC", 0, 0, 0, 2, 2⟩ (fun _ => 0) = 1 ∧
    calc_shotnoise_func (R := ℚ) ⟨22 / 7, fun x => x, fun x => x⟩
        ⟨fun _ => 8, fun _ => 100, 512, 1000000, "TSC", 0, 0, 0, 2, 2⟩ (fun _ => 0) = 1 :=
  window_and_shotnoise_at_dc (R := ℚ) ⟨22 / 7, fun x => x, fun x => x⟩
    ⟨fun _ => 8, fun _ => 100, 512, 1000000, "TSC", 0, 0, 0, 2, 2⟩ (Or.inr (Or.inr rfl))

end TwoPointStatistics

namespace DensityField

variable {R : Type} [LinearOrderedField R] [FloorRing R]

/-- C16. The dispatcher `assign_weighted_field_to_grid` returns the failure status `-1` exactly
when the configured assignment is none of NGP, CIC, TSC, and in that case leaves every cell of
the field unchanged; for NGP, CIC and TSC it returns 0. -/
theorem assign_status (params : ParameterSet R) (field : Grid R)
    (particles : ParticleCatalogue R) (weight : Nat → Cx R) :
    ((assign_weighted_field_to_grid params field particles weight).1 = -1 ↔
      ¬(params.assignment = "NGP" ∨ params.assignment = "CIC" ∨ params.assignment = "TSC")) ∧
    (¬(params.assignment = "NGP" ∨ params.assignment = "CIC" ∨ params.assignment = "TSC") →
      (assign_weighted_field_to_grid params field particles weight).2 = field) ∧
    ((params.assignment = "NGP" ∨ params.assignment = "CIC" ∨ params.assignment = "TSC") →
      (assign_weighted_field_to_grid params field particles weight).1 = 0) := by
  unfold assign_weighted_field_to_grid
  by_cases h1 : params.assignment = "NGP"
  · simp [h1]
  · by_cases h2 : params.assignment = "CIC"
    · simp [h1, h2]
    · by_cases h3 : params.assignment = "TSC"
      · simp [h1, h2, h3]
      · simp [h1, h2, h3]

/-- Witness for C16: the unknown kernel name `PCS` leaves the field untouched. -/
theorem assign_status_witness :
    (assign_weighted_field_to_grid (R := ℚ) ⟨fun _ => 2, fun _ => 1, 8, 1, "PCS", 0, 0, 0, 2, 2⟩
        (fun _ => (3, 4)) ⟨1, fun _ => ⟨fun _ => 0, 1, 1, 1, 1⟩⟩ (fun _ => (1, 0))).2
      = (fun _ => (3, 4)) :=
  (assign_status (R := ℚ) ⟨fun _ => 2, fun _ => 1, 8, 1, "PCS", 0, 0, 0, 2, 2⟩
    (fun _ => (3, 4)) ⟨1, fun _ => ⟨fun _ => 0, 1, 1, 1, 1⟩⟩ (fun _ => (1, 0))).2.1 (by decide)

/-- C14 (code at the failing input). On a 1×1×1 mesh of unit box the grid walks give the only
cell `(0, 0, 0)` the folded index `-1` on every axis (`0 < 1/2` is false in integer arithmetic),
hence the wave-vector `(-2π, -2π, -2π)`, which is not the zero vector. -/
theorem dc_cell_of_one_cell_mesh :
    folded_index (R := ℝ) ⟨fun _ => 1, fun _ => 1, 1, 1, "NGP", 0, 0, 0, 2, 2⟩ 0 0 = -1 ∧
    (∀ a : Fin 3, grid_kvec ⟨Real.pi, Real.sin, Real.sqrt⟩
        ⟨fun _ => 1, fun _ => 1, 1, 1, "NGP", 0, 0, 0, 2, 2⟩ 0 0 0 a = -(2 * Real.pi)) ∧
    grid_kvec ⟨Real.pi, Real.sin, Real.sqrt⟩
        ⟨fun _ => 1, fun _ => 1, 1, 1, "NGP", 0, 0, 0, 2, 2⟩ 0 0 0 ≠ (fun _ => 0) := by
  have hf : ∀ a : Fin 3,
      folded_index (R := ℝ) ⟨fun _ => 1, fun _ => 1, 1, 1, "NGP", 0, 0, 0, 2, 2⟩ a 0 = -1 := by
    intro a; simp [folded_index, show Int.tdiv 1 2 = 0 from rfl]
  have hk : ∀ a : Fin 3, grid_kvec ⟨Real.pi, Real.sin, Real.sqrt⟩
      ⟨fun _ => 1, fun _ => 1, 1, 1, "NGP", 0, 0, 0, 2, 2⟩ 0 0 0 a = -(2 * Real.pi) := by
    intro a
    rw [grid_kvec_eq]
    simp only [ite_self, hf, mode_dk]
    norm_num
  refine ⟨hf 0, hk, ?_⟩
  intro h
  have h0 := congrFun h 0
  rw [hk 0] at h0
  have := Real.pi_pos
  linarith

/-- C15 (code at the failing input). On an axis of odd size 3 (unit box) the index `1` is folded
to `-2` (`1 < 3/2` is false in integer arithmetic), so its wave-vector component is `-4π`, while
its partner index `(3 - 1) mod 3 = 2` has the component `-2π`: the two are not opposite, and
`|-4π|` exceeds `π · nmesh / boxsize = 3π`. -/
theorem folding_of_odd_axis :
    grid_kvec ⟨Real.pi, Real.sin, Real.sqrt⟩
        ⟨fun _ => 3, fun _ => 1, 27, 1, "NGP", 0, 0, 0, 2, 2⟩ 1 0 0 0 = -(4 * Real.pi) ∧
    grid_kvec ⟨Real.pi, Real.sin, Real.sqrt⟩
        ⟨fun _ => 3, fun _ => 1, 27, 1, "NGP", 0, 0, 0, 2, 2⟩ ((3 - 1) % 3) 0 0 0
      = -(2 * Real.pi) ∧
    grid_kvec ⟨Real.pi, Real.sin, Real.sqrt⟩
        ⟨fun _ => 3, fun _ => 1, 27, 1, "NGP", 0, 0, 0, 2, 2⟩ ((3 - 1) % 3) 0 0 0
      ≠ -(grid_kvec ⟨Real.pi, Real.sin, Real.sqrt⟩
        ⟨fun _ => 3, fun _ => 1, 27, 1, "NGP", 0, 0, 0, 2, 2⟩ 1 0 0 0) ∧
    Real.pi * 3 / 1 < |grid_kvec ⟨Real.pi, Real.sin, Real.sqrt⟩
        ⟨fun _ => 3, fun _ => 1, 27, 1, "NGP", 0, 0, 0, 2, 2⟩ 1 0 0 0| := by
  have h1 : grid_kvec ⟨Real.pi, Real.sin, Real.sqrt⟩
      ⟨fun _ => 3, fun _ => 1, 27, 1, "NGP", 0, 0, 0, 2, 2⟩ 1 0 0 0 = -(4 * Real.pi) := by
    rw [grid_kvec_eq]
    simp only [if_true, folded_index, show Int.tdiv 3 2 = 1 from rfl, mode_dk]
    norm_num
    ring
  have h2 : grid_kvec ⟨Real.pi, Real.sin, Real.sqrt⟩
      ⟨fun _ => 3, fun _ => 1, 27, 1, "NGP", 0, 0, 0, 2, 2⟩ ((3 - 1) % 3) 0 0 0
      = -(2 * Real.pi) := by
    rw [grid_kvec_eq]
    simp only [if_true, folded_index, show Int.tdiv 3 2 = 1 from rfl, mode_dk]
    norm_num
  have hpi := Real.pi_pos
  refine ⟨h1, h2, ?_, ?_⟩
  · rw [h1, h2]
    intro h
    linarith
  · rw [h1, abs_neg, abs_of_pos (by linarith)]
    linarith

end DensityField

end Triumvirate

namespace Triumvirate

namespace DensityField

variable {R : Type} [LinearOrderedField R] [FloorRing R]

theorem toInt_of_nonneg (x : R) (h : 0 ≤ x) : toInt x = Int.floor x := by
  unfold toInt
  rw [if_pos h]

/-- C11 (counterexample). CIC on a mesh of size 2 and unit box, particle coordinate `-1/4`: the
grid coordinate is `g = -1/2`, the code's first covered index is `int(-1/2) = 0`, not
`floor(-1/2) = -1`, and the offset `s = g - int(g) = -1/2` is not in `[0, 1)`. -/
theorem cic_index_of_negative_coordinate :
    loc_grid (R := ℚ) ⟨fun _ => 2, fun _ => 1, 8, 1, "CIC", 0, 0, 0, 2, 2⟩
        ⟨fun _ => -1 / 4, 1, 1, 1, 1⟩ 0 = -1 / 2 ∧
    ijk_cic (R := ℚ) ⟨fun _ => 2, fun _ => 1, 8, 1, "CIC", 0, 0, 0, 2, 2⟩
        ⟨fun _ => -1 / 4, 1, 1, 1, 1⟩ 0 0 = 0 ∧
    Int.floor (loc_grid (R := ℚ) ⟨fun _ => 2, fun _ => 1, 8, 1, "CIC", 0, 0, 0, 2, 2⟩
        ⟨fun _ => -1 / 4, 1, 1, 1, 1⟩ 0) = -1 ∧
    win_cic (R := ℚ) ⟨fun _ => 2, fun _ => 1, 8, 1, "CIC", 0, 0, 0, 2, 2⟩
        ⟨fun _ => -1 / 4, 1, 1, 1, 1⟩ 1 0 = -1 / 2 := by
  have hl : loc_grid (R := ℚ) ⟨fun _ => 2, fun _ => 1, 8, 1, "CIC", 0, 0, 0, 2, 2⟩
      ⟨fun _ => -1 / 4, 1, 1, 1, 1⟩ 0 = -1 / 2 := by
    simp [loc_grid]; norm_num
  have ht : toInt ((-1 : ℚ) / 2) = 0 := by
    unfold toInt
    rw [if_neg (by norm_num), Int.ceil_eq_iff]
    constructor <;> norm_num
  refine ⟨hl, ?_, ?_, ?_⟩
  · simp [ijk_cic, hl, ht]
  · rw [hl, Int.floor_eq_iff]
    constructor <;> norm_num
  · simp [win_cic, hl, ht]

/-- C11 (amended). For a particle coordinate with `g_a + 1/2 ≥ 0`, where
`g_a = nmesh[a] * pos[a] / boxsize[a]`, NGP deposits at `floor(g_a + 1/2)` and TSC at
`c - 1, c, c + 1` with `c = floor(g_a + 1/2)`, weights `½(½ - s)²`, `¾ - s²`, `½(½ + s)²` and
`s = g_a - c` in `[-1/2, 1/2)`; for `g_a ≥ 0`, CIC deposits at `floor(g_a)` and `floor(g_a) + 1`
with weights `1 - s` and `s`, where `s = g_a - floor(g_a)` lies in `[0, 1)`. -/
theorem kernel_index_rule_nonneg (params : ParameterSet R) (p : ParticleData R) (a : Fin 3) :
    (0 ≤ loc_grid params p a + 1 / 2 →
      ijk_ngp params p 0 a = Int.floor (loc_grid params p a + 1 / 2) ∧
      ijk_tsc params p 0 a = Int.floor (loc_grid params p a + 1 / 2) - 1 ∧
      ijk_tsc params p 1 a = Int.floor (loc_grid params p a + 1 / 2) ∧
      ijk_tsc params p 2 a = Int.floor (loc_grid params p a + 1 / 2) + 1 ∧
      win_tsc params p 0 a
        = 1 / 2 * (1 / 2 - (loc_grid params p a - (Int.floor (loc_grid params p a + 1 / 2) : R)))
            * (1 / 2 - (loc_grid params p a - (Int.floor (loc_grid params p a + 1 / 2) : R))) ∧
      win_tsc params p 1 a
        = 3 / 4 - (loc_grid params p a - (Int.floor (loc_grid params p a + 1 / 2) : R))
            * (loc_grid params p a - (Int.floor (loc_grid params p a + 1 / 2) : R)) ∧
      win_tsc params p 2 a
        = 1 / 2 * (1 / 2 + (loc_grid params p a - (Int.floor (loc_grid params p a + 1 / 2) : R)))
            * (1 / 2 + (loc_grid params p a - (Int.floor (loc_grid params p a + 1 / 2) : R))) ∧
      -(1 / 2) ≤ loc_grid params p a - (Int.floor (loc_grid params p a + 1 / 2) : R) ∧
      loc_grid params p a - (Int.floor (loc_grid params p a + 1 / 2) : R) < 1 / 2) ∧
    (0 ≤ loc_grid params p a →
      ijk_cic params p 0 a = Int.floor (loc_grid params p a) ∧
      ijk_cic params p 1 a = Int.floor (loc_grid params p a) + 1 ∧
      win_cic params p 0 a = 1 - (loc_grid params p a - (Int.floor (loc_grid params p a) : R)) ∧
      win_cic params p 1 a = loc_grid params p a - (Int.floor (loc_grid params p a) : R) ∧
      0 ≤ loc_grid params p a - (Int.floor (loc_grid params p a) : R) ∧
      loc_grid params p a - (Int.floor (loc_grid params p a) : R) < 1) := by
  constructor
  · intro h
    have ht := toInt_of_nonneg _ h
    have hfl := Int.floor_le (loc_grid params p a + 1 / 2)
    have hlt := Int.lt_floor_add_one (loc_grid params p a + 1 / 2)
    refine ⟨?_, ?_, ?_, ?_, ?_, ?_, ?_, ?_, ?_⟩
    · rw [← ht]; rfl
    · rw [← ht]; rfl
    · rw [← ht]; rfl
    · rw [← ht]; rfl
    · rw [← ht]; rfl
    · rw [← ht]; rfl
    · rw [← ht]; rfl
    · linarith
    · linarith
  · intro h
    have ht := toInt_of_nonneg _ h
    have hfl := Int.floor_le (loc_grid params p a)
    have hlt := Int.lt_floor_add_one (loc_grid params p a)
    refine ⟨?_, ?_, ?_, ?_, ?_, ?_⟩
    · rw [← ht]; rfl
    · rw [← ht]; rfl
    · rw [← ht]; rfl
    · rw [← ht]; rfl
    · linarith
    · linarith

/-- Witness for C11 (amended): CIC at the grid coordinate `g = 3/2`. -/
theorem kernel_index_rule_nonneg_witness :
    ijk_cic (R := ℚ) ⟨fun _ => 2, fun _ => 1, 8, 1, "CIC", 0, 0, 0, 2, 2⟩
        ⟨fun _ => 3 / 4, 1, 1, 1, 1⟩ 0 0
      = Int.floor (loc_grid (R := ℚ) ⟨fun _ => 2, fun _ => 1, 8, 1, "CIC", 0, 0, 0, 2, 2⟩
          ⟨fun _ => 3 / 4, 1, 1, 1, 1⟩ 0) :=
  ((kernel_index_rule_nonneg (R := ℚ) ⟨fun _ => 2, fun _ => 1, 8, 1, "CIC", 0, 0, 0, 2, 2⟩
    ⟨fun _ => 3 / 4, 1, 1, 1, 1⟩ 0).2 (by simp [loc_grid]; norm_num)).1

end DensityField

end Triumvirate

namespace Triumvirate

namespace DensityField

/-- Scenario E1 evaluated: CIC, `nmesh = (8,8,8)`, `boxsize = (100,100,100)`, one particle of
weight 1 at `(50,50,50)`, field initially zero. The grid coordinate is exactly 4 on every axis,
so the offset is `s = 0`, the weights are `(1, 0)`, and the whole mass goes to the cell
`(4,4,4)` of flat index 292. -/
theorem scenario_e1_field (x : Int) :
    (assign_weighted_field_to_grid (R := ℚ)
        ⟨fun _ => 8, fun _ => 100, 512, 1000000, "CIC", 0, 0, 0, 2, 2⟩ (fun _ => (0, 0))
        ⟨1, fun _ => ⟨fun _ => 50, 1, 1, 1, 1⟩⟩ (fun _ => (1, 0))).2 x
      = if x = 292 then (512 / 1000000, 0) else (0, 0) := by
  have hc : ¬ ("CIC" = "NGP") := by decide
  have hl : ∀ a : Fin 3, loc_grid (R := ℚ)
      ⟨fun _ => 8, fun _ => 100, 512, 1000000, "CIC", 0, 0, 0, 2, 2⟩
      ⟨fun _ => 50, 1, 1, 1, 1⟩ a = ((4 : Int) : ℚ) := by
    intro a; simp [loc_grid]; norm_num
  have ht : toInt (((4 : Int) : ℚ)) = 4 := toInt_intCast 4
  simp only [assign_weighted_field_to_grid, hc, if_false, if_true,
    assign_weighted_field_to_grid_cic, List.range_succ, List.range_zero, List.nil_append,
    List.foldl_cons, List.foldl_nil]
  rw [deposit_apply]
  simp only [List.range_succ, List.range_zero, List.nil_append, List.cons_append,
    List.map_cons, List.map_nil, List.sum_cons, List.sum_nil, deposit_value, ijk_cic, win_cic,
    hl, ht, coord_flat, zero_field]
  by_cases hx : x = 292
  · subst hx
    norm_num
  · have hx' : ¬ (292 : Int) = x := fun h => hx h.symm
    rw [if_neg hx]
    norm_num [hx']

/-- C12 (counterexample). In scenario E1 the cell `(4,4,4)` holds `1/dV`, which is not
`1/(8 dV)`, and the covered cell `(5,5,5)` holds 0: the field does not have 8 non-zero cells of
value `1/(8 dV)`. -/
theorem scenario_e1_not_eight_cells :
    (assign_weighted_field_to_grid (R := ℚ)
        ⟨fun _ => 8, fun _ => 100, 512, 1000000, "CIC", 0, 0, 0, 2, 2⟩ (fun _ => (0, 0))
        ⟨1, fun _ => ⟨fun _ => 50, 1, 1, 1, 1⟩⟩ (fun _ => (1, 0))).2
      (coord_flat (R := ℚ) ⟨fun _ => 8, fun _ => 100, 512, 1000000, "CIC", 0, 0, 0, 2, 2⟩ 4 4 4)
      = (1 / (1000000 / 512), 0) ∧
    (1 : ℚ) / (1000000 / 512) ≠ 1 / (8 * (1000000 / 512)) ∧
    (assign_weighted_field_to_grid (R := ℚ)
        ⟨fun _ => 8, fun _ => 100, 512, 1000000, "CIC", 0, 0, 0, 2, 2⟩ (fun _ => (0, 0))
        ⟨1, fun _ => ⟨fun _ => 50, 1, 1, 1, 1⟩⟩ (fun _ => (1, 0))).2
      (coord_flat (R := ℚ) ⟨fun _ => 8, fun _ => 100, 512, 1000000, "CIC", 0, 0, 0, 2, 2⟩ 5 5 5)
      = (0, 0) := by
  refine ⟨?_, by norm_num, ?_⟩
  · rw [scenario_e1_field]
    simp [coord_flat]
  · rw [scenario_e1_field]
    simp [coord_flat]

/-- C12 (amended). In scenario E1 (CIC, `nmesh = (8,8,8)`, `boxsize = (100,100,100)`, one
particle of weight 1 at the box centre) the assigned field has exactly one non-zero cell,
`(4,4,4)`, which holds `1/dV` with `dV = volume / nmesh_tot`; every other cell holds 0. -/
theorem scenario_e1_single_cell :
    ∀ x : Int,
      (assign_weighted_field_to_grid (R := ℚ)
          ⟨fun _ => 8, fun _ => 100, 512, 1000000, "CIC", 0, 0, 0, 2, 2⟩ (fun _ => (0, 0))
          ⟨1, fun _ => ⟨fun _ => 50, 1, 1, 1, 1⟩⟩ (fun _ => (1, 0))).2 x
        = if x = coord_flat (R := ℚ)
              ⟨fun _ => 8, fun _ => 100, 512, 1000000, "CIC", 0, 0, 0, 2, 2⟩ 4 4 4
          then (1 / (1000000 / ((512 : Int) : ℚ)), 0) else (0, 0) := by
  intro x
  rw [scenario_e1_field]
  have h : coord_flat (R := ℚ)
      ⟨fun _ => 8, fun _ => 100, 512, 1000000, "CIC", 0, 0, 0, 2, 2⟩ 4 4 4 = 292 := by
    simp [coord_flat]
  rw [h]
  norm_num

end DensityField

end Triumvirate

namespace Triumvirate

namespace DensityField

variable {R : Type} [LinearOrderedField R] [FloorRing R]

/-- C17 (counterexample). With the unknown kernel name `PCS` the window evaluation returns the
ordinary value 1, the shot-noise evaluation the ordinary value 0, and the field builder
`calc_ylm_weighted_fluctuation` the success status 0: none of them reports an error. -/
theorem unknown_kernel_is_not_fatal :
    calc_interpolation_window_in_fourier ⟨Real.pi, Real.sin, Real.sqrt⟩
        ⟨fun _ => 4, fun _ => 1, 64, 1, "PCS", 0, 0, 0, 2, 2⟩ (fun _ => 2 * Real.pi) = 1 ∧
    TwoPointStatistics.calc_shotnoise_func ⟨Real.pi, Real.sin, Real.sqrt⟩
        ⟨fun _ => 4, fun _ => 1, 64, 1, "PCS", 0, 0, 0, 2, 2⟩ (fun _ => 2 * Real.pi) = 0 ∧
    (calc_ylm_weighted_fluctuation (R := ℝ) (fun _ _ _ => (1, 0))
        ⟨fun _ => 4, fun _ => 1, 64, 1, "PCS", 0, 0, 0, 2, 2⟩ (fun _ => (0, 0))
        ⟨1, fun _ => ⟨fun _ => 0, 1, 1, 1, 1⟩⟩ ⟨1, fun _ => ⟨fun _ => 0, 1, 1, 1, 1⟩⟩
        (fun _ _ => 1) (fun _ _ => 1) 1 0 0).1 = 0 := by
  have h1 : ¬ ("PCS" = "NGP") := by decide
  have h2 : ¬ ("PCS" = "CIC") := by decide
  have h3 : ¬ ("PCS" = "TSC") := by decide
  refine ⟨?_, ?_, ?_⟩
  · simp only [calc_interpolation_window_in_fourier, h1, h2, h3, if_false]
  · simp only [TwoPointStatistics.calc_shotnoise_func, h1, h2, h3, if_false]
  · rfl

/-- C17 (amended). For an assignment string outside {NGP, CIC, TSC} only the dispatcher
`assign_weighted_field_to_grid` reports the failure, by the status `-1`; the window evaluation
returns the value 1 and the shot-noise evaluation the value 0 for every wave-vector, and the
field builder `calc_ylm_weighted_fluctuation` returns the status 0. -/
theorem unknown_kernel_fallbacks (lib : LibM R) (params : ParameterSet R)
    (ylm_func : Int → Int → (Fin 3 → R) → Cx R) (field : Grid R)
    (particles_data particles_rand : ParticleCatalogue R) (weight : Nat → Cx R)
    (los_data los_rand : Nat → Fin 3 → R) (alpha : R) (ell m : Int) (kvec : Fin 3 → R)
    (hunknown : ¬(params.assignment = "NGP" ∨ params.assignment = "CIC" ∨
      params.assignment = "TSC")) :
    (assign_weighted_field_to_grid params field particles_data weight).1 = -1 ∧
    calc_interpolation_window_in_fourier lib params kvec = 1 ∧
    TwoPointStatistics.calc_shotnoise_func lib params kvec = 0 ∧
    (calc_ylm_weighted_fluctuation ylm_func params field particles_data particles_rand
      los_data los_rand alpha ell m).1 = 0 := by
  have h1 : ¬ params.assignment = "NGP" := fun h => hunknown (Or.inl h)
  have h2 : ¬ params.assignment = "CIC" := fun h => hunknown (Or.inr (Or.inl h))
  have h3 : ¬ params.assignment = "TSC" := fun h => hunknown (Or.inr (Or.inr h))
  refine ⟨?_, ?_, ?_, rfl⟩
  · simp only [assign_weighted_field_to_grid, h1, h2, h3, if_false]
  · simp only [calc_interpolation_window_in_fourier, h1, h2, h3, if_false]
  · simp only [TwoPointStatistics.calc_shotnoise_func, h1, h2, h3, if_false]

/-- Witness for C17 (amended): the kernel name `PCS`. -/
theorem unknown_kernel_fallbacks_witness :
    (assign_weighted_field_to_grid (R := ℚ) ⟨fun _ => 4, fun _ => 1, 64, 1, "PCS", 0, 0, 0, 2, 2⟩
        (fun _ => (0, 0)) ⟨1, fun _ => ⟨fun _ => 0, 1, 1, 1, 1⟩⟩ (fun _ => (1, 0))).1 = -1 ∧
    calc_interpolation_window_in_fourier (R := ℚ) ⟨22 / 7, fun x => x, fun x => x⟩
        ⟨fun _ => 4, fun _ => 1, 64, 1, "PCS", 0, 0, 0, 2, 2⟩ (fun _ => 1) = 1 ∧
    TwoPointStatistics.calc_shotnoise_func (R := ℚ) ⟨22 / 7, fun x => x, fun x => x⟩
        ⟨fun _ => 4, fun _ => 1, 64, 1, "PCS", 0, 0, 0, 2, 2⟩ (fun _ => 1) = 0 ∧
    (calc_ylm_weighted_fluctuation (R := ℚ) (fun _ _ _ => (1, 0))
        ⟨fun _ => 4, fun _ => 1, 64, 1, "PCS", 0, 0, 0, 2, 2⟩ (fun _ => (0, 0))
        ⟨1, fun _ => ⟨fun _ => 0, 1, 1, 1, 1⟩⟩ ⟨1, fun _ => ⟨fun _ => 0, 1, 1, 1, 1⟩⟩
        (fun _ _ => 1) (fun _ _ => 1) 1 0 0).1 = 0 :=
  unknown_kernel_fallbacks (R := ℚ) ⟨22 / 7, fun x => x, fun x => x⟩
    ⟨fun _ => 4, fun _ => 1, 64, 1, "PCS", 0, 0, 0, 2, 2⟩ (fun _ _ _ => (1, 0)) (fun _ => (0, 0))
    ⟨1, fun _ => ⟨fun _ => 0, 1, 1, 1, 1⟩⟩ ⟨1, fun _ => ⟨fun _ => 0, 1, 1, 1, 1⟩⟩
    (fun _ => (1, 0)) (fun _ _ => 1) (fun _ _ => 1) 1 0 0 (fun _ => 1) (by decide)

end DensityField

end Triumvirate

namespace Triumvirate

namespace TwoPointStatistics

variable {R : Type} [LinearOrderedField R] [FloorRing R]

theorem calc_power_spec_nmode_pk_eq (lib : LibM R) (params : ParameterSet R)
    (ylm_func : Int → Int → (Fin 3 → R) → Cx R) (stats : TwoPointStatistics R)
    (density_a density_b : Grid R) (kbin : Nat → R) (shotnoise : Cx R) (ell m : Int) (j : Nat)
    (hj : j < params.num_kbin) :
    (calc_power_spec lib params ylm_func stats density_a density_b kbin shotnoise ell m).nmode_pk j
      = power_bin_nmode kbin
          (power_sample lib params ylm_func density_a density_b shotnoise ell m).2 j := by
  unfold calc_power_spec
  show (if j < params.num_kbin then _ else _) = _
  rw [if_pos hj]

theorem calc_power_spec_pk_eq (lib : LibM R) (params : ParameterSet R)
    (ylm_func : Int → Int → (Fin 3 → R) → Cx R) (stats : TwoPointStatistics R)
    (density_a density_b : Grid R) (kbin : Nat → R) (shotnoise : Cx R) (ell m : Int) (j : Nat)
    (hj : j < params.num_kbin) :
    (calc_power_spec lib params ylm_func stats density_a density_b kbin shotnoise ell m).pk j
      = if power_bin_nmode kbin
            (power_sample lib params ylm_func density_a density_b shotnoise ell m).2 j ≠ 0 then
          Cx.divReal
            (power_bin_pk kbin
              (power_sample lib params ylm_func density_a density_b shotnoise ell m).1 j)
            ((power_bin_nmode kbin
              (power_sample lib params ylm_func density_a density_b shotnoise ell m).2 j : Int) : R)
        else (0, 0) := by
  unfold calc_power_spec
  show (if j < params.num_kbin then _ else _) = _
  rw [if_pos hj]

theorem calc_corr_func_npair_xi_eq (lib : LibM R) (fftw : DensityField.FFTW R)
    (params : ParameterSet R) (ylm_func : Int → Int → (Fin 3 → R) → Cx R)
    (stats : TwoPointStatistics R) (density_a density_b : Grid R) (rbin : Nat → R)
    (shotnoise : Cx R) (ell m : Int) (j : Nat) (hj : j < params.num_rbin) :
    (calc_corr_func lib fftw params ylm_func stats density_a density_b rbin shotnoise ell
        m).npair_xi j
      = corr_bin_npair rbin
          (corr_sample lib fftw params ylm_func density_a density_b shotnoise ell m).2 j := by
  unfold calc_corr_func
  show (if j < params.num_rbin then _ else _) = _
  rw [if_pos hj]

theorem calc_corr_func_xi_eq (lib : LibM R) (fftw : DensityField.FFTW R)
    (params : ParameterSet R) (ylm_func : Int → Int → (Fin 3 → R) → Cx R)
    (stats : TwoPointStatistics R) (density_a density_b : Grid R) (rbin : Nat → R)
    (shotnoise : Cx R) (ell m : Int) (j : Nat) (hj : j < params.num_rbin) :
    (calc_corr_func lib fftw params ylm_func stats density_a density_b rbin shotnoise ell m).xi j
      = if corr_bin_npair rbin
            (corr_sample lib fftw params ylm_func density_a density_b shotnoise ell m).2 j ≠ 0
        then
          Cx.divReal
            (corr_bin_xi rbin
              (corr_sample lib fftw params ylm_func density_a density_b shotnoise ell m).1 j)
            ((corr_bin_npair rbin
              (corr_sample lib fftw params ylm_func density_a density_b shotnoise ell m).2 j
                : Int) : R)
        else (0, 0) := by
  unfold calc_corr_func
  show (if j < params.num_rbin then _ else _) = _
  rw [if_pos hj]

/-- C18. Empty bins are soft: after `calc_power_spec` (resp. `calc_corr_func`), every bin whose
count `nmode_pk[j]` (resp. `npair_xi[j]`) is 0 has value exactly 0, every bin with a positive
count holds its accumulated sum divided by the count, and the call returns success (0) in both
cases. -/
theorem empty_bins_are_soft (lib : LibM R) (fftw : DensityField.FFTW R) (params : ParameterSet R)
    (ylm_func : Int → Int → (Fin 3 → R) → Cx R) (stats : TwoPointStatistics R)
    (density_a density_b : Grid R) (bins : Nat → R) (shotnoise : Cx R) (ell m : Int) :
    (∀ j, j < params.num_kbin →
      ((calc_power_spec lib params ylm_func stats density_a density_b bins shotnoise ell m).nmode_pk j
          = 0 →
        (calc_power_spec lib params ylm_func stats density_a density_b bins shotnoise ell m).pk j
          = (0, 0)) ∧
      (0 < (calc_power_spec lib params ylm_func stats density_a density_b bins shotnoise ell
            m).nmode_pk j →
        (calc_power_spec lib params ylm_func stats density_a density_b bins shotnoise ell m).pk j
          = Cx.divReal
              (power_bin_pk bins
                (power_sample lib params ylm_func density_a density_b shotnoise ell m).1 j)
              (((calc_power_spec lib params ylm_func stats density_a density_b bins shotnoise ell
                m).nmode_pk j : Int) : R))) ∧
    (calc_power_spec_call lib params ylm_func stats density_a density_b bins shotnoise ell m).1
      = 0 ∧
    (∀ j, j < params.num_rbin →
      ((calc_corr_func lib fftw params ylm_func stats density_a density_b bins shotnoise ell
            m).npair_xi j = 0 →
        (calc_corr_func lib fftw params ylm_func stats density_a density_b bins shotnoise ell
            m).xi j = (0, 0)) ∧
      (0 < (calc_corr_func lib fftw params ylm_func stats density_a density_b bins shotnoise ell
            m).npair_xi j →
        (calc_corr_func lib fftw params ylm_func stats density_a density_b bins shotnoise ell
            m).xi j
          = Cx.divReal
              (corr_bin_xi bins
                (corr_sample lib fftw params ylm_func density_a density_b shotnoise ell m).1 j)
              (((calc_corr_func lib fftw params ylm_func stats density_a density_b bins shotnoise
                ell m).npair_xi j : Int) : R))) ∧
    (calc_corr_func_call lib fftw params ylm_func stats density_a density_b bins shotnoise ell
      m).1 = 0 := by
  refine ⟨?_, rfl, ?_, rfl⟩
  · intro j hj
    rw [calc_power_spec_nmode_pk_eq _ _ _ _ _ _ _ _ _ _ _ hj,
      calc_power_spec_pk_eq _ _ _ _ _ _ _ _ _ _ _ hj]
    constructor
    · intro h0
      rw [if_neg (not_not.mpr h0)]
    · intro hpos
      rw [if_pos hpos.ne']
  · intro j hj
    rw [calc_corr_func_npair_xi_eq _ _ _ _ _ _ _ _ _ _ _ _ hj,
      calc_corr_func_xi_eq _ _ _ _ _ _ _ _ _ _ _ _ hj]
    constructor
    · intro h0
      rw [if_neg (not_not.mpr h0)]
    · intro hpos
      rw [if_pos hpos.ne']

/-- Witness for C18: bin 0 of the power spectrum on a one-cell mesh. -/
theorem empty_bins_are_soft_witness :
    (calc_power_spec_call (R := ℚ) ⟨22 / 7, fun x => x, fun x => x⟩
        ⟨fun _ => 1, fun _ => 1, 1, 1, "NGP", 0, 0, 0, 2, 2⟩ (fun _ _ _ => (1, 0))
        ⟨fun _ => (0, 0), fun _ => 0, fun _ => (0, 0), fun _ => 0⟩
        (fun _ => (1, 0)) (fun _ => (1, 0)) (fun j => (j : ℚ) + 1) (0, 0) 0 0).1 = 0 :=
  (empty_bins_are_soft (R := ℚ) ⟨22 / 7, fun x => x, fun x => x⟩
    ⟨fun _ _ _ g => g, fun _ _ _ g => g⟩
    ⟨fun _ => 1, fun _ => 1, 1, 1, "NGP", 0, 0, 0, 2, 2⟩ (fun _ _ _ => (1, 0))
    ⟨fun _ => (0, 0), fun _ => 0, fun _ => (0, 0), fun _ => 0⟩
    (fun _ => (1, 0)) (fun _ => (1, 0)) (fun j => (j : ℚ) + 1) (0, 0) 0 0).2.1

end TwoPointStatistics

end Triumvirate

namespace Triumvirate

namespace TwoPointStatistics

/-! ### The 2×2×2 mesh with the real libm -/

theorem two_mesh_folded (params : ParameterSet ℝ) (hn : ∀ a, params.nmesh a = 2) (a : Fin 3)
    (idx : Nat) (hidx : idx < 2) :
    DensityField.folded_index params a (idx : Int) = -(idx : Int) := by
  unfold DensityField.folded_index
  rw [hn a, show Int.tdiv 2 2 = 1 from rfl]
  interval_cases idx <;> simp

theorem two_mesh_kvec (params : ParameterSet ℝ) (κ : ℝ) (hn : ∀ a, params.nmesh a = 2)
    (hdk : ∀ a, DensityField.mode_dk ⟨Real.pi, Real.sin, Real.sqrt⟩ params a = κ)
    (i j k : Nat) (hi : i < 2) (hj : j < 2) (hk : k < 2) :
    DensityField.grid_kvec ⟨Real.pi, Real.sin, Real.sqrt⟩ params i j k 0 = -(i : ℝ) * κ ∧
    DensityField.grid_kvec ⟨Real.pi, Real.sin, Real.sqrt⟩ params i j k 1 = -(j : ℝ) * κ ∧
    DensityField.grid_kvec ⟨Real.pi, Real.sin, Real.sqrt⟩ params i j k 2 = -(k : ℝ) * κ := by
  refine ⟨?_, ?_, ?_⟩
  · rw [DensityField.grid_kvec_eq, hdk, if_pos rfl, two_mesh_folded params hn 0 i hi]
    push_cast; ring
  · rw [DensityField.grid_kvec_eq, hdk, if_neg (by decide), if_pos rfl,
      two_mesh_folded params hn 1 j hj]
    push_cast; ring
  · rw [DensityField.grid_kvec_eq, hdk, if_neg (by decide), if_neg (by decide),
      two_mesh_folded params hn 2 k hk]
    push_cast; ring

theorem two_mesh_kmag (params : ParameterSet ℝ) (κ : ℝ) (hn : ∀ a, params.nmesh a = 2)
    (hdk : ∀ a, DensityField.mode_dk ⟨Real.pi, Real.sin, Real.sqrt⟩ params a = κ)
    (i j k : Nat) (hi : i < 2) (hj : j < 2) (hk : k < 2) :
    DensityField.vec_mag ⟨Real.pi, Real.sin, Real.sqrt⟩
        (DensityField.grid_kvec ⟨Real.pi, Real.sin, Real.sqrt⟩ params i j k)
      = Real.sqrt (((i : ℝ) ^ 2 + (j : ℝ) ^ 2 + (k : ℝ) ^ 2) * κ ^ 2) := by
  obtain ⟨h0, h1, h2⟩ := two_mesh_kvec params κ hn hdk i j k hi hj hk
  unfold DensityField.vec_mag
  simp only
  rw [h0, h1, h2]
  congr 1
  ring

theorem two_mesh_kmag_axis (params : ParameterSet ℝ) (κ : ℝ) (hκ : 0 ≤ κ)
    (hn : ∀ a, params.nmesh a = 2)
    (hdk : ∀ a, DensityField.mode_dk ⟨Real.pi, Real.sin, Real.sqrt⟩ params a = κ) :
    DensityField.vec_mag ⟨Real.pi, Real.sin, Real.sqrt⟩
        (DensityField.grid_kvec ⟨Real.pi, Real.sin, Real.sqrt⟩ params
          ((1 : Nat) : Int) ((0 : Nat) : Int) ((0 : Nat) : Int)) = κ := by
  rw [two_mesh_kmag params κ hn hdk 1 0 0 (by norm_num) (by norm_num) (by norm_num)]
  have : (((1 : Nat) : ℝ) ^ 2 + ((0 : Nat) : ℝ) ^ 2 + ((0 : Nat) : ℝ) ^ 2) * κ ^ 2 = κ ^ 2 := by
    push_cast; ring
  rw [this, Real.sqrt_sq hκ]

theorem two_mesh_kmag_cases (params : ParameterSet ℝ) (κ : ℝ)
    (hn : ∀ a, params.nmesh a = 2)
    (hdk : ∀ a, DensityField.mode_dk ⟨Real.pi, Real.sin, Real.sqrt⟩ params a = κ)
    (i j k : Nat) (hi : i < 2) (hj : j < 2) (hk : k < 2) :
    DensityField.vec_mag ⟨Real.pi, Real.sin, Real.sqrt⟩
        (DensityField.grid_kvec ⟨Real.pi, Real.sin, Real.sqrt⟩ params i j k) = 0 ∨
    κ ≤ DensityField.vec_mag ⟨Real.pi, Real.sin, Real.sqrt⟩
        (DensityField.grid_kvec ⟨Real.pi, Real.sin, Real.sqrt⟩ params i j k) := by
  rw [two_mesh_kmag params κ hn hdk i j k hi hj hk]
  by_cases h0 : i = 0 ∧ j = 0 ∧ k = 0
  · left
    obtain ⟨rfl, rfl, rfl⟩ := h0
    simp
  · right
    have hsum : (1 : ℝ) ≤ (i : ℝ) ^ 2 + (j : ℝ) ^ 2 + (k : ℝ) ^ 2 := by
      have : 1 ≤ i ^ 2 + j ^ 2 + k ^ 2 := by
        interval_cases i <;> interval_cases j <;> interval_cases k <;> simp_all
      exact_mod_cast this
    apply Real.le_sqrt_of_sq_le
    nlinarith [sq_nonneg κ]

theorem two_mesh_window_index (params : ParameterSet ℝ) (κ : ℝ) (hκ : κ ≠ 0)
    (hn : ∀ a, params.nmesh a = 2)
    (hdk : ∀ a, DensityField.mode_dk ⟨Real.pi, Real.sin, Real.sqrt⟩ params a = κ)
    (i j k : Nat) (hi : i < 2) (hj : j < 2) (hk : k < 2) (a : Fin 3) :
    DensityField.window_index ⟨Real.pi, Real.sin, Real.sqrt⟩ params
      (DensityField.grid_kvec ⟨Real.pi, Real.sin, Real.sqrt⟩ params i j k) a = 0 := by
  rw [DensityField.window_index_grid_kvec _ _ _ _ _ _ (by rw [hdk]; exact hκ)]
  fin_cases a
  · simp only [Fin.zero_eta, if_true]
    rw [two_mesh_folded params hn 0 i hi]
    interval_cases i <;> simp
  · simp only [Fin.mk_one, if_neg (show ¬ ((1 : Fin 3) = 0) by decide), if_true]
    rw [two_mesh_folded params hn 1 j hj]
    interval_cases j <;> simp
  · simp only [Fin.reduceFinMk, if_neg (show ¬ ((2 : Fin 3) = 0) by decide),
      if_neg (show ¬ ((2 : Fin 3) = 1) by decide)]
    rw [two_mesh_folded params hn 2 k hk]
    interval_cases k <;> simp

end TwoPointStatistics

end Triumvirate

namespace Triumvirate

namespace TwoPointStatistics

variable {R : Type} [LinearOrderedField R] [FloorRing R]

/-- C19 (counterexample). A 2×2×2 mesh with mode spacing `dk = 1.50004` (box size
`2π / 1.50004`), bins `kbin = (1, 2)`: the bin 0 is `(0.5, 1.5]`. The cell `(1, 0, 0)` has
`kmag = 1.50004`, outside the bin, but its fine index is 15000 and its slot centre `1.5` lies in
the bin, so `nmode_pk[0] > 0`, whereas no cell of the mesh has `kmag` itself in `(0.5, 1.5]`. -/
theorem mode_count_counts_rounded_modes :
    0 < (calc_power_spec ⟨Real.pi, Real.sin, Real.sqrt⟩
        ⟨fun _ => 2, fun _ => 2 * Real.pi / (150004 / 100000), 8, 1, "NGP", 0, 0, 0, 2, 2⟩
        (fun _ _ _ => (1, 0)) ⟨fun _ => (0, 0), fun _ => 0, fun _ => (0, 0), fun _ => 0⟩
        (fun _ => (1, 0)) (fun _ => (1, 0)) (fun j => (j : ℝ) + 1) (0, 0) 0 0).nmode_pk 0 ∧
    (Reference.exact_bin_cells ⟨Real.pi, Real.sin, Real.sqrt⟩
        ⟨fun _ => 2, fun _ => 2 * Real.pi / (150004 / 100000), 8, 1, "NGP", 0, 0, 0, 2, 2⟩
        (fun j => (j : ℝ) + 1) 0).card = 0 := by
  have hn : ∀ a : Fin 3, (⟨fun _ => 2, fun _ => 2 * Real.pi / (150004 / 100000), 8, 1, "NGP",
      0, 0, 0, 2, 2⟩ : ParameterSet ℝ).nmesh a = 2 := fun _ => rfl
  have hdk : ∀ a : Fin 3, DensityField.mode_dk ⟨Real.pi, Real.sin, Real.sqrt⟩
      (⟨fun _ => 2, fun _ => 2 * Real.pi / (150004 / 100000), 8, 1, "NGP",
        0, 0, 0, 2, 2⟩ : ParameterSet ℝ) a = 150004 / 100000 := by
    intro a
    simp only [DensityField.mode_dk]
    have := Real.pi_ne_zero
    field_simp
    ring
  have hcells : ∀ c : Nat × Nat × Nat,
      c ∈ Reference.cells (⟨fun _ => 2, fun _ => 2 * Real.pi / (150004 / 100000), 8, 1, "NGP",
        0, 0, 0, 2, 2⟩ : ParameterSet ℝ) ↔ c.1 < 2 ∧ c.2.1 < 2 ∧ c.2.2 < 2 := by
    intro c
    simp [Reference.cells]
  constructor
  · rw [calc_power_spec_nmode_pk_eq _ _ _ _ _ _ _ _ _ _ _ (by decide), power_bin_nmode_value]
    have hmem : ((1 : Nat), (0 : Nat), (0 : Nat)) ∈ Reference.power_bin_cells
        ⟨Real.pi, Real.sin, Real.sqrt⟩
        (⟨fun _ => 2, fun _ => 2 * Real.pi / (150004 / 100000), 8, 1, "NGP",
          0, 0, 0, 2, 2⟩ : ParameterSet ℝ) (fun j => (j : ℝ) + 1) 0 := by
      have hidx : idx_k ⟨Real.pi, Real.sin, Real.sqrt⟩
          (⟨fun _ => 2, fun _ => 2 * Real.pi / (150004 / 100000), 8, 1, "NGP",
            0, 0, 0, 2, 2⟩ : ParameterSet ℝ) 1 0 0 = 15000 := by
        unfold idx_k
        rw [two_mesh_kmag_axis _ _ (by norm_num) hn hdk]
        apply toInt_of_bounds
        · norm_num
        · unfold dk_sample; norm_num
        · unfold dk_sample; norm_num
      unfold Reference.power_bin_cells
      rw [Finset.mem_filter, hcells]
      simp only [hidx]
      norm_num
    have : 0 < (Reference.power_bin_cells ⟨Real.pi, Real.sin, Real.sqrt⟩
        (⟨fun _ => 2, fun _ => 2 * Real.pi / (150004 / 100000), 8, 1, "NGP",
          0, 0, 0, 2, 2⟩ : ParameterSet ℝ) (fun j => (j : ℝ) + 1) 0).card :=
      Finset.card_pos.mpr ⟨_, hmem⟩
    exact_mod_cast this
  · rw [Finset.card_eq_zero]
    unfold Reference.exact_bin_cells
    rw [Finset.filter_eq_empty_iff]
    intro c hc
    rw [hcells] at hc
    rcases two_mesh_kmag_cases _ _ hn hdk c.1 c.2.1 c.2.2 hc.1 hc.2.1 hc.2.2 with h0 | hge
    · rw [h0]
      norm_num
    · intro h
      have h2 := h.2
      norm_num at h2
      linarith

/-- C19 (amended). For every bin `j`, the count `nmode_pk[j]` produced by `calc_power_spec`
equals the number of grid cells whose fine index `idx = ⌊kmag/1e-4 + 1/2⌋` is below 100000 and
whose fine-slot centre `idx · 1e-4` (not `kmag` itself) lies in `(k_lower_j, kbin[j] + D/2]`,
with `D = kbin[1] - kbin[0]` and the lower edge clamped at 0. -/
theorem mode_count_by_slot_centre (lib : LibM R) (params : ParameterSet R)
    (ylm_func : Int → Int → (Fin 3 → R) → Cx R) (stats : TwoPointStatistics R)
    (density_a density_b : Grid R) (kbin : Nat → R) (shotnoise : Cx R) (ell m : Int)
    (j : Nat) (hj : j < params.num_kbin) :
    (calc_power_spec lib params ylm_func stats density_a density_b kbin shotnoise ell m).nmode_pk j
      = (((Reference.cells params).filter (fun c =>
          idx_k lib params c.1 c.2.1 c.2.2 < 100000 ∧
          (if kbin j > (kbin 1 - kbin 0) / 2 then kbin j - (kbin 1 - kbin 0) / 2 else 0)
            < ((idx_k lib params c.1 c.2.1 c.2.2 : Int) : R) * (1 / 10000) ∧
          ((idx_k lib params c.1 c.2.1 c.2.2 : Int) : R) * (1 / 10000)
            ≤ kbin j + (kbin 1 - kbin 0) / 2)).card : Int) := by
  rw [calc_power_spec_nmode_pk_eq _ _ _ _ _ _ _ _ _ _ _ hj, power_bin_nmode_value]
  rfl

/-- Witness for C19 (amended): bin 0 on a one-cell mesh. -/
theorem mode_count_by_slot_centre_witness :
    (calc_power_spec (R := ℚ) ⟨22 / 7, fun x => x, fun x => x⟩
        ⟨fun _ => 1, fun _ => 1, 1, 1, "NGP", 0, 0, 0, 2, 2⟩ (fun _ _ _ => (1, 0))
        ⟨fun _ => (0, 0), fun _ => 0, fun _ => (0, 0), fun _ => 0⟩
        (fun _ => (1, 0)) (fun _ => (1, 0)) (fun j => (j : ℚ) + 1) (0, 0) 0 0).nmode_pk 0
      = (((Reference.cells (R := ℚ) ⟨fun _ => 1, fun _ => 1, 1, 1, "NGP", 0, 0, 0, 2, 2⟩).filter
          (fun c =>
            idx_k (R := ℚ) ⟨22 / 7, fun x => x, fun x => x⟩
              ⟨fun _ => 1, fun _ => 1, 1, 1, "NGP", 0, 0, 0, 2, 2⟩ c.1 c.2.1 c.2.2 < 100000 ∧
            (if (fun j : Nat => (j : ℚ) + 1) 0
                  > ((fun j : Nat => (j : ℚ) + 1) 1 - (fun j : Nat => (j : ℚ) + 1) 0) / 2
              then (fun j : Nat => (j : ℚ) + 1) 0
                - ((fun j : Nat => (j : ℚ) + 1) 1 - (fun j : Nat => (j : ℚ) + 1) 0) / 2 else 0)
              < ((idx_k (R := ℚ) ⟨22 / 7, fun x => x, fun x => x⟩
                  ⟨fun _ => 1, fun _ => 1, 1, 1, "NGP", 0, 0, 0, 2, 2⟩ c.1 c.2.1 c.2.2 : Int) : ℚ)
                * (1 / 10000) ∧
            ((idx_k (R := ℚ) ⟨22 / 7, fun x => x, fun x => x⟩
                  ⟨fun _ => 1, fun _ => 1, 1, 1, "NGP", 0, 0, 0, 2, 2⟩ c.1 c.2.1 c.2.2 : Int) : ℚ)
                * (1 / 10000)
              ≤ (fun j : Nat => (j : ℚ) + 1) 0
                + ((fun j : Nat => (j : ℚ) + 1) 1 - (fun j : Nat => (j : ℚ) + 1) 0) / 2)).card
          : Int) :=
  mode_count_by_slot_centre (R := ℚ) ⟨22 / 7, fun x => x, fun x => x⟩
    ⟨fun _ => 1, fun _ => 1, 1, 1, "NGP", 0, 0, 0, 2, 2⟩ (fun _ _ _ => (1, 0))
    ⟨fun _ => (0, 0), fun _ => 0, fun _ => (0, 0), fun _ => 0⟩
    (fun _ => (1, 0)) (fun _ => (1, 0)) (fun j => (j : ℚ) + 1) (0, 0) 0 0 0 (by decide)

end TwoPointStatistics

end Triumvirate

namespace Triumvirate

namespace TwoPointStatistics

variable {R : Type} [LinearOrderedField R] [FloorRing R]

/-- The mode power of scenario E3: identical fields, no shot noise, unit harmonic weight. -/
theorem mode_power_e3 (lib : LibM R) (params : ParameterSet R)
    (ylm_func : Int → Int → (Fin 3 → R) → Cx R) (delta : Grid R)
    (hY : ∀ v : Fin 3 → R, ylm_func 0 0 v = (1, 0)) (i j k : Nat) :
    mode_power lib params ylm_func delta delta (0, 0) 0 0 i j k
      = (((delta (coord_flat params i j k)).1 ^ 2 + (delta (coord_flat params i j k)).2 ^ 2)
          / DensityField.calc_interpolation_window_in_fourier lib params
              (DensityField.grid_kvec lib params i j k) ^ 2, 0) := by
  unfold mode_power
  simp only [hY, Cx.mul, Cx.conj, Cx.mulReal, Cx.divReal, Prod.fst_sub, Prod.snd_sub]
  refine Prod.ext ?_ ?_
  · simp only [zero_mul, sub_zero, mul_one, mul_zero, mul_neg, sub_neg_eq_add]
    ring
  · simp only [zero_mul, sub_zero, mul_one, mul_zero, mul_neg, zero_add]
    ring

theorem power_spec_e3_value (lib : LibM R) (params : ParameterSet R)
    (ylm_func : Int → Int → (Fin 3 → R) → Cx R) (stats : TwoPointStatistics R)
    (delta : Grid R) (kbin : Nat → R)
    (hY : ∀ v : Fin 3 → R, ylm_func 0 0 v = (1, 0))
    (j : Nat) (hj : j < params.num_kbin)
    (hne : (Reference.power_bin_cells lib params kbin j).card ≠ 0) :
    (calc_power_spec lib params ylm_func stats delta delta kbin (0, 0) 0 0).pk j
      = Cx.divReal
          (∑ c ∈ Reference.power_bin_cells lib params kbin j,
            (((delta (coord_flat params c.1 c.2.1 c.2.2)).1 ^ 2
                + (delta (coord_flat params c.1 c.2.1 c.2.2)).2 ^ 2)
              / DensityField.calc_interpolation_window_in_fourier lib params
                  (DensityField.grid_kvec lib params c.1 c.2.1 c.2.2) ^ 2, (0 : R)))
          ((Reference.power_bin_cells lib params kbin j).card : R) := by
  have hne' : ((Reference.power_bin_cells lib params kbin j).card : Int) ≠ 0 := by
    exact_mod_cast hne
  rw [calc_power_spec_pk_eq _ _ _ _ _ _ _ _ _ _ _ hj, power_bin_nmode_value, power_bin_pk_value,
    if_pos hne', Int.cast_natCast]
  congr 1
  exact Finset.sum_congr rfl (fun c _ => mode_power_e3 lib params ylm_func delta hY _ _ _)

/-- C20 (amended). Scenario E3: with `density_a = density_b = delta`, shot noise `N = 0` and
`ell = m = 0` (`Y_00 = 1`), every non-empty bin of `calc_power_spec` holds the average over the
bin's cells of `|delta(k)|² / W(k)²`: the window compensation is applied and there is no
division by the volume. -/
theorem power_spec_scenario_e3 (lib : LibM R) (params : ParameterSet R)
    (ylm_func : Int → Int → (Fin 3 → R) → Cx R) (stats : TwoPointStatistics R)
    (delta : Grid R) (kbin : Nat → R)
    (hY : ∀ v : Fin 3 → R, ylm_func 0 0 v = (1, 0))
    (j : Nat) (hj : j < params.num_kbin)
    (hne : (Reference.power_bin_cells lib params kbin j).card ≠ 0) :
    (calc_power_spec lib params ylm_func stats delta delta kbin (0, 0) 0 0).pk j
      = Cx.divReal
          (∑ c ∈ Reference.power_bin_cells lib params kbin j,
            (((delta (coord_flat params c.1 c.2.1 c.2.2)).1 ^ 2
                + (delta (coord_flat params c.1 c.2.1 c.2.2)).2 ^ 2)
              / DensityField.calc_interpolation_window_in_fourier lib params
                  (DensityField.grid_kvec lib params c.1 c.2.1 c.2.2) ^ 2, (0 : R)))
          ((Reference.power_bin_cells lib params kbin j).card : R) :=
  power_spec_e3_value lib params ylm_func stats delta kbin hY j hj hne

/-- The bin 0 = `(0.5, 1.5]` of the 2×2×2 mesh with mode spacing 1 contains the cell
`(1, 0, 0)`, of fine index 10000. -/
theorem unit_mesh_bin_nonempty :
    ((1 : Nat), (0 : Nat), (0 : Nat)) ∈ Reference.power_bin_cells ⟨Real.pi, Real.sin, Real.sqrt⟩
      (⟨fun _ => 2, fun _ => 2 * Real.pi, 8, (2 * Real.pi) ^ 3, "NGP", 0, 0, 0, 2, 2⟩ :
        ParameterSet ℝ) (fun j => (j : ℝ) + 1) 0 := by
  have hn : ∀ a : Fin 3, (⟨fun _ => 2, fun _ => 2 * Real.pi, 8, (2 * Real.pi) ^ 3, "NGP",
      0, 0, 0, 2, 2⟩ : ParameterSet ℝ).nmesh a = 2 := fun _ => rfl
  have hdk : ∀ a : Fin 3, DensityField.mode_dk ⟨Real.pi, Real.sin, Real.sqrt⟩
      (⟨fun _ => 2, fun _ => 2 * Real.pi, 8, (2 * Real.pi) ^ 3, "NGP",
        0, 0, 0, 2, 2⟩ : ParameterSet ℝ) a = 1 := by
    intro a
    simp only [DensityField.mode_dk]
    have := Real.pi_ne_zero
    field_simp
  have hidx : idx_k ⟨Real.pi, Real.sin, Real.sqrt⟩
      (⟨fun _ => 2, fun _ => 2 * Real.pi, 8, (2 * Real.pi) ^ 3, "NGP",
        0, 0, 0, 2, 2⟩ : ParameterSet ℝ) 1 0 0 = 10000 := by
    unfold idx_k
    rw [two_mesh_kmag_axis _ _ (by norm_num) hn hdk]
    apply toInt_of_bounds
    · norm_num
    · unfold dk_sample; norm_num
    · unfold dk_sample; norm_num
  unfold Reference.power_bin_cells
  rw [Finset.mem_filter]
  simp only [hidx]
  refine ⟨by simp [Reference.cells], ?_⟩
  norm_num

/-- C20 (counterexample). Scenario E3 on a 2×2×2 mesh of box size `2π` (mode spacing 1, volume
`(2π)³`), `delta = 1` in every cell, bins `kbin = (1, 2)`: the non-empty bin 0 holds `1`, the
average of `|delta|² / W²`, whereas the naive reference `|delta|² / volume` is `1 / (2π)³`. -/
theorem power_spec_e3_not_divided_by_volume :
    (calc_power_spec ⟨Real.pi, Real.sin, Real.sqrt⟩
        ⟨fun _ => 2, fun _ => 2 * Real.pi, 8, (2 * Real.pi) ^ 3, "NGP", 0, 0, 0, 2, 2⟩
        (fun _ _ _ => (1, 0)) ⟨fun _ => (0, 0), fun _ => 0, fun _ => (0, 0), fun _ => 0⟩
        (fun _ => (1, 0)) (fun _ => (1, 0)) (fun j => (j : ℝ) + 1) (0, 0) 0 0).pk 0 = (1, 0) ∧
    Reference.naive_power ⟨Real.pi, Real.sin, Real.sqrt⟩
        ⟨fun _ => 2, fun _ => 2 * Real.pi, 8, (2 * Real.pi) ^ 3, "NGP", 0, 0, 0, 2, 2⟩
        (fun _ => (1, 0)) (fun j => (j : ℝ) + 1) 0 = (1 / (2 * Real.pi) ^ 3, 0) ∧
    (1 : ℝ) / (2 * Real.pi) ^ 3 ≠ 1 := by
  have hn : ∀ a : Fin 3, (⟨fun _ => 2, fun _ => 2 * Real.pi, 8, (2 * Real.pi) ^ 3, "NGP",
      0, 0, 0, 2, 2⟩ : ParameterSet ℝ).nmesh a = 2 := fun _ => rfl
  have hdk : ∀ a : Fin 3, DensityField.mode_dk ⟨Real.pi, Real.sin, Real.sqrt⟩
      (⟨fun _ => 2, fun _ => 2 * Real.pi, 8, (2 * Real.pi) ^ 3, "NGP",
        0, 0, 0, 2, 2⟩ : ParameterSet ℝ) a = 1 := by
    intro a
    simp only [DensityField.mode_dk]
    have := Real.pi_ne_zero
    field_simp
  have hcard : (Reference.power_bin_cells ⟨Real.pi, Real.sin, Real.sqrt⟩
      (⟨fun _ => 2, fun _ => 2 * Real.pi, 8, (2 * Real.pi) ^ 3, "NGP", 0, 0, 0, 2, 2⟩ :
        ParameterSet ℝ) (fun j => (j : ℝ) + 1) 0).card ≠ 0 :=
    (Finset.card_pos.mpr ⟨_, unit_mesh_bin_nonempty⟩).ne'
  have hcardR : ((Reference.power_bin_cells ⟨Real.pi, Real.sin, Real.sqrt⟩
      (⟨fun _ => 2, fun _ => 2 * Real.pi, 8, (2 * Real.pi) ^ 3, "NGP", 0, 0, 0, 2, 2⟩ :
        ParameterSet ℝ) (fun j => (j : ℝ) + 1) 0).card : ℝ) ≠ 0 := by
    exact_mod_cast hcard
  have hwin : ∀ c ∈ Reference.power_bin_cells ⟨Real.pi, Real.sin, Real.sqrt⟩
      (⟨fun _ => 2, fun _ => 2 * Real.pi, 8, (2 * Real.pi) ^ 3, "NGP", 0, 0, 0, 2, 2⟩ :
        ParameterSet ℝ) (fun j => (j : ℝ) + 1) 0,
      DensityField.calc_interpolation_window_in_fourier ⟨Real.pi, Real.sin, Real.sqrt⟩
        (⟨fun _ => 2, fun _ => 2 * Real.pi, 8, (2 * Real.pi) ^ 3, "NGP", 0, 0, 0, 2, 2⟩ :
          ParameterSet ℝ)
        (DensityField.grid_kvec ⟨Real.pi, Real.sin, Real.sqrt⟩
          (⟨fun _ => 2, fun _ => 2 * Real.pi, 8, (2 * Real.pi) ^ 3, "NGP", 0, 0, 0, 2, 2⟩ :
            ParameterSet ℝ) c.1 c.2.1 c.2.2) = 1 := by
    intro c hc
    have hmem := (Finset.mem_filter.mp hc).1
    simp only [Reference.cells, Finset.mem_product, Finset.mem_range] at hmem
    have hi : c.1 < 2 := hmem.1
    have hj : c.2.1 < 2 := hmem.2.1
    have hk : c.2.2 < 2 := hmem.2.2
    simp only [DensityField.calc_interpolation_window_in_fourier, if_true,
      DensityField.calc_interpolation_window_in_fourier_ngp,
      two_mesh_window_index _ 1 one_ne_zero hn hdk c.1 c.2.1 c.2.2 hi hj hk]
    norm_num
  refine ⟨?_, ?_, ?_⟩
  · rw [power_spec_e3_value _ _ _ _ _ _ (fun _ => rfl) 0 (by decide) hcard]
    rw [Finset.sum_congr rfl (fun c hc => by rw [hwin c hc])]
    simp only [Finset.sum_const, Cx.divReal, Prod.smul_mk, nsmul_eq_mul, Prod.fst, Prod.snd]
    refine Prod.ext ?_ ?_
    · simp only; field_simp
    · simp
  · unfold Reference.naive_power
    simp only [Finset.sum_const, Cx.divReal, Prod.smul_mk, nsmul_eq_mul, Prod.fst, Prod.snd]
    refine Prod.ext ?_ ?_
    · simp only; field_simp; ring
    · simp
  · have h3 : (1 : ℝ) < (2 * Real.pi) ^ 3 := by
      have := Real.pi_gt_three
      have h1 : (1 : ℝ) < 2 * Real.pi := by linarith
      exact one_lt_pow₀ h1 (by norm_num)
    intro h
    rw [div_eq_iff (by positivity)] at h
    linarith

/-- Witness for C20 (amended): the non-empty bin 0 of the 2×2×2 mesh with mode spacing 1. -/
theorem power_spec_scenario_e3_witness :
    (calc_power_spec ⟨Real.pi, Real.sin, Real.sqrt⟩
        ⟨fun _ => 2, fun _ => 2 * Real.pi, 8, (2 * Real.pi) ^ 3, "NGP", 0, 0, 0, 2, 2⟩
        (fun _ _ _ => (1, 0)) ⟨fun _ => (0, 0), fun _ => 0, fun _ => (0, 0), fun _ => 0⟩
        (fun _ => (1, 0)) (fun _ => (1, 0)) (fun j => (j : ℝ) + 1) (0, 0) 0 0).pk 0
      = Cx.divReal
          (∑ c ∈ Reference.power_bin_cells ⟨Real.pi, Real.sin, Real.sqrt⟩
              (⟨fun _ => 2, fun _ => 2 * Real.pi, 8, (2 * Real.pi) ^ 3, "NGP", 0, 0, 0, 2, 2⟩ :
                ParameterSet ℝ) (fun j => (j : ℝ) + 1) 0,
            ((((fun _ : Int => ((1 : ℝ), (0 : ℝ))) (coord_flat
                  (⟨fun _ => 2, fun _ => 2 * Real.pi, 8, (2 * Real.pi) ^ 3, "NGP",
                    0, 0, 0, 2, 2⟩ : ParameterSet ℝ) c.1 c.2.1 c.2.2)).1 ^ 2
                + ((fun _ : Int => ((1 : ℝ), (0 : ℝ))) (coord_flat
                  (⟨fun _ => 2, fun _ => 2 * Real.pi, 8, (2 * Real.pi) ^ 3, "NGP",
                    0, 0, 0, 2, 2⟩ : ParameterSet ℝ) c.1 c.2.1 c.2.2)).2 ^ 2)
              / DensityField.calc_interpolation_window_in_fourier ⟨Real.pi, Real.sin, Real.sqrt⟩
                  (⟨fun _ => 2, fun _ => 2 * Real.pi, 8, (2 * Real.pi) ^ 3, "NGP",
                    0, 0, 0, 2, 2⟩ : ParameterSet ℝ)
                  (DensityField.grid_kvec ⟨Real.pi, Real.sin, Real.sqrt⟩
                    (⟨fun _ => 2, fun _ => 2 * Real.pi, 8, (2 * Real.pi) ^ 3, "NGP",
                      0, 0, 0, 2, 2⟩ : ParameterSet ℝ) c.1 c.2.1 c.2.2) ^ 2, (0 : ℝ)))
          ((Reference.power_bin_cells ⟨Real.pi, Real.sin, Real.sqrt⟩
              (⟨fun _ => 2, fun _ => 2 * Real.pi, 8, (2 * Real.pi) ^ 3, "NGP", 0, 0, 0, 2, 2⟩ :
                ParameterSet ℝ) (fun j => (j : ℝ) + 1) 0).card : ℝ) :=
  power_spec_scenario_e3 ⟨Real.pi, Real.sin, Real.sqrt⟩
    ⟨fun _ => 2, fun _ => 2 * Real.pi, 8, (2 * Real.pi) ^ 3, "NGP", 0, 0, 0, 2, 2⟩
    (fun _ _ _ => (1, 0)) ⟨fun _ => (0, 0), fun _ => 0, fun _ => (0, 0), fun _ => 0⟩
    (fun _ => (1, 0)) (fun j => (j : ℝ) + 1) (fun _ => rfl) 0 (by decide)
    (Finset.card_pos.mpr ⟨_, unit_mesh_bin_nonempty⟩).ne'

end TwoPointStatistics

end Triumvirate

namespace Triumvirate

namespace TwoPointStatistics

variable {R : Type} [LinearOrderedField R] [FloorRing R]

/-- The per-mode power of `calc_power_spec` with the trivial harmonic weight is the
shot-noise-subtracted, window-compensated product of the two fields. -/
theorem mode_power_unweighted (lib : LibM R) (params : ParameterSet R)
    (density_a density_b : Grid R) (shotnoise : Cx R) (ell m : Int) (i j k : Nat) :
    mode_power lib params (fun _ _ _ => (1, 0)) density_a density_b shotnoise ell m i j k
      = Cx.divReal
          (Cx.mul (density_a (coord_flat params i j k))
              (Cx.conj (density_b (coord_flat params i j k)))
            - Cx.mulReal shotnoise
                (calc_shotnoise_func lib params (DensityField.grid_kvec lib params i j k)))
          (DensityField.calc_interpolation_window_in_fourier lib params
            (DensityField.grid_kvec lib params i j k) ^ 2) := by
  unfold mode_power
  refine Prod.ext ?_ ?_ <;> simp [Cx.mul]

/-- C21. The three correlation routines build the same 3-D power field: for the same fields,
shot-noise level and parameters, `calc_corr_func`, `calc_corr_func_for_3pt_corr_func` and
`calc_shotnoise_for_bispec_ijk` hold, in every grid cell `(i, j, k)` just before their backward
transform, the value `(delta_a · conj(delta_b) - N · S(k)) / W(k)² / volume`, which is the
per-mode power of `calc_power_spec` before the harmonic weighting (harmonic weight 1) times
`1 / volume`. -/
theorem correlation_power_fields_agree (lib : LibM R) (params : ParameterSet R)
    (density_a density_b : Grid R) (shotnoise : Cx R) (xi : Grid R) (i j k : Nat)
    (hi : (i : Int) < params.nmesh 0) (hj : (j : Int) < params.nmesh 1)
    (hk : (k : Int) < params.nmesh 2) :
    (corr_power_field lib params density_a density_b shotnoise (coord_flat params i j k)
      = Cx.divReal (Cx.divReal
          (Cx.mul (density_a (coord_flat params i j k))
              (Cx.conj (density_b (coord_flat params i j k)))
            - Cx.mulReal shotnoise
                (calc_shotnoise_func lib params (DensityField.grid_kvec lib params i j k)))
          (DensityField.calc_interpolation_window_in_fourier lib params
            (DensityField.grid_kvec lib params i j k) ^ 2)) params.volume) ∧
    (corr_3pt_power_field lib params density_a density_b shotnoise (coord_flat params i j k)
      = corr_power_field lib params density_a density_b shotnoise (coord_flat params i j k)) ∧
    (shotnoise_bispec_power_field lib params density_a density_b shotnoise xi
        (coord_flat params i j k)
      = corr_power_field lib params density_a density_b shotnoise (coord_flat params i j k)) ∧
    (corr_power_field lib params density_a density_b shotnoise (coord_flat params i j k)
      = Cx.mulReal
          (mode_power lib params (fun _ _ _ => (1, 0)) density_a density_b shotnoise 0 0 i j k)
          (1 / params.volume)) := by
  have h1 : corr_power_field lib params density_a density_b shotnoise (coord_flat params i j k)
      = corr_power_value lib params density_a density_b shotnoise i j k := by
    unfold corr_power_field
    exact DensityField.grid_walk_update_apply params (fun f : Grid R => f) _
      (fun i j k => corr_power_value lib params density_a density_b shotnoise i j k)
      (fun s i j k => rfl) _ i j k hi hj hk
  have h2 : corr_3pt_power_field lib params density_a density_b shotnoise
        (coord_flat params i j k)
      = corr_power_value lib params density_a density_b shotnoise i j k := by
    unfold corr_3pt_power_field
    exact DensityField.grid_walk_update_apply params (fun f : Grid R => f) _
      (fun i j k => corr_power_value lib params density_a density_b shotnoise i j k)
      (fun s i j k => rfl) _ i j k hi hj hk
  have h3 : shotnoise_bispec_power_field lib params density_a density_b shotnoise xi
        (coord_flat params i j k)
      = corr_power_value lib params density_a density_b shotnoise i j k := by
    unfold shotnoise_bispec_power_field
    exact DensityField.grid_walk_update_apply params (fun f : Grid R => f) _
      (fun i j k => corr_power_value lib params density_a density_b shotnoise i j k)
      (fun s i j k => rfl) _ i j k hi hj hk
  refine ⟨?_, ?_, ?_, ?_⟩
  · rw [h1]
    unfold corr_power_value Cx.divReal
    refine Prod.ext ?_ ?_ <;> simp only <;> ring
  · rw [h2, h1]
  · rw [h3, h1]
  · rw [h1, mode_power_unweighted]
    unfold corr_power_value Cx.divReal Cx.mulReal
    refine Prod.ext ?_ ?_ <;> simp only <;> ring

/-- Witness for C21: the origin cell of a 2×2×2 mesh of unit box. -/
theorem correlation_power_fields_agree_witness :
    (corr_power_field (R := ℚ) ⟨22 / 7, fun x => x, fun x => x⟩
        ⟨fun _ => 2, fun _ => 1, 8, 1, "NGP", 0, 0, 0, 2, 2⟩ (fun _ => (1, 0)) (fun _ => (1, 0))
        (0, 0)
        (coord_flat (R := ℚ) ⟨fun _ => 2, fun _ => 1, 8, 1, "NGP", 0, 0, 0, 2, 2⟩
          ((0 : Nat) : Int) ((0 : Nat) : Int) ((0 : Nat) : Int))
      = Cx.divReal (Cx.divReal
          (Cx.mul ((fun _ => ((1 : ℚ), (0 : ℚ))) (coord_flat (R := ℚ)
                ⟨fun _ => 2, fun _ => 1, 8, 1, "NGP", 0, 0, 0, 2, 2⟩
                ((0 : Nat) : Int) ((0 : Nat) : Int) ((0 : Nat) : Int)))
              (Cx.conj ((fun _ => ((1 : ℚ), (0 : ℚ))) (coord_flat (R := ℚ)
                ⟨fun _ => 2, fun _ => 1, 8, 1, "NGP", 0, 0, 0, 2, 2⟩
                ((0 : Nat) : Int) ((0 : Nat) : Int) ((0 : Nat) : Int))))
            - Cx.mulReal (0, 0)
                (calc_shotnoise_func ⟨22 / 7, fun x => x, fun x => x⟩
                  ⟨fun _ => 2, fun _ => 1, 8, 1, "NGP", 0, 0, 0, 2, 2⟩
                  (DensityField.grid_kvec ⟨22 / 7, fun x => x, fun x => x⟩
                    ⟨fun _ => 2, fun _ => 1, 8, 1, "NGP", 0, 0, 0, 2, 2⟩
                    ((0 : Nat) : Int) ((0 : Nat) : Int) ((0 : Nat) : Int))))
          (DensityField.calc_interpolation_window_in_fourier ⟨22 / 7, fun x => x, fun x => x⟩
            ⟨fun _ => 2, fun _ => 1, 8, 1, "NGP", 0, 0, 0, 2, 2⟩
            (DensityField.grid_kvec ⟨22 / 7, fun x => x, fun x => x⟩
              ⟨fun _ => 2, fun _ => 1, 8, 1, "NGP", 0, 0, 0, 2, 2⟩
              ((0 : Nat) : Int) ((0 : Nat) : Int) ((0 : Nat) : Int)) ^ 2)) (1 : ℚ)) :=
  (correlation_power_fields_agree (R := ℚ) ⟨22 / 7, fun x => x, fun x => x⟩
    ⟨fun _ => 2, fun _ => 1, 8, 1, "NGP", 0, 0, 0, 2, 2⟩ (fun _ => (1, 0)) (fun _ => (1, 0))
    (0, 0) (fun _ => (0, 0)) 0 0 0 (by norm_num) (by norm_num) (by norm_num)).1

end TwoPointStatistics

end Triumvirate

namespace Triumvirate

section Folds

/-- A loop that adds `sample i` to an accumulator in the iterations that pass a test adds up the
samples that pass it. -/
theorem cond_loop_eq {M : Type} [AddCommMonoid M] (P : Nat → Prop) [DecidablePred P]
    (sample : Nat → M) (n : Nat) :
    (List.range n).foldl (fun (acc : M) (i : Nat) => if P i then acc + sample i else acc) 0
      = ∑ i ∈ Finset.range n, (if P i then sample i else 0) := by
  rw [foldl_measure_add (fun acc : M => acc) _ (fun i : Nat => if P i then sample i else 0),
    DensityField.list_range_map_sum, zero_add]
  intro s i _
  by_cases hc : P i
  · rw [if_pos hc, if_pos hc]
  · rw [if_neg hc, if_neg hc, add_zero]

end Folds

namespace TwoPointStatistics

variable {R : Type} [LinearOrderedField R] [FloorRing R]

theorem calc_corr_func_for_3pt_corr_func_npair_xi_eq (lib : LibM R) (fftw : DensityField.FFTW R)
    (params : ParameterSet R) (stats : TwoPointStatistics R) (density_a density_b : Grid R)
    (rbin : Nat → R) (shotnoise : Cx R) (ell m : Int) (ylm_a ylm_b : Int → Cx R) (j : Nat)
    (hj : j < params.num_rbin) :
    (calc_corr_func_for_3pt_corr_func lib fftw params stats density_a density_b rbin shotnoise
        ell m ylm_a ylm_b).npair_xi j
      = corr_3pt_bin_npair params rbin
          (corr_3pt_sample lib fftw params density_a density_b shotnoise ylm_a ylm_b).2 j := by
  unfold calc_corr_func_for_3pt_corr_func
  show (if j < params.num_rbin then _ else _) = _
  rw [if_pos hj]

theorem calc_corr_func_for_3pt_corr_func_xi_eq (lib : LibM R) (fftw : DensityField.FFTW R)
    (params : ParameterSet R) (stats : TwoPointStatistics R) (density_a density_b : Grid R)
    (rbin : Nat → R) (shotnoise : Cx R) (ell m : Int) (ylm_a ylm_b : Int → Cx R) (j : Nat)
    (hj : j < params.num_rbin) :
    (calc_corr_func_for_3pt_corr_func lib fftw params stats density_a density_b rbin shotnoise
        ell m ylm_a ylm_b).xi j
      = if corr_3pt_bin_npair params rbin
            (corr_3pt_sample lib fftw params density_a density_b shotnoise ylm_a ylm_b).2 j ≠ 0
        then
          Cx.mulReal
            (corr_3pt_bin_xi params rbin
              (corr_3pt_sample lib fftw params density_a density_b shotnoise ylm_a ylm_b).1 j)
            ((-1 : R) ^ (params.ell1 + params.ell2) / (params.volume / (params.nmesh_tot : R))
              / ((corr_3pt_bin_npair params rbin
                  (corr_3pt_sample lib fftw params density_a density_b shotnoise ylm_a ylm_b).2 j
                    : Int) : R)
              / ((corr_3pt_bin_npair params rbin
                  (corr_3pt_sample lib fftw params density_a density_b shotnoise ylm_a ylm_b).2 j
                    : Int) : R))
        else (0, 0) := by
  unfold calc_corr_func_for_3pt_corr_func
  show (if j < params.num_rbin then _ else _) = _
  rw [if_pos hj]

/-- The accumulator `xi[j]` of `calc_corr_func_for_3pt_corr_func` after the binning loop: the
sum of the fine-slot accumulators `xi_sample[i]` whose centre `i · 0.5` lies in the bin. -/
theorem corr_3pt_bin_xi_value (params : ParameterSet R) (rbin : Nat → R)
    (xi_sample : Int → Cx R) (j : Nat) :
    corr_3pt_bin_xi params rbin xi_sample j
      = ∑ i ∈ Finset.range nr_sample,
          (if ((i : Nat) : R) * dr_sample > corr_3pt_r_lower rbin j ∧
              ((i : Nat) : R) * dr_sample ≤ corr_3pt_r_upper params rbin j
           then xi_sample (i : Int) else 0) := by
  unfold corr_3pt_bin_xi
  exact cond_loop_eq (fun i : Nat => ((i : Nat) : R) * dr_sample > corr_3pt_r_lower rbin j ∧
      ((i : Nat) : R) * dr_sample ≤ corr_3pt_r_upper params rbin j)
    (fun i => xi_sample (i : Int)) nr_sample

/-- The accumulator `npair_xi[j]` of `calc_corr_func_for_3pt_corr_func` after the binning
loop. -/
theorem corr_3pt_bin_npair_value (params : ParameterSet R) (rbin : Nat → R)
    (npair_sample : Int → Int) (j : Nat) :
    corr_3pt_bin_npair params rbin npair_sample j
      = ∑ i ∈ Finset.range nr_sample,
          (if ((i : Nat) : R) * dr_sample > corr_3pt_r_lower rbin j ∧
              ((i : Nat) : R) * dr_sample ≤ corr_3pt_r_upper params rbin j
           then npair_sample (i : Int) else 0) := by
  unfold corr_3pt_bin_npair
  exact cond_loop_eq (fun i : Nat => ((i : Nat) : R) * dr_sample > corr_3pt_r_lower rbin j ∧
      ((i : Nat) : R) * dr_sample ≤ corr_3pt_r_upper params rbin j)
    (fun i => npair_sample (i : Int)) nr_sample

/-- C22. Final scaling of the 3PCF-variant 2PCF: after `calc_corr_func_for_3pt_corr_func`, for
every bin `j < num_rbin`, `npair_xi[j]` is the sum of the fine-slot pair counts of the bin; when
`npair_xi[j] > 0` the bin holds `xi[j] = (-1)^(ell1+ell2) · T_j / dV / npair_xi[j]²`, where `T_j`
is the sum of the fine-slot accumulators `xi_sample[i]` of the bin and `dV = volume/nmesh_tot`
(the pair count enters squared); when `npair_xi[j] = 0` the bin holds 0. -/
theorem corr_3pt_final_scaling (lib : LibM R) (fftw : DensityField.FFTW R)
    (params : ParameterSet R) (stats : TwoPointStatistics R) (density_a density_b : Grid R)
    (rbin : Nat → R) (shotnoise : Cx R) (ell m : Int) (ylm_a ylm_b : Int → Cx R) (j : Nat)
    (hj : j < params.num_rbin) :
    ((calc_corr_func_for_3pt_corr_func lib fftw params stats density_a density_b rbin shotnoise
        ell m ylm_a ylm_b).npair_xi j
      = ∑ i ∈ Finset.range 10000,
          (if ((i : Nat) : R) * (1 / 2) > corr_3pt_r_lower rbin j ∧
              ((i : Nat) : R) * (1 / 2) ≤ corr_3pt_r_upper params rbin j
           then (corr_3pt_sample lib fftw params density_a density_b shotnoise ylm_a ylm_b).2
                  (i : Int)
           else 0)) ∧
    (0 < (calc_corr_func_for_3pt_corr_func lib fftw params stats density_a density_b rbin
          shotnoise ell m ylm_a ylm_b).npair_xi j →
      (calc_corr_func_for_3pt_corr_func lib fftw params stats density_a density_b rbin shotnoise
          ell m ylm_a ylm_b).xi j
        = Cx.divReal (Cx.divReal
            (Cx.mulReal
              (∑ i ∈ Finset.range 10000,
                (if ((i : Nat) : R) * (1 / 2) > corr_3pt_r_lower rbin j ∧
                    ((i : Nat) : R) * (1 / 2) ≤ corr_3pt_r_upper params rbin j
                 then (corr_3pt_sample lib fftw params density_a density_b shotnoise ylm_a
                        ylm_b).1 (i : Int)
                 else 0))
              ((-1 : R) ^ (params.ell1 + params.ell2)))
            (params.volume / (params.nmesh_tot : R)))
            ((((calc_corr_func_for_3pt_corr_func lib fftw params stats density_a density_b rbin
              shotnoise ell m ylm_a ylm_b).npair_xi j : Int) : R) ^ 2)) ∧
    ((calc_corr_func_for_3pt_corr_func lib fftw params stats density_a density_b rbin
          shotnoise ell m ylm_a ylm_b).npair_xi j = 0 →
      (calc_corr_func_for_3pt_corr_func lib fftw params stats density_a density_b rbin shotnoise
          ell m ylm_a ylm_b).xi j = (0, 0)) := by
  rw [calc_corr_func_for_3pt_corr_func_npair_xi_eq _ _ _ _ _ _ _ _ _ _ _ _ _ hj,
    calc_corr_func_for_3pt_corr_func_xi_eq _ _ _ _ _ _ _ _ _ _ _ _ _ hj]
  refine ⟨?_, ?_, ?_⟩
  · exact corr_3pt_bin_npair_value params rbin _ j
  · intro hpos
    rw [if_pos hpos.ne', corr_3pt_bin_xi_value]
    generalize corr_3pt_bin_npair params rbin
      (corr_3pt_sample lib fftw params density_a density_b shotnoise ylm_a ylm_b).2 j = n
    have hT : (∑ i ∈ Finset.range nr_sample,
          (if ((i : Nat) : R) * dr_sample > corr_3pt_r_lower rbin j ∧
              ((i : Nat) : R) * dr_sample ≤ corr_3pt_r_upper params rbin j
           then (corr_3pt_sample lib fftw params density_a density_b shotnoise ylm_a ylm_b).1
                  (i : Int) else 0))
        = ∑ i ∈ Finset.range 10000,
          (if ((i : Nat) : R) * (1 / 2) > corr_3pt_r_lower rbin j ∧
              ((i : Nat) : R) * (1 / 2) ≤ corr_3pt_r_upper params rbin j
           then (corr_3pt_sample lib fftw params density_a density_b shotnoise ylm_a ylm_b).1
                  (i : Int) else 0) := rfl
    rw [hT]
    generalize (∑ i ∈ Finset.range 10000,
          (if ((i : Nat) : R) * (1 / 2) > corr_3pt_r_lower rbin j ∧
              ((i : Nat) : R) * (1 / 2) ≤ corr_3pt_r_upper params rbin j
           then (corr_3pt_sample lib fftw params density_a density_b shotnoise ylm_a ylm_b).1
                  (i : Int) else 0)) = T
    unfold Cx.divReal Cx.mulReal
    refine Prod.ext ?_ ?_ <;> simp only <;> ring
  · intro h0
    rw [if_neg (not_not.mpr h0)]

end TwoPointStatistics

end Triumvirate

namespace Triumvirate

namespace TwoPointStatistics

variable {R : Type} [LinearOrderedField R] [FloorRing R]

/-- The lower edge of a bin after the first is the midpoint of its centre and the one before. -/
theorem corr_3pt_r_lower_succ (rbin : Nat → R) (j : Nat) :
    corr_3pt_r_lower rbin (j + 1) = (rbin j + rbin (j + 1)) / 2 := by
  unfold corr_3pt_r_lower drbin
  rw [if_neg (Nat.succ_ne_zero j), Nat.add_sub_cancel]
  ring

/-- The upper edge of a bin before the last is the midpoint of its centre and the next one. -/
theorem corr_3pt_r_upper_inner (params : ParameterSet R) (rbin : Nat → R) (j : Nat)
    (hj : j + 1 < params.num_rbin) :
    corr_3pt_r_upper params rbin j = (rbin j + rbin (j + 1)) / 2 := by
  unfold corr_3pt_r_upper drbin
  rw [if_neg (by omega)]
  ring

/-- The irregular separation bins in exact arithmetic (not in the arithmetic of doubles, where
the edges are rounded separately): for strictly increasing `rbin` and `num_rbin ≥ 2`, the bin
`j` covers the half-open interval
`(rbin[j] - (rbin[j]-rbin[j-1])/2, rbin[j] + (rbin[j+1]-rbin[j])/2]`, where the lower edge of the
first bin is `rbin[0] - (rbin[1]-rbin[0])/2` clamped at 0 and the upper edge of the last bin uses
its left width; the upper edge of the bin `j` is the lower edge of the bin `j+1`, and no
separation lies in two bins. -/
theorem corr_3pt_bins_tile (params : ParameterSet R) (rbin : Nat → R)
    (hn : 2 ≤ params.num_rbin)
    (hinc : ∀ a b : Nat, a < b → b < params.num_rbin → rbin a < rbin b) :
    corr_3pt_r_lower rbin 0 = max 0 (rbin 0 - (rbin 1 - rbin 0) / 2) ∧
    (∀ j, 0 < j → j < params.num_rbin →
      corr_3pt_r_lower rbin j = rbin j - (rbin j - rbin (j - 1)) / 2) ∧
    (∀ j, j + 1 < params.num_rbin →
      corr_3pt_r_upper params rbin j = rbin j + (rbin (j + 1) - rbin j) / 2) ∧
    corr_3pt_r_upper params rbin (params.num_rbin - 1)
      = rbin (params.num_rbin - 1)
        + (rbin (params.num_rbin - 1) - rbin (params.num_rbin - 2)) / 2 ∧
    (∀ j, j + 1 < params.num_rbin →
      corr_3pt_r_upper params rbin j = corr_3pt_r_lower rbin (j + 1)) ∧
    (∀ (j j' : Nat) (x : R), j < params.num_rbin → j' < params.num_rbin → j ≠ j' →
      ¬ ((corr_3pt_r_lower rbin j < x ∧ x ≤ corr_3pt_r_upper params rbin j) ∧
         (corr_3pt_r_lower rbin j' < x ∧ x ≤ corr_3pt_r_upper params rbin j'))) := by
  have hmono : ∀ a b : Nat, a ≤ b → b < params.num_rbin → rbin a ≤ rbin b := by
    intro a b hab hb
    rcases Nat.eq_or_lt_of_le hab with h | h
    · rw [h]
    · exact (hinc a b h hb).le
  have hsep : ∀ (j j' : Nat), j < j' → j' < params.num_rbin →
      corr_3pt_r_upper params rbin j ≤ corr_3pt_r_lower rbin j' := by
    intro j j' hlt hj'
    obtain ⟨t, rfl⟩ : ∃ t, j' = t + 1 := ⟨j' - 1, by omega⟩
    rw [corr_3pt_r_lower_succ, corr_3pt_r_upper_inner params rbin j (by omega)]
    have h1 := hmono j t (by omega) (by omega)
    have h2 := hmono (j + 1) (t + 1) (by omega) hj'
    linarith
  refine ⟨?_, ?_, ?_, ?_, ?_, ?_⟩
  · unfold corr_3pt_r_lower drbin
    rw [if_pos rfl]
    by_cases h : rbin 0 > (rbin (0 + 1) - rbin 0) / 2
    · rw [if_pos h, max_eq_right]
      linarith
    · rw [if_neg h, max_eq_left]
      linarith [not_lt.mp h]
  · intro j hj0 _
    obtain ⟨t, rfl⟩ : ∃ t, j = t + 1 := ⟨j - 1, by omega⟩
    rw [corr_3pt_r_lower_succ, Nat.add_sub_cancel]
    ring
  · intro j hj
    rw [corr_3pt_r_upper_inner params rbin j hj]
    ring
  · unfold corr_3pt_r_upper drbin
    rw [if_pos (by omega)]
    have e : params.num_rbin - 1 - 1 + 1 = params.num_rbin - 1 := by omega
    have e2 : params.num_rbin - 1 - 1 = params.num_rbin - 2 := by omega
    rw [e, e2]
  · intro j hj
    rw [corr_3pt_r_upper_inner params rbin j hj, corr_3pt_r_lower_succ]
  · intro j j' x hj hj' hne h
    rcases Nat.lt_or_gt_of_ne hne with hlt | hgt
    · have := hsep j j' hlt hj'
      linarith [h.1.2, h.2.1]
    · have := hsep j' j hgt hj
      linarith [h.2.2, h.1.1]

/-- An instance of the exact edges: three bins with the centres 1, 2, 4. -/
theorem corr_3pt_bins_tile_witness :
    corr_3pt_r_upper (R := ℚ) ⟨fun _ => 1, fun _ => 1, 1, 1, "NGP", 0, 0, 0, 3, 3⟩
        (fun j => if j = 0 then 1 else if j = 1 then 2 else 4) 1
      = corr_3pt_r_lower (R := ℚ) (fun j => if j = 0 then 1 else if j = 1 then 2 else 4) (1 + 1) :=
  (corr_3pt_bins_tile (R := ℚ) ⟨fun _ => 1, fun _ => 1, 1, 1, "NGP", 0, 0, 0, 3, 3⟩
    (fun j => if j = 0 then 1 else if j = 1 then 2 else 4) (by norm_num)
    (by
      intro a b hab hb
      have hb3 : b < 3 := hb
      interval_cases b <;> interval_cases a <;> norm_num)).2.2.2.2.1 1 (by norm_num)

end TwoPointStatistics

end Triumvirate

namespace Triumvirate

namespace TwoPointStatistics

variable {R : Type} [LinearOrderedField R] [FloorRing R]

/-- A loop `sum += term(id)` over a catalogue adds up the terms. -/
theorem sum_loop_eq (term : Nat → Cx R) (n : Nat) :
    (List.range n).foldl (fun (acc : Cx R) (id : Nat) => acc + term id) (0, 0)
      = ∑ id ∈ Finset.range n, term id := by
  have h := foldl_measure_add (fun acc : Cx R => acc) (fun (acc : Cx R) (id : Nat) => acc + term id)
    term (List.range n) (fun _ _ _ => rfl) (0, 0)
  rw [DensityField.list_range_map_sum] at h
  rw [h]
  exact zero_add _

/-- C24. Survey shot-noise scalar: `calc_shotnoise_for_power_spec(data, rand, los_d, los_r,
alpha, ell, m)` equals the sum over the data catalogue of `w² · Y_lm(los)` plus `alpha²` times
the sum over the random catalogue of `w² · Y_lm(los)`; it equals the data sum plus
`calc_shotnoise_for_corr_func_window(rand, los_r, alpha, ell, m)`; and for unit weights with
`ell = m = 0` and `Y_00 = 1` it equals
`calc_shotnoise_for_power_spec_in_box_for_recon = N_data + alpha² · N_rand`. -/
theorem survey_shotnoise_scalar (ylm_func : Int → Int → (Fin 3 → R) → Cx R)
    (particles_data particles_rand : ParticleCatalogue R)
    (los_data los_rand : Nat → Fin 3 → R) (alpha : R) (ell m : Int) :
    calc_shotnoise_for_power_spec ylm_func particles_data particles_rand los_data los_rand
        alpha ell m
      = (∑ id ∈ Finset.range particles_data.nparticles,
            Cx.mulReal (ylm_func ell m (los_data id)) ((particles_data.pdata id).w ^ 2))
        + Cx.mulReal (∑ id ∈ Finset.range particles_rand.nparticles,
            Cx.mulReal (ylm_func ell m (los_rand id)) ((particles_rand.pdata id).w ^ 2))
          (alpha ^ 2) ∧
    calc_shotnoise_for_power_spec ylm_func particles_data particles_rand los_data los_rand
        alpha ell m
      = (∑ id ∈ Finset.range particles_data.nparticles,
            Cx.mulReal (ylm_func ell m (los_data id)) ((particles_data.pdata id).w ^ 2))
        + calc_shotnoise_for_corr_func_window ylm_func particles_rand los_rand alpha ell m ∧
    ((∀ v, ylm_func 0 0 v = (1, 0)) →
      (∀ id < particles_data.nparticles, (particles_data.pdata id).w = 1) →
      (∀ id < particles_rand.nparticles, (particles_rand.pdata id).w = 1) →
      calc_shotnoise_for_power_spec ylm_func particles_data particles_rand los_data los_rand
          alpha 0 0
        = calc_shotnoise_for_power_spec_in_box_for_recon particles_data particles_rand alpha ∧
      calc_shotnoise_for_power_spec_in_box_for_recon particles_data particles_rand alpha
        = ((particles_data.nparticles : R) + alpha ^ 2 * (particles_rand.nparticles : R), 0)) := by
  have hps : ∀ (e μ : Int), calc_shotnoise_for_power_spec ylm_func particles_data particles_rand
      los_data los_rand alpha e μ
      = (∑ id ∈ Finset.range particles_data.nparticles,
            Cx.mulReal (ylm_func e μ (los_data id)) ((particles_data.pdata id).w ^ 2))
        + Cx.mulReal (∑ id ∈ Finset.range particles_rand.nparticles,
            Cx.mulReal (ylm_func e μ (los_rand id)) ((particles_rand.pdata id).w ^ 2))
          (alpha ^ 2) := by
    intro e μ
    unfold calc_shotnoise_for_power_spec
    simp only [sum_loop_eq]
  have hwin : calc_shotnoise_for_corr_func_window ylm_func particles_rand los_rand alpha ell m
      = Cx.mulReal (∑ id ∈ Finset.range particles_rand.nparticles,
            Cx.mulReal (ylm_func ell m (los_rand id)) ((particles_rand.pdata id).w ^ 2))
          (alpha ^ 2) := by
    unfold calc_shotnoise_for_corr_func_window
    simp only [sum_loop_eq]
  refine ⟨hps ell m, ?_, ?_⟩
  · rw [hps, hwin]
  · intro hy hd hr
    have hsum : ∀ (c : ParticleCatalogue R) (los : Nat → Fin 3 → R),
        (∀ id < c.nparticles, (c.pdata id).w = 1) →
        (∑ id ∈ Finset.range c.nparticles,
            Cx.mulReal (ylm_func 0 0 (los id)) ((c.pdata id).w ^ 2))
          = ((c.nparticles : R), 0) := by
      intro c los hw
      have : ∀ id ∈ Finset.range c.nparticles,
          Cx.mulReal (ylm_func 0 0 (los id)) ((c.pdata id).w ^ 2) = ((1 : R), (0 : R)) := by
        intro id hid
        rw [hy, hw id (Finset.mem_range.mp hid)]
        simp [Cx.mulReal]
      rw [Finset.sum_congr rfl this]
      refine Prod.ext ?_ ?_
      · simp [Prod.fst_sum]
      · simp [Prod.snd_sum]
    have hbox : calc_shotnoise_for_power_spec_in_box_for_recon particles_data particles_rand
        alpha = ((particles_data.nparticles : R) + alpha ^ 2 * (particles_rand.nparticles : R), 0)
        := by
      unfold calc_shotnoise_for_power_spec_in_box_for_recon Cx.mulReal
      refine Prod.ext ?_ ?_ <;> simp [mul_comm]
    refine ⟨?_, hbox⟩
    rw [hps, hsum particles_data los_data hd, hsum particles_rand los_rand hr, hbox]
    unfold Cx.mulReal
    refine Prod.ext ?_ ?_ <;> simp [mul_comm]

/-- Witness for C24: two data particles and three random particles of unit weight, `alpha = 1/2`,
trivial harmonic. -/
theorem survey_shotnoise_scalar_witness :
    calc_shotnoise_for_power_spec (R := ℚ) (fun _ _ _ => (1, 0))
        ⟨2, fun _ => ⟨fun _ => 0, 1, 1, 1, 1⟩⟩ ⟨3, fun _ => ⟨fun _ => 0, 1, 1, 1, 1⟩⟩
        (fun _ _ => 0) (fun _ _ => 0) (1 / 2) 0 0
      = calc_shotnoise_for_power_spec_in_box_for_recon (R := ℚ)
          ⟨2, fun _ => ⟨fun _ => 0, 1, 1, 1, 1⟩⟩ ⟨3, fun _ => ⟨fun _ => 0, 1, 1, 1, 1⟩⟩ (1 / 2) :=
  ((survey_shotnoise_scalar (R := ℚ) (fun _ _ _ => (1, 0))
    ⟨2, fun _ => ⟨fun _ => 0, 1, 1, 1, 1⟩⟩ ⟨3, fun _ => ⟨fun _ => 0, 1, 1, 1, 1⟩⟩
    (fun _ _ => 0) (fun _ _ => 0) (1 / 2) 0 0).2.2 (fun _ => rfl) (fun _ _ => rfl)
    (fun _ _ => rfl)).1

end TwoPointStatistics

end Triumvirate

namespace Triumvirate

namespace DensityField

variable {R : Type} [LinearOrderedField R] [FloorRing R]

/-- The value of a cell after a particle loop: its value before plus what the particles
deposit into it. -/
theorem particle_loop_apply (params : ParameterSet R) (n order : Nat)
    (ijk : Nat → Nat → Fin 3 → Int) (win : Nat → Nat → Fin 3 → R) (cvf : R)
    (weight : Nat → Cx R) (init : Grid R) (x : Int) :
    ((List.range n).foldl (fun f id =>
        deposit params order (ijk id) (win id) cvf (weight id) f) init) x
      = init x + ((List.range n).map (fun id =>
          ((List.range order).map (fun a => ((List.range order).map (fun b =>
            ((List.range order).map (fun c =>
              if (0 ≤ coord_flat params (ijk id a 0) (ijk id b 1) (ijk id c 2) ∧
                  coord_flat params (ijk id a 0) (ijk id b 1) (ijk id c 2) < params.nmesh_tot) ∧
                  coord_flat params (ijk id a 0) (ijk id b 1) (ijk id c 2) = x
              then deposit_value (win id) cvf (weight id) a b c else 0)).sum)).sum)).sum)).sum := by
  apply foldl_measure_add (fun f : Grid R => f x)
  intro s id _
  exact deposit_apply params order (ijk id) (win id) cvf (weight id) s x

/-- For a known kernel the assignment does not depend on what the cells of the mesh held
before the call. -/
theorem assign_independent_of_field (params : ParameterSet R) (field field' : Grid R)
    (particles : ParticleCatalogue R) (weight : Nat → Cx R)
    (hkernel : params.assignment = "NGP" ∨ params.assignment = "CIC" ∨ params.assignment = "TSC")
    (c : Int) (hc : 0 ≤ c ∧ c < params.nmesh_tot) :
    (assign_weighted_field_to_grid params field particles weight).2 c
      = (assign_weighted_field_to_grid params field' particles weight).2 c := by
  have hz : zero_field params field c = zero_field params field' c := by
    unfold zero_field
    rw [if_pos hc, if_pos hc]
  rcases hkernel with hk | hk | hk
  · simp only [assign_weighted_field_to_grid, hk, if_true, assign_weighted_field_to_grid_ngp]
    rw [particle_loop_apply params particles.nparticles 1
        (fun id => ijk_ngp params (particles.pdata id)) (fun _ => win_ngp),
      particle_loop_apply params particles.nparticles 1
        (fun id => ijk_ngp params (particles.pdata id)) (fun _ => win_ngp), hz]
  · have h1 : ¬ ("CIC" = "NGP") := by decide
    simp only [assign_weighted_field_to_grid, hk, h1, if_true, if_false,
      assign_weighted_field_to_grid_cic]
    rw [particle_loop_apply params particles.nparticles 2
        (fun id => ijk_cic params (particles.pdata id))
        (fun id => win_cic params (particles.pdata id)),
      particle_loop_apply params particles.nparticles 2
        (fun id => ijk_cic params (particles.pdata id))
        (fun id => win_cic params (particles.pdata id)), hz]
  · have h1 : ¬ ("TSC" = "NGP") := by decide
    have h2 : ¬ ("TSC" = "CIC") := by decide
    simp only [assign_weighted_field_to_grid, hk, h1, h2, if_true, if_false,
      assign_weighted_field_to_grid_tsc]
    rw [particle_loop_apply params particles.nparticles 3
        (fun id => ijk_tsc params (particles.pdata id))
        (fun id => win_tsc params (particles.pdata id)),
      particle_loop_apply params particles.nparticles 3
        (fun id => ijk_tsc params (particles.pdata id))
        (fun id => win_tsc params (particles.pdata id)), hz]

/-- C25. Weighted fluctuation field: for a known kernel, after
`calc_ylm_weighted_fluctuation(data, rand, los_d, los_r, alpha, ell, m)` every cell of the
field equals `A(data, Y_lm(los_d)·w_d) - alpha · A(rand, Y_lm(los_r)·w_r)`, where `A(c, weights)`
is the kernel assignment of the catalogue `c` onto a zero grid; the result does not depend on
what the field held before the call. -/
theorem weighted_fluctuation_field (ylm_func : Int → Int → (Fin 3 → R) → Cx R)
    (params : ParameterSet R) (field : Grid R)
    (particles_data particles_rand : ParticleCatalogue R)
    (los_data los_rand : Nat → Fin 3 → R) (alpha : R) (ell m : Int)
    (hkernel : params.assignment = "NGP" ∨ params.assignment = "CIC" ∨ params.assignment = "TSC") :
    (∀ c : Int, 0 ≤ c ∧ c < params.nmesh_tot →
      (calc_ylm_weighted_fluctuation ylm_func params field particles_data particles_rand
          los_data los_rand alpha ell m).2 c
        = (assign_weighted_field_to_grid params (fun _ => (0, 0)) particles_data
              (fun id => Cx.mulReal (ylm_func ell m (los_data id)) (particles_data.pdata id).w)).2 c
          - Cx.mulReal
              ((assign_weighted_field_to_grid params (fun _ => (0, 0)) particles_rand
                (fun id =>
                  Cx.mulReal (ylm_func ell m (los_rand id)) (particles_rand.pdata id).w)).2 c)
              alpha) ∧
    (∀ (field' : Grid R) (c : Int), 0 ≤ c ∧ c < params.nmesh_tot →
      (calc_ylm_weighted_fluctuation ylm_func params field particles_data particles_rand
          los_data los_rand alpha ell m).2 c
        = (calc_ylm_weighted_fluctuation ylm_func params field' particles_data particles_rand
          los_data los_rand alpha ell m).2 c) := by
  have key : ∀ (f : Grid R) (c : Int), 0 ≤ c ∧ c < params.nmesh_tot →
      (calc_ylm_weighted_fluctuation ylm_func params f particles_data particles_rand
          los_data los_rand alpha ell m).2 c
        = (assign_weighted_field_to_grid params (fun _ => (0, 0)) particles_data
              (fun id => Cx.mulReal (ylm_func ell m (los_data id)) (particles_data.pdata id).w)).2 c
          - Cx.mulReal
              ((assign_weighted_field_to_grid params (fun _ => (0, 0)) particles_rand
                (fun id =>
                  Cx.mulReal (ylm_func ell m (los_rand id)) (particles_rand.pdata id).w)).2 c)
              alpha := by
    intro f c hc
    have hd := assign_independent_of_field params f (fun _ => (0, 0)) particles_data
      (fun id => Cx.mulReal (ylm_func ell m (los_data id)) (particles_data.pdata id).w) hkernel c hc
    unfold calc_ylm_weighted_fluctuation
    simp only [if_pos hc]
    unfold Cx.mulReal at hd ⊢
    rw [hd]
    refine Prod.ext ?_ ?_ <;> simp only [Prod.fst_sub, Prod.snd_sub] <;> ring
  refine ⟨key field, ?_⟩
  intro field' c hc
  rw [key field c hc, key field' c hc]

/-- Witness for C25: one data and one random particle at the origin of a 2×2×2 mesh (CIC). -/
theorem weighted_fluctuation_field_witness :
    (calc_ylm_weighted_fluctuation (R := ℚ) (fun _ _ _ => (1, 0))
        ⟨fun _ => 2, fun _ => 1, 8, 1, "CIC", 0, 0, 0, 2, 2⟩ (fun _ => (0, 0))
        ⟨1, fun _ => ⟨fun _ => 0, 1, 1, 1, 1⟩⟩ ⟨1, fun _ => ⟨fun _ => 0, 1, 1, 1, 1⟩⟩
        (fun _ _ => 0) (fun _ _ => 0) 1 0 0).2 0
      = (calc_ylm_weighted_fluctuation (R := ℚ) (fun _ _ _ => (1, 0))
        ⟨fun _ => 2, fun _ => 1, 8, 1, "CIC", 0, 0, 0, 2, 2⟩ (fun _ => (5, 7))
        ⟨1, fun _ => ⟨fun _ => 0, 1, 1, 1, 1⟩⟩ ⟨1, fun _ => ⟨fun _ => 0, 1, 1, 1, 1⟩⟩
        (fun _ _ => 0) (fun _ _ => 0) 1 0 0).2 0 :=
  (weighted_fluctuation_field (R := ℚ) (fun _ _ _ => (1, 0))
    ⟨fun _ => 2, fun _ => 1, 8, 1, "CIC", 0, 0, 0, 2, 2⟩ (fun _ => (0, 0))
    ⟨1, fun _ => ⟨fun _ => 0, 1, 1, 1, 1⟩⟩ ⟨1, fun _ => ⟨fun _ => 0, 1, 1, 1, 1⟩⟩
    (fun _ _ => 0) (fun _ _ => 0) 1 0 0 (Or.inr (Or.inl rfl))).2 (fun _ => (5, 7)) 0
    (by norm_num)

end DensityField

end Triumvirate

namespace Triumvirate

namespace DensityField

variable {R : Type} [LinearOrderedField R] [FloorRing R]

/-- C26. Bispectrum shot-noise field: for a known kernel, after
`calc_ylm_weighted_fields_for_bispec_shotnoise(data, rand, los_d, los_r, alpha, ell, m)` every
cell equals `A(data, conj(Y_lm(los_d))·w_d²) + alpha² · A(rand, conj(Y_lm(los_r))·w_r²)`, where
`A` is the kernel assignment onto a zero grid; and the routine differs from
`calc_ylm_weighted_fluctuation` exactly by the conjugated harmonic, the squared weights and the
added `alpha²` term: it is `calc_ylm_weighted_fluctuation` run with the harmonic `conj ∘ Y_lm`,
the particle weights `w²` and the factor `-alpha²` in place of `alpha`. -/
theorem bispec_shotnoise_field (ylm_func : Int → Int → (Fin 3 → R) → Cx R)
    (params : ParameterSet R) (field : Grid R)
    (particles_data particles_rand : ParticleCatalogue R)
    (los_data los_rand : Nat → Fin 3 → R) (alpha : R) (ell m : Int) :
    ((params.assignment = "NGP" ∨ params.assignment = "CIC" ∨ params.assignment = "TSC") →
      ∀ c : Int, 0 ≤ c ∧ c < params.nmesh_tot →
      (calc_ylm_weighted_fields_for_bispec_shotnoise ylm_func params field particles_data
          particles_rand los_data los_rand alpha ell m).2 c
        = (assign_weighted_field_to_grid params (fun _ => (0, 0)) particles_data
              (fun id => Cx.mulReal (Cx.conj (ylm_func ell m (los_data id)))
                ((particles_data.pdata id).w ^ 2))).2 c
          + Cx.mulReal
              ((assign_weighted_field_to_grid params (fun _ => (0, 0)) particles_rand
                (fun id => Cx.mulReal (Cx.conj (ylm_func ell m (los_rand id)))
                  ((particles_rand.pdata id).w ^ 2))).2 c)
              (alpha ^ 2)) ∧
    calc_ylm_weighted_fields_for_bispec_shotnoise ylm_func params field particles_data
        particles_rand los_data los_rand alpha ell m
      = calc_ylm_weighted_fluctuation (fun e μ v => Cx.conj (ylm_func e μ v)) params field
          ⟨particles_data.nparticles, fun id =>
            ⟨(particles_data.pdata id).pos, (particles_data.pdata id).nz,
              (particles_data.pdata id).ws, (particles_data.pdata id).wc,
              (particles_data.pdata id).w ^ 2⟩⟩
          ⟨particles_rand.nparticles, fun id =>
            ⟨(particles_rand.pdata id).pos, (particles_rand.pdata id).nz,
              (particles_rand.pdata id).ws, (particles_rand.pdata id).wc,
              (particles_rand.pdata id).w ^ 2⟩⟩
          los_data los_rand (-(alpha ^ 2)) ell m := by
  constructor
  · intro hkernel c hc
    have hd := assign_independent_of_field params field (fun _ => (0, 0)) particles_data
      (fun id => Cx.mulReal (Cx.conj (ylm_func ell m (los_data id)))
        ((particles_data.pdata id).w ^ 2)) hkernel c hc
    unfold calc_ylm_weighted_fields_for_bispec_shotnoise
    simp only [if_pos hc]
    unfold Cx.mulReal at hd ⊢
    rw [hd]
    refine Prod.ext ?_ ?_ <;> simp only [Prod.fst_add, Prod.snd_add] <;> ring
  · unfold calc_ylm_weighted_fields_for_bispec_shotnoise calc_ylm_weighted_fluctuation
    refine Prod.ext rfl ?_
    funext c
    by_cases hc : 0 ≤ c ∧ c < params.nmesh_tot
    · simp only [if_pos hc]
      have e1 : ∀ (f : Grid R) (w : Nat → Cx R),
          assign_weighted_field_to_grid params f
            ⟨particles_data.nparticles, fun id =>
              ⟨(particles_data.pdata id).pos, (particles_data.pdata id).nz,
                (particles_data.pdata id).ws, (particles_data.pdata id).wc,
                (particles_data.pdata id).w ^ 2⟩⟩ w
          = assign_weighted_field_to_grid params f particles_data w := fun _ _ => rfl
      have e2 : ∀ (f : Grid R) (w : Nat → Cx R),
          assign_weighted_field_to_grid params f
            ⟨particles_rand.nparticles, fun id =>
              ⟨(particles_rand.pdata id).pos, (particles_rand.pdata id).nz,
                (particles_rand.pdata id).ws, (particles_rand.pdata id).wc,
                (particles_rand.pdata id).w ^ 2⟩⟩ w
          = assign_weighted_field_to_grid params f particles_rand w := fun _ _ => rfl
      rw [e1, e2]
      refine Prod.ext ?_ ?_ <;> simp only <;> ring
    · simp only [if_neg hc]
      rfl

/-- Witness for C26: one data and one random particle at the origin of a 2×2×2 mesh (CIC). -/
theorem bispec_shotnoise_field_witness :
    (calc_ylm_weighted_fields_for_bispec_shotnoise (R := ℚ) (fun _ _ _ => (1, 0))
        ⟨fun _ => 2, fun _ => 1, 8, 1, "CIC", 0, 0, 0, 2, 2⟩ (fun _ => (0, 0))
        ⟨1, fun _ => ⟨fun _ => 0, 1, 1, 1, 1⟩⟩ ⟨1, fun _ => ⟨fun _ => 0, 1, 1, 1, 1⟩⟩
        (fun _ _ => 0) (fun _ _ => 0) 1 0 0).2 0
      = (assign_weighted_field_to_grid (R := ℚ)
            ⟨fun _ => 2, fun _ => 1, 8, 1, "CIC", 0, 0, 0, 2, 2⟩ (fun _ => (0, 0))
            ⟨1, fun _ => ⟨fun _ => 0, 1, 1, 1, 1⟩⟩
            (fun _ => Cx.mulReal (Cx.conj ((1 : ℚ), (0 : ℚ))) ((1 : ℚ) ^ 2))).2 0
          + Cx.mulReal
              ((assign_weighted_field_to_grid (R := ℚ)
                ⟨fun _ => 2, fun _ => 1, 8, 1, "CIC", 0, 0, 0, 2, 2⟩ (fun _ => (0, 0))
                ⟨1, fun _ => ⟨fun _ => 0, 1, 1, 1, 1⟩⟩
                (fun _ => Cx.mulReal (Cx.conj ((1 : ℚ), (0 : ℚ))) ((1 : ℚ) ^ 2))).2 0)
              ((1 : ℚ) ^ 2) :=
  (bispec_shotnoise_field (R := ℚ) (fun _ _ _ => (1, 0))
    ⟨fun _ => 2, fun _ => 1, 8, 1, "CIC", 0, 0, 0, 2, 2⟩ (fun _ => (0, 0))
    ⟨1, fun _ => ⟨fun _ => 0, 1, 1, 1, 1⟩⟩ ⟨1, fun _ => ⟨fun _ => 0, 1, 1, 1, 1⟩⟩
    (fun _ _ => 0) (fun _ _ => 0) 1 0 0).1 (Or.inr (Or.inl rfl)) 0 (by norm_num)

end DensityField

end Triumvirate

namespace Triumvirate

namespace DensityField

variable {R : Type} [LinearOrderedField R] [FloorRing R]

/-- C27. Periodic-box fluctuation has zero total: when the `ParameterSet` passed to
`calc_fluctuation_in_box` is the one the field was constructed with (a box of positive volume
and a mesh with at least one cell), the kernel is NGP, CIC or TSC and no deposit of any particle
is dropped, every cell equals the unit-weight assignment minus `N_data / volume`, and the sum
over all cells of `field · dV` is exactly 0. -/
theorem box_fluctuation_zero_total (params : ParameterSet R) (field : Grid R)
    (particles_data : ParticleCatalogue R)
    (hkernel : params.assignment = "NGP" ∨ params.assignment = "CIC" ∨ params.assignment = "TSC")
    (hvol : 0 < params.volume) (hmesh : 0 < params.nmesh_tot)
    (hnodrop : ∀ id < particles_data.nparticles, ∀ a < kernel_order params,
      ∀ b < kernel_order params, ∀ c < kernel_order params,
      0 ≤ coord_flat params (kernel_ijk params (particles_data.pdata id) a 0)
        (kernel_ijk params (particles_data.pdata id) b 1)
        (kernel_ijk params (particles_data.pdata id) c 2) ∧
      coord_flat params (kernel_ijk params (particles_data.pdata id) a 0)
        (kernel_ijk params (particles_data.pdata id) b 1)
        (kernel_ijk params (particles_data.pdata id) c 2) < params.nmesh_tot) :
    (∀ c : Int, 0 ≤ c ∧ c < params.nmesh_tot →
      (calc_fluctuation_in_box params field particles_data params).2 c
        = (assign_weighted_field_to_grid params (fun _ => (0, 0)) particles_data
            (fun _ => (1, 0))).2 c
          - ((particles_data.nparticles : R) / params.volume, 0)) ∧
    Cx.mulReal (gridSum params (calc_fluctuation_in_box params field particles_data params).2)
        (params.volume / (params.nmesh_tot : R)) = (0, 0) := by
  have hcell : ∀ c : Int, 0 ≤ c ∧ c < params.nmesh_tot →
      (calc_fluctuation_in_box params field particles_data params).2 c
        = (assign_weighted_field_to_grid params (fun _ => (0, 0)) particles_data
            (fun _ => (1, 0))).2 c
          - ((particles_data.nparticles : R) / params.volume, 0) := by
    intro c hc
    have hd := assign_independent_of_field params field (fun _ => (0, 0)) particles_data
      (fun _ => (1, 0)) hkernel c hc
    unfold calc_fluctuation_in_box
    simp only [if_pos hc]
    rw [hd]
    rfl
  refine ⟨hcell, ?_⟩
  have hsum : gridSum params (calc_fluctuation_in_box params field particles_data params).2
      = gridSum params (assign_weighted_field_to_grid params (fun _ => (0, 0)) particles_data
            (fun _ => (1, 0))).2
        - (((params.nmesh_tot : Int) : R) * ((particles_data.nparticles : R) / params.volume), 0)
        := by
    unfold gridSum
    rw [Finset.sum_congr rfl (fun c hc => hcell c (Finset.mem_Ico.mp hc)),
      Finset.sum_sub_distrib]
    congr 1
    rw [Finset.sum_const, Int.card_Ico, sub_zero]
    refine Prod.ext ?_ ?_
    · rw [Prod.smul_fst, nsmul_eq_mul, ← Int.cast_natCast, Int.toNat_of_nonneg hmesh.le]
    · rw [Prod.smul_snd, smul_zero]
  rw [hsum, gridSum_assign params (fun _ => (0, 0)) particles_data (fun _ => (1, 0)) hkernel
    hnodrop]
  have htot : (0 : R) < (params.nmesh_tot : R) := by exact_mod_cast hmesh
  have hv : params.volume ≠ 0 := hvol.ne'
  have ht : ((params.nmesh_tot : Int) : R) ≠ 0 := htot.ne'
  unfold Cx.mulReal
  refine Prod.ext ?_ ?_
  · simp only [Prod.fst_sub, Prod.fst_sum, Finset.sum_const, Finset.card_range, nsmul_eq_mul]
    field_simp
    ring
  · simp only [Prod.snd_sub, Prod.snd_sum, mul_zero, Finset.sum_const_zero, sub_zero, zero_mul]

/-- Witness for C27: one CIC particle at the origin of a 2×2×2 mesh of unit box. -/
theorem box_fluctuation_zero_total_witness :
    Cx.mulReal (gridSum (R := ℚ) ⟨fun _ => 2, fun _ => 1, 8, 1, "CIC", 0, 0, 0, 2, 2⟩
        (calc_fluctuation_in_box ⟨fun _ => 2, fun _ => 1, 8, 1, "CIC", 0, 0, 0, 2, 2⟩
          (fun _ => (0, 0)) ⟨1, fun _ => ⟨fun _ => 0, 1, 1, 1, 1⟩⟩
          ⟨fun _ => 2, fun _ => 1, 8, 1, "CIC", 0, 0, 0, 2, 2⟩).2)
        ((1 : ℚ) / ((8 : Int) : ℚ)) = (0, 0) :=
  (box_fluctuation_zero_total (R := ℚ) ⟨fun _ => 2, fun _ => 1, 8, 1, "CIC", 0, 0, 0, 2, 2⟩
    (fun _ => (0, 0)) ⟨1, fun _ => ⟨fun _ => 0, 1, 1, 1, 1⟩⟩
    (Or.inr (Or.inl rfl)) (by norm_num) (by norm_num)
    (by
      have h1 : ¬ ("CIC" = "NGP") := by decide
      intro id _ a ha b hb c hc
      simp only [kernel_order, h1, if_false, if_true] at ha hb hc
      simp only [kernel_ijk, h1, if_false, if_true, ijk_cic, loc_grid, coord_flat, mul_zero,
        zero_div, toInt_zero]
      interval_cases a <;> interval_cases b <;> interval_cases c <;> simp)).2

end DensityField

end Triumvirate

namespace Triumvirate

namespace DensityField

variable {R : Type} [LinearOrderedField R] [FloorRing R]

/-- The field of the shell extractor just before the backward transform, cell by cell. -/
theorem bispec_shell_field_cell (lib : LibM R) (params : ParameterSet R)
    (field density : Grid R) (kbar D : R) (ylm : Int → Cx R) (i j k : Nat)
    (hi : (i : Int) < params.nmesh 0) (hj : (j : Int) < params.nmesh 1)
    (hk : (k : Int) < params.nmesh 2) :
    (bispec_shell_field lib params field density kbar D ylm).1 (coord_flat params i j k)
      = if Reference.in_shell lib params kbar D i j k then
          Cx.mul (ylm (coord_flat params i j k))
            (Cx.divReal (density (coord_flat params i j k))
              (calc_interpolation_window_in_fourier lib params (grid_kvec lib params i j k)))
        else (0, 0) := by
  unfold bispec_shell_field
  refine grid_walk_update_apply params (fun s : Grid R × Int => s.1) _
    (fun i j k => if Reference.in_shell lib params kbar D i j k then
        Cx.mul (ylm (coord_flat params i j k))
          (Cx.divReal (density (coord_flat params i j k))
            (calc_interpolation_window_in_fourier lib params (grid_kvec lib params i j k)))
      else (0, 0)) ?_ _ i j k hi hj hk
  intro s i j k
  simp only [bispec_shell_step, Reference.in_shell, shell_lower_eq_max]
  split <;> rfl

/-- The mode count of the shell extractor: the number of cells in the shell. -/
theorem bispec_shell_field_nmode (lib : LibM R) (params : ParameterSet R)
    (field density : Grid R) (kbar D : R) (ylm : Int → Cx R) :
    (bispec_shell_field lib params field density kbar D ylm).2
      = (((Reference.cells params).filter
          (fun c => Reference.in_shell lib params kbar D c.1 c.2.1 c.2.2)).card : Int) := by
  unfold bispec_shell_field
  rw [grid_walk_measure_add params (fun s : Grid R × Int => s.2) _
    (fun i j k => if Reference.in_shell lib params kbar D i j k then (1 : Int) else 0),
    sum_indicator_cells]
  · simp
  · intro s i j k
    simp only [bispec_shell_step, Reference.in_shell, shell_lower_eq_max]
    split <;> simp

/-- The wavenumber magnitude of a cell of a cubic mesh with the real libm: the square root of
the sum of the squared folded indices times the squared mode spacing. -/
theorem cubic_kmag (params : ParameterSet ℝ) (L : ℝ) (hbox : ∀ a, params.boxsize a = L)
    (i j k : Nat) :
    vec_mag ⟨Real.pi, Real.sin, Real.sqrt⟩
        (grid_kvec ⟨Real.pi, Real.sin, Real.sqrt⟩ params i j k)
      = Real.sqrt ((((folded_index params 0 i) ^ 2 + (folded_index params 1 j) ^ 2
            + (folded_index params 2 k) ^ 2 : Int) : ℝ) * (2 * Real.pi / L) ^ 2) := by
  unfold vec_mag
  simp only
  rw [grid_kvec_eq, grid_kvec_eq, grid_kvec_eq]
  simp only [mode_dk, hbox, if_true, show ((1 : Fin 3) = 0) = False from by simp,
    show ((2 : Fin 3) = 0) = False from by simp, show ((2 : Fin 3) = 1) = False from by simp,
    if_false]
  congr 1
  push_cast
  ring

/-- On a cubic mesh of box side `L`, a shell of centre `2π/L` and width `D` with
`0 < D < 2(√2 - 1) · 2π/L` holds exactly the cells whose squared folded indices add up to 1. -/
theorem cubic_in_shell_iff (params : ParameterSet ℝ) (L D : ℝ)
    (hbox : ∀ a, params.boxsize a = L) (hL : 0 < L) (hD0 : 0 < D)
    (hD : D < 2 * (Real.sqrt 2 - 1) * (2 * Real.pi / L)) (i j k : Nat) :
    Reference.in_shell ⟨Real.pi, Real.sin, Real.sqrt⟩ params (2 * Real.pi / L) D i j k
      ↔ (folded_index params 0 i) ^ 2 + (folded_index params 1 j) ^ 2
          + (folded_index params 2 k) ^ 2 = 1 := by
  have hdk : 0 < 2 * Real.pi / L := div_pos (mul_pos two_pos Real.pi_pos) hL
  unfold Reference.in_shell
  rw [cubic_kmag params L hbox i j k]
  generalize (folded_index params 0 i) ^ 2 + (folded_index params 1 j) ^ 2
          + (folded_index params 2 k) ^ 2 = m
  generalize 2 * Real.pi / L = κ at hdk hD ⊢
  have hs2 : Real.sqrt 2 * Real.sqrt 2 = 2 := Real.mul_self_sqrt (by norm_num)
  have hs2pos : 0 < Real.sqrt 2 := Real.sqrt_pos.mpr (by norm_num)
  constructor
  · intro ⟨hlo, hhi⟩
    by_contra hne
    rcases lt_trichotomy m 1 with hlt | heq | hgt
    · have hm0 : (m : ℝ) ≤ 0 := by exact_mod_cast (by omega : m ≤ 0)
      have hz : Real.sqrt ((m : ℝ) * κ ^ 2) = 0 :=
        Real.sqrt_eq_zero'.mpr (mul_nonpos_of_nonpos_of_nonneg hm0 (sq_nonneg κ))
      rw [hz] at hlo
      exact absurd hlo (not_lt.mpr (le_max_left 0 _))
    · exact hne heq
    · have hm2 : (2 : ℝ) ≤ (m : ℝ) := by exact_mod_cast (by omega : 2 ≤ m)
      have hge : Real.sqrt 2 * κ ≤ Real.sqrt ((m : ℝ) * κ ^ 2) := by
        apply Real.le_sqrt_of_sq_le
        nlinarith [sq_nonneg κ]
      nlinarith
  · intro hm
    rw [hm]
    have : ((1 : Int) : ℝ) * κ ^ 2 = κ ^ 2 := by push_cast; ring
    rw [this, Real.sqrt_sq hdk.le]
    refine ⟨max_lt hdk (by linarith), by linarith⟩

/-- The folded index along an axis of size `n ≥ 4`: 0 at the index 0, `±1` at the indices 1 and
`n - 1`, and of square at least 4 elsewhere. -/
theorem folded_index_cases (params : ParameterSet R) (a : Fin 3) (n : Nat) (hn : 4 ≤ n)
    (hmesh : params.nmesh a = n) (idx : Nat) (hidx : idx < n) :
    (idx = 0 ∧ (folded_index params a idx) ^ 2 = 0) ∨
    ((idx = 1 ∨ idx = n - 1) ∧ (folded_index params a idx) ^ 2 = 1) ∨
    ((idx ≠ 0 ∧ idx ≠ 1 ∧ idx ≠ n - 1) ∧ 4 ≤ (folded_index params a idx) ^ 2) := by
  unfold folded_index
  rw [hmesh, Int.tdiv_eq_ediv (by omega) (by norm_num)]
  by_cases h0 : idx = 0
  · left
    subst h0
    rw [if_pos (by omega)]
    exact ⟨rfl, by norm_num⟩
  · right
    by_cases h1 : idx = 1
    · left
      subst h1
      rw [if_pos (by omega)]
      exact ⟨Or.inl rfl, by norm_num⟩
    · by_cases h2 : idx = n - 1
      · left
        rw [if_neg (by omega)]
        refine ⟨Or.inr h2, ?_⟩
        have : ((idx : Int) - (n : Int)) = -1 := by omega
        rw [this]
        norm_num
      · right
        refine ⟨⟨h0, h1, h2⟩, ?_⟩
        by_cases hlt : (idx : Int) < (n : Int) / 2
        · rw [if_pos hlt]
          have : (2 : Int) ≤ idx := by omega
          nlinarith
        · rw [if_neg hlt]
          have : (idx : Int) - (n : Int) ≤ -2 := by omega
          nlinarith

end DensityField

end Triumvirate

namespace Triumvirate

namespace DensityField

/-- The six axis cells of a cubic mesh of side `n ≥ 4` are distinct. -/
theorem axis_modes_card (n : Nat) (hn : 4 ≤ n) : (Reference.axis_modes n).card = 6 := by
  unfold Reference.axis_modes
  have h1 : n - 1 ≠ 1 := by omega
  have h0 : n - 1 ≠ 0 := by omega
  rw [Finset.card_insert_of_not_mem, Finset.card_insert_of_not_mem,
    Finset.card_insert_of_not_mem, Finset.card_insert_of_not_mem,
    Finset.card_insert_of_not_mem, Finset.card_singleton]
  all_goals simp [h0, h1, Ne.symm h0, Ne.symm h1]

/-- On a cubic mesh of side `n ≥ 4`, the cells whose squared folded indices add up to 1 are the
six axis cells. -/
theorem cubic_unit_modes (params : ParameterSet ℝ) (n : Nat) (hn : 4 ≤ n)
    (hmesh : ∀ a, params.nmesh a = n) (i j k : Nat) (hi : i < n) (hj : j < n) (hk : k < n) :
    (folded_index params 0 i) ^ 2 + (folded_index params 1 j) ^ 2
        + (folded_index params 2 k) ^ 2 = 1
      ↔ (i, j, k) ∈ Reference.axis_modes n := by
  have h1 : n - 1 ≠ 1 := by omega
  have h0 : n - 1 ≠ 0 := by omega
  have mem : (i, j, k) ∈ Reference.axis_modes n ↔
      (i = 1 ∧ j = 0 ∧ k = 0) ∨ (i = n - 1 ∧ j = 0 ∧ k = 0) ∨ (i = 0 ∧ j = 1 ∧ k = 0) ∨
      (i = 0 ∧ j = n - 1 ∧ k = 0) ∨ (i = 0 ∧ j = 0 ∧ k = 1) ∨ (i = 0 ∧ j = 0 ∧ k = n - 1) := by
    unfold Reference.axis_modes
    simp only [Finset.mem_insert, Finset.mem_singleton, Prod.mk.injEq]
  rw [mem]
  have ci := folded_index_cases params 0 n hn (hmesh 0) i hi
  have cj := folded_index_cases params 1 n hn (hmesh 1) j hj
  have ck := folded_index_cases params 2 n hn (hmesh 2) k hk
  generalize (folded_index params 0 i) ^ 2 = a at ci ⊢
  generalize (folded_index params 1 j) ^ 2 = b at cj ⊢
  generalize (folded_index params 2 k) ^ 2 = c at ck ⊢
  rcases ci with ⟨hi0, ha⟩ | ⟨hi1, ha⟩ | ⟨hi2, ha⟩ <;>
  rcases cj with ⟨hj0, hb⟩ | ⟨hj1, hb⟩ | ⟨hj2, hb⟩ <;>
  rcases ck with ⟨hk0, hc⟩ | ⟨hk1, hc⟩ | ⟨hk2, hc⟩ <;>
  constructor <;> intro h <;> omega

/-- The shell of scenario E5 on a cubic mesh of side `n ≥ 4` is the set of the six axis
cells. -/
theorem cubic_shell_cells (params : ParameterSet ℝ) (n : Nat) (L D : ℝ) (hn : 4 ≤ n)
    (hmesh : ∀ a, params.nmesh a = n) (hbox : ∀ a, params.boxsize a = L) (hL : 0 < L)
    (hD0 : 0 < D) (hD : D < 2 * (Real.sqrt 2 - 1) * (2 * Real.pi / L)) :
    (Reference.cells params).filter (fun c =>
        Reference.in_shell ⟨Real.pi, Real.sin, Real.sqrt⟩ params (2 * Real.pi / L) D
          c.1 c.2.1 c.2.2)
      = Reference.axis_modes n := by
  ext ⟨i, j, k⟩
  simp only [Finset.mem_filter, Reference.cells, Finset.mem_product, Finset.mem_range, hmesh,
    Int.toNat_ofNat]
  constructor
  · rintro ⟨⟨hi, hj, hk⟩, hs⟩
    exact (cubic_unit_modes params n hn hmesh i j k hi hj hk).mp
      ((cubic_in_shell_iff params L D hbox hL hD0 hD i j k).mp hs)
  · intro hm
    have hr : i < n ∧ j < n ∧ k < n := by
      unfold Reference.axis_modes at hm
      simp only [Finset.mem_insert, Finset.mem_singleton, Prod.mk.injEq] at hm
      omega
    exact ⟨hr, (cubic_in_shell_iff params L D hbox hL hD0 hD i j k).mpr
      ((cubic_unit_modes params n hn hmesh i j k hr.1 hr.2.1 hr.2.2).mpr hm)⟩

/-- C28 (amended). Scenario E5: for every cubic grid of side `n ≥ 4` (`nmesh = (n,n,n)`,
`boxsize = (L,L,L)`, `L > 0`), `calc_inverse_fourier_transform_for_bispec` with the shell centre
`2π/L` and a width `D` with `0 < D < 2(√2 - 1) · 2π/L` selects exactly the six cells of the
modes `(±1,0,0)`, `(0,±1,0)`, `(0,0,±1)`: `nmode = 6`, the field just before the backward
transform holds `ylm[c] · density[c] / W(k_c)` in these six cells and 0 in every other cell, and
the output is the backward transform of that field with every cell divided by 6. -/
theorem shell_of_first_modes (fftw : FFTW ℝ) (params : ParameterSet ℝ) (n : Nat) (L D : ℝ)
    (field density : Grid ℝ) (ylm : Int → Cx ℝ) (hn : 4 ≤ n)
    (hmesh : ∀ a, params.nmesh a = n) (hbox : ∀ a, params.boxsize a = L) (hL : 0 < L)
    (hD0 : 0 < D) (hD : D < 2 * (Real.sqrt 2 - 1) * (2 * Real.pi / L)) :
    (bispec_shell_field ⟨Real.pi, Real.sin, Real.sqrt⟩ params field density (2 * Real.pi / L) D
        ylm).2 = 6 ∧
    (∀ i j k : Nat, i < n → j < n → k < n →
      (bispec_shell_field ⟨Real.pi, Real.sin, Real.sqrt⟩ params field density (2 * Real.pi / L) D
          ylm).1 (coord_flat params i j k)
        = if (i, j, k) ∈ Reference.axis_modes n then
            Cx.mul (ylm (coord_flat params i j k))
              (Cx.divReal (density (coord_flat params i j k))
                (calc_interpolation_window_in_fourier ⟨Real.pi, Real.sin, Real.sqrt⟩ params
                  (grid_kvec ⟨Real.pi, Real.sin, Real.sqrt⟩ params i j k)))
          else (0, 0)) ∧
    (∀ c : Int, 0 ≤ c ∧ c < params.nmesh_tot →
      calc_inverse_fourier_transform_for_bispec ⟨Real.pi, Real.sin, Real.sqrt⟩ fftw params field
          density (2 * Real.pi / L) D ylm c
        = Cx.divReal
            (fftw.backward (n : Int) (n : Int) (n : Int)
              (bispec_shell_field ⟨Real.pi, Real.sin, Real.sqrt⟩ params field density
                (2 * Real.pi / L) D ylm).1 c) 6) := by
  have hcount : (bispec_shell_field ⟨Real.pi, Real.sin, Real.sqrt⟩ params field density
      (2 * Real.pi / L) D ylm).2 = 6 := by
    rw [bispec_shell_field_nmode, cubic_shell_cells params n L D hn hmesh hbox hL hD0 hD,
      axis_modes_card n hn]
    rfl
  refine ⟨hcount, ?_, ?_⟩
  · intro i j k hi hj hk
    rw [bispec_shell_field_cell _ _ _ _ _ _ _ i j k (by rw [hmesh]; exact_mod_cast hi)
      (by rw [hmesh]; exact_mod_cast hj) (by rw [hmesh]; exact_mod_cast hk)]
    have hiff := (cubic_in_shell_iff params L D hbox hL hD0 hD i j k).trans
      (cubic_unit_modes params n hn hmesh i j k hi hj hk)
    by_cases hm : (i, j, k) ∈ Reference.axis_modes n
    · rw [if_pos hm, if_pos (hiff.mpr hm)]
    · rw [if_neg hm, if_neg (fun h => hm (hiff.mp h))]
  · intro c hc
    have hfield : calc_inverse_fourier_transform_for_bispec ⟨Real.pi, Real.sin, Real.sqrt⟩ fftw
        params field density (2 * Real.pi / L) D ylm c
        = Cx.divReal
            (fftw.backward (params.nmesh 0) (params.nmesh 1) (params.nmesh 2)
              (bispec_shell_field ⟨Real.pi, Real.sin, Real.sqrt⟩ params field density
                (2 * Real.pi / L) D ylm).1 c)
            (((bispec_shell_field ⟨Real.pi, Real.sin, Real.sqrt⟩ params field density
                (2 * Real.pi / L) D ylm).2 : Int) : ℝ) := by
      simp only [calc_inverse_fourier_transform_for_bispec, divide_cells, if_pos hc, Cx.divReal]
    rw [hfield, hcount, hmesh 0, hmesh 1, hmesh 2]
    norm_num

end DensityField

end Triumvirate

namespace Triumvirate

namespace DensityField

/-- The width `π` is below the bound `2(√2 - 1) · 2π/L` of scenario E5 for `L = 1`. -/
theorem e5_width_bound : Real.pi < 2 * (Real.sqrt 2 - 1) * (2 * Real.pi / 1) := by
  have h : (5 / 4 : ℝ) < Real.sqrt 2 := by
    rw [Real.lt_sqrt (by norm_num)]
    norm_num
  have hp := Real.pi_pos
  rw [div_one]
  nlinarith

/-- Witness for C28: the 4×4×4 mesh of unit box, shell centre `2π` and width `π`. -/
theorem shell_of_first_modes_witness :
    (bispec_shell_field ⟨Real.pi, Real.sin, Real.sqrt⟩
        ⟨fun _ => 4, fun _ => 1, 64, 1, "NGP", 0, 0, 0, 2, 2⟩ (fun _ => (0, 0))
        (fun _ => (1, 0)) (2 * Real.pi / 1) Real.pi (fun _ => (1, 0))).2 = 6 :=
  (shell_of_first_modes ⟨fun _ _ _ g => g, fun _ _ _ g => g⟩
    ⟨fun _ => 4, fun _ => 1, 64, 1, "NGP", 0, 0, 0, 2, 2⟩ 4 1 Real.pi (fun _ => (0, 0))
    (fun _ => (1, 0)) (fun _ => (1, 0)) (by norm_num) (fun _ => rfl) (fun _ => rfl) one_pos
    Real.pi_pos e5_width_bound).1

/-- C28 (counterexample). On the cubic 2×2×2 mesh of unit box, with the shell centre `2π/L = 2π`
and the width `D = π` (which satisfies `0 < D < 2(√2 - 1) · 2π/L`), the shell extractor selects
three cells, not six: along an axis of size 2 the index 1 is the only cell of the modes `±1`. -/
theorem e5_two_mesh_three_modes :
    (0 : ℝ) < Real.pi ∧ Real.pi < 2 * (Real.sqrt 2 - 1) * (2 * Real.pi / 1) ∧
    (bispec_shell_field ⟨Real.pi, Real.sin, Real.sqrt⟩
        ⟨fun _ => 2, fun _ => 1, 8, 1, "NGP", 0, 0, 0, 2, 2⟩ (fun _ => (0, 0))
        (fun _ => (1, 0)) (2 * Real.pi / 1) Real.pi (fun _ => (1, 0))).2 = 3 ∧
    (bispec_shell_field ⟨Real.pi, Real.sin, Real.sqrt⟩
        ⟨fun _ => 2, fun _ => 1, 8, 1, "NGP", 0, 0, 0, 2, 2⟩ (fun _ => (0, 0))
        (fun _ => (1, 0)) (2 * Real.pi / 1) Real.pi (fun _ => (1, 0))).2 ≠ 6 := by
  have hcount : (bispec_shell_field ⟨Real.pi, Real.sin, Real.sqrt⟩
        ⟨fun _ => 2, fun _ => 1, 8, 1, "NGP", 0, 0, 0, 2, 2⟩ (fun _ => (0, 0))
        (fun _ => (1, 0)) (2 * Real.pi / 1) Real.pi (fun _ => (1, 0))).2 = 3 := by
    rw [bispec_shell_field_nmode]
    have hf : (Reference.cells (R := ℝ) ⟨fun _ => 2, fun _ => 1, 8, 1, "NGP", 0, 0, 0, 2, 2⟩).filter
          (fun c => Reference.in_shell ⟨Real.pi, Real.sin, Real.sqrt⟩
            ⟨fun _ => 2, fun _ => 1, 8, 1, "NGP", 0, 0, 0, 2, 2⟩ (2 * Real.pi / 1) Real.pi
            c.1 c.2.1 c.2.2)
        = (Reference.cells (R := ℝ) ⟨fun _ => 2, fun _ => 1, 8, 1, "NGP", 0, 0, 0, 2, 2⟩).filter
          (fun c => (folded_index (R := ℝ) ⟨fun _ => 2, fun _ => 1, 8, 1, "NGP", 0, 0, 0, 2, 2⟩
                0 c.1) ^ 2
              + (folded_index (R := ℝ) ⟨fun _ => 2, fun _ => 1, 8, 1, "NGP", 0, 0, 0, 2, 2⟩
                1 c.2.1) ^ 2
              + (folded_index (R := ℝ) ⟨fun _ => 2, fun _ => 1, 8, 1, "NGP", 0, 0, 0, 2, 2⟩
                2 c.2.2) ^ 2 = 1) := by
      apply Finset.filter_congr
      intro c _
      exact cubic_in_shell_iff _ 1 Real.pi (fun _ => rfl) one_pos Real.pi_pos e5_width_bound
        c.1 c.2.1 c.2.2
    rw [hf]
    decide
  exact ⟨Real.pi_pos, e5_width_bound, hcount, by rw [hcount]; norm_num⟩

end DensityField

end Triumvirate

namespace Triumvirate

section Coupling

/-- The 3j symbol with the real square root at `(L, 0, L; m1, 0, M)`: zero unless `M = -m1` and
`|m1| ≤ L`, and then `(-1)^(L + m1) / sqrt(2L + 1)`. -/
theorem wigner_3j_pair (L : Nat) (m1 M : Int) :
    wigner_3j ⟨Real.pi, Real.sin, Real.sqrt⟩ (L : Int) 0 (L : Int) m1 0 M
      = if m1 + M = 0 ∧ |m1| ≤ (L : Int) then
          (-1 : ℝ) ^ ((L : Int) + m1) * Real.sqrt (1 / ((2 * L + 1 : Nat) : ℝ))
        else 0 := by
  unfold wigner_3j
  by_cases h : m1 + M = 0 ∧ |m1| ≤ (L : Int)
  · obtain ⟨hM, hm⟩ := h
    have hMeq : M = -m1 := by omega
    subst hMeq
    have habs := abs_le.mp hm
    rw [if_pos ⟨by omega, hm, by simp, by rw [abs_neg]; exact hm, by simp, by omega⟩,
      if_pos ⟨hM, hm⟩]
    have e0 : ((L : Int) + 0 - (L : Int)).toNat + 1 = 1 := by omega
    rw [e0, Finset.sum_range_one]
    rw [if_pos ⟨by omega, by omega, by omega, by omega⟩]
    obtain ⟨p, hp⟩ : ∃ p : Nat, (L : Int) + m1 = p := ⟨((L : Int) + m1).toNat, by omega⟩
    obtain ⟨q, hq⟩ : ∃ q : Nat, (L : Int) - m1 = q := ⟨((L : Int) - m1).toNat, by omega⟩
    have t1 : ((L : Int) + 0 - (L : Int)).toNat = 0 := by omega
    have t2 : ((L : Int) - 0 + (L : Int)).toNat = 2 * L := by omega
    have t3 : (-(L : Int) + 0 + (L : Int)).toNat = 0 := by omega
    have t4 : ((L : Int) + 0 + (L : Int) + 1).toNat = 2 * L + 1 := by omega
    have t5 : ((L : Int) + m1).toNat = p := by omega
    have t6 : ((L : Int) - m1).toNat = q := by omega
    have t7 : ((0 : Int) + 0).toNat = 0 := by omega
    have t8 : ((0 : Int) - 0).toNat = 0 := by omega
    have t9 : ((L : Int) + -m1).toNat = q := by omega
    have t10 : ((L : Int) - -m1).toNat = p := by omega
    have t11 : (((0 : Nat) : Int)).toNat = 0 := by omega
    have t12 : ((L : Int) - 0 + ((0 : Nat) : Int) + m1).toNat = p := by omega
    have t13 : ((L : Int) - (L : Int) + ((0 : Nat) : Int) - 0).toNat = 0 := by omega
    have t14 : ((L : Int) + 0 - (L : Int) - ((0 : Nat) : Int)).toNat = 0 := by omega
    have t15 : ((L : Int) - ((0 : Nat) : Int) - m1).toNat = q := by omega
    have t16 : ((0 : Int) - ((0 : Nat) : Int) + 0).toNat = 0 := by omega
    have s1 : (L : Int) - 0 - -m1 = (p : Int) := by omega
    simp only [wigner_fact, t1, t2, t3, t4, t5, t6, t7, t8, t9, t10, t11, t12, t13, t14, t15,
      t16, s1, Nat.factorial_zero, Nat.cast_one, one_mul, mul_one, pow_zero]
    have hp0 : (0 : ℝ) < (p.factorial : ℝ) := by exact_mod_cast p.factorial_pos
    have hq0 : (0 : ℝ) < (q.factorial : ℝ) := by exact_mod_cast q.factorial_pos
    have hfac : ((2 * L + 1).factorial : ℝ) = ((2 * L + 1 : Nat) : ℝ) * ((2 * L).factorial : ℝ) := by
      rw [Nat.factorial_succ]; push_cast; ring
    have hL0 : (0 : ℝ) < ((2 * L).factorial : ℝ) := by exact_mod_cast (2 * L).factorial_pos
    have hpos : (0 : ℝ) < ((2 * L + 1 : Nat) : ℝ) := by exact_mod_cast Nat.succ_pos _
    have hD : ((2 * L).factorial : ℝ) / ((2 * L + 1).factorial : ℝ)
        = 1 / ((2 * L + 1 : Nat) : ℝ) := by
      rw [hfac]
      field_simp
      ring
    have hP : (p.factorial : ℝ) * (q.factorial : ℝ) * (q.factorial : ℝ) * (p.factorial : ℝ)
        = ((p.factorial : ℝ) * (q.factorial : ℝ)) ^ 2 := by ring
    rw [hp, hD, hP, Real.sqrt_sq (mul_pos hp0 hq0).le]
    field_simp
    ring
  · rw [if_neg h, if_neg]
    intro h'
    apply h
    exact ⟨by omega, h'.2.1⟩

end Coupling

end Triumvirate

namespace Triumvirate

namespace power

/-- The integer powers of `-1`, by parity. -/
theorem neg_one_zpow_parity (n : Int) : (-1 : ℝ) ^ n = if n % 2 = 0 then 1 else -1 := by
  rcases Int.even_or_odd n with he | ho
  · rw [he.neg_one_zpow, if_pos (Int.even_iff.mp he)]
  · rw [ho.neg_one_zpow, if_neg]
    have := Int.odd_iff.mp ho
    omega

/-- The coupling coefficient of the two-point estimators with the real square root, for
`ell1 = ELL = L`: it is `(2L + 1) · (-1)^m1` when `M = -m1`, and 0 otherwise. -/
theorem coupling_value (params : ParameterSet ℝ) (L : Nat) (hELL : params.ELL = L)
    (hell1 : params.ell1 = L) (M m1 : Int) (hm : |m1| ≤ (L : Int)) :
    coupling ⟨Real.pi, Real.sin, Real.sqrt⟩ params M m1
      = if m1 + M = 0 then ((2 * L + 1 : Nat) : ℝ) * (-1 : ℝ) ^ m1 else 0 := by
  unfold coupling
  rw [hELL, hell1, wigner_3j_pair L 0 0, wigner_3j_pair L m1 M,
    if_pos ⟨by norm_num, by simp⟩]
  have hpos : (0 : ℝ) < ((2 * L + 1 : Nat) : ℝ) := by exact_mod_cast Nat.succ_pos _
  have hs : Real.sqrt (1 / ((2 * L + 1 : Nat) : ℝ)) * Real.sqrt (1 / ((2 * L + 1 : Nat) : ℝ))
      = 1 / ((2 * L + 1 : Nat) : ℝ) := Real.mul_self_sqrt (by positivity)
  by_cases h : m1 + M = 0
  · rw [if_pos ⟨h, hm⟩, if_pos h]
    have hsign : (-1 : ℝ) ^ ((L : Int) + 0) * (-1 : ℝ) ^ ((L : Int) + m1) = (-1 : ℝ) ^ m1 := by
      rw [neg_one_zpow_parity, neg_one_zpow_parity, neg_one_zpow_parity m1]
      by_cases h1 : ((L : Int) + 0) % 2 = 0 <;> by_cases h2 : ((L : Int) + m1) % 2 = 0 <;>
        by_cases h3 : m1 % 2 = 0 <;> simp only [h1, h2, h3, if_true, if_false] <;>
        first | (norm_num; done) | (exfalso; omega)
    calc (((2 * (L : Int) + 1) * (2 * (L : Int) + 1) : Int) : ℝ)
          * ((-1 : ℝ) ^ ((L : Int) + 0) * Real.sqrt (1 / ((2 * L + 1 : Nat) : ℝ)))
          * ((-1 : ℝ) ^ ((L : Int) + m1) * Real.sqrt (1 / ((2 * L + 1 : Nat) : ℝ)))
        = (((2 * (L : Int) + 1) * (2 * (L : Int) + 1) : Int) : ℝ)
          * ((-1 : ℝ) ^ ((L : Int) + 0) * (-1 : ℝ) ^ ((L : Int) + m1))
          * (Real.sqrt (1 / ((2 * L + 1 : Nat) : ℝ))
              * Real.sqrt (1 / ((2 * L + 1 : Nat) : ℝ))) := by ring
      _ = ((2 * L + 1 : Nat) : ℝ) * (-1 : ℝ) ^ m1 := by
        rw [hsign, hs]
        push_cast
        field_simp
        ring
  · rw [if_neg (fun h' => h h'.1), if_neg h, mul_zero]

/-- The alternating sum `Σ_{b ≤ 2L} (-1)^(b - L)` is `(-1)^L`. -/
theorem alternating_sum (L : Nat) :
    ∑ b ∈ Finset.range (2 * L + 1), (-1 : ℝ) ^ (-(L : Int) + (b : Int)) = (-1 : ℝ) ^ L := by
  have hshift : ∀ b : Nat, (-1 : ℝ) ^ (-(L : Int) + (b : Int)) = (-1 : ℝ) ^ L * (-1 : ℝ) ^ b := by
    intro b
    rw [neg_one_zpow_parity, ← zpow_natCast (-1 : ℝ) L, ← zpow_natCast (-1 : ℝ) b,
      neg_one_zpow_parity, neg_one_zpow_parity]
    by_cases h1 : (-(L : Int) + (b : Int)) % 2 = 0 <;> by_cases h2 : (L : Int) % 2 = 0 <;>
      by_cases h3 : (b : Int) % 2 = 0 <;> simp only [h1, h2, h3, if_true, if_false] <;>
      first | (norm_num; done) | (exfalso; omega)
  have hone : ∀ n : Nat, ∑ b ∈ Finset.range (2 * n + 1), (-1 : ℝ) ^ b = 1 := by
    intro n
    induction n with
    | zero => simp
    | succ n ih =>
      rw [show 2 * (n + 1) + 1 = (2 * n + 1) + 1 + 1 from by ring, Finset.sum_range_succ,
        Finset.sum_range_succ, ih, pow_succ, pow_succ, pow_succ, pow_mul]
      norm_num
  rw [Finset.sum_congr rfl (fun b _ => hshift b), ← Finset.mul_sum, hone, mul_one]

/-- The sum of the coupling coefficients that the estimator loops compute (iterations with
`fabs(coupling) < 1.e-10` skipped), for `ell1 = ELL = L` and the real square root. -/
theorem coupling_loop_sum (params : ParameterSet ℝ) (L : Nat) (hELL : params.ELL = L)
    (hell1 : params.ell1 = L) :
    coupling_loop ⟨Real.pi, Real.sin, Real.sqrt⟩ params
        (fun (acc : ℝ) (_ _ : Int) (c : ℝ) => acc + c) 0
      = (-1 : ℝ) ^ L * ((2 * L + 1 : Nat) : ℝ) := by
  have hpos : (1 : ℝ) ≤ ((2 * L + 1 : Nat) : ℝ) := by exact_mod_cast Nat.succ_pos _
  have hN : (2 * params.ELL + 1).toNat = 2 * L + 1 := by rw [hELL]; omega
  have hN1 : (2 * params.ell1 + 1).toNat = 2 * L + 1 := by rw [hell1]; omega
  unfold coupling_loop
  rw [hN, hN1, hELL, hell1]
  rw [foldl_measure_add (fun acc : ℝ => acc) _
    (fun a : Nat => ∑ b ∈ Finset.range (2 * L + 1),
      (if -(L : Int) + (b : Int) + (-(L : Int) + (a : Int)) = 0
        then ((2 * L + 1 : Nat) : ℝ) * (-1 : ℝ) ^ (-(L : Int) + (b : Int)) else 0)),
    DensityField.list_range_map_sum, zero_add]
  · rw [Finset.sum_comm]
    have hinner : ∀ b ∈ Finset.range (2 * L + 1),
        (∑ a ∈ Finset.range (2 * L + 1),
          (if -(L : Int) + (b : Int) + (-(L : Int) + (a : Int)) = 0
            then ((2 * L + 1 : Nat) : ℝ) * (-1 : ℝ) ^ (-(L : Int) + (b : Int)) else 0))
          = ((2 * L + 1 : Nat) : ℝ) * (-1 : ℝ) ^ (-(L : Int) + (b : Int)) := by
      intro b hb
      have hb' := Finset.mem_range.mp hb
      rw [Finset.sum_eq_single_of_mem (2 * L - b) (Finset.mem_range.mpr (by omega))]
      · rw [if_pos (by omega)]
      · intro a _ hne
        rw [if_neg (by omega)]
    rw [Finset.sum_congr rfl hinner, ← Finset.mul_sum, alternating_sum]
    ring
  · intro s a ha
    have ha' := List.mem_range.mp ha
    rw [foldl_measure_add (fun acc : ℝ => acc) _
      (fun b : Nat => if -(L : Int) + (b : Int) + (-(L : Int) + (a : Int)) = 0
        then ((2 * L + 1 : Nat) : ℝ) * (-1 : ℝ) ^ (-(L : Int) + (b : Int)) else 0),
      DensityField.list_range_map_sum]
    intro s b hb
    have hb' := List.mem_range.mp hb
    have habs : |(-(L : Int) + (b : Int))| ≤ (L : Int) := by
      rw [abs_le]; constructor <;> omega
    rw [coupling_value params L hELL hell1 _ _ habs]
    by_cases h : -(L : Int) + (b : Int) + (-(L : Int) + (a : Int)) = 0
    · rw [if_pos h, if_neg]
      rw [abs_mul, neg_one_zpow_parity]
      have habs1 : |(if (-(L : Int) + (b : Int)) % 2 = 0 then (1 : ℝ) else -1)| = 1 := by
        split <;> simp
      rw [habs1, mul_one, abs_of_pos (by linarith)]
      intro hlt
      linarith
    · rw [if_neg h, abs_zero, if_pos (by norm_num), add_zero]

end power

end Triumvirate

namespace Triumvirate

namespace power

/-- C29 (amended). Coupling sum: with `ell1 = ELL` (and the literal second degree 0 of the
estimator loops), the coupling coefficients
`C(M, m1) = (2·ELL+1)(2·ell1+1) · W3J(ell1,0,ELL;0,0,0) · W3J(ell1,0,ELL;m1,0,M)` computed in the
loops of `calc_power_spec` and `calc_corr_func` sum, over `M ∈ [-ELL, ELL]` and
`m1 ∈ [-ell1, ell1]`, to `(-1)^ELL · (2·ELL+1)` for every `ELL ≥ 0`: to `2·ELL+1` for even `ELL`
and to `-(2·ELL+1)` for odd `ELL`. -/
theorem coupling_sum_rule (params : ParameterSet ℝ) (ELL : Nat) (hELL : params.ELL = ELL)
    (hell1 : params.ell1 = params.ELL) :
    coupling_loop ⟨Real.pi, Real.sin, Real.sqrt⟩ params
        (fun (acc : ℝ) (_ _ : Int) (c : ℝ) => acc + c) 0
      = (-1 : ℝ) ^ ELL * (2 * (ELL : ℝ) + 1) ∧
    (Even ELL → coupling_loop ⟨Real.pi, Real.sin, Real.sqrt⟩ params
        (fun (acc : ℝ) (_ _ : Int) (c : ℝ) => acc + c) 0 = 2 * (ELL : ℝ) + 1) ∧
    (Odd ELL → coupling_loop ⟨Real.pi, Real.sin, Real.sqrt⟩ params
        (fun (acc : ℝ) (_ _ : Int) (c : ℝ) => acc + c) 0 = -(2 * (ELL : ℝ) + 1)) := by
  have h := coupling_loop_sum params ELL hELL (hell1.trans hELL)
  have hc : ((2 * ELL + 1 : Nat) : ℝ) = 2 * (ELL : ℝ) + 1 := by push_cast; ring
  rw [hc] at h
  refine ⟨h, fun he => ?_, fun ho => ?_⟩
  · rw [h, he.neg_one_pow, one_mul]
  · rw [h, ho.neg_one_pow]
    ring

/-- Witness for C29: the quadrupole, `ELL = ell1 = 2`. -/
theorem coupling_sum_rule_witness :
    coupling_loop ⟨Real.pi, Real.sin, Real.sqrt⟩
        ⟨fun _ => 4, fun _ => 1, 64, 1, "NGP", 2, 0, 2, 2, 2⟩
        (fun (acc : ℝ) (_ _ : Int) (c : ℝ) => acc + c) 0
      = (-1 : ℝ) ^ 2 * (2 * ((2 : Nat) : ℝ) + 1) :=
  (coupling_sum_rule ⟨fun _ => 4, fun _ => 1, 64, 1, "NGP", 2, 0, 2, 2, 2⟩ 2 rfl rfl).1

/-- C29 (counterexample). For the dipole, `ELL = ell1 = 1` and `ell2 = 0`, the coupling
coefficients of the estimator loops sum to `-3`, not to `2·ELL + 1 = 3`. -/
theorem coupling_sum_of_dipole :
    coupling_loop ⟨Real.pi, Real.sin, Real.sqrt⟩
        ⟨fun _ => 4, fun _ => 1, 64, 1, "NGP", 1, 0, 1, 2, 2⟩
        (fun (acc : ℝ) (_ _ : Int) (c : ℝ) => acc + c) 0 = -3 ∧
    coupling_loop ⟨Real.pi, Real.sin, Real.sqrt⟩
        ⟨fun _ => 4, fun _ => 1, 64, 1, "NGP", 1, 0, 1, 2, 2⟩
        (fun (acc : ℝ) (_ _ : Int) (c : ℝ) => acc + c) 0
      ≠ 2 * (((⟨fun _ => 4, fun _ => 1, 64, 1, "NGP", 1, 0, 1, 2, 2⟩ : ParameterSet ℝ).ELL
          : Int) : ℝ) + 1 := by
  have h := coupling_loop_sum ⟨fun _ => 4, fun _ => 1, 64, 1, "NGP", 1, 0, 1, 2, 2⟩ 1 rfl rfl
  have hv : coupling_loop ⟨Real.pi, Real.sin, Real.sqrt⟩
        ⟨fun _ => 4, fun _ => 1, 64, 1, "NGP", 1, 0, 1, 2, 2⟩
        (fun (acc : ℝ) (_ _ : Int) (c : ℝ) => acc + c) 0 = -3 := by
    rw [h]; norm_num
  refine ⟨hv, ?_⟩
  rw [hv]
  norm_num

end power

end Triumvirate

namespace Triumvirate

section Layout

variable {R : Type} [LinearOrderedField R] [FloorRing R]

/-- The flat index of a cell of the mesh lies in `[0, nmesh_tot)`, and so do the intermediate
results `i * nmesh[1]`, `i * nmesh[1] + j` and `(i * nmesh[1] + j) * nmesh[2]`. -/
theorem coord_flat_bounds (params : ParameterSet R)
    (htot : params.nmesh_tot = params.nmesh 0 * params.nmesh 1 * params.nmesh 2)
    (i j k : Int) (hi : 0 ≤ i ∧ i < params.nmesh 0) (hj : 0 ≤ j ∧ j < params.nmesh 1)
    (hk : 0 ≤ k ∧ k < params.nmesh 2) :
    0 ≤ i * params.nmesh 1 ∧ i * params.nmesh 1 ≤ i * params.nmesh 1 + j ∧
    i * params.nmesh 1 + j ≤ (i * params.nmesh 1 + j) * params.nmesh 2 ∧
    (i * params.nmesh 1 + j) * params.nmesh 2 ≤ coord_flat params i j k ∧
    coord_flat params i j k < params.nmesh_tot := by
  unfold coord_flat
  rw [htot]
  have h1 : 0 ≤ i * params.nmesh 1 := mul_nonneg hi.1 (by omega)
  have h2 : i * params.nmesh 1 ≤ (params.nmesh 0 - 1) * params.nmesh 1 :=
    mul_le_mul_of_nonneg_right (by omega) (by omega)
  have h3 : (i * params.nmesh 1 + j) * params.nmesh 2
      ≤ (params.nmesh 0 * params.nmesh 1 - 1) * params.nmesh 2 :=
    mul_le_mul_of_nonneg_right (by linarith) (by omega)
  have h4 : (i * params.nmesh 1 + j) * 1 ≤ (i * params.nmesh 1 + j) * params.nmesh 2 :=
    mul_le_mul_of_nonneg_left (by omega) (by omega)
  refine ⟨h1, by omega, by linarith, by omega, ?_⟩
  linarith

/-- Every flat index in `[0, nmesh_tot)` is the flat index of a cell of the mesh. -/
theorem coord_flat_surj (params : ParameterSet R) (h1 : 1 ≤ params.nmesh 1)
    (h2 : 1 ≤ params.nmesh 2)
    (htot : params.nmesh_tot = params.nmesh 0 * params.nmesh 1 * params.nmesh 2)
    (c : Int) (hc : 0 ≤ c ∧ c < params.nmesh_tot) :
    ∃ i j k : Int, (0 ≤ i ∧ i < params.nmesh 0) ∧ (0 ≤ j ∧ j < params.nmesh 1) ∧
      (0 ≤ k ∧ k < params.nmesh 2) ∧ coord_flat params i j k = c := by
  have e1 := Int.ediv_add_emod c (params.nmesh 2)
  have e2 := Int.ediv_add_emod (c / params.nmesh 2) (params.nmesh 1)
  have b1 := Int.emod_nonneg c (by omega : params.nmesh 2 ≠ 0)
  have b2 := Int.emod_lt_of_pos c (by omega : 0 < params.nmesh 2)
  have b3 := Int.emod_nonneg (c / params.nmesh 2) (by omega : params.nmesh 1 ≠ 0)
  have b4 := Int.emod_lt_of_pos (c / params.nmesh 2) (by omega : 0 < params.nmesh 1)
  have q0 : 0 ≤ c / params.nmesh 2 := Int.ediv_nonneg hc.1 (by omega)
  have q1 : 0 ≤ c / params.nmesh 2 / params.nmesh 1 := Int.ediv_nonneg q0 (by omega)
  have q2 : c / params.nmesh 2 < params.nmesh 0 * params.nmesh 1 :=
    Int.ediv_lt_of_lt_mul (by omega) (by rw [← htot]; exact hc.2)
  have q3 : c / params.nmesh 2 / params.nmesh 1 < params.nmesh 0 :=
    Int.ediv_lt_of_lt_mul (by omega) q2
  refine ⟨c / params.nmesh 2 / params.nmesh 1, c / params.nmesh 2 % params.nmesh 1,
    c % params.nmesh 2, ⟨q1, q3⟩, ⟨b3, b4⟩, ⟨b1, b2⟩, ?_⟩
  unfold coord_flat
  have e3 : c / params.nmesh 2 / params.nmesh 1 * params.nmesh 1
      + c / params.nmesh 2 % params.nmesh 1 = c / params.nmesh 2 := by linarith
  rw [e3]
  linarith

/-- C30. Row-major layout: for `nmesh[a] ≥ 1` and `nmesh_tot = nmesh[0]·nmesh[1]·nmesh[2]`, the
map `(i,j,k) ↦ (i·nmesh[1] + j)·nmesh[2] + k` sends the index triples of the mesh into
`[0, nmesh_tot)`, is injective on them and reaches every flat index of `[0, nmesh_tot)`; a grid
walk visits `nmesh_tot` flat indices in all and each flat index of `[0, nmesh_tot)` exactly once;
and when `nmesh_tot ≤ 2^31 - 1` the `int` arithmetic that computes the flat index does not
overflow. -/
theorem row_major_layout (params : ParameterSet R) (h0 : 1 ≤ params.nmesh 0)
    (h1 : 1 ≤ params.nmesh 1) (h2 : 1 ≤ params.nmesh 2)
    (htot : params.nmesh_tot = params.nmesh 0 * params.nmesh 1 * params.nmesh 2) :
    (∀ i j k : Int, (0 ≤ i ∧ i < params.nmesh 0) → (0 ≤ j ∧ j < params.nmesh 1) →
      (0 ≤ k ∧ k < params.nmesh 2) →
      0 ≤ coord_flat params i j k ∧ coord_flat params i j k < params.nmesh_tot) ∧
    (∀ i j k i' j' k' : Int, (0 ≤ i ∧ i < params.nmesh 0) → (0 ≤ j ∧ j < params.nmesh 1) →
      (0 ≤ k ∧ k < params.nmesh 2) → (0 ≤ i' ∧ i' < params.nmesh 0) →
      (0 ≤ j' ∧ j' < params.nmesh 1) → (0 ≤ k' ∧ k' < params.nmesh 2) →
      coord_flat params i j k = coord_flat params i' j' k' → i = i' ∧ j = j' ∧ k = k') ∧
    (∀ c : Int, 0 ≤ c ∧ c < params.nmesh_tot →
      ∃ i j k : Int, (0 ≤ i ∧ i < params.nmesh 0) ∧ (0 ≤ j ∧ j < params.nmesh 1) ∧
        (0 ≤ k ∧ k < params.nmesh 2) ∧ coord_flat params i j k = c) ∧
    (visited_cells params).length = params.nmesh_tot.toNat ∧
    (∀ c : Int, 0 ≤ c ∧ c < params.nmesh_tot → (visited_cells params).count c = 1) ∧
    (params.nmesh_tot ≤ int_max →
      ∀ i j k : Int, (0 ≤ i ∧ i < params.nmesh 0) → (0 ≤ j ∧ j < params.nmesh 1) →
        (0 ≤ k ∧ k < params.nmesh 2) →
        coord_flat_int params i j k = some (coord_flat params i j k)) := by
  refine ⟨?_, ?_, ?_, ?_, ?_, ?_⟩
  · intro i j k hi hj hk
    have hb := coord_flat_bounds params htot i j k hi hj hk
    exact ⟨by linarith [hb.1, hb.2.1, hb.2.2.1, hb.2.2.2.1], hb.2.2.2.2⟩
  · intro i j k i' j' k' _ hj hk _ hj' hk' h
    exact coord_flat_inj params i j k i' j' k' hj hj' hk hk' h
  · exact coord_flat_surj params h1 h2 htot
  · unfold visited_cells
    rw [DensityField.grid_walk_measure_cells params (fun l : List Int => l.length) _
      (fun _ => 1) (fun s i j k => by simp)]
    simp only [List.length_nil, zero_add, Finset.sum_const, smul_eq_mul, mul_one,
      Reference.cells, Finset.card_product, Finset.card_range]
    rw [htot]
    have hcast : (((params.nmesh 0).toNat * ((params.nmesh 1).toNat * (params.nmesh 2).toNat)
        : Nat) : Int) = params.nmesh 0 * params.nmesh 1 * params.nmesh 2 := by
      push_cast
      rw [Int.toNat_of_nonneg (by omega : 0 ≤ params.nmesh 0),
        Int.toNat_of_nonneg (by omega : 0 ≤ params.nmesh 1),
        Int.toNat_of_nonneg (by omega : 0 ≤ params.nmesh 2)]
      ring
    rw [← hcast, Int.toNat_ofNat]
  · intro c hc
    obtain ⟨i, j, k, hi, hj, hk, hflat⟩ := coord_flat_surj params h1 h2 htot c hc
    unfold visited_cells
    rw [DensityField.grid_walk_measure_cells params (fun l : List Int => l.count c) _
      (fun t => if coord_flat params t.1 t.2.1 t.2.2 = c then 1 else 0)]
    · rw [List.count_nil, zero_add]
      have hmem : (i.toNat, j.toNat, k.toNat) ∈ Reference.cells params := by
        simp only [Reference.cells, Finset.mem_product, Finset.mem_range]
        omega
      rw [Finset.sum_eq_single_of_mem _ hmem]
      · rw [if_pos]
        simp only [Int.toNat_of_nonneg hi.1, Int.toNat_of_nonneg hj.1, Int.toNat_of_nonneg hk.1]
        exact hflat
      · intro t ht hne
        rw [if_neg]
        intro heq
        simp only [Reference.cells, Finset.mem_product, Finset.mem_range] at ht
        have := coord_flat_inj params t.1 t.2.1 t.2.2 i j k ⟨by omega, by omega⟩ hj
          ⟨by omega, by omega⟩ hk (heq.trans hflat.symm)
        apply hne
        refine Prod.ext ?_ (Prod.ext ?_ ?_) <;> simp only <;> omega
    · intro s a b d
      rw [List.count_append, List.count_singleton]
      simp only [beq_iff_eq]
  · intro hmax i j k hi hj hk
    have hb := coord_flat_bounds params htot i j k hi hj hk
    have hmax' : params.nmesh_tot ≤ 2147483647 := hmax
    unfold coord_flat at hb
    unfold coord_flat_int coord_flat
    rw [if_pos (by simp only [int_fits, int_max, int_min, decide_eq_true_eq]; omega),
      if_pos (by simp only [int_fits, int_max, int_min, decide_eq_true_eq]; omega),
      if_pos (by simp only [int_fits, int_max, int_min, decide_eq_true_eq]; omega),
      if_pos (by simp only [int_fits, int_max, int_min, decide_eq_true_eq]; omega)]

/-- Witness for C30: the last cell of a 2×2×2 mesh. -/
theorem row_major_layout_witness :
    coord_flat_int (R := ℚ) ⟨fun _ => 2, fun _ => 1, 8, 1, "NGP", 0, 0, 0, 2, 2⟩ 1 1 1
      = some (coord_flat (R := ℚ) ⟨fun _ => 2, fun _ => 1, 8, 1, "NGP", 0, 0, 0, 2, 2⟩ 1 1 1) :=
  (row_major_layout (R := ℚ) ⟨fun _ => 2, fun _ => 1, 8, 1, "NGP", 0, 0, 0, 2, 2⟩
    (by norm_num) (by norm_num) (by norm_num) (by norm_num)).2.2.2.2.2 (by decide) 1 1 1
    (by norm_num) (by norm_num) (by norm_num)

end Layout

end Triumvirate

namespace Triumvirate

section Driver

/-- C31 (counterexample). For a particle located at the coordinate origin the magnitude of the
position is 0 and the line of sight is the quotient `0 / 0` on every axis (no guard precedes the
division): in exact arithmetic the line of sight is the zero vector, of Euclidean norm 0 and not
1 (in IEEE doubles the quotient is not a number). -/
theorem los_of_particle_at_origin :
    get_vec3d_magnitude ⟨Real.pi, Real.sin, Real.sqrt⟩
        ((⟨1, fun _ => ⟨fun _ => 0, 1, 1, 1, 1⟩⟩ : ParticleCatalogue ℝ).pdata 0).pos = 0 ∧
    get_vec3d_magnitude ⟨Real.pi, Real.sin, Real.sqrt⟩
        ((main_los_then_align ⟨Real.pi, Real.sin, Real.sqrt⟩ (fun c => c)
          (⟨1, fun _ => ⟨fun _ => 0, 1, 1, 1, 1⟩⟩ : ParticleCatalogue ℝ)).1 0) ≠ 1 := by
  constructor
  · simp [get_vec3d_magnitude]
  · simp [get_vec3d_magnitude, main_los_then_align, line_of_sight]

/-- C31 (amended). Lines of sight are unit vectors: for every particle of a catalogue whose
position as loaded is not the coordinate origin, the line of sight the driver hands to the core
equals `pos / |pos|` computed from the position as loaded (whatever the box alignment does
afterwards) and has Euclidean norm 1. -/
theorem los_unit_vectors (align : ParticleCatalogue ℝ → ParticleCatalogue ℝ)
    (catalogue : ParticleCatalogue ℝ) (pid : Nat)
    (hpos : ∃ a, (catalogue.pdata pid).pos a ≠ 0) :
    (∀ a, (main_los_then_align ⟨Real.pi, Real.sin, Real.sqrt⟩ align catalogue).1 pid a
      = (catalogue.pdata pid).pos a
          / Real.sqrt ((catalogue.pdata pid).pos 0 ^ 2 + (catalogue.pdata pid).pos 1 ^ 2
              + (catalogue.pdata pid).pos 2 ^ 2)) ∧
    get_vec3d_magnitude ⟨Real.pi, Real.sin, Real.sqrt⟩
        ((main_los_then_align ⟨Real.pi, Real.sin, Real.sqrt⟩ align catalogue).1 pid) = 1 := by
  obtain ⟨a0, ha0⟩ := hpos
  generalize hp : (catalogue.pdata pid).pos = p at ha0
  have hsq : p 0 * p 0 + p 1 * p 1 + p 2 * p 2 = p 0 ^ 2 + p 1 ^ 2 + p 2 ^ 2 := by ring
  have hpos : 0 < p 0 ^ 2 + p 1 ^ 2 + p 2 ^ 2 := by
    have h0 := sq_nonneg (p 0)
    have h1 := sq_nonneg (p 1)
    have h2 := sq_nonneg (p 2)
    have ha : 0 < p a0 ^ 2 := by positivity
    fin_cases a0
    · have : 0 < p 0 ^ 2 := ha
      linarith
    · have : 0 < p 1 ^ 2 := ha
      linarith
    · have : 0 < p 2 ^ 2 := ha
      linarith
  have hm : 0 < Real.sqrt (p 0 ^ 2 + p 1 ^ 2 + p 2 ^ 2) := Real.sqrt_pos.mpr hpos
  have hmm : Real.sqrt (p 0 ^ 2 + p 1 ^ 2 + p 2 ^ 2) * Real.sqrt (p 0 ^ 2 + p 1 ^ 2 + p 2 ^ 2)
      = p 0 ^ 2 + p 1 ^ 2 + p 2 ^ 2 := Real.mul_self_sqrt hpos.le
  constructor
  · intro a
    simp only [main_los_then_align, line_of_sight, get_vec3d_magnitude, hp, hsq]
  · simp only [main_los_then_align, line_of_sight, get_vec3d_magnitude, hp, hsq]
    have : p 0 / Real.sqrt (p 0 ^ 2 + p 1 ^ 2 + p 2 ^ 2)
          * (p 0 / Real.sqrt (p 0 ^ 2 + p 1 ^ 2 + p 2 ^ 2))
        + p 1 / Real.sqrt (p 0 ^ 2 + p 1 ^ 2 + p 2 ^ 2)
          * (p 1 / Real.sqrt (p 0 ^ 2 + p 1 ^ 2 + p 2 ^ 2))
        + p 2 / Real.sqrt (p 0 ^ 2 + p 1 ^ 2 + p 2 ^ 2)
          * (p 2 / Real.sqrt (p 0 ^ 2 + p 1 ^ 2 + p 2 ^ 2)) = 1 := by
      field_simp
      nlinarith [hmm]
    rw [this, Real.sqrt_one]

/-- Witness for C31: a particle at `(3, 4, 0)`. -/
theorem los_unit_vectors_witness :
    get_vec3d_magnitude ⟨Real.pi, Real.sin, Real.sqrt⟩
        ((main_los_then_align ⟨Real.pi, Real.sin, Real.sqrt⟩ (fun c => c)
          (⟨1, fun _ => ⟨fun a => if a = 0 then 3 else if a = 1 then 4 else 0, 1, 1, 1, 1⟩⟩
            : ParticleCatalogue ℝ)).1 0) = 1 :=
  (los_unit_vectors (fun c => c)
    ⟨1, fun _ => ⟨fun a => if a = 0 then 3 else if a = 1 then 4 else 0, 1, 1, 1, 1⟩⟩ 0
    ⟨0, by norm_num⟩).2

end Driver

end Triumvirate

namespace Triumvirate

namespace DensityField

/-- The quotient `sin(x)/x` is positive for `0 < |x| < π`. -/
theorem sin_div_self_pos (x : ℝ) (h0 : x ≠ 0) (h : |x| < Real.pi) : 0 < Real.sin x / x := by
  rcases lt_or_gt_of_ne h0 with hneg | hpos
  · have hx : 0 < -x := by linarith
    have hlt : -x < Real.pi := by
      have := neg_abs_le x
      linarith [abs_lt.mp h]
    have hs : 0 < Real.sin (-x) := Real.sin_pos_of_pos_of_lt_pi hx hlt
    rw [Real.sin_neg] at hs
    exact div_pos_of_neg_of_neg (by linarith) hneg
  · exact div_pos (Real.sin_pos_of_pos_of_lt_pi hpos (abs_lt.mp h).2) hpos

/-- The index that the window routines recover for a cell of the mesh is at most `(n - 1)/2` in
absolute value, `n` the mesh size of the axis. -/
theorem window_index_bound (lib : LibM ℝ) (params : ParameterSet ℝ) (a : Fin 3)
    (hn : 1 ≤ params.nmesh a) (hdk : mode_dk lib params a ≠ 0) (i j k : Nat)
    (ht : ((if a = 0 then (i : Int) else if a = 1 then (j : Int) else (k : Int))) < params.nmesh a) :
    2 * |window_index lib params (grid_kvec lib params i j k) a| ≤ params.nmesh a - 1 := by
  rw [window_index_grid_kvec lib params i j k a hdk]
  have ht0 : (0 : Int) ≤ (if a = 0 then (i : Int) else if a = 1 then (j : Int) else (k : Int)) := by
    split
    · exact Int.natCast_nonneg i
    · split
      · exact Int.natCast_nonneg j
      · exact Int.natCast_nonneg k
  generalize (if a = 0 then (i : Int) else if a = 1 then (j : Int) else (k : Int)) = t at ht ht0
  unfold folded_index
  rw [Int.tdiv_eq_ediv (by omega) (by norm_num)]
  by_cases h : t < params.nmesh a / 2
  · rw [if_pos h, if_pos ht0, abs_of_nonneg ht0]
    omega
  · rw [if_neg h, if_neg (by omega), abs_of_nonpos (by omega)]
    omega

/-- A per-axis factor of the window, `sin(x)/x` with `x = π · idx / n` (or 1 when `idx = 0`), is
positive when `2|idx| ≤ n - 1`; and `|x| ≤ π/2`. -/
theorem window_factor_pos (n idx : Int) (hn : 1 ≤ n) (hb : 2 * |idx| ≤ n - 1) :
    |Real.pi * (idx : ℝ) / (n : ℝ)| ≤ Real.pi / 2 ∧
    0 < (if idx ≠ 0 then Real.sin (Real.pi * (idx : ℝ) / (n : ℝ)) / (Real.pi * (idx : ℝ) / (n : ℝ))
          else 1) := by
  have hnR : (0 : ℝ) < (n : ℝ) := by exact_mod_cast (by omega : 0 < n)
  have hbR : 2 * |(idx : ℝ)| ≤ (n : ℝ) - 1 := by exact_mod_cast hb
  have habs : |Real.pi * (idx : ℝ) / (n : ℝ)| = Real.pi * |(idx : ℝ)| / (n : ℝ) := by
    rw [abs_div, abs_mul, abs_of_pos Real.pi_pos, abs_of_pos hnR]
  have hlt : Real.pi * |(idx : ℝ)| / (n : ℝ) < Real.pi / 2 := by
    rw [div_lt_div_iff₀ hnR two_pos]
    nlinarith [Real.pi_pos, abs_nonneg (idx : ℝ)]
  refine ⟨by rw [habs]; exact hlt.le, ?_⟩
  by_cases h0 : idx ≠ 0
  · rw [if_pos h0]
    apply sin_div_self_pos
    · have : (idx : ℝ) ≠ 0 := by exact_mod_cast h0
      exact div_ne_zero (mul_ne_zero Real.pi_pos.ne' this) hnR.ne'
    · rw [habs]
      linarith [Real.pi_pos]
  · rw [if_neg h0]
    exact one_pos

/-- C32. Window compensation never divides by zero: for each of the kernels NGP, CIC and TSC,
every grid with `nmesh[a] ≥ 1` and `boxsize[a] > 0`, and every grid cell, each per-axis angle
`x = π · idx / nmesh[a]` of the window evaluation at the cell's folded wave-vector has
`|x| ≤ π/2`, and the window value is strictly positive; so the window and its square, by which
`apply_assignment_compensation`, the shell extractors and the power and correlation routines
divide, are not 0. -/
theorem window_strictly_positive (params : ParameterSet ℝ)
    (hkernel : params.assignment = "NGP" ∨ params.assignment = "CIC" ∨ params.assignment = "TSC")
    (hn : ∀ a, 1 ≤ params.nmesh a) (hbox : ∀ a, 0 < params.boxsize a) (i j k : Nat)
    (hi : (i : Int) < params.nmesh 0) (hj : (j : Int) < params.nmesh 1)
    (hk : (k : Int) < params.nmesh 2) :
    (∀ a, |Real.pi * ((window_index ⟨Real.pi, Real.sin, Real.sqrt⟩ params
          (grid_kvec ⟨Real.pi, Real.sin, Real.sqrt⟩ params i j k) a : Int) : ℝ)
        / (params.nmesh a : ℝ)| ≤ Real.pi / 2) ∧
    0 < calc_interpolation_window_in_fourier ⟨Real.pi, Real.sin, Real.sqrt⟩ params
          (grid_kvec ⟨Real.pi, Real.sin, Real.sqrt⟩ params i j k) ∧
    calc_interpolation_window_in_fourier ⟨Real.pi, Real.sin, Real.sqrt⟩ params
          (grid_kvec ⟨Real.pi, Real.sin, Real.sqrt⟩ params i j k) ≠ 0 ∧
    calc_interpolation_window_in_fourier ⟨Real.pi, Real.sin, Real.sqrt⟩ params
          (grid_kvec ⟨Real.pi, Real.sin, Real.sqrt⟩ params i j k) ^ 2 ≠ 0 := by
  have hdk : ∀ a, mode_dk ⟨Real.pi, Real.sin, Real.sqrt⟩ params a ≠ 0 := by
    intro a
    unfold mode_dk
    exact div_ne_zero (mul_ne_zero two_ne_zero Real.pi_pos.ne') (hbox a).ne'
  have hb : ∀ a, 2 * |window_index ⟨Real.pi, Real.sin, Real.sqrt⟩ params
      (grid_kvec ⟨Real.pi, Real.sin, Real.sqrt⟩ params i j k) a| ≤ params.nmesh a - 1 := by
    intro a
    apply window_index_bound _ params a (hn a) (hdk a) i j k
    fin_cases a
    · exact hi
    · exact hj
    · exact hk
  have hf := fun a => window_factor_pos (params.nmesh a) _ (hn a) (hb a)
  have hpos : 0 < calc_interpolation_window_in_fourier ⟨Real.pi, Real.sin, Real.sqrt⟩ params
      (grid_kvec ⟨Real.pi, Real.sin, Real.sqrt⟩ params i j k) := by
    have h0 := (hf 0).2
    have h1 := (hf 1).2
    have h2 := (hf 2).2
    rcases hkernel with hk' | hk' | hk'
    · simp only [calc_interpolation_window_in_fourier, hk', if_true,
        calc_interpolation_window_in_fourier_ngp]
      exact pow_pos (mul_pos (mul_pos h0 h1) h2) 1
    · have e1 : ¬ ("CIC" = "NGP") := by decide
      simp only [calc_interpolation_window_in_fourier, hk', e1, if_true, if_false,
        calc_interpolation_window_in_fourier_cic]
      exact pow_pos (mul_pos (mul_pos h0 h1) h2) 2
    · have e1 : ¬ ("TSC" = "NGP") := by decide
      have e2 : ¬ ("TSC" = "CIC") := by decide
      simp only [calc_interpolation_window_in_fourier, hk', e1, e2, if_true, if_false,
        calc_interpolation_window_in_fourier_tsc]
      exact pow_pos (mul_pos (mul_pos h0 h1) h2) 3
  exact ⟨fun a => (hf a).1, hpos, hpos.ne', pow_ne_zero 2 hpos.ne'⟩

/-- Witness for C32: the cell `(1, 1, 1)` of a 2×2×2 mesh of unit box (CIC). -/
theorem window_strictly_positive_witness :
    0 < calc_interpolation_window_in_fourier ⟨Real.pi, Real.sin, Real.sqrt⟩
          ⟨fun _ => 2, fun _ => 1, 8, 1, "CIC", 0, 0, 0, 2, 2⟩
          (grid_kvec ⟨Real.pi, Real.sin, Real.sqrt⟩
            ⟨fun _ => 2, fun _ => 1, 8, 1, "CIC", 0, 0, 0, 2, 2⟩
            ((1 : Nat) : Int) ((1 : Nat) : Int) ((1 : Nat) : Int)) :=
  (window_strictly_positive ⟨fun _ => 2, fun _ => 1, 8, 1, "CIC", 0, 0, 0, 2, 2⟩
    (Or.inr (Or.inl rfl)) (fun _ => by norm_num) (fun _ => by norm_num) 1 1 1
    (by norm_num) (by norm_num) (by norm_num)).2.1

end DensityField

end Triumvirate

namespace Triumvirate

namespace DensityField

/-- C33 (code at the failing input). On a 2×2×2 mesh of unit box (NGP, real libm) with the shell
centre 100 and the width 1, no cell has its wavenumber magnitude in `(99.5, 100.5]` (the largest
is `2π√3`), so `nmode = 0`; the last loop of `calc_inverse_fourier_transform_for_bispec` still
runs `field[i] /= double(nmode)`: the cell 0 of the result is the backward transform divided by
`double(nmode) = 0`, with no test of `nmode` (the binning loops of `calc_power_spec` and
`calc_corr_func` test `nmode != 0` before they divide). -/
theorem bispec_empty_shell_divides_by_zero :
    (bispec_shell_field ⟨Real.pi, Real.sin, Real.sqrt⟩
        ⟨fun _ => 2, fun _ => 1, 8, 1, "NGP", 0, 0, 0, 2, 2⟩ (fun _ => (0, 0)) (fun _ => (1, 0))
        100 1 (fun _ => (1, 0))).2 = 0 ∧
    calc_inverse_fourier_transform_for_bispec ⟨Real.pi, Real.sin, Real.sqrt⟩
        ⟨fun _ _ _ g => g, fun _ _ _ g => g⟩
        ⟨fun _ => 2, fun _ => 1, 8, 1, "NGP", 0, 0, 0, 2, 2⟩ (fun _ => (0, 0)) (fun _ => (1, 0))
        100 1 (fun _ => (1, 0)) 0
      = Cx.divReal
          ((bispec_shell_field ⟨Real.pi, Real.sin, Real.sqrt⟩
            ⟨fun _ => 2, fun _ => 1, 8, 1, "NGP", 0, 0, 0, 2, 2⟩ (fun _ => (0, 0))
            (fun _ => (1, 0)) 100 1 (fun _ => (1, 0))).1 0)
          (((0 : Int) : ℝ)) := by
  have hcount : (bispec_shell_field ⟨Real.pi, Real.sin, Real.sqrt⟩
        ⟨fun _ => 2, fun _ => 1, 8, 1, "NGP", 0, 0, 0, 2, 2⟩ (fun _ => (0, 0)) (fun _ => (1, 0))
        100 1 (fun _ => (1, 0))).2 = 0 := by
    rw [bispec_shell_field_nmode]
    have hempty : (Reference.cells (R := ℝ)
          ⟨fun _ => 2, fun _ => 1, 8, 1, "NGP", 0, 0, 0, 2, 2⟩).filter
          (fun c => Reference.in_shell ⟨Real.pi, Real.sin, Real.sqrt⟩
            ⟨fun _ => 2, fun _ => 1, 8, 1, "NGP", 0, 0, 0, 2, 2⟩ 100 1 c.1 c.2.1 c.2.2) = ∅ := by
      apply Finset.filter_eq_empty_iff.mpr
      rintro ⟨i, j, k⟩ hc
      simp only [Reference.cells, Finset.mem_product, Finset.mem_range] at hc
      have hi : i < 2 := hc.1
      have hj : j < 2 := hc.2.1
      have hk : k < 2 := hc.2.2
      unfold Reference.in_shell
      rw [TwoPointStatistics.two_mesh_kmag ⟨fun _ => 2, fun _ => 1, 8, 1, "NGP", 0, 0, 0, 2, 2⟩
        (2 * Real.pi) (fun _ => rfl) (fun _ => by simp [mode_dk]) i j k hi hj hk]
      intro h
      have hle : Real.sqrt ((((i : ℝ) ^ 2 + (j : ℝ) ^ 2 + (k : ℝ) ^ 2)) * (2 * Real.pi) ^ 2)
          ≤ 99 := by
        rw [Real.sqrt_le_iff]
        refine ⟨by norm_num, ?_⟩
        have hsum : (i : ℝ) ^ 2 + (j : ℝ) ^ 2 + (k : ℝ) ^ 2 ≤ 3 := by
          have : i ^ 2 + j ^ 2 + k ^ 2 ≤ 3 := by
            interval_cases i <;> interval_cases j <;> interval_cases k <;> simp
          exact_mod_cast this
        have hpi := Real.pi_le_four
        have hpi0 := Real.pi_pos
        nlinarith [sq_nonneg (i : ℝ), sq_nonneg (j : ℝ), sq_nonneg (k : ℝ)]
      have hlow : (99 : ℝ) < max 0 (100 - 1 / 2) := by
        rw [max_eq_right (by norm_num)]
        norm_num
      linarith [h.1]
    rw [hempty]
    rfl
  refine ⟨hcount, ?_⟩
  simp only [calc_inverse_fourier_transform_for_bispec, divide_cells, Cx.divReal, hcount]
  norm_num

end DensityField

end Triumvirate

namespace Triumvirate

namespace TwoPointStatistics

variable {R : Type} [LinearOrderedField R] [FloorRing R]

/-- The conversion `int(0.5)` is 0. -/
theorem toInt_half : toInt ((0 : R) / (1 / 2) + 1 / 2) = 0 ∧ toInt ((0 : R) / (1 / 10000) + 1 / 2) = 0 := by
  constructor
  · exact toInt_of_bounds _ 0 (le_refl 0) (by norm_num) (by norm_num)
  · exact toInt_of_bounds _ 0 (le_refl 0) (by norm_num) (by norm_num)

/-- A binning loop whose lower edge is not negative does not read the fine slot 0: its result is
the same whatever that slot holds. -/
theorem bin_loop_ignores_slot_zero {M : Type} [AddCommMonoid M] (L U d : R) (hL : 0 ≤ L)
    (sample : Int → M) (v : M) (n : Nat) :
    (List.range n).foldl (fun (acc : M) (i : Nat) =>
        if ((i : Nat) : R) * d > L ∧ ((i : Nat) : R) * d ≤ U
        then acc + Function.update sample 0 v (i : Int) else acc) 0
      = (List.range n).foldl (fun (acc : M) (i : Nat) =>
        if ((i : Nat) : R) * d > L ∧ ((i : Nat) : R) * d ≤ U
        then acc + sample (i : Int) else acc) 0 := by
  rw [cond_loop_eq (fun i : Nat => ((i : Nat) : R) * d > L ∧ ((i : Nat) : R) * d ≤ U)
      (fun i => Function.update sample 0 v (i : Int)) n,
    cond_loop_eq (fun i : Nat => ((i : Nat) : R) * d > L ∧ ((i : Nat) : R) * d ≤ U)
      (fun i => sample (i : Int)) n]
  refine Finset.sum_congr rfl (fun i _ => ?_)
  by_cases hc : ((i : Nat) : R) * d > L ∧ ((i : Nat) : R) * d ≤ U
  · rw [if_pos hc, if_pos hc]
    have hi : (i : Int) ≠ 0 := by
      intro h0
      have : i = 0 := by exact_mod_cast h0
      rw [this] at hc
      simp only [Nat.cast_zero, zero_mul] at hc
      exact absurd hc.1 (not_lt.mpr hL)
    rw [Function.update_noteq hi]
  · rw [if_neg hc, if_neg hc]

/-- The lower edge of a bin of `calc_corr_func_for_3pt_corr_func` is not negative when the bin
centres are not negative. -/
theorem corr_3pt_r_lower_nonneg (rbin : Nat → R) (hr : ∀ t, 0 ≤ rbin t) (j : Nat) :
    0 ≤ corr_3pt_r_lower rbin j := by
  rcases Nat.eq_zero_or_pos j with h0 | hpos
  · subst h0
    unfold corr_3pt_r_lower
    rw [if_pos rfl]
    split
    · linarith
    · exact le_refl 0
  · obtain ⟨t, rfl⟩ : ∃ t, j = t + 1 := ⟨j - 1, by omega⟩
    rw [corr_3pt_r_lower_succ]
    have := hr t
    have := hr (t + 1)
    linarith

/-- The fine slot 0 is never binned: a cell with `kmag = 0` (in `calc_power_spec`) or
`rmag = 0` (in `calc_corr_func` and `calc_corr_func_for_3pt_corr_func`) falls in the fine slot
0; the lower edge of every bin is at least 0 (for the irregular bins of the 3PCF variant: when
the bin centres are not negative), so the centre 0 of that slot is not strictly greater than it,
and the value and the count of every bin are the same whatever the slot 0 of the fine tables
holds. Whether the origin cell has the magnitude 0 depends on the mesh size (it has on a mesh
with at least two cells on each axis, and has not on a one-cell mesh). -/
theorem origin_never_binned (lib : LibM R) (params : ParameterSet R) (kbin rbin : Nat → R)
    (value_sample : Int → Cx R) (count_sample : Int → Int) (v : Cx R) (w : Int) (j : Nat) :
    (∀ a b c : Nat, DensityField.vec_mag lib (DensityField.grid_kvec lib params a b c) = 0 →
      idx_k lib params a b c = 0) ∧
    (∀ a b c : Nat, DensityField.vec_mag lib (grid_rvec params a b c) = 0 →
      idx_r lib params a b c = 0) ∧
    (power_bin_pk kbin (Function.update value_sample 0 v) j = power_bin_pk kbin value_sample j ∧
      power_bin_nmode kbin (Function.update count_sample 0 w) j
        = power_bin_nmode kbin count_sample j) ∧
    (corr_bin_xi rbin (Function.update value_sample 0 v) j = corr_bin_xi rbin value_sample j ∧
      corr_bin_npair rbin (Function.update count_sample 0 w) j
        = corr_bin_npair rbin count_sample j) ∧
    ((∀ t, 0 ≤ rbin t) →
      0 ≤ corr_3pt_r_lower rbin j ∧
      corr_3pt_bin_xi params rbin (Function.update value_sample 0 v) j
        = corr_3pt_bin_xi params rbin value_sample j ∧
      corr_3pt_bin_npair params rbin (Function.update count_sample 0 w) j
        = corr_3pt_bin_npair params rbin count_sample j) := by
  refine ⟨?_, ?_, ⟨?_, ?_⟩, ⟨?_, ?_⟩, ?_⟩
  · intro a b c h
    unfold idx_k
    rw [h]
    exact toInt_half.2
  · intro a b c h
    unfold idx_r
    rw [h]
    exact toInt_half.1
  · unfold power_bin_pk
    exact bin_loop_ignores_slot_zero _ _ _ (bin_lower_nonneg kbin j) value_sample v n_sample
  · unfold power_bin_nmode
    exact bin_loop_ignores_slot_zero _ _ _ (bin_lower_nonneg kbin j) count_sample w n_sample
  · unfold corr_bin_xi
    exact bin_loop_ignores_slot_zero _ _ _ (bin_lower_nonneg rbin j) value_sample v nr_sample
  · unfold corr_bin_npair
    exact bin_loop_ignores_slot_zero _ _ _ (bin_lower_nonneg rbin j) count_sample w nr_sample
  · intro hr
    refine ⟨corr_3pt_r_lower_nonneg rbin hr j, ?_, ?_⟩
    · unfold corr_3pt_bin_xi
      exact bin_loop_ignores_slot_zero _ _ _ (corr_3pt_r_lower_nonneg rbin hr j)
        value_sample v nr_sample
    · unfold corr_3pt_bin_npair
      exact bin_loop_ignores_slot_zero _ _ _ (corr_3pt_r_lower_nonneg rbin hr j)
        count_sample w nr_sample

/-- An instance: the pair counts of the bin 1 of the 3PCF variant with the centres
`1, 2, 3, …` do not read the slot 0. -/
theorem origin_never_binned_witness :
    corr_3pt_bin_npair (R := ℚ) ⟨fun _ => 1, fun _ => 1, 1, 1, "NGP", 0, 0, 0, 2, 2⟩
        (fun t => (t : ℚ) + 1) (Function.update (fun _ => 0) 0 5) 1
      = corr_3pt_bin_npair (R := ℚ) ⟨fun _ => 1, fun _ => 1, 1, 1, "NGP", 0, 0, 0, 2, 2⟩
        (fun t => (t : ℚ) + 1) (fun _ => 0) 1 :=
  ((origin_never_binned (R := ℚ) ⟨22 / 7, fun x => x, fun x => x⟩
    ⟨fun _ => 1, fun _ => 1, 1, 1, "NGP", 0, 0, 0, 2, 2⟩ (fun t => (t : ℚ) + 1)
    (fun t => (t : ℚ) + 1) (fun _ => (0, 0)) (fun _ => 0) (1, 0) 5 1).2.2.2.2
    (fun t => by positivity)).2.2

end TwoPointStatistics

end Triumvirate

namespace Triumvirate

namespace TwoPointStatistics

variable {R : Type} [LinearOrderedField R] [FloorRing R]

/-- The fine index of a cell differs from `kmag / 1e-4` by at most 1/2 (for a magnitude that is
not negative). -/
theorem idx_k_near (lib : LibM R) (params : ParameterSet R) (hsqrt : ∀ x, 0 ≤ lib.sqrt x)
    (a b c : Nat) :
    ((idx_k lib params a b c : Int) : R)
        ≤ DensityField.vec_mag lib (DensityField.grid_kvec lib params a b c) / (1 / 10000) + 1 / 2 ∧
    DensityField.vec_mag lib (DensityField.grid_kvec lib params a b c) / (1 / 10000) - 1 / 2
        < ((idx_k lib params a b c : Int) : R) := by
  have hk : 0 ≤ DensityField.vec_mag lib (DensityField.grid_kvec lib params a b c) := hsqrt _
  unfold idx_k dk_sample
  generalize DensityField.vec_mag lib (DensityField.grid_kvec lib params a b c) = κ at hk
  have hy : (0 : R) ≤ κ / (1 / 10000) + 1 / 2 := by
    have : 0 ≤ κ / (1 / 10000) := div_nonneg hk (by norm_num)
    linarith
  rw [DensityField.toInt_of_nonneg _ hy]
  constructor
  · exact Int.floor_le _
  · have := Int.lt_floor_add_one (κ / (1 / 10000) + 1 / 2)
    linarith

/-- C35. Bound on the binning error from the fine table (for a square root that is never
negative): in `calc_power_spec`, `nmode_pk[j]` counts the grid modes of the bin `j`; the fine
index `floor(kmag/1e-4 + 1/2)` of every grid mode differs from `kmag/1e-4` by at most 1/2; every
grid mode counted in the bin `j` has `kmag` in the widened interval
`[k_lower_j - 0.00005, kbin[j] + D/2 + 0.00005)`; and every mode with
`kmag/1e-4 + 1/2 ≥ 100000` is counted in no bin. -/
theorem fine_table_binning_error (lib : LibM R) (params : ParameterSet R)
    (ylm_func : Int → Int → (Fin 3 → R) → Cx R) (stats : TwoPointStatistics R)
    (density_a density_b : Grid R) (kbin : Nat → R) (shotnoise : Cx R) (ell m : Int)
    (hsqrt : ∀ x, 0 ≤ lib.sqrt x) (j : Nat) (hj : j < params.num_kbin) :
    (calc_power_spec lib params ylm_func stats density_a density_b kbin shotnoise ell m).nmode_pk j
      = ((Reference.power_bin_cells lib params kbin j).card : Int) ∧
    (∀ c : Nat × Nat × Nat,
      |((idx_k lib params c.1 c.2.1 c.2.2 : Int) : R)
        - DensityField.vec_mag lib (DensityField.grid_kvec lib params c.1 c.2.1 c.2.2)
            / (1 / 10000)| ≤ 1 / 2) ∧
    (∀ c ∈ Reference.power_bin_cells lib params kbin j,
      (if kbin j > (kbin 1 - kbin 0) / 2 then kbin j - (kbin 1 - kbin 0) / 2 else 0) - 5 / 100000
        ≤ DensityField.vec_mag lib (DensityField.grid_kvec lib params c.1 c.2.1 c.2.2) ∧
      DensityField.vec_mag lib (DensityField.grid_kvec lib params c.1 c.2.1 c.2.2)
        < kbin j + (kbin 1 - kbin 0) / 2 + 5 / 100000) ∧
    (∀ c : Nat × Nat × Nat,
      100000 ≤ DensityField.vec_mag lib (DensityField.grid_kvec lib params c.1 c.2.1 c.2.2)
          / (1 / 10000) + 1 / 2 →
      c ∉ Reference.power_bin_cells lib params kbin j) := by
  refine ⟨?_, ?_, ?_, ?_⟩
  · rw [calc_power_spec_nmode_pk_eq _ _ _ _ _ _ _ _ _ _ _ hj, power_bin_nmode_value]
  · intro c
    have h := idx_k_near lib params hsqrt c.1 c.2.1 c.2.2
    rw [abs_le]
    constructor <;> linarith [h.1, h.2]
  · intro c hc
    have h := idx_k_near lib params hsqrt c.1 c.2.1 c.2.2
    unfold Reference.power_bin_cells at hc
    rw [Finset.mem_filter] at hc
    obtain ⟨_, _, hlo, hhi⟩ := hc
    generalize (if kbin j > (kbin 1 - kbin 0) / 2 then kbin j - (kbin 1 - kbin 0) / 2 else 0)
      = L at hlo ⊢
    generalize DensityField.vec_mag lib (DensityField.grid_kvec lib params c.1 c.2.1 c.2.2)
      = κ at h ⊢
    generalize ((idx_k lib params c.1 c.2.1 c.2.2 : Int) : R) = x at h hlo hhi
    have e : κ / (1 / 10000) = κ * 10000 := by field_simp
    rw [e] at h
    constructor <;> linarith [h.1, h.2]
  · intro c hbig hc
    unfold Reference.power_bin_cells at hc
    rw [Finset.mem_filter] at hc
    have hlt := hc.2.1
    have hy : (0 : R) ≤ DensityField.vec_mag lib (DensityField.grid_kvec lib params c.1 c.2.1 c.2.2)
        / (1 / 10000) + 1 / 2 := by linarith
    have hfl : (100000 : Int) ≤ idx_k lib params c.1 c.2.1 c.2.2 := by
      unfold idx_k dk_sample
      rw [DensityField.toInt_of_nonneg _ hy]
      exact Int.le_floor.mpr (by exact_mod_cast hbig)
    omega

/-- Witness for C35: a mode beyond the fine table (a stand-in square root of constant value 10
gives `kmag / 1e-4 + 1/2 = 100000.5`). -/
theorem fine_table_binning_error_witness :
    ((0, 0, 0) : Nat × Nat × Nat) ∉ Reference.power_bin_cells (R := ℚ)
      ⟨22 / 7, fun x => x, fun _ => 10⟩ ⟨fun _ => 1, fun _ => 1, 1, 1, "NGP", 0, 0, 0, 2, 2⟩
      (fun t => (t : ℚ) + 1) 0 :=
  (fine_table_binning_error (R := ℚ) ⟨22 / 7, fun x => x, fun _ => 10⟩
    ⟨fun _ => 1, fun _ => 1, 1, 1, "NGP", 0, 0, 0, 2, 2⟩ (fun _ _ _ => (1, 0))
    ⟨fun _ => (0, 0), fun _ => 0, fun _ => (0, 0), fun _ => 0⟩ (fun _ => (1, 0))
    (fun _ => (1, 0)) (fun t => (t : ℚ) + 1) (0, 0) 0 0 (fun _ => by norm_num) 0
    (by norm_num)).2.2.2 (0, 0, 0) (by norm_num [DensityField.vec_mag])

end TwoPointStatistics

end Triumvirate

namespace Triumvirate

namespace DensityField

variable {R : Type} [LinearOrderedField R] [FloorRing R]

/-- C36. CIC and TSC preserve the centre of mass per axis: for every coordinate `g_a ≥ 0`
(`g_a = nmesh[a] · pos[a] / boxsize[a]`), the covered indices weighted by the kernel weights
average to the grid coordinate of the particle, `Σ_α win[α][a] · ijk[α][a] = g_a`, the weights
are all non-negative and they sum to 1; for CIC the weights are `1 - s, s` with `0 ≤ s < 1`, for
TSC they are `(1/2)(1/2 - s)²`, `3/4 - s²`, `(1/2)(1/2 + s)²` with `|s| ≤ 1/2`. -/
theorem kernel_centre_of_mass (params : ParameterSet R) (p : ParticleData R) (a : Fin 3)
    (hg : 0 ≤ loc_grid params p a) :
    (win_cic params p 0 a * ((ijk_cic params p 0 a : Int) : R)
        + win_cic params p 1 a * ((ijk_cic params p 1 a : Int) : R) = loc_grid params p a ∧
      0 ≤ win_cic params p 0 a ∧ 0 ≤ win_cic params p 1 a ∧
      win_cic params p 0 a + win_cic params p 1 a = 1 ∧
      0 ≤ loc_grid params p a - ((toInt (loc_grid params p a) : Int) : R) ∧
      loc_grid params p a - ((toInt (loc_grid params p a) : Int) : R) < 1) ∧
    (win_tsc params p 0 a * ((ijk_tsc params p 0 a : Int) : R)
        + win_tsc params p 1 a * ((ijk_tsc params p 1 a : Int) : R)
        + win_tsc params p 2 a * ((ijk_tsc params p 2 a : Int) : R) = loc_grid params p a ∧
      0 ≤ win_tsc params p 0 a ∧ 0 ≤ win_tsc params p 1 a ∧ 0 ≤ win_tsc params p 2 a ∧
      win_tsc params p 0 a + win_tsc params p 1 a + win_tsc params p 2 a = 1 ∧
      |loc_grid params p a - ((toInt (loc_grid params p a + 1 / 2) : Int) : R)| ≤ 1 / 2) := by
  have h10 : ¬ ((1 : Nat) = 0) := by decide
  have h20 : ¬ ((2 : Nat) = 0) := by decide
  have h21 : ¬ ((2 : Nat) = 1) := by decide
  simp only [win_cic, ijk_cic, win_tsc, ijk_tsc, if_true, if_false, h10, h20, h21]
  generalize loc_grid params p a = g at hg ⊢
  have hg2 : (0 : R) ≤ g + 1 / 2 := by linarith
  rw [toInt_of_nonneg g hg, toInt_of_nonneg (g + 1 / 2) hg2]
  have hf1 := Int.floor_le g
  have hf2 := Int.lt_floor_add_one g
  have hc1 := Int.floor_le (g + 1 / 2)
  have hc2 := Int.lt_floor_add_one (g + 1 / 2)
  push_cast
  generalize ((Int.floor g : Int) : R) = n at hf1 hf2 ⊢
  generalize ((Int.floor (g + 1 / 2) : Int) : R) = c at hc1 hc2 ⊢
  refine ⟨⟨by ring, by linarith, by linarith, by ring, by linarith, by linarith⟩,
    ⟨by ring, ?_, ?_, ?_, by ring, ?_⟩⟩
  · have : 0 ≤ (1 / 2 - (g - c)) * (1 / 2 - (g - c)) := mul_self_nonneg _
    linarith
  · nlinarith
  · have : 0 ≤ (1 / 2 + (g - c)) * (1 / 2 + (g - c)) := mul_self_nonneg _
    linarith
  · rw [abs_le]
    constructor <;> linarith

/-- Witness for C36: the coordinate `g = 4/3` on an axis of a 2×2×2 mesh of unit box. -/
theorem kernel_centre_of_mass_witness :
    win_cic (R := ℚ) ⟨fun _ => 2, fun _ => 1, 8, 1, "CIC", 0, 0, 0, 2, 2⟩
          ⟨fun _ => 2 / 3, 1, 1, 1, 1⟩ 0 0
        * ((ijk_cic (R := ℚ) ⟨fun _ => 2, fun _ => 1, 8, 1, "CIC", 0, 0, 0, 2, 2⟩
            ⟨fun _ => 2 / 3, 1, 1, 1, 1⟩ 0 0 : Int) : ℚ)
      + win_cic (R := ℚ) ⟨fun _ => 2, fun _ => 1, 8, 1, "CIC", 0, 0, 0, 2, 2⟩
          ⟨fun _ => 2 / 3, 1, 1, 1, 1⟩ 1 0
        * ((ijk_cic (R := ℚ) ⟨fun _ => 2, fun _ => 1, 8, 1, "CIC", 0, 0, 0, 2, 2⟩
            ⟨fun _ => 2 / 3, 1, 1, 1, 1⟩ 1 0 : Int) : ℚ)
      = loc_grid (R := ℚ) ⟨fun _ => 2, fun _ => 1, 8, 1, "CIC", 0, 0, 0, 2, 2⟩
          ⟨fun _ => 2 / 3, 1, 1, 1, 1⟩ 0 :=
  (kernel_centre_of_mass (R := ℚ) ⟨fun _ => 2, fun _ => 1, 8, 1, "CIC", 0, 0, 0, 2, 2⟩
    ⟨fun _ => 2 / 3, 1, 1, 1, 1⟩ 0 (by norm_num [loc_grid])).1.1

end DensityField

end Triumvirate

namespace Triumvirate

namespace DensityField

variable {R : Type} [LinearOrderedField R] [FloorRing R]

/-- What one particle deposits in the cell `x`: its weight times `cell_vol_factor` times the sum
of the products of the interpolation weights over the covered triples that land in `x`. -/
theorem deposit_sum_share (params : ParameterSet R) (order : Nat) (ijk : Nat → Fin 3 → Int)
    (win : Nat → Fin 3 → R) (cvf : R) (w : Cx R) (x : Int) :
    ((List.range order).map (fun a => ((List.range order).map (fun b =>
      ((List.range order).map (fun c =>
        if (0 ≤ coord_flat params (ijk a 0) (ijk b 1) (ijk c 2) ∧
            coord_flat params (ijk a 0) (ijk b 1) (ijk c 2) < params.nmesh_tot) ∧
            coord_flat params (ijk a 0) (ijk b 1) (ijk c 2) = x
        then deposit_value win cvf w a b c else 0)).sum)).sum)).sum
      = Cx.mulReal w (cvf * ∑ a ∈ Finset.range order, ∑ b ∈ Finset.range order,
          ∑ c ∈ Finset.range order,
            (if (0 ≤ coord_flat params (ijk a 0) (ijk b 1) (ijk c 2) ∧
                coord_flat params (ijk a 0) (ijk b 1) (ijk c 2) < params.nmesh_tot) ∧
                coord_flat params (ijk a 0) (ijk b 1) (ijk c 2) = x
             then win a 0 * win b 1 * win c 2 else 0)) := by
  simp only [list_range_map_sum]
  unfold Cx.mulReal
  refine Prod.ext ?_ ?_
  · simp only [Prod.fst_sum, Finset.mul_sum]
    refine Finset.sum_congr rfl (fun a _ => Finset.sum_congr rfl (fun b _ =>
      Finset.sum_congr rfl (fun c _ => ?_)))
    split
    · simp only [deposit_value]; ring
    · simp
  · simp only [Prod.snd_sum, Finset.mul_sum]
    refine Finset.sum_congr rfl (fun a _ => Finset.sum_congr rfl (fun b _ =>
      Finset.sum_congr rfl (fun c _ => ?_)))
    split
    · simp only [deposit_value]; ring
    · simp

/-- The value of a cell of the mesh after the assignment with a known kernel: the sum over the
particles of the weight times `cell_vol_factor` times the share of the particle in the cell. -/
theorem assign_cell_value (params : ParameterSet R) (field : Grid R)
    (particles : ParticleCatalogue R) (weight : Nat → Cx R)
    (hkernel : params.assignment = "NGP" ∨ params.assignment = "CIC" ∨ params.assignment = "TSC")
    (x : Int) (hx : 0 ≤ x ∧ x < params.nmesh_tot) :
    (assign_weighted_field_to_grid params field particles weight).2 x
      = ∑ id ∈ Finset.range particles.nparticles,
          Cx.mulReal (weight id)
            (1 / (params.volume / (params.nmesh_tot : R))
              * Reference.assign_share params (particles.pdata id) x) := by
  have hz : zero_field params field x = 0 := by
    unfold zero_field
    rw [if_pos hx]
    rfl
  rcases hkernel with hk | hk | hk
  · simp only [assign_weighted_field_to_grid, hk, if_true, assign_weighted_field_to_grid_ngp,
      Reference.assign_share, kernel_order, kernel_ijk, kernel_win]
    rw [particle_loop_apply params particles.nparticles 1
        (fun id => ijk_ngp params (particles.pdata id)) (fun _ => win_ngp), hz, zero_add,
      list_range_map_sum]
    exact Finset.sum_congr rfl (fun id _ => deposit_sum_share params 1 _ _ _ _ x)
  · have h1 : ¬ ("CIC" = "NGP") := by decide
    simp only [assign_weighted_field_to_grid, hk, h1, if_true, if_false,
      assign_weighted_field_to_grid_cic, Reference.assign_share, kernel_order, kernel_ijk,
      kernel_win]
    rw [particle_loop_apply params particles.nparticles 2
        (fun id => ijk_cic params (particles.pdata id))
        (fun id => win_cic params (particles.pdata id)), hz, zero_add, list_range_map_sum]
    exact Finset.sum_congr rfl (fun id _ => deposit_sum_share params 2 _ _ _ _ x)
  · have h1 : ¬ ("TSC" = "NGP") := by decide
    have h2 : ¬ ("TSC" = "CIC") := by decide
    simp only [assign_weighted_field_to_grid, hk, h1, h2, if_true, if_false,
      assign_weighted_field_to_grid_tsc, Reference.assign_share, kernel_order, kernel_ijk,
      kernel_win]
    rw [particle_loop_apply params particles.nparticles 3
        (fun id => ijk_tsc params (particles.pdata id))
        (fun id => win_tsc params (particles.pdata id)), hz, zero_add, list_range_map_sum]
    exact Finset.sum_congr rfl (fun id _ => deposit_sum_share params 3 _ _ _ _ x)

end DensityField

end Triumvirate

namespace Triumvirate

namespace DensityField

variable {R : Type} [LinearOrderedField R] [FloorRing R]

/-- Multiplication by a real number commutes with a finite sum of complex values. -/
theorem mulReal_sum (f : Nat → Cx R) (a : R) (s : Finset Nat) :
    ∑ id ∈ s, Cx.mulReal (f id) a = Cx.mulReal (∑ id ∈ s, f id) a := by
  unfold Cx.mulReal
  refine Prod.ext ?_ ?_
  · simp only [Prod.fst_sum, Finset.sum_mul]
  · simp only [Prod.snd_sum, Finset.sum_mul]

/-- C37. Mass assignment is linear and additive: for each of the kernels NGP, CIC and TSC, a
fixed catalogue and every cell of the mesh, the field assigned with the weights `a·u_i + v_i`
(complex weights, real `a`) equals `a` times the field assigned with `u_i` plus the field
assigned with `v_i`; the field assigned from the concatenation of two catalogues equals the
cell-wise sum of the fields assigned from each; the result does not depend on the contents of
the field before the call; and it does not depend on the order of the particles (the catalogue
and the weights rearranged by any permutation of the particle indices give the same field). -/
theorem assign_linear_additive (params : ParameterSet R) (field field' : Grid R)
    (particles other : ParticleCatalogue R) (u v : Nat → Cx R) (a : R) (σ : Equiv.Perm Nat)
    (hσ : ∀ id, id < particles.nparticles ↔ σ id < particles.nparticles)
    (hkernel : params.assignment = "NGP" ∨ params.assignment = "CIC" ∨ params.assignment = "TSC")
    (x : Int) (hx : 0 ≤ x ∧ x < params.nmesh_tot) :
    (assign_weighted_field_to_grid params field particles
        (fun id => Cx.mulReal (u id) a + v id)).2 x
      = Cx.mulReal ((assign_weighted_field_to_grid params field particles u).2 x) a
        + (assign_weighted_field_to_grid params field particles v).2 x ∧
    (assign_weighted_field_to_grid params field
        ⟨particles.nparticles + other.nparticles, fun id =>
          if id < particles.nparticles then particles.pdata id
          else other.pdata (id - particles.nparticles)⟩
        (fun id => if id < particles.nparticles then u id else v (id - particles.nparticles))).2 x
      = (assign_weighted_field_to_grid params field particles u).2 x
        + (assign_weighted_field_to_grid params field other v).2 x ∧
    (assign_weighted_field_to_grid params field particles u).2 x
      = (assign_weighted_field_to_grid params field' particles u).2 x ∧
    (assign_weighted_field_to_grid params field
        ⟨particles.nparticles, fun id => particles.pdata (σ id)⟩ (fun id => u (σ id))).2 x
      = (assign_weighted_field_to_grid params field particles u).2 x := by
  refine ⟨?_, ?_, ?_, ?_⟩
  · rw [assign_cell_value params field particles _ hkernel x hx,
      assign_cell_value params field particles u hkernel x hx,
      assign_cell_value params field particles v hkernel x hx, ← mulReal_sum,
      ← Finset.sum_add_distrib]
    refine Finset.sum_congr rfl (fun id _ => ?_)
    unfold Cx.mulReal
    refine Prod.ext ?_ ?_ <;> simp only [Prod.fst_add, Prod.snd_add] <;> ring
  · rw [assign_cell_value params field _ _ hkernel x hx,
      assign_cell_value params field particles u hkernel x hx,
      assign_cell_value params field other v hkernel x hx]
    simp only []
    rw [Finset.sum_range_add]
    congr 1
    · refine Finset.sum_congr rfl (fun id hid => ?_)
      rw [if_pos (Finset.mem_range.mp hid), if_pos (Finset.mem_range.mp hid)]
    · refine Finset.sum_congr rfl (fun id _ => ?_)
      rw [if_neg (by omega), if_neg (by omega), Nat.add_sub_cancel_left]
  · rw [assign_cell_value params field particles u hkernel x hx,
      assign_cell_value params field' particles u hkernel x hx]
  · rw [assign_cell_value params field _ _ hkernel x hx,
      assign_cell_value params field particles u hkernel x hx]
    simp only []
    refine Finset.sum_equiv σ (fun id => ?_) (fun id _ => rfl)
    rw [Finset.mem_range, Finset.mem_range]
    exact hσ id

/-- Witness for C37: one CIC particle at the origin of a 2×2×2 mesh of unit box, weights
`2·(1 + i) + 3`. -/
theorem assign_linear_additive_witness :
    (assign_weighted_field_to_grid (R := ℚ) ⟨fun _ => 2, fun _ => 1, 8, 1, "CIC", 0, 0, 0, 2, 2⟩
        (fun _ => (0, 0)) ⟨1, fun _ => ⟨fun _ => 0, 1, 1, 1, 1⟩⟩
        (fun id => Cx.mulReal ((fun _ => ((1 : ℚ), (1 : ℚ))) id) 2
          + (fun _ => ((3 : ℚ), (0 : ℚ))) id)).2 0
      = Cx.mulReal ((assign_weighted_field_to_grid (R := ℚ)
            ⟨fun _ => 2, fun _ => 1, 8, 1, "CIC", 0, 0, 0, 2, 2⟩
            (fun _ => (0, 0)) ⟨1, fun _ => ⟨fun _ => 0, 1, 1, 1, 1⟩⟩ (fun _ => (1, 1))).2 0) 2
        + (assign_weighted_field_to_grid (R := ℚ)
            ⟨fun _ => 2, fun _ => 1, 8, 1, "CIC", 0, 0, 0, 2, 2⟩
            (fun _ => (0, 0)) ⟨1, fun _ => ⟨fun _ => 0, 1, 1, 1, 1⟩⟩ (fun _ => (3, 0))).2 0 :=
  (assign_linear_additive (R := ℚ) ⟨fun _ => 2, fun _ => 1, 8, 1, "CIC", 0, 0, 0, 2, 2⟩
    (fun _ => (0, 0)) (fun _ => (0, 0)) ⟨1, fun _ => ⟨fun _ => 0, 1, 1, 1, 1⟩⟩
    ⟨0, fun _ => ⟨fun _ => 0, 1, 1, 1, 1⟩⟩ (fun _ => (1, 1)) (fun _ => (3, 0)) 2
    (Equiv.refl Nat) (fun _ => Iff.rfl) (Or.inr (Or.inl rfl)) 0 (by norm_num)).1

end DensityField

end Triumvirate

namespace Triumvirate

namespace TwoPointStatistics

variable {R : Type} [LinearOrderedField R] [FloorRing R]

/-- A product of three numbers of `[l, 1]`, `l ≥ 0`, lies in `[l³, 1]`. -/
theorem prod_three_bounds (l x y z : R) (hl : 0 ≤ l) (hx : l ≤ x ∧ x ≤ 1) (hy : l ≤ y ∧ y ≤ 1)
    (hz : l ≤ z ∧ z ≤ 1) : l ^ 3 ≤ x * y * z ∧ x * y * z ≤ 1 := by
  have hx0 : 0 ≤ x := le_trans hl hx.1
  have hy0 : 0 ≤ y := le_trans hl hy.1
  have hz0 : 0 ≤ z := le_trans hl hz.1
  constructor
  · have h1 : l * l ≤ x * y := mul_le_mul hx.1 hy.1 hl hx0
    have h2 : l * l * l ≤ x * y * z := mul_le_mul h1 hz.1 hl (mul_nonneg hx0 hy0)
    calc l ^ 3 = l * l * l := by ring
      _ ≤ x * y * z := h2
  · have h1 : x * y ≤ 1 := mul_le_one₀ hx.2 hy0 hy.2
    exact mul_le_one₀ h1 hz0 hz.2

/-- C38. Shot-noise attenuation is bounded (for a sine with values in `[-1, 1]`): for every
wave-vector and every grid, `calc_shotnoise_func` returns exactly 1 for NGP, a value in
`[(1/3)³, 1]` for CIC and a value in `[(2/15)³, 1]` for TSC; for each of the three kernels the
value lies in `(0, 1]`. -/
theorem shotnoise_func_bounds (lib : LibM R) (params : ParameterSet R) (kvec : Fin 3 → R)
    (hsin : ∀ x, -1 ≤ lib.sin x ∧ lib.sin x ≤ 1) :
    (params.assignment = "NGP" → calc_shotnoise_func lib params kvec = 1) ∧
    (params.assignment = "CIC" →
      (1 / 3 : R) ^ 3 ≤ calc_shotnoise_func lib params kvec ∧
      calc_shotnoise_func lib params kvec ≤ 1) ∧
    (params.assignment = "TSC" →
      (2 / 15 : R) ^ 3 ≤ calc_shotnoise_func lib params kvec ∧
      calc_shotnoise_func lib params kvec ≤ 1) ∧
    ((params.assignment = "NGP" ∨ params.assignment = "CIC" ∨ params.assignment = "TSC") →
      0 < calc_shotnoise_func lib params kvec ∧ calc_shotnoise_func lib params kvec ≤ 1) := by
  have hsq : ∀ (idx : Int) (x : R),
      0 ≤ (if idx ≠ 0 then lib.sin x else 0) * (if idx ≠ 0 then lib.sin x else 0) ∧
      (if idx ≠ 0 then lib.sin x else 0) * (if idx ≠ 0 then lib.sin x else 0) ≤ 1 := by
    intro idx x
    refine ⟨mul_self_nonneg _, ?_⟩
    split
    · have := hsin x
      nlinarith
    · norm_num
  have hcicf : ∀ (idx : Int) (x : R),
      (1 / 3 : R) ≤ 1 - 2 / 3 * (if idx ≠ 0 then lib.sin x else 0)
          * (if idx ≠ 0 then lib.sin x else 0) ∧
      1 - 2 / 3 * (if idx ≠ 0 then lib.sin x else 0) * (if idx ≠ 0 then lib.sin x else 0) ≤ 1 := by
    intro idx x
    have h := hsq idx x
    constructor <;> nlinarith [h.1, h.2]
  have htscf : ∀ (idx : Int) (x : R),
      (2 / 15 : R) ≤ 1 - (if idx ≠ 0 then lib.sin x else 0) * (if idx ≠ 0 then lib.sin x else 0)
          + 2 / 15 * (if idx ≠ 0 then lib.sin x else 0) ^ 4 ∧
      1 - (if idx ≠ 0 then lib.sin x else 0) * (if idx ≠ 0 then lib.sin x else 0)
          + 2 / 15 * (if idx ≠ 0 then lib.sin x else 0) ^ 4 ≤ 1 := by
    intro idx x
    have h := hsq idx x
    generalize (if idx ≠ 0 then lib.sin x else 0) = c at h ⊢
    have e : c ^ 4 = (c * c) * (c * c) := by ring
    rw [e]
    generalize c * c = t at h ⊢
    constructor <;> nlinarith [h.1, h.2]
  have hngp : params.assignment = "NGP" → calc_shotnoise_func lib params kvec = 1 := by
    intro hk
    simp only [calc_shotnoise_func, hk, if_true, calc_shotnoise_func_ngp]
  have hcic : params.assignment = "CIC" →
      (1 / 3 : R) ^ 3 ≤ calc_shotnoise_func lib params kvec ∧
      calc_shotnoise_func lib params kvec ≤ 1 := by
    intro hk
    have e1 : ¬ ("CIC" = "NGP") := by decide
    simp only [calc_shotnoise_func, hk, e1, if_true, if_false, calc_shotnoise_func_cic]
    exact prod_three_bounds _ _ _ _ (by norm_num) (hcicf _ _) (hcicf _ _) (hcicf _ _)
  have htsc : params.assignment = "TSC" →
      (2 / 15 : R) ^ 3 ≤ calc_shotnoise_func lib params kvec ∧
      calc_shotnoise_func lib params kvec ≤ 1 := by
    intro hk
    have e1 : ¬ ("TSC" = "NGP") := by decide
    have e2 : ¬ ("TSC" = "CIC") := by decide
    simp only [calc_shotnoise_func, hk, e1, e2, if_true, if_false, calc_shotnoise_func_tsc]
    exact prod_three_bounds _ _ _ _ (by norm_num) (htscf _ _) (htscf _ _) (htscf _ _)
  refine ⟨hngp, hcic, htsc, ?_⟩
  rintro (hk | hk | hk)
  · rw [hngp hk]
    exact ⟨one_pos, le_refl 1⟩
  · exact ⟨lt_of_lt_of_le (by norm_num) (hcic hk).1, (hcic hk).2⟩
  · exact ⟨lt_of_lt_of_le (by norm_num) (htsc hk).1, (htsc hk).2⟩

/-- Witness for C38: the CIC attenuation at the wave-vector `(1, 1, 1)` on a 4×4×4 mesh of unit
box, with the real sine. -/
theorem shotnoise_func_bounds_witness :
    (1 / 3 : ℝ) ^ 3 ≤ calc_shotnoise_func ⟨Real.pi, Real.sin, Real.sqrt⟩
        ⟨fun _ => 4, fun _ => 1, 64, 1, "CIC", 0, 0, 0, 2, 2⟩ (fun _ => 1) ∧
    calc_shotnoise_func ⟨Real.pi, Real.sin, Real.sqrt⟩
        ⟨fun _ => 4, fun _ => 1, 64, 1, "CIC", 0, 0, 0, 2, 2⟩ (fun _ => 1) ≤ 1 :=
  (shotnoise_func_bounds ⟨Real.pi, Real.sin, Real.sqrt⟩
    ⟨fun _ => 4, fun _ => 1, 64, 1, "CIC", 0, 0, 0, 2, 2⟩ (fun _ => 1)
    (fun x => ⟨Real.neg_one_le_sin x, Real.sin_le_one x⟩)).2.1 rfl

end TwoPointStatistics

end Triumvirate

namespace Triumvirate

namespace TwoPointStatistics

section

variable {R : Type} [LinearOrderedField R] [FloorRing R]

/-- The fine tables of `calc_corr_func_for_3pt_corr_func` after the sampling walk: slot `x` holds
the sum of `pair_corr` over the cells of fine index `x` (when `x < n_sample`), and their
number. -/
theorem corr_3pt_sample_apply (lib : LibM R) (fftw : DensityField.FFTW R)
    (params : ParameterSet R) (density_a density_b : Grid R) (shotnoise : Cx R)
    (ylm_a ylm_b : Int → Cx R) (x : Int) :
    (corr_3pt_sample lib fftw params density_a density_b shotnoise ylm_a ylm_b).1 x
        = ∑ c ∈ Reference.cells params,
            (if idx_r lib params c.1 c.2.1 c.2.2 < (nr_sample : Int) ∧
                idx_r lib params c.1 c.2.1 c.2.2 = x
             then Cx.mul
                (fftw.backward (params.nmesh 0) (params.nmesh 1) (params.nmesh 2)
                  (corr_3pt_power_field lib params density_a density_b shotnoise)
                  (coord_flat params c.1 c.2.1 c.2.2))
                (Cx.mul (ylm_a (coord_flat params c.1 c.2.1 c.2.2))
                  (ylm_b (coord_flat params c.1 c.2.1 c.2.2)))
             else 0) ∧
    (corr_3pt_sample lib fftw params density_a density_b shotnoise ylm_a ylm_b).2 x
        = ∑ c ∈ Reference.cells params,
            (if idx_r lib params c.1 c.2.1 c.2.2 < (nr_sample : Int) ∧
                idx_r lib params c.1 c.2.1 c.2.2 = x
             then (1 : Int) else 0) := by
  constructor
  · unfold corr_3pt_sample
    rw [DensityField.grid_walk_measure_cells params
      (fun s : (Int → Cx R) × (Int → Int) => s.1 x) _
      (fun c => if idx_r lib params c.1 c.2.1 c.2.2 < (nr_sample : Int) ∧
                idx_r lib params c.1 c.2.1 c.2.2 = x
             then Cx.mul
                (fftw.backward (params.nmesh 0) (params.nmesh 1) (params.nmesh 2)
                  (corr_3pt_power_field lib params density_a density_b shotnoise)
                  (coord_flat params c.1 c.2.1 c.2.2))
                (Cx.mul (ylm_a (coord_flat params c.1 c.2.1 c.2.2))
                  (ylm_b (coord_flat params c.1 c.2.1 c.2.2)))
             else 0)]
    · simp
    · intro s i j k
      simp only [corr_3pt_sample_step]
      by_cases h1 : idx_r lib params i j k < (nr_sample : Int)
      · rw [if_pos h1]
        by_cases h2 : idx_r lib params i j k = x
        · rw [if_pos ⟨h1, h2⟩, ← h2]
          simp only [Function.update_same]
        · rw [if_neg (fun h => h2 h.2)]
          simp only [Function.update_noteq (Ne.symm h2), add_zero]
      · rw [if_neg h1, if_neg (fun h => h1 h.1), add_zero]
  · unfold corr_3pt_sample
    rw [DensityField.grid_walk_measure_cells params
      (fun s : (Int → Cx R) × (Int → Int) => s.2 x) _
      (fun c => if idx_r lib params c.1 c.2.1 c.2.2 < (nr_sample : Int) ∧
                idx_r lib params c.1 c.2.1 c.2.2 = x
             then (1 : Int) else 0)]
    · simp
    · intro s i j k
      simp only [corr_3pt_sample_step]
      by_cases h1 : idx_r lib params i j k < (nr_sample : Int)
      · rw [if_pos h1]
        by_cases h2 : idx_r lib params i j k = x
        · rw [if_pos ⟨h1, h2⟩, ← h2]
          simp only [Function.update_same]
        · rw [if_neg (fun h => h2 h.2)]
          simp only [Function.update_noteq (Ne.symm h2), add_zero]
      · rw [if_neg h1, if_neg (fun h => h1 h.1), add_zero]

/-- The cell `(i, j, k)` of `twopt3d_sample` in `calc_corr_func_for_3pt_corr_func` after the
first grid walk. -/
theorem corr_3pt_power_field_cell (lib : LibM R) (params : ParameterSet R)
    (density_a density_b : Grid R) (shotnoise : Cx R) (i j k : Nat)
    (hi : (i : Int) < params.nmesh 0) (hj : (j : Int) < params.nmesh 1)
    (hk : (k : Int) < params.nmesh 2) :
    corr_3pt_power_field lib params density_a density_b shotnoise (coord_flat params i j k)
      = corr_power_value lib params density_a density_b shotnoise i j k := by
  unfold corr_3pt_power_field
  exact DensityField.grid_walk_update_apply params (fun f : Grid R => f) _
    (fun i j k => corr_power_value lib params density_a density_b shotnoise i j k)
    (fun s i j k => rfl) _ i j k hi hj hk

end

/-- The separation of the cell `(i, j, k)` of a 2×2×2 mesh with the cell size `ρ`. -/
theorem two_mesh_rmag (params : ParameterSet ℝ) (ρ : ℝ) (hn : ∀ a, params.nmesh a = 2)
    (hdr : ∀ a, params.boxsize a / (params.nmesh a : ℝ) = ρ)
    (i j k : Nat) (hi : i < 2) (hj : j < 2) (hk : k < 2) :
    DensityField.vec_mag ⟨Real.pi, Real.sin, Real.sqrt⟩ (grid_rvec params i j k)
      = Real.sqrt (((i : ℝ) ^ 2 + (j : ℝ) ^ 2 + (k : ℝ) ^ 2) * ρ ^ 2) := by
  have hdr2 : ∀ a, params.boxsize a / 2 = ρ := by
    intro a
    have h := hdr a
    rw [hn a] at h
    simpa using h
  have h0 : grid_rvec params i j k 0 = -(i : ℝ) * ρ := by
    simp only [grid_rvec, if_true, hn, show Int.tdiv 2 2 = 1 from rfl]
    interval_cases i <;> simp [hdr2]
  have h1 : grid_rvec params i j k 1 = -(j : ℝ) * ρ := by
    simp only [grid_rvec, if_neg (show ¬ ((1 : Fin 3) = 0) by decide), if_true, hn,
      show Int.tdiv 2 2 = 1 from rfl]
    interval_cases j <;> simp [hdr2]
  have h2 : grid_rvec params i j k 2 = -(k : ℝ) * ρ := by
    simp only [grid_rvec, if_neg (show ¬ ((2 : Fin 3) = 0) by decide),
      if_neg (show ¬ ((2 : Fin 3) = 1) by decide), hn, show Int.tdiv 2 2 = 1 from rfl]
    interval_cases k <;> simp [hdr2]
  unfold DensityField.vec_mag
  simp only
  rw [h0, h1, h2]
  congr 1
  ring

/-- On a 2×2×2 mesh with the cell size 2, the cells of fine index 4 (separation 2) are the three
cells with one index equal to 1. -/
theorem two_mesh_idx_r (params : ParameterSet ℝ) (hn : ∀ a, params.nmesh a = 2)
    (hdr : ∀ a, params.boxsize a / (params.nmesh a : ℝ) = 2)
    (i j k : Nat) (hi : i < 2) (hj : j < 2) (hk : k < 2) :
    (idx_r ⟨Real.pi, Real.sin, Real.sqrt⟩ params i j k < (nr_sample : Int) ∧
      idx_r ⟨Real.pi, Real.sin, Real.sqrt⟩ params i j k = 4) ↔ i + j + k = 1 := by
  have hmag := two_mesh_rmag params 2 hn hdr i j k hi hj hk
  have hnn : (0 : ℝ) ≤ Real.sqrt (((i : ℝ) ^ 2 + (j : ℝ) ^ 2 + (k : ℝ) ^ 2) * 2 ^ 2)
      / dr_sample + 1 / 2 := by
    have := Real.sqrt_nonneg (((i : ℝ) ^ 2 + (j : ℝ) ^ 2 + (k : ℝ) ^ 2) * 2 ^ 2)
    unfold dr_sample
    positivity
  have hidx : idx_r ⟨Real.pi, Real.sin, Real.sqrt⟩ params i j k
      = Int.floor (Real.sqrt (((i : ℝ) ^ 2 + (j : ℝ) ^ 2 + (k : ℝ) ^ 2) * 2 ^ 2)
          / dr_sample + 1 / 2) := by
    unfold idx_r
    rw [hmag]
    exact DensityField.toInt_of_nonneg _ hnn
  rw [hidx]
  constructor
  · rintro ⟨_, h4⟩
    rw [Int.floor_eq_iff] at h4
    obtain ⟨hlo, hhi⟩ := h4
    unfold dr_sample at hlo hhi
    by_contra hne
    have hcase : (i = 0 ∧ j = 0 ∧ k = 0) ∨ 2 ≤ i + j + k := by omega
    rcases hcase with ⟨rfl, rfl, rfl⟩ | hge
    · norm_num at hlo
    · have hsum : (2 : ℝ) ≤ (i : ℝ) ^ 2 + (j : ℝ) ^ 2 + (k : ℝ) ^ 2 := by
        have : 2 ≤ i ^ 2 + j ^ 2 + k ^ 2 := by
          interval_cases i <;> interval_cases j <;> interval_cases k <;> simp_all
        exact_mod_cast this
      have hsq : (5 / 2 : ℝ)
          ≤ Real.sqrt (((i : ℝ) ^ 2 + (j : ℝ) ^ 2 + (k : ℝ) ^ 2) * 2 ^ 2) := by
        apply Real.le_sqrt_of_sq_le
        nlinarith
      generalize Real.sqrt (((i : ℝ) ^ 2 + (j : ℝ) ^ 2 + (k : ℝ) ^ 2) * 2 ^ 2) = s at hhi hsq
      norm_num at hhi
      linarith
  · intro h1
    have hsum : (i : ℝ) ^ 2 + (j : ℝ) ^ 2 + (k : ℝ) ^ 2 = 1 := by
      have : i ^ 2 + j ^ 2 + k ^ 2 = 1 := by
        interval_cases i <;> interval_cases j <;> interval_cases k <;> simp_all
      exact_mod_cast this
    have hfl : Int.floor (Real.sqrt (((i : ℝ) ^ 2 + (j : ℝ) ^ 2 + (k : ℝ) ^ 2) * 2 ^ 2)
          / dr_sample + 1 / 2) = 4 := by
      rw [hsum, one_mul, Real.sqrt_sq (by norm_num), Int.floor_eq_iff]
      unfold dr_sample
      constructor <;> norm_num
    rw [hfl]
    constructor
    · unfold nr_sample; norm_num
    · rfl

end TwoPointStatistics

end Triumvirate

namespace Triumvirate

namespace TwoPointStatistics

/-- The bin 0 of the centres `2, 2.2` is `(1.9, 2.1]`: of the fine slots, whose centres are the
multiples of 0.5, it holds the slot 4 alone. -/
theorem pair_mesh_bin {M : Type} [AddCommMonoid M] (sample : Int → M) :
    ∑ i ∈ Finset.range 10000,
        (if ((i : Nat) : ℝ) * (1 / 2) > corr_3pt_r_lower (fun j => 2 + (j : ℝ) / 5) 0 ∧
            ((i : Nat) : ℝ) * (1 / 2)
              ≤ corr_3pt_r_upper ⟨fun _ => 2, fun _ => 4, 8, 64, "NGP", 1, 0, 1, 2, 2⟩
                  (fun j => 2 + (j : ℝ) / 5) 0
         then sample (i : Int) else 0)
      = sample 4 := by
  have hlow : corr_3pt_r_lower (fun j => 2 + (j : ℝ) / 5) 0 = 19 / 10 := by
    simp only [corr_3pt_r_lower, drbin, if_true]
    norm_num
  have hupp : corr_3pt_r_upper ⟨fun _ => 2, fun _ => 4, 8, 64, "NGP", 1, 0, 1, 2, 2⟩
      (fun j => 2 + (j : ℝ) / 5) 0 = 21 / 10 := by
    simp only [corr_3pt_r_upper, drbin]
    norm_num
  rw [hlow, hupp, Finset.sum_eq_single 4]
  · rw [if_pos (by norm_num)]
    rfl
  · intro i _ hne
    rw [if_neg]
    rintro ⟨h1, h2⟩
    rcases Nat.lt_or_ge i 4 with hlt | hge
    · have : (i : ℝ) ≤ 3 := by exact_mod_cast Nat.lt_succ_iff.mp hlt
      linarith
    · have : (5 : ℝ) ≤ (i : ℝ) := by
        have : 5 ≤ i := by omega
        exact_mod_cast this
      linarith
  · intro h
    exact absurd (Finset.mem_range.mpr (by norm_num)) h

/-- The fine slot 4 of `calc_corr_func_for_3pt_corr_func` on a 2×2×2 mesh of box size 4 (cell
size 2) with the unit density in every cell, no shot noise, the harmonics `i` and `2`, and a
backward transform that leaves the buffer as it is: the three cells at the separation 2, each
with `pair_corr = (1/64) · i · 2`. -/
theorem pair_mesh_slot :
    (corr_3pt_sample ⟨Real.pi, Real.sin, Real.sqrt⟩ ⟨fun _ _ _ g => g, fun _ _ _ g => g⟩
        ⟨fun _ => 2, fun _ => 4, 8, 64, "NGP", 1, 0, 1, 2, 2⟩
        (fun _ => (1, 0)) (fun _ => (1, 0)) (0, 0) (fun _ => (0, 1)) (fun _ => (2, 0))).2 4 = 3 ∧
    (corr_3pt_sample ⟨Real.pi, Real.sin, Real.sqrt⟩ ⟨fun _ _ _ g => g, fun _ _ _ g => g⟩
        ⟨fun _ => 2, fun _ => 4, 8, 64, "NGP", 1, 0, 1, 2, 2⟩
        (fun _ => (1, 0)) (fun _ => (1, 0)) (0, 0) (fun _ => (0, 1)) (fun _ => (2, 0))).1 4
      = (0, 3 / 32) := by
  have hn : ∀ a : Fin 3, (⟨fun _ => 2, fun _ => 4, 8, 64, "NGP", 1, 0, 1, 2, 2⟩ :
      ParameterSet ℝ).nmesh a = 2 := fun _ => rfl
  have hdr : ∀ a : Fin 3, (⟨fun _ => 2, fun _ => 4, 8, 64, "NGP", 1, 0, 1, 2, 2⟩ :
      ParameterSet ℝ).boxsize a / (((⟨fun _ => 2, fun _ => 4, 8, 64, "NGP", 1, 0, 1, 2, 2⟩ :
      ParameterSet ℝ).nmesh a : Int) : ℝ) = 2 := by
    intro a
    norm_num
  have hdk : ∀ a : Fin 3, DensityField.mode_dk ⟨Real.pi, Real.sin, Real.sqrt⟩
      (⟨fun _ => 2, fun _ => 4, 8, 64, "NGP", 1, 0, 1, 2, 2⟩ : ParameterSet ℝ) a
        = Real.pi / 2 := by
    intro a
    simp only [DensityField.mode_dk]
    ring
  have hcells : ∀ c : Nat × Nat × Nat,
      c ∈ Reference.cells (⟨fun _ => 2, fun _ => 4, 8, 64, "NGP", 1, 0, 1, 2, 2⟩ :
        ParameterSet ℝ) → c.1 < 2 ∧ c.2.1 < 2 ∧ c.2.2 < 2 := by
    intro c hc
    simpa [Reference.cells] using hc
  have hval : ∀ c ∈ Reference.cells (⟨fun _ => 2, fun _ => 4, 8, 64, "NGP", 1, 0, 1, 2, 2⟩ :
        ParameterSet ℝ),
      Cx.mul
        (corr_3pt_power_field ⟨Real.pi, Real.sin, Real.sqrt⟩
          (⟨fun _ => 2, fun _ => 4, 8, 64, "NGP", 1, 0, 1, 2, 2⟩ : ParameterSet ℝ)
          (fun _ => (1, 0)) (fun _ => (1, 0)) (0, 0)
          (coord_flat (⟨fun _ => 2, fun _ => 4, 8, 64, "NGP", 1, 0, 1, 2, 2⟩ : ParameterSet ℝ)
            c.1 c.2.1 c.2.2))
        (Cx.mul ((0 : ℝ), (1 : ℝ)) ((2 : ℝ), (0 : ℝ))) = ((0 : ℝ), (1 / 32 : ℝ)) := by
    intro c hc
    obtain ⟨hi, hj, hk⟩ := hcells c hc
    rw [corr_3pt_power_field_cell _ _ _ _ _ _ _ _ (by rw [hn]; exact_mod_cast hi)
      (by rw [hn]; exact_mod_cast hj) (by rw [hn]; exact_mod_cast hk)]
    simp only [corr_power_value, DensityField.calc_interpolation_window_in_fourier, if_true,
      DensityField.calc_interpolation_window_in_fourier_ngp,
      two_mesh_window_index _ (Real.pi / 2) (by have := Real.pi_pos; linarith) hn hdk
        c.1 c.2.1 c.2.2 hi hj hk, Cx.mul, Cx.conj, Cx.mulReal, Cx.divReal]
    refine Prod.ext ?_ ?_ <;> norm_num
  have hcount : (∑ c ∈ Reference.cells (⟨fun _ => 2, fun _ => 4, 8, 64, "NGP", 1, 0, 1, 2, 2⟩ :
        ParameterSet ℝ), (if c.1 + c.2.1 + c.2.2 = 1 then (1 : Int) else 0)) = 3 := by
    rfl
  have hsum : (∑ c ∈ Reference.cells (⟨fun _ => 2, fun _ => 4, 8, 64, "NGP", 1, 0, 1, 2, 2⟩ :
        ParameterSet ℝ), (if c.1 + c.2.1 + c.2.2 = 1 then ((0 : ℝ), (1 / 32 : ℝ)) else 0))
      = ((0 : ℝ), (3 / 32 : ℝ)) := by
    simp only [Reference.cells, show (2 : Int).toNat = 2 from rfl, Finset.sum_product,
      Finset.sum_range_succ, Finset.sum_range_zero]
    refine Prod.ext ?_ ?_ <;> norm_num
  constructor
  · rw [(corr_3pt_sample_apply _ _ _ _ _ _ _ _ 4).2, ← hcount]
    refine Finset.sum_congr rfl (fun c hc => ?_)
    obtain ⟨hi, hj, hk⟩ := hcells c hc
    exact if_congr (two_mesh_idx_r _ hn hdr c.1 c.2.1 c.2.2 hi hj hk) rfl rfl
  · rw [(corr_3pt_sample_apply _ _ _ _ _ _ _ _ 4).1, ← hsum]
    refine Finset.sum_congr rfl (fun c hc => ?_)
    obtain ⟨hi, hj, hk⟩ := hcells c hc
    rw [if_congr (two_mesh_idx_r _ hn hdr c.1 c.2.1 c.2.2 hi hj hk) rfl rfl]
    exact if_congr Iff.rfl (hval c hc) rfl

/-- Witness for C22: a bin with three pairs. On a 2×2×2 mesh of box size 4 (`dV = 8`) with the
unit density in every cell, no shot noise, the harmonics `i` and `2`, `ell1 + ell2 = 1` and a
backward transform that leaves the buffer as it is, the bin `(1.9, 2.1]` of the centres `2, 2.2`
holds the three cells at the separation 2: `npair_xi[0] = 3`, `T_0 = 3 · (1/64) · 2i`, and
`xi[0] = (-1) · T_0 / 8 / 3² = -i/768`. -/
theorem corr_3pt_final_scaling_witness :
    (calc_corr_func_for_3pt_corr_func ⟨Real.pi, Real.sin, Real.sqrt⟩
        ⟨fun _ _ _ g => g, fun _ _ _ g => g⟩
        ⟨fun _ => 2, fun _ => 4, 8, 64, "NGP", 1, 0, 1, 2, 2⟩
        ⟨fun _ => (0, 0), fun _ => 0, fun _ => (0, 0), fun _ => 0⟩
        (fun _ => (1, 0)) (fun _ => (1, 0)) (fun j => 2 + (j : ℝ) / 5) (0, 0) 0 0
        (fun _ => (0, 1)) (fun _ => (2, 0))).npair_xi 0 = 3 ∧
    (calc_corr_func_for_3pt_corr_func ⟨Real.pi, Real.sin, Real.sqrt⟩
        ⟨fun _ _ _ g => g, fun _ _ _ g => g⟩
        ⟨fun _ => 2, fun _ => 4, 8, 64, "NGP", 1, 0, 1, 2, 2⟩
        ⟨fun _ => (0, 0), fun _ => 0, fun _ => (0, 0), fun _ => 0⟩
        (fun _ => (1, 0)) (fun _ => (1, 0)) (fun j => 2 + (j : ℝ) / 5) (0, 0) 0 0
        (fun _ => (0, 1)) (fun _ => (2, 0))).xi 0 = (0, -(1 / 768)) := by
  have h := corr_3pt_final_scaling ⟨Real.pi, Real.sin, Real.sqrt⟩
    ⟨fun _ _ _ g => g, fun _ _ _ g => g⟩
    ⟨fun _ => 2, fun _ => 4, 8, 64, "NGP", 1, 0, 1, 2, 2⟩
    ⟨fun _ => (0, 0), fun _ => 0, fun _ => (0, 0), fun _ => 0⟩
    (fun _ => (1, 0)) (fun _ => (1, 0)) (fun j => 2 + (j : ℝ) / 5) (0, 0) 0 0
    (fun _ => (0, 1)) (fun _ => (2, 0)) 0 (by norm_num)
  have hcount := h.1
  rw [pair_mesh_bin, pair_mesh_slot.1] at hcount
  refine ⟨hcount, ?_⟩
  rw [h.2.1 (by rw [hcount]; norm_num), hcount, pair_mesh_bin, pair_mesh_slot.2]
  simp only [Cx.divReal, Cx.mulReal]
  refine Prod.ext ?_ ?_ <;> norm_num

end TwoPointStatistics

end Triumvirate

namespace Triumvirate

namespace TwoPointStatistics

section

variable {R : Type} [LinearOrderedField R] [FloorRing R]

/-- On a mesh with at least two cells on each axis the origin cell is not folded: its
wave-vector and its separation vector are zero, and (for a square root with `sqrt(0) = 0`) it
falls in the fine slot 0 of `calc_power_spec`, `calc_corr_func` and
`calc_corr_func_for_3pt_corr_func`. -/
theorem origin_cell_slot_zero (lib : LibM R) (params : ParameterSet R)
    (hn : ∀ a, 2 ≤ params.nmesh a) (hsqrt : lib.sqrt 0 = 0) :
    (∀ a, DensityField.grid_kvec lib params 0 0 0 a = 0) ∧
    (∀ a, grid_rvec params 0 0 0 a = 0) ∧
    idx_k lib params 0 0 0 = 0 ∧ idx_r lib params 0 0 0 = 0 := by
  have hhalf : ∀ a, (0 : Int) < Int.tdiv (params.nmesh a) 2 := by
    intro a
    have h := hn a
    have : Int.tdiv (params.nmesh a) 2 = params.nmesh a / 2 :=
      Int.tdiv_eq_ediv (by omega) (by norm_num)
    rw [this]
    omega
  have hk : ∀ a, DensityField.grid_kvec lib params 0 0 0 a = 0 := by
    intro a
    simp only [DensityField.grid_kvec, ite_self, if_pos (hhalf a), Int.cast_zero, zero_mul]
  have hr : ∀ a, grid_rvec params 0 0 0 a = 0 := by
    intro a
    simp only [grid_rvec, ite_self, if_pos (hhalf a), Int.cast_zero, zero_mul]
  refine ⟨hk, hr, ?_, ?_⟩
  · unfold idx_k DensityField.vec_mag
    simp only [Nat.cast_zero, hk, mul_zero, add_zero, hsqrt]
    exact toInt_half.2
  · unfold idx_r DensityField.vec_mag
    simp only [Nat.cast_zero, hr, mul_zero, add_zero, hsqrt]
    exact toInt_half.1

end

/-- The cells of a one-cell mesh: the origin cell alone. -/
theorem one_mesh_cells :
    Reference.cells (⟨fun _ => 1, fun _ => 2 * Real.pi, 1, (2 * Real.pi) ^ 3, "NGP",
      0, 0, 0, 2, 2⟩ : ParameterSet ℝ) = {((0 : Nat), (0 : Nat), (0 : Nat))} := by
  rfl

/-- The wave-vector of the only cell of a one-cell mesh of box size 2π: every component is
`(0 - 1) · dk = -1`. -/
theorem one_mesh_kvec (a : Fin 3) :
    DensityField.grid_kvec ⟨Real.pi, Real.sin, Real.sqrt⟩
      (⟨fun _ => 1, fun _ => 2 * Real.pi, 1, (2 * Real.pi) ^ 3, "NGP", 0, 0, 0, 2, 2⟩ :
        ParameterSet ℝ) 0 0 0 a = -1 := by
  have hpi := Real.pi_ne_zero
  simp only [DensityField.grid_kvec, ite_self, show Int.tdiv 1 2 = 0 from rfl, lt_irrefl,
    if_false, DensityField.mode_dk]
  field_simp

/-- The separation vector of the only cell of a one-cell mesh of box size 2π: every component
is `(0 - 1) · dr = -2π`. -/
theorem one_mesh_rvec (a : Fin 3) :
    grid_rvec (⟨fun _ => 1, fun _ => 2 * Real.pi, 1, (2 * Real.pi) ^ 3, "NGP", 0, 0, 0, 2, 2⟩ :
        ParameterSet ℝ) 0 0 0 a = -(2 * Real.pi) := by
  simp only [grid_rvec, ite_self, show Int.tdiv 1 2 = 0 from rfl, lt_irrefl, if_false]
  norm_num

/-- The fine slot of the only cell of a one-cell mesh of box size 2π in `calc_power_spec`:
`kmag = √3`, between the slots 10000 and 20000. -/
theorem one_mesh_idx_k :
    10000 < idx_k ⟨Real.pi, Real.sin, Real.sqrt⟩
      (⟨fun _ => 1, fun _ => 2 * Real.pi, 1, (2 * Real.pi) ^ 3, "NGP", 0, 0, 0, 2, 2⟩ :
        ParameterSet ℝ) 0 0 0 ∧
    idx_k ⟨Real.pi, Real.sin, Real.sqrt⟩
      (⟨fun _ => 1, fun _ => 2 * Real.pi, 1, (2 * Real.pi) ^ 3, "NGP", 0, 0, 0, 2, 2⟩ :
        ParameterSet ℝ) 0 0 0 ≤ 20000 := by
  have hlo : (3 / 2 : ℝ) ≤ Real.sqrt 3 := by
    apply Real.le_sqrt_of_sq_le
    norm_num
  have hhi : Real.sqrt 3 < 2 := by
    rw [Real.sqrt_lt' (by norm_num)]
    norm_num
  have hidx : idx_k ⟨Real.pi, Real.sin, Real.sqrt⟩
      (⟨fun _ => 1, fun _ => 2 * Real.pi, 1, (2 * Real.pi) ^ 3, "NGP", 0, 0, 0, 2, 2⟩ :
        ParameterSet ℝ) 0 0 0 = Int.floor (Real.sqrt 3 / (1 / 10000) + 1 / 2) := by
    unfold idx_k DensityField.vec_mag
    simp only [Nat.cast_zero, one_mesh_kvec, dk_sample]
    rw [show (-1 : ℝ) * -1 + -1 * -1 + -1 * -1 = 3 by norm_num]
    exact DensityField.toInt_of_nonneg _ (by positivity)
  rw [hidx]
  constructor
  · have : (10001 : Int) ≤ Int.floor (Real.sqrt 3 / (1 / 10000) + 1 / 2) := by
      apply Int.le_floor.mpr
      push_cast
      have : Real.sqrt 3 / (1 / 10000) = 10000 * Real.sqrt 3 := by ring
      rw [this]
      linarith
    omega
  · have : Int.floor (Real.sqrt 3 / (1 / 10000) + 1 / 2) < 20001 := by
      apply Int.floor_lt.mpr
      push_cast
      have : Real.sqrt 3 / (1 / 10000) = 10000 * Real.sqrt 3 := by ring
      rw [this]
      linarith
    omega

/-- The fine slot of the only cell of a one-cell mesh of box size 2π in the correlation
routines: `rmag = 2π√3 ≈ 10.88`, slot 22. -/
theorem one_mesh_idx_r :
    idx_r ⟨Real.pi, Real.sin, Real.sqrt⟩
      (⟨fun _ => 1, fun _ => 2 * Real.pi, 1, (2 * Real.pi) ^ 3, "NGP", 0, 0, 0, 2, 2⟩ :
        ParameterSet ℝ) 0 0 0 = 22 := by
  have h1 := Real.pi_gt_d2
  have h2 := Real.pi_lt_d2
  have hlo : (43 / 4 : ℝ) ≤ Real.sqrt (12 * Real.pi ^ 2) := by
    apply Real.le_sqrt_of_sq_le
    nlinarith
  have hhi : Real.sqrt (12 * Real.pi ^ 2) < 45 / 4 := by
    rw [Real.sqrt_lt' (by norm_num)]
    nlinarith
  unfold idx_r DensityField.vec_mag
  simp only [Nat.cast_zero, one_mesh_rvec, dr_sample]
  rw [show -(2 * Real.pi) * -(2 * Real.pi) + -(2 * Real.pi) * -(2 * Real.pi)
      + -(2 * Real.pi) * -(2 * Real.pi) = 12 * Real.pi ^ 2 by ring]
  apply toInt_of_bounds _ 22 (by norm_num)
  · push_cast
    have : Real.sqrt (12 * Real.pi ^ 2) / (1 / 2) = 2 * Real.sqrt (12 * Real.pi ^ 2) := by ring
    rw [this]
    linarith
  · push_cast
    have : Real.sqrt (12 * Real.pi ^ 2) / (1 / 2) = 2 * Real.sqrt (12 * Real.pi ^ 2) := by ring
    rw [this]
    linarith

/-- The bin 0 of the centres `11, 11.4` is `(10.8, 11.2]`: of the fine slots, whose centres are
the multiples of 0.5, it holds the slot 22 alone. -/
theorem one_mesh_bin {M : Type} [AddCommMonoid M] (sample : Int → M) :
    ∑ i ∈ Finset.range nr_sample,
        (if ((i : Nat) : ℝ) * dr_sample > corr_3pt_r_lower (fun j => 11 + 2 * (j : ℝ) / 5) 0 ∧
            ((i : Nat) : ℝ) * dr_sample
              ≤ corr_3pt_r_upper ⟨fun _ => 1, fun _ => 2 * Real.pi, 1, (2 * Real.pi) ^ 3,
                  "NGP", 0, 0, 0, 2, 2⟩ (fun j => 11 + 2 * (j : ℝ) / 5) 0
         then sample (i : Int) else 0)
      = sample 22 := by
  have hlow : corr_3pt_r_lower (fun j => 11 + 2 * (j : ℝ) / 5) 0 = 54 / 5 := by
    simp only [corr_3pt_r_lower, drbin, if_true]
    norm_num
  have hupp : corr_3pt_r_upper ⟨fun _ => 1, fun _ => 2 * Real.pi, 1, (2 * Real.pi) ^ 3,
      "NGP", 0, 0, 0, 2, 2⟩ (fun j => 11 + 2 * (j : ℝ) / 5) 0 = 56 / 5 := by
    simp only [corr_3pt_r_upper, drbin]
    norm_num
  rw [hlow, hupp, Finset.sum_eq_single 22]
  · rw [if_pos (by unfold dr_sample; norm_num)]
    rfl
  · intro i _ hne
    rw [if_neg]
    rintro ⟨h1, h2⟩
    unfold dr_sample at h1 h2
    rcases Nat.lt_or_ge i 22 with hlt | hge
    · have : (i : ℝ) ≤ 21 := by exact_mod_cast Nat.lt_succ_iff.mp hlt
      linarith
    · have : (23 : ℝ) ≤ (i : ℝ) := by
        have : 23 ≤ i := by omega
        exact_mod_cast this
      linarith
  · intro h
    exact absurd (Finset.mem_range.mpr (by unfold nr_sample; norm_num)) h

/-- C34 (code at the failing input). On a one-cell mesh (box size 2π, so `dk = 1`) the only
cell, the origin cell `(0, 0, 0)`, is folded (`0 < 1/2` is false in integer arithmetic): its
wave-vector is `(-1, -1, -1)` and its separation vector `(-2π, -2π, -2π)`, not zero. In
`calc_power_spec` it falls in a fine slot other than 0 and is counted in the bin `(1, 2]` of the
centres `1.5, 2.5`: `nmode_pk[0] = 1`. In `calc_corr_func_for_3pt_corr_func` it falls in the
fine slot 22 and is counted in the bin `(10.8, 11.2]` of the centres `11, 11.4`:
`npair_xi[0] = 1`. -/
theorem origin_binned_on_one_cell_mesh :
    (∀ a : Fin 3, DensityField.grid_kvec ⟨Real.pi, Real.sin, Real.sqrt⟩
        ⟨fun _ => 1, fun _ => 2 * Real.pi, 1, (2 * Real.pi) ^ 3, "NGP", 0, 0, 0, 2, 2⟩
        0 0 0 a = -1) ∧
    idx_k ⟨Real.pi, Real.sin, Real.sqrt⟩
        ⟨fun _ => 1, fun _ => 2 * Real.pi, 1, (2 * Real.pi) ^ 3, "NGP", 0, 0, 0, 2, 2⟩
        0 0 0 ≠ 0 ∧
    (calc_power_spec ⟨Real.pi, Real.sin, Real.sqrt⟩
        ⟨fun _ => 1, fun _ => 2 * Real.pi, 1, (2 * Real.pi) ^ 3, "NGP", 0, 0, 0, 2, 2⟩
        (fun _ _ _ => (1, 0)) ⟨fun _ => (0, 0), fun _ => 0, fun _ => (0, 0), fun _ => 0⟩
        (fun _ => (1, 0)) (fun _ => (1, 0)) (fun j => (j : ℝ) + 3 / 2) (0, 0) 0 0).nmode_pk 0
      = 1 ∧
    (∀ a : Fin 3, grid_rvec
        (⟨fun _ => 1, fun _ => 2 * Real.pi, 1, (2 * Real.pi) ^ 3, "NGP", 0, 0, 0, 2, 2⟩ :
          ParameterSet ℝ) 0 0 0 a = -(2 * Real.pi)) ∧
    idx_r ⟨Real.pi, Real.sin, Real.sqrt⟩
        ⟨fun _ => 1, fun _ => 2 * Real.pi, 1, (2 * Real.pi) ^ 3, "NGP", 0, 0, 0, 2, 2⟩
        0 0 0 = 22 ∧
    (calc_corr_func_for_3pt_corr_func ⟨Real.pi, Real.sin, Real.sqrt⟩
        ⟨fun _ _ _ g => g, fun _ _ _ g => g⟩
        ⟨fun _ => 1, fun _ => 2 * Real.pi, 1, (2 * Real.pi) ^ 3, "NGP", 0, 0, 0, 2, 2⟩
        ⟨fun _ => (0, 0), fun _ => 0, fun _ => (0, 0), fun _ => 0⟩
        (fun _ => (1, 0)) (fun _ => (1, 0)) (fun j => 11 + 2 * (j : ℝ) / 5) (0, 0) 0 0
        (fun _ => (1, 0)) (fun _ => (1, 0))).npair_xi 0 = 1 := by
  obtain ⟨hk1, hk2⟩ := one_mesh_idx_k
  refine ⟨one_mesh_kvec, by omega, ?_, one_mesh_rvec, one_mesh_idx_r, ?_⟩
  · rw [calc_power_spec_nmode_pk_eq _ _ _ _ _ _ _ _ _ _ _ (by decide), power_bin_nmode_value]
    have hall : Reference.power_bin_cells ⟨Real.pi, Real.sin, Real.sqrt⟩
        (⟨fun _ => 1, fun _ => 2 * Real.pi, 1, (2 * Real.pi) ^ 3, "NGP", 0, 0, 0, 2, 2⟩ :
          ParameterSet ℝ) (fun j => (j : ℝ) + 3 / 2) 0
        = {((0 : Nat), (0 : Nat), (0 : Nat))} := by
      unfold Reference.power_bin_cells
      rw [one_mesh_cells]
      apply Finset.filter_true_of_mem
      intro c hc
      rw [Finset.mem_singleton] at hc
      subst hc
      have hlo : (10000 : ℝ) < ((idx_k ⟨Real.pi, Real.sin, Real.sqrt⟩
          (⟨fun _ => 1, fun _ => 2 * Real.pi, 1, (2 * Real.pi) ^ 3, "NGP", 0, 0, 0, 2, 2⟩ :
            ParameterSet ℝ) 0 0 0 : Int) : ℝ) := by exact_mod_cast hk1
      have hhi : ((idx_k ⟨Real.pi, Real.sin, Real.sqrt⟩
          (⟨fun _ => 1, fun _ => 2 * Real.pi, 1, (2 * Real.pi) ^ 3, "NGP", 0, 0, 0, 2, 2⟩ :
            ParameterSet ℝ) 0 0 0 : Int) : ℝ) ≤ 20000 := by exact_mod_cast hk2
      dsimp only
      refine ⟨by omega, ?_, ?_⟩
      · norm_num
        linarith
      · norm_num
        linarith
    rw [hall]
    rfl
  · rw [calc_corr_func_for_3pt_corr_func_npair_xi_eq _ _ _ _ _ _ _ _ _ _ _ _ _ (by decide),
      corr_3pt_bin_npair_value, one_mesh_bin,
      (corr_3pt_sample_apply _ _ _ _ _ _ _ _ 22).2, one_mesh_cells, Finset.sum_singleton,
      if_pos ⟨by rw [one_mesh_idx_r]; unfold nr_sample; norm_num, one_mesh_idx_r⟩]

end TwoPointStatistics

end Triumvirate

namespace Triumvirate

/-- Evaluation of `round_double` at a positive `x` of binary exponent `e`, with `u = 2^(e-52)`
the spacing of the doubles around `x` and `n = ⌊x/u⌋`. -/
theorem round_double_eval (x : ℚ) (e n m : Int) (u : ℚ) (hu : u = 2 ^ (e - 52)) (hx : 0 < x)
    (h1 : (2 : ℚ) ^ e ≤ x) (h2 : x < (2 : ℚ) ^ (e + 1))
    (hn : (n : ℚ) ≤ x / u) (hn2 : x / u < (n : ℚ) + 1)
    (hm : m = if x / u - n < 1 / 2 then n
      else if 1 / 2 < x / u - n then n + 1 else if n % 2 = 0 then n else n + 1) :
    round_double x = m * u := by
  have hlog : Int.log 2 |x| = e := by
    rw [abs_of_pos hx]
    have ha : e ≤ Int.log 2 x :=
      (Int.zpow_le_iff_le_log (by norm_num) hx).mp (by exact_mod_cast h1)
    have hb : Int.log 2 x < e + 1 :=
      (Int.lt_zpow_iff_log_lt (by norm_num) hx).mp (by exact_mod_cast h2)
    omega
  have hfl : Int.floor (x / u) = n := Int.floor_eq_iff.mpr ⟨hn, hn2⟩
  unfold round_double
  rw [if_neg hx.ne']
  simp only [hlog, ← hu, hfl]
  rw [hm]

namespace TwoPointStatistics

/-- The binning loop in binary64 arithmetic on a fine table that holds one pair, in the slot
`c`: the bin counts the pair exactly when the slot passes the test of the bin. -/
theorem corr_3pt_bin_npair_double_single (params : ParameterSet ℚ) (rbin : Nat → ℚ)
    (c : Nat) (x : Int) (hx : x = (c : Int)) (hc : c < nr_sample) (j : Nat) :
    corr_3pt_bin_npair_double params rbin (Function.update (fun _ => 0) x 1) j
      = if round_double ((c : ℚ) * dr_sample) > corr_3pt_r_lower_double rbin j ∧
            round_double ((c : ℚ) * dr_sample) ≤ corr_3pt_r_upper_double params rbin j
        then 1 else 0 := by
  subst hx
  unfold corr_3pt_bin_npair_double
  rw [cond_loop_eq (fun i : Nat =>
      round_double ((i : ℚ) * dr_sample) > corr_3pt_r_lower_double rbin j ∧
        round_double ((i : ℚ) * dr_sample) ≤ corr_3pt_r_upper_double params rbin j)
    (fun i => Function.update (fun _ => (0 : Int)) (c : Int) 1 (i : Int)) nr_sample,
    Finset.sum_eq_single c]
  · rw [Function.update_same]
  · intro i _ hne
    rw [Function.update_noteq (by exact_mod_cast hne)]
    exact ite_self 0
  · intro h
    exact absurd (Finset.mem_range.mpr hc) h

/-- The slot centres `2 · 0.5` and `5 · 0.5` are doubles: the product is not rounded. -/
theorem slot_centre_double :
    round_double (((2 : Nat) : ℚ) * dr_sample) = 1 ∧
    round_double (((5 : Nat) : ℚ) * dr_sample) = 5 / 2 := by
  constructor
  · rw [show (((2 : Nat) : ℚ) * dr_sample) = 1 by unfold dr_sample; norm_num,
      round_double_eval 1 0 4503599627370496 4503599627370496 (1 / 2 ^ 52)
        (by rw [show ((0 : Int) - 52) = -52 from rfl, zpow_neg]; norm_num) (by norm_num)
        (by norm_num) (by norm_num) (by norm_num) (by norm_num) (by norm_num)]
    norm_num
  · rw [show (((5 : Nat) : ℚ) * dr_sample) = 5 / 2 by unfold dr_sample; norm_num,
      round_double_eval (5 / 2) 1 5629499534213120 5629499534213120 (1 / 2 ^ 51)
        (by rw [show ((1 : Int) - 52) = -51 from rfl, zpow_neg]; norm_num) (by norm_num)
        (by norm_num) (by norm_num) (by norm_num) (by norm_num) (by norm_num)]
    norm_num

/-- The bin edges in binary64 arithmetic for the two centres `0.1` and `0.1 + 4.8` (the doubles
`3602879701896397 / 2^55` and `5516909543528857 / 2^50`): `drbin[0] = 4.8`, and the edges of the
bin 0 are `0` and `2.5`, those of the bin 1 are `2.5 - 2^-51` and `8219069319951154 / 2^50`. -/
theorem overlap_edges :
    corr_3pt_r_lower_double (fun j => if j = 0 then 3602879701896397 / 2 ^ 55
        else 5516909543528857 / 2 ^ 50) 0 = 0 ∧
    corr_3pt_r_upper_double ⟨fun _ => 1, fun _ => 1, 1, 1, "NGP", 0, 0, 0, 2, 2⟩
        (fun j => if j = 0 then 3602879701896397 / 2 ^ 55 else 5516909543528857 / 2 ^ 50) 0
      = 5 / 2 ∧
    corr_3pt_r_lower_double (fun j => if j = 0 then 3602879701896397 / 2 ^ 55
        else 5516909543528857 / 2 ^ 50) 1 = 5 / 2 - 1 / 2 ^ 51 ∧
    corr_3pt_r_upper_double ⟨fun _ => 1, fun _ => 1, 1, 1, "NGP", 0, 0, 0, 2, 2⟩
        (fun j => if j = 0 then 3602879701896397 / 2 ^ 55 else 5516909543528857 / 2 ^ 50) 1
      = 8219069319951154 / 2 ^ 50 := by
  have hd : drbin_double (fun j => if j = 0 then 3602879701896397 / 2 ^ 55
      else 5516909543528857 / 2 ^ 50) 0 = 5404319552844595 / 2 ^ 50 := by
    unfold drbin_double
    simp only [if_true, if_neg (show ¬ (0 + 1 = 0) by decide)]
    rw [round_double_eval _ 2 5404319552844594 5404319552844595 (1 / 2 ^ 50)
        (by rw [show ((2 : Int) - 52) = -50 from rfl, zpow_neg]; norm_num) (by norm_num)
        (by norm_num) (by norm_num) (by norm_num) (by norm_num) (by norm_num)]
    norm_num
  have hh : round_double ((5404319552844595 / 2 ^ 50 : ℚ) / 2) = 5404319552844595 / 2 ^ 51 := by
    rw [round_double_eval _ 1 5404319552844595 5404319552844595 (1 / 2 ^ 51)
        (by rw [show ((1 : Int) - 52) = -51 from rfl, zpow_neg]; norm_num) (by norm_num)
        (by norm_num) (by norm_num) (by norm_num) (by norm_num) (by norm_num)]
    norm_num
  refine ⟨?_, ?_, ?_, ?_⟩
  · simp only [corr_3pt_r_lower_double, if_true, hd, hh]
    rw [if_neg (by norm_num)]
  · simp only [corr_3pt_r_upper_double, if_true, hd, hh]
    rw [if_neg (by norm_num)]
    rw [round_double_eval _ 1 5629499534213119 5629499534213120 (1 / 2 ^ 51)
        (by rw [show ((1 : Int) - 52) = -51 from rfl, zpow_neg]; norm_num) (by norm_num)
        (by norm_num) (by norm_num) (by norm_num) (by norm_num) (by norm_num)]
    norm_num
  · simp only [corr_3pt_r_lower_double, if_neg (show ¬ (1 = 0) by decide),
      show (1 : Nat) - 1 = 0 from rfl, hd, hh]
    rw [round_double_eval _ 1 5629499534213119 5629499534213119 (1 / 2 ^ 51)
        (by rw [show ((1 : Int) - 52) = -51 from rfl, zpow_neg]; norm_num) (by norm_num)
        (by norm_num) (by norm_num) (by norm_num) (by norm_num) (by norm_num)]
    norm_num
  · simp only [corr_3pt_r_upper_double, if_neg (show ¬ (1 = 0) by decide),
      show (1 : Nat) - 1 = 0 from rfl, hd, hh]
    rw [if_pos (by norm_num)]
    rw [round_double_eval _ 2 8219069319951154 8219069319951154 (1 / 2 ^ 50)
        (by rw [show ((2 : Int) - 52) = -50 from rfl, zpow_neg]; norm_num) (by norm_num)
        (by norm_num) (by norm_num) (by norm_num) (by norm_num) (by norm_num)]
    norm_num

end TwoPointStatistics

end Triumvirate

namespace Triumvirate

namespace TwoPointStatistics

/-- The bin edges in binary64 arithmetic for the two centres `0.1` and `1.9` (the doubles
`3602879701896397 / 2^55` and `4278419646001971 / 2^51`): the edges of the bin 0 are `0` and
`1 - 2^-53`, the lower edge of the bin 1 is `1`. -/
theorem gap_edges :
    corr_3pt_r_lower_double (fun j => if j = 0 then 3602879701896397 / 2 ^ 55
        else 4278419646001971 / 2 ^ 51) 0 = 0 ∧
    corr_3pt_r_upper_double ⟨fun _ => 1, fun _ => 1, 1, 1, "NGP", 0, 0, 0, 2, 2⟩
        (fun j => if j = 0 then 3602879701896397 / 2 ^ 55 else 4278419646001971 / 2 ^ 51) 0
      = 1 - 1 / 2 ^ 53 ∧
    corr_3pt_r_lower_double (fun j => if j = 0 then 3602879701896397 / 2 ^ 55
        else 4278419646001971 / 2 ^ 51) 1 = 1 := by
  have hd : drbin_double (fun j => if j = 0 then 3602879701896397 / 2 ^ 55
      else 4278419646001971 / 2 ^ 51) 0 = 8106479329266892 / 2 ^ 52 := by
    unfold drbin_double
    simp only [if_true, if_neg (show ¬ (0 + 1 = 0) by decide)]
    rw [round_double_eval _ 0 8106479329266892 8106479329266892 (1 / 2 ^ 52)
        (by rw [show ((0 : Int) - 52) = -52 from rfl, zpow_neg]; norm_num) (by norm_num)
        (by norm_num) (by norm_num) (by norm_num) (by norm_num) (by norm_num)]
    norm_num
  have hh : round_double ((8106479329266892 / 2 ^ 52 : ℚ) / 2) = 8106479329266892 / 2 ^ 53 := by
    rw [round_double_eval _ (-1) 8106479329266892 8106479329266892 (1 / 2 ^ 53)
        (by rw [show ((-1 : Int) - 52) = -53 from rfl, zpow_neg]; norm_num) (by norm_num)
        (by norm_num) (by norm_num) (by norm_num) (by norm_num) (by norm_num)]
    norm_num
  refine ⟨?_, ?_, ?_⟩
  · simp only [corr_3pt_r_lower_double, if_true, hd, hh]
    rw [if_neg (by norm_num)]
  · simp only [corr_3pt_r_upper_double, if_true, hd, hh]
    rw [if_neg (by norm_num)]
    rw [round_double_eval _ (-1) 9007199254740991 9007199254740991 (1 / 2 ^ 53)
        (by rw [show ((-1 : Int) - 52) = -53 from rfl, zpow_neg]; norm_num) (by norm_num)
        (by norm_num) (by norm_num) (by norm_num) (by norm_num) (by norm_num)]
    norm_num
  · simp only [corr_3pt_r_lower_double, if_neg (show ¬ (1 = 0) by decide),
      show (1 : Nat) - 1 = 0 from rfl, hd, hh]
    rw [round_double_eval _ 0 4503599627370496 4503599627370496 (1 / 2 ^ 52)
        (by rw [show ((0 : Int) - 52) = -52 from rfl, zpow_neg]; norm_num) (by norm_num)
        (by norm_num) (by norm_num) (by norm_num) (by norm_num) (by norm_num)]
    norm_num

/-- The bin centres used below are doubles: rounding leaves them as they are. -/
theorem bin_centres_double :
    round_double (3602879701896397 / 2 ^ 55) = 3602879701896397 / 2 ^ 55 ∧
    round_double (5516909543528857 / 2 ^ 50) = 5516909543528857 / 2 ^ 50 ∧
    round_double (4278419646001971 / 2 ^ 51) = 4278419646001971 / 2 ^ 51 := by
  refine ⟨?_, ?_, ?_⟩
  · rw [round_double_eval _ (-4) 7205759403792794 7205759403792794 (1 / 2 ^ 56)
        (by rw [show ((-4 : Int) - 52) = -56 from rfl, zpow_neg]; norm_num) (by norm_num)
        (by norm_num) (by norm_num) (by norm_num) (by norm_num) (by norm_num)]
    norm_num
  · rw [round_double_eval _ 2 5516909543528857 5516909543528857 (1 / 2 ^ 50)
        (by rw [show ((2 : Int) - 52) = -50 from rfl, zpow_neg]; norm_num) (by norm_num)
        (by norm_num) (by norm_num) (by norm_num) (by norm_num) (by norm_num)]
    norm_num
  · rw [round_double_eval _ 0 8556839292003942 8556839292003942 (1 / 2 ^ 52)
        (by rw [show ((0 : Int) - 52) = -52 from rfl, zpow_neg]; norm_num) (by norm_num)
        (by norm_num) (by norm_num) (by norm_num) (by norm_num) (by norm_num)]
    norm_num

/-- C23 (code at the failing input). In binary64 arithmetic the edges
`rbin[j] + drbin[j]/2` of the bin `j` and `rbin[j+1] - drbin[j]/2` of the bin `j + 1` are rounded
separately and need not be equal. For the two centres `0.1` and `0.1 + 4.8` (as doubles) the
upper edge of the bin 0 is `2.5` and the lower edge of the bin 1 is `2.5 - 2^-51`: a pair in the
fine slot 5 (centre `5 · 0.5 = 2.5`) is counted in the bin 0 and in the bin 1. For the two
centres `0.1` and `1.9` the upper edge of the bin 0 is `1 - 2^-53` and the lower edge of the
bin 1 is `1`: a pair in the fine slot 2 (centre `1.0`) is counted in neither bin. In exact
arithmetic the two edges are equal in both cases. -/
theorem corr_3pt_bins_overlap_in_doubles :
    (corr_3pt_r_upper_double ⟨fun _ => 1, fun _ => 1, 1, 1, "NGP", 0, 0, 0, 2, 2⟩
        (fun j => if j = 0 then 3602879701896397 / 2 ^ 55 else 5516909543528857 / 2 ^ 50) 0
      = 5 / 2 ∧
    corr_3pt_r_lower_double (fun j => if j = 0 then 3602879701896397 / 2 ^ 55
        else 5516909543528857 / 2 ^ 50) 1 = 5 / 2 - 1 / 2 ^ 51 ∧
    corr_3pt_bin_npair_double ⟨fun _ => 1, fun _ => 1, 1, 1, "NGP", 0, 0, 0, 2, 2⟩
        (fun j => if j = 0 then 3602879701896397 / 2 ^ 55 else 5516909543528857 / 2 ^ 50)
        (Function.update (fun _ => 0) 5 1) 0 = 1 ∧
    corr_3pt_bin_npair_double ⟨fun _ => 1, fun _ => 1, 1, 1, "NGP", 0, 0, 0, 2, 2⟩
        (fun j => if j = 0 then 3602879701896397 / 2 ^ 55 else 5516909543528857 / 2 ^ 50)
        (Function.update (fun _ => 0) 5 1) 1 = 1 ∧
    corr_3pt_r_upper ⟨fun _ => 1, fun _ => 1, 1, 1, "NGP", 0, 0, 0, 2, 2⟩
        (fun j => if j = 0 then (3602879701896397 / 2 ^ 55 : ℚ) else 5516909543528857 / 2 ^ 50) 0
      = corr_3pt_r_lower (fun j => if j = 0 then (3602879701896397 / 2 ^ 55 : ℚ)
          else 5516909543528857 / 2 ^ 50) 1) ∧
    (corr_3pt_r_upper_double ⟨fun _ => 1, fun _ => 1, 1, 1, "NGP", 0, 0, 0, 2, 2⟩
        (fun j => if j = 0 then 3602879701896397 / 2 ^ 55 else 4278419646001971 / 2 ^ 51) 0
      = 1 - 1 / 2 ^ 53 ∧
    corr_3pt_r_lower_double (fun j => if j = 0 then 3602879701896397 / 2 ^ 55
        else 4278419646001971 / 2 ^ 51) 1 = 1 ∧
    corr_3pt_bin_npair_double ⟨fun _ => 1, fun _ => 1, 1, 1, "NGP", 0, 0, 0, 2, 2⟩
        (fun j => if j = 0 then 3602879701896397 / 2 ^ 55 else 4278419646001971 / 2 ^ 51)
        (Function.update (fun _ => 0) 2 1) 0 = 0 ∧
    corr_3pt_bin_npair_double ⟨fun _ => 1, fun _ => 1, 1, 1, "NGP", 0, 0, 0, 2, 2⟩
        (fun j => if j = 0 then 3602879701896397 / 2 ^ 55 else 4278419646001971 / 2 ^ 51)
        (Function.update (fun _ => 0) 2 1) 1 = 0 ∧
    corr_3pt_r_upper ⟨fun _ => 1, fun _ => 1, 1, 1, "NGP", 0, 0, 0, 2, 2⟩
        (fun j => if j = 0 then (3602879701896397 / 2 ^ 55 : ℚ) else 4278419646001971 / 2 ^ 51) 0
      = corr_3pt_r_lower (fun j => if j = 0 then (3602879701896397 / 2 ^ 55 : ℚ)
          else 4278419646001971 / 2 ^ 51) 1) := by
  obtain ⟨hb0, hb1, hb2, hb3⟩ := overlap_edges
  obtain ⟨hc0, hc1, hc2⟩ := gap_edges
  have h5 := corr_3pt_bin_npair_double_single
    ⟨fun _ => 1, fun _ => 1, 1, 1, "NGP", 0, 0, 0, 2, 2⟩
    (fun j => if j = 0 then 3602879701896397 / 2 ^ 55 else 5516909543528857 / 2 ^ 50) 5 5 rfl
    (by unfold nr_sample; norm_num)
  have h2 := corr_3pt_bin_npair_double_single
    ⟨fun _ => 1, fun _ => 1, 1, 1, "NGP", 0, 0, 0, 2, 2⟩
    (fun j => if j = 0 then 3602879701896397 / 2 ^ 55 else 4278419646001971 / 2 ^ 51) 2 2 rfl
    (by unfold nr_sample; norm_num)
  have hs5 := slot_centre_double.2
  have hs2 := slot_centre_double.1
  refine ⟨⟨hb1, hb2, ?_, ?_, ?_⟩, ⟨hc1, hc2, ?_, ?_, ?_⟩⟩
  · refine (h5 0).trans ?_
    rw [hs5, hb0, hb1, if_pos (by norm_num)]
  · refine (h5 1).trans ?_
    rw [hs5, hb2, hb3, if_pos (by norm_num)]
  · simp only [corr_3pt_r_upper, corr_3pt_r_lower, drbin]
    norm_num
  · refine (h2 0).trans ?_
    rw [hs2, hc0, hc1, if_neg (by norm_num)]
  · refine (h2 1).trans ?_
    rw [hs2, hc2, if_neg (by norm_num)]
  · simp only [corr_3pt_r_upper, corr_3pt_r_lower, drbin]
    norm_num

end TwoPointStatistics

end Triumvirate
